import Mathlib

/-!
# Spatial tree structures: the 8-ary tree and its owning wrapper

A shallow embedding of `src/Octree/Octree.h` and `src/Octree/ContainedOctree.h`.

* A `float` or `double` value is the rational number it denotes. Where the
  8-ary tree computes a coordinate or converts a `size_t` to `float`
  (`calculate_bounding_box`, `recursive_subdivide`, `shift`, the constructors),
  the result is rounded to the nearest value of the format (`Ieee754.toFloat`,
  `Ieee754.toDouble`); infinities and NaN are not modelled. The accessors of the
  box primitive return exact values, which the tree rounds when it stores them
  in a `glm::vec3`. The 4-ary tree keeps the corner arithmetic exact: what is
  stated about it concerns which corners and which constant the code selects.
* `size_t` values are natural numbers.
* A `std::shared_ptr<Octree<T>>` is a value of `Octree T`; `Octree.null` is the
  empty pointer.
* A pointer to the `m_Item` list of a node is the path of child-slot indices
  that leads from the node the call was made on to the node owning the list.
* Member functions that mutate the tree return the new tree next to their
  result.
-/

namespace Ieee754

/-- The power `2 ^ k` for an integer exponent. -/
def pow2 (k : Int) : ℚ :=
  if 0 ≤ k then ((2 ^ k.toNat : Nat) : ℚ) else 1 / ((2 ^ (-k).toNat : Nat) : ℚ)

/-- The number of halvings that bring `n` below 2, at most `fuel` of them. -/
def log2From : Nat → Nat → Nat
  | 0, _ => 0
  | fuel + 1, n => if n < 2 then 0 else log2From fuel (n / 2) + 1

/-- The binary logarithm of a natural number, rounded down (0 for 0). -/
def natLog2 (n : Nat) : Nat := log2From n n

/-- The binary exponent of a rational `x ≠ 0`: the integer `e` with
`2 ^ e ≤ |x| < 2 ^ (e + 1)`. -/
def ilog2 (x : ℚ) : Int :=
  let k : Int := (natLog2 x.num.natAbs : Int) - (natLog2 x.den : Int)
  if pow2 k ≤ |x| then k else k - 1

/-- The integer nearest to `q`; of two equally near integers, the even one. -/
def roundHalfEven (q : ℚ) : Int :=
  let f := Rat.floor q
  let r := q - (f : ℚ)
  if r < 1 / 2 then f
  else if 1 / 2 < r then f + 1
  else if f % 2 = 0 then f else f + 1

/-- Rounding to the binary floating-point format with `p` significant bits and
least normal exponent `emin`: round to nearest, ties to even, with gradual
underflow. The exponent range has no upper end here: where the source would
overflow to an infinity the model keeps the rounded finite value. -/
def roundTo (p : Nat) (emin : Int) (x : ℚ) : ℚ :=
  if x = 0 then 0
  else
    let u := pow2 (max (ilog2 x) emin - ((p : Int) - 1))
    (roundHalfEven (x / u) : ℚ) * u

/-- Whether `x` is `m / 2 ^ k` with `|m| < 2 ^ p` and `k ≤ kmax`; such an `x` is
a value of the format with `p` significant bits whose least exponent of a unit
in the last place is `-kmax`. -/
def representable (p kmax : Nat) (x : ℚ) : Bool :=
  decide (x.num.natAbs < 2 ^ p) && (decide (x.den = 2 ^ natLog2 x.den)
    && decide (natLog2 x.den ≤ kmax))

/-- The `float` (binary32) nearest to `x`: what a conversion to `float` or a
`float` operation with the exact result `x` yields. The first branch returns a
value that is seen to be a `float` as it is; it only shortens evaluation, the
result is `roundTo 24 (-126) x` in every case (`toFloat_eq_roundTo`). -/
def toFloat (x : ℚ) : ℚ := if representable 24 149 x then x else roundTo 24 (-126) x

/-- The `double` (binary64) nearest to `x`; the first branch only shortens
evaluation, the result is `roundTo 53 (-1022) x` in every case
(`toDouble_eq_roundTo`). -/
def toDouble (x : ℚ) : ℚ := if representable 53 1074 x then x else roundTo 53 (-1022) x

end Ieee754

namespace glm

/-- Three-component vector `glm::vec3`. -/
structure vec3 where
  x : ℚ
  y : ℚ
  z : ℚ
deriving DecidableEq

/-- The vector as a `glm::vec3` variable holds it: every component is a
`float`. -/
def vec3.stored (v : vec3) : vec3 :=
  ⟨Ieee754.toFloat v.x, Ieee754.toFloat v.y, Ieee754.toFloat v.z⟩

end glm

namespace Collisions

/-- Modelled from the spec: the bounding-box primitive `Collisions::AABB`
(`Engine/Collisions/AABB.h` is not among the sources). A box is kept as the pair
of corners it was given and denotes the axis-aligned box spanned by them. -/
structure AABB where
  first : glm.vec3
  second : glm.vec3
deriving DecidableEq

namespace AABB

/-- Modelled from the spec: the minimum corner of the spanned box. -/
def minCorner (b : AABB) : glm.vec3 :=
  ⟨min b.first.x b.second.x, min b.first.y b.second.y, min b.first.z b.second.z⟩

/-- Modelled from the spec: the maximum corner of the spanned box. -/
def maxCorner (b : AABB) : glm.vec3 :=
  ⟨max b.first.x b.second.x, max b.first.y b.second.y, max b.first.z b.second.z⟩

/-- Modelled from the spec: `bounding_region() → (minCorner, maxCorner)`. -/
def bounding_region (b : AABB) : glm.vec3 × glm.vec3 := (b.minCorner, b.maxCorner)

/-- Modelled from the spec: `center() → coordinate`. -/
def center (b : AABB) : glm.vec3 :=
  ⟨(b.minCorner.x + b.maxCorner.x) / 2, (b.minCorner.y + b.maxCorner.y) / 2,
    (b.minCorner.z + b.maxCorner.z) / 2⟩

/-- Modelled from the spec: `dimensions() → per-axis extents`. -/
def dimensions (b : AABB) : glm.vec3 :=
  ⟨b.maxCorner.x - b.minCorner.x, b.maxCorner.y - b.minCorner.y, b.maxCorner.z - b.minCorner.z⟩

/-- Modelled from the spec: `update_position(minCorner, maxCorner)`, the in-place
re-bound; the new value of the box is returned. -/
def update_position (_b : AABB) (minimum maximum : glm.vec3) : AABB := ⟨minimum, maximum⟩

/-- Modelled from the spec: `contains(other) → bool` (fully encloses). -/
def contains (b other : AABB) : Bool :=
  decide (b.minCorner.x ≤ other.minCorner.x ∧ other.maxCorner.x ≤ b.maxCorner.x ∧
    b.minCorner.y ≤ other.minCorner.y ∧ other.maxCorner.y ≤ b.maxCorner.y ∧
    b.minCorner.z ≤ other.minCorner.z ∧ other.maxCorner.z ≤ b.maxCorner.z)

/-- Modelled from the spec: `intersects(other) → bool` (the source calls it
`intersects2`); the two closed boxes share a point. -/
def intersects2 (b other : AABB) : Bool :=
  decide (b.minCorner.x ≤ other.maxCorner.x ∧ other.minCorner.x ≤ b.maxCorner.x ∧
    b.minCorner.y ≤ other.maxCorner.y ∧ other.minCorner.y ≤ b.maxCorner.y ∧
    b.minCorner.z ≤ other.maxCorner.z ∧ other.minCorner.z ≤ b.maxCorner.z)

end AABB

end Collisions

namespace Trees

/-- The struct `Trees::Location`. `items_container` is the pointer to the
`m_Item` list of the hosting node (`none` is `nullptr`), given as the path of
child slots over `ι` leading to that node; `items_iterator` is the position in
that list. -/
structure Location (ι : Type) where
  items_container : Option (List ι)
  items_iterator : Nat
  aabb : Collisions.AABB

end Trees

namespace DataStructures

open Collisions Trees

/-- Conversion of a non-negative `double` to `size_t`: the fraction is dropped. -/
def toSizeT (q : ℚ) : Nat := (Rat.floor q).toNat

/-- The data members of one `Octree<T>` object, its child pointers apart.
(`m_ActiveOctants` is never read or written by the source and is left out.) -/
structure OctreeNode (T : Type) where
  m_Position : AABB
  m_LeafNodeSide : Nat
  m_MinimumDimensions : Nat
  m_MaxDepth : Nat
  m_Depth : Nat
  m_OctantsBounds : Fin 8 → AABB
  m_IsLeaf : Bool
  m_NodeReady : Bool
  m_IsRoot : Bool
  m_MultiThread : Bool
  m_Item : List T

/-- A `std::shared_ptr<Octree<T>>`: empty, or an object with its array
`m_Octants` of eight child pointers. -/
inductive Octree (T : Type) where
  | null : Octree T
  | node (d : OctreeNode T) (m_Octants : Fin 8 → Octree T) : Octree T

namespace Octree

variable {T : Type}

/-- Whether the pointer is non-empty (`if (m_Octants[i])`). -/
def isSome : Octree T → Bool
  | null => false
  | node _ _ => true

/-- `Octree::calculate_bounding_box`: re-bounds `BoundingBox` to the octant
`1 << Octant` of the box `m_Position`. The locals `center` and `dimensions`
are `glm::vec3`, so they hold floats; a corner coordinate such as
`center.x - 0.5 * dimensions.x` is computed in `double` (`0.5` is a `double`)
and converted to `float` by the constructor of `glm::vec3`. -/
def calculate_bounding_box (m_Position : AABB) (BoundingBox : AABB) (Octant : Fin 8) : AABB :=
  let center := m_Position.center.stored
  let dimensions := m_Position.dimensions.stored
  let lower : ℚ → ℚ → ℚ := fun c d => Ieee754.toFloat (Ieee754.toDouble (c - (1/2) * d))
  let upper : ℚ → ℚ → ℚ := fun c d => Ieee754.toFloat (Ieee754.toDouble (c + (1/2) * d))
  match Octant.val with
  | 0 => BoundingBox.update_position
      ⟨lower center.x dimensions.x, center.y, center.z⟩
      ⟨center.x, upper center.y dimensions.y, lower center.z dimensions.z⟩
  | 1 => BoundingBox.update_position
      center
      ⟨upper center.x dimensions.x, upper center.y dimensions.y,
        lower center.z dimensions.z⟩
  | 2 => BoundingBox.update_position
      ⟨lower center.x dimensions.x, center.y, upper center.z dimensions.z⟩
      ⟨center.x, upper center.y dimensions.y, center.z⟩
  | 3 => BoundingBox.update_position
      ⟨center.x, center.y, upper center.z dimensions.z⟩
      ⟨upper center.x dimensions.x, upper center.y dimensions.y, center.z⟩
  | 4 => BoundingBox.update_position
      ⟨lower center.x dimensions.x, lower center.y dimensions.y, center.z⟩
      ⟨center.x, center.y, lower center.z dimensions.z⟩
  | 5 => BoundingBox.update_position
      ⟨center.x, lower center.y dimensions.y, center.z⟩
      ⟨upper center.x dimensions.x, center.y, lower center.z dimensions.z⟩
  | 6 => BoundingBox.update_position
      ⟨lower center.x dimensions.x, lower center.y dimensions.y,
        upper center.z dimensions.z⟩
      ⟨center.x, center.y, center.z⟩
  | 7 => BoundingBox.update_position
      ⟨center.x, lower center.y dimensions.y, upper center.z dimensions.z⟩
      ⟨upper center.x dimensions.x, center.y, center.z⟩
  | _ => BoundingBox

/-- The members as the four-argument constructor
`Octree(BoundingBox, MaxDepth, MinimumDimensions, Depth)` leaves them right
before it calls `recursive_subdivide`. `dflt` is the value of a
default-constructed `AABB`, which the entries of `m_OctantsBounds` start with.
`m_LeafNodeSide` is `dimensions().x / std::pow(2.0, m_MaxDepth)`, a `float`
divided by a `double`, converted to `size_t`. -/
def init4 (dflt : AABB) (BoundingBox : AABB) (MaxDepth MinimumDimensions Depth : Nat) :
    OctreeNode T :=
  { m_Position := BoundingBox
    m_LeafNodeSide := toSizeT (Ieee754.toDouble (BoundingBox.dimensions.stored.x / 2 ^ MaxDepth))
    m_MinimumDimensions := MinimumDimensions
    m_MaxDepth := MaxDepth
    m_Depth := Depth
    m_OctantsBounds := fun _ => dflt
    m_IsLeaf := true
    m_NodeReady := true
    m_IsRoot := false
    m_MultiThread := false
    m_Item := [] }

/-- The members as the three-argument constructor
`Octree(BoundingBox, MaxDepth, MinimumDimensions)` leaves them right before it
calls `recursive_subdivide`. -/
def init3 (dflt : AABB) (BoundingBox : AABB) (MaxDepth MinimumDimensions : Nat) :
    OctreeNode T :=
  { m_Position := BoundingBox
    m_LeafNodeSide := toSizeT (Ieee754.toDouble (BoundingBox.dimensions.stored.x / 2 ^ MaxDepth))
    m_MinimumDimensions := MinimumDimensions
    m_MaxDepth := MaxDepth
    m_Depth := 0
    m_OctantsBounds := fun _ => dflt
    m_IsLeaf := true
    m_NodeReady := true
    m_IsRoot := true
    m_MultiThread := true
    m_Item := [] }

/-- `Octree::recursive_subdivide`, run on a freshly initialised object `d` (no
children yet). Every child is built by the four-argument constructor, which
calls `recursive_subdivide` again; `fuel` bounds that nesting, and
`m_MaxDepth + 1 - m_Depth` levels are all the source can descend. The test
`dimensions[i] < m_MinimumDimensions` compares a `float` with a `size_t`, which
is converted to `float` for it. -/
def recursive_subdivide (dflt : AABB) : Nat → OctreeNode T → Octree T
  | 0, d => node d (fun _ => null)
  | fuel + 1, d =>
    if !d.m_IsLeaf then node d (fun _ => null)
    else if !(decide (d.m_Depth ≤ d.m_MaxDepth)) then node d (fun _ => null)
    else
      let dimensions := d.m_Position.dimensions.stored
      if dimensions.x < Ieee754.toFloat (d.m_MinimumDimensions : ℚ)
          ∨ dimensions.y < Ieee754.toFloat (d.m_MinimumDimensions : ℚ)
          ∨ dimensions.z < Ieee754.toFloat (d.m_MinimumDimensions : ℚ) then
        node d (fun _ => null)
      else
        let bounds : Fin 8 → AABB :=
          fun i => calculate_bounding_box d.m_Position (d.m_OctantsBounds i) i
        node { d with m_OctantsBounds := bounds, m_IsLeaf := false }
          (fun i => recursive_subdivide dflt fuel
            (init4 dflt (bounds i) d.m_MaxDepth d.m_MinimumDimensions (d.m_Depth + 1)))

/-- The constructor `Octree(BoundingBox, MaxDepth, MinimumDimensions, Depth)`. -/
def mk4 (dflt : AABB) (BoundingBox : AABB) (MaxDepth MinimumDimensions Depth : Nat) : Octree T :=
  recursive_subdivide dflt (MaxDepth + 1 - Depth)
    (init4 dflt BoundingBox MaxDepth MinimumDimensions Depth)

/-- The constructor `Octree(BoundingBox, MaxDepth, MinimumDimensions)`. -/
def mk3 (dflt : AABB) (BoundingBox : AABB) (MaxDepth MinimumDimensions : Nat) : Octree T :=
  recursive_subdivide dflt (MaxDepth + 1)
    (init3 dflt BoundingBox MaxDepth MinimumDimensions)

/-- `Octree::size`. -/
def size : Octree T → Nat
  | null => 0
  | node d m_Octants =>
    (if !d.m_Item.isEmpty then d.m_Item.length else 0)
      + ((List.finRange 8).map (fun i => (m_Octants i).size)).sum

/-- `Octree::depth`. -/
def depth : Octree T → Nat
  | null => 0
  | node d _ => d.m_Depth

/-- `Octree::max_depth`. -/
def max_depth : Octree T → Nat
  | null => 0
  | node d _ => d.m_MaxDepth

/-- `Octree::is_leaf_node`. -/
def is_leaf_node : Octree T → Bool
  | null => false
  | node d _ => d.m_IsLeaf

/-- `Octree::aabb`. -/
def aabb (dflt : AABB) : Octree T → AABB
  | null => dflt
  | node d _ => d.m_Position

/-- `Octree::access_elements`. -/
def access_elements : Octree T → List T
  | null => []
  | node d _ => d.m_Item

/-- The object found by following the child slots of `p` from `t`. -/
def nodeAt : Octree T → List (Fin 8) → Option (OctreeNode T)
  | null, _ => none
  | node d _, [] => some d
  | node _ m_Octants, i :: p => nodeAt (m_Octants i) p

/-- The content of the `m_Item` list of the node at `p` (nothing where there is
no node). -/
def itemsAt (t : Octree T) (p : List (Fin 8)) : List T :=
  match nodeAt t p with
  | some d => d.m_Item
  | none => []

/-- The value `{}` of `Trees::Location` returned on rejection: the container
pointer is `nullptr`, the box is default-constructed. -/
def noLocation (dflt : AABB) : Location (Fin 8) := ⟨none, 0, dflt⟩

/-- A location returned by the child in slot `i`, seen from its parent: the same
list, now named by a path that starts from the parent. -/
def underSlot (i : Fin 8) (l : Location (Fin 8)) : Location (Fin 8) :=
  { l with items_container := l.items_container.map (fun p => i :: p) }

/-- The scan that opens `Octree::recursive_insert`: the first slot `i` (in the
order 0..7) with `m_OctantsBounds[i].contains(area)` and `m_Depth <= m_MaxDepth`,
the slot the loop returns through. -/
def insert_scan (d : OctreeNode T) (area : AABB) : Option (Fin 8) :=
  (List.finRange 8).find?
    (fun i => (d.m_OctantsBounds i).contains area && decide (d.m_Depth ≤ d.m_MaxDepth))

/-- `Octree::recursive_insert`. The result is the returned `Location` and the
tree after the call; `none` means that `fuel` nested calls were not enough (or
that the call was made through an empty pointer, which the source never does). -/
def recursive_insert (dflt : AABB) : Nat → Octree T → T → AABB →
    Option (Location (Fin 8) × Octree T)
  | 0, _, _, _ => none
  | _ + 1, null, _, _ => none
  | fuel + 1, node d m_Octants, object, area =>
    match insert_scan d area with
    | some i =>
      let child : Octree T :=
        if (m_Octants i).isSome then m_Octants i
        else mk3 dflt (d.m_OctantsBounds i) (d.m_Depth + 1) d.m_MinimumDimensions
      match recursive_insert dflt fuel child object area with
      | none => none
      | some (loc, child1) => some (underSlot i loc, node d (Function.update m_Octants i child1))
    | none =>
      if d.m_Item.isEmpty then
        if d.m_Position.contains area then
          some (⟨some [], d.m_Item.length, area⟩, node { d with m_Item := d.m_Item ++ [object] } m_Octants)
        else some (noLocation dflt, node d m_Octants)
      else some (noLocation dflt, node d m_Octants)

/-- `Octree::insert`. -/
def insert (dflt : AABB) (fuel : Nat) : Octree T → T → AABB →
    Option (Location (Fin 8) × Octree T)
  | null, _, _ => none
  | node d m_Octants, object, area =>
    if !d.m_NodeReady then some (noLocation dflt, node d m_Octants)
    else recursive_insert dflt fuel (node d m_Octants) object area

/-- `Octree::recursive_dfs`: the items the call pushes to the back of `items`,
in the order it pushes them. -/
def recursive_dfs : Octree T → AABB → List T
  | null, _ => []
  | node d m_Octants, area =>
    (if !d.m_Item.isEmpty then
        (if d.m_Position.contains area then d.m_Item
         else if d.m_IsLeaf && d.m_Position.intersects2 area then d.m_Item
         else [])
      else [])
    ++ ((List.finRange 8).map (fun i =>
          if (m_Octants i).isSome then
            (if (d.m_OctantsBounds i).intersects2 area then recursive_dfs (m_Octants i) area
             else [])
          else [])).flatten

/-- `Octree::dfs`: the list `items` after the call. -/
def dfs (t : Octree T) (area : AABB) (items : List T) : List T :=
  items ++ recursive_dfs t area

/-- The lambda `asign_children` of `Octree::bfs`, its loop over the slots `js`
still to visit: the children are pushed to `temp_queue` until an empty slot
ends the loop with `false`. -/
def asign_children_from (temp : Fin 8 → Octree T) :
    List (Fin 8) → List (Octree T) → Bool × List (Octree T)
  | [], temp_queue => (true, temp_queue)
  | j :: js, temp_queue =>
    if (temp j).isSome then asign_children_from temp js (temp_queue ++ [temp j])
    else (false, temp_queue)

/-- The lambda `asign_children` of `Octree::bfs`. -/
def asign_children (temp_queue : List (Octree T)) (temp : Fin 8 → Octree T) :
    Bool × List (Octree T) :=
  asign_children_from temp (List.finRange 8) temp_queue

/-- One round of the `while` loop of `Octree::bfs`: the inner lambda walking the
queue `octants`. `rootIsLeaf` is `is_leaf_node()` of the object `bfs` was called
on. The result is `items` and `lower_octants` when the lambda returns. -/
def bfs_level (rootIsLeaf : Bool) (area : AABB) :
    List (Octree T) → List T → List (Octree T) → List T × List (Octree T)
  | [], items, lower_octants => (items, lower_octants)
  | null :: rest, items, lower_octants => bfs_level rootIsLeaf area rest items lower_octants
  | node d m_Octants :: rest, items, lower_octants =>
    let comparing := d.m_Position
    let items1 :=
      if comparing.intersects2 area then
        (if area.contains comparing then items ++ d.m_Item
         else if rootIsLeaf && comparing.intersects2 area then items ++ d.m_Item
         else items)
      else items
    match asign_children lower_octants m_Octants with
    | (false, lower1) => (items1, lower1)
    | (true, lower1) => bfs_level rootIsLeaf area rest items1 lower1

/-- The `while (CurrentDepth < m_MaxDepth)` loop of `Octree::bfs`, with `rounds`
iterations left. -/
def bfs_loop (rootIsLeaf : Bool) (area : AABB) : Nat → List (Octree T) → List T → List T
  | 0, _, items => items
  | rounds + 1, octants, items =>
    let r := bfs_level rootIsLeaf area octants items []
    bfs_loop rootIsLeaf area rounds r.2 r.1

/-- `Octree::bfs`: the list `items` after the call. -/
def bfs : Octree T → AABB → List T → List T
  | null, _, items => items
  | node d m_Octants, area, items =>
    let items1 :=
      if !d.m_Item.isEmpty then (if area.contains d.m_Position then items ++ d.m_Item else items)
      else items
    let octants := (List.finRange 8).filterMap
      (fun i => if (m_Octants i).isSome then some (m_Octants i) else none)
    bfs_loop d.m_IsLeaf area (d.m_MaxDepth - d.m_Depth) octants items1

/-- Every object of the tree satisfies `P`. -/
def All (P : OctreeNode T → Prop) : Octree T → Prop
  | null => True
  | node d m_Octants => P d ∧ ∀ i, All P (m_Octants i)

/-- Whether every object of the tree passes the test `f`. -/
def every (f : OctreeNode T → Bool) : Octree T → Bool
  | null => true
  | node d m_Octants => f d && (List.finRange 8).all (fun i => every f (m_Octants i))

/-- What the constructors and `recursive_insert` keep true of every object:
the item list has at most one entry; an object that never subdivided still has
its `m_OctantsBounds` default-constructed; an object that subdivided is within
the depth limit and has the boxes `calculate_bounding_box` computed. -/
def Kept (dflt : AABB) (d : OctreeNode T) : Prop :=
  d.m_Item.length ≤ 1 ∧
  (d.m_IsLeaf = true → ∀ i, d.m_OctantsBounds i = dflt) ∧
  (d.m_IsLeaf = false → d.m_Depth ≤ d.m_MaxDepth ∧
    ∀ i, d.m_OctantsBounds i = calculate_bounding_box d.m_Position dflt i)

/-- The tree `t'` is what `t` becomes after some sequence of `insert` calls,
accepted or rejected. -/
inductive Inserts (dflt : AABB) : Octree T → Octree T → Prop
  | refl (t : Octree T) : Inserts dflt t t
  | step {t t1 t2 : Octree T} {fuel : Nat} {object : T} {area : AABB} {loc : Location (Fin 8)} :
      Inserts dflt t t1 → insert dflt fuel t1 object area = some (loc, t2) → Inserts dflt t t2

/-- The trees reachable from the public three-argument constructor by `insert`
calls. -/
def Reachable (dflt : AABB) (t : Octree T) : Prop :=
  ∃ (BoundingBox : AABB) (MaxDepth MinimumDimensions : Nat),
    Inserts dflt (mk3 dflt BoundingBox MaxDepth MinimumDimensions) t

/-- The scan of `recursive_insert` with the depth test made before the box
tests; it selects the same slot as `insert_scan`. -/
def insert_scan_depth_first (d : OctreeNode T) (area : AABB) : Option (Fin 8) :=
  if d.m_Depth ≤ d.m_MaxDepth then
    (List.finRange 8).find? (fun i => (d.m_OctantsBounds i).contains area)
  else none

/-- The function `recursive_insert` over `insert_scan_depth_first`; it computes
the same result and does not look at the boxes of an object beyond the depth
limit. -/
def recursive_insert_depth_first (dflt : AABB) : Nat → Octree T → T → AABB →
    Option (Location (Fin 8) × Octree T)
  | 0, _, _, _ => none
  | _ + 1, null, _, _ => none
  | fuel + 1, node d m_Octants, object, area =>
    match insert_scan_depth_first d area with
    | some i =>
      let child : Octree T :=
        if (m_Octants i).isSome then m_Octants i
        else mk3 dflt (d.m_OctantsBounds i) (d.m_Depth + 1) d.m_MinimumDimensions
      match recursive_insert_depth_first dflt fuel child object area with
      | none => none
      | some (loc, child1) => some (underSlot i loc, node d (Function.update m_Octants i child1))
    | none =>
      if d.m_Item.isEmpty then
        if d.m_Position.contains area then
          some (⟨some [], d.m_Item.length, area⟩, node { d with m_Item := d.m_Item ++ [object] } m_Octants)
        else some (noLocation dflt, node d m_Octants)
      else some (noLocation dflt, node d m_Octants)

end Octree

/-- The struct `OctreeItem<T>`: the item and the location of the tree entry that
refers to it. -/
structure OctreeItem (T : Type) where
  item : T
  item_position : Location (Fin 8)

/-- The class `ContainedOctree<T>`. An element of the `std::list` `m_Items` is
kept with the identity of its list node, a number; an iterator to the element
is that number, and it is what the tree `m_Root` stores. `m_Fresh` is the
identity the next `push_back` uses. -/
structure ContainedOctree (T : Type) where
  m_Root : Octree Nat
  m_Items : List (Nat × OctreeItem T)
  m_Fresh : Nat

namespace ContainedOctree

variable {T : Type}

/-- The constructor `ContainedOctree(BoundingBox, MaxDepth, MinimumDimensions)`. -/
def mk3 (dflt : AABB) (BoundingBox : AABB) (MaxDepth MinimumDimensions : Nat) :
    ContainedOctree T :=
  ⟨Octree.mk3 dflt BoundingBox MaxDepth MinimumDimensions, [], 0⟩

/-- `ContainedOctree::size`. -/
def size (c : ContainedOctree T) : Nat := c.m_Items.length

/-- `m_Items.back().item_position = loc`. -/
def setBackPosition (loc : Location (Fin 8)) : List (Nat × OctreeItem T) → List (Nat × OctreeItem T)
  | [] => []
  | [(k, e)] => [(k, { e with item_position := loc })]
  | a :: b :: rest => a :: setBackPosition loc (b :: rest)

/-- `ContainedOctree::insert`: the returned flag and the container after the
call (`none` when the nested calls of the tree's `insert` exceed `fuel`). -/
def insert (dflt : AABB) (fuel : Nat) (c : ContainedOctree T) (object : T) (area : AABB) :
    Option (Bool × ContainedOctree T) :=
  let temp : OctreeItem T := ⟨object, Octree.noLocation dflt⟩
  let items1 := c.m_Items ++ [(c.m_Fresh, temp)]
  match Octree.insert dflt fuel c.m_Root c.m_Fresh area with
  | none => none
  | some (loc, root1) =>
    let items2 := setBackPosition loc items1
    some (loc.items_container.isSome, ⟨root1, items2, c.m_Fresh + 1⟩)

end ContainedOctree

/-! ### The concrete scenario of the specification -/

namespace Scenario

/-- The cube of side 8 centred at the origin. -/
def sideEightCube : AABB := ⟨⟨-4, -4, -4⟩, ⟨4, 4, 4⟩⟩

/-- The unit cube from `(3,3,3)` to `(4,4,4)`. -/
def unitCell : AABB := ⟨⟨3, 3, 3⟩, ⟨4, 4, 4⟩⟩

/-- The box from `(-1,-1,-1)` to `(1,1,1)`, which straddles the centre of the
root. -/
def centreBox : AABB := ⟨⟨-1, -1, -1⟩, ⟨1, 1, 1⟩⟩

/-- A box that lies outside `sideEightCube`. -/
def farBox : AABB := ⟨⟨10, 10, 10⟩, ⟨11, 11, 11⟩⟩

/-- A box with both corners at the origin, used as the default-constructed box
in closed examples. -/
def originBox : AABB := ⟨⟨0, 0, 0⟩, ⟨0, 0, 0⟩⟩

/-- The box of the node reached from a node with box `bb` through the child
slots `p`, each step taking the octant that `calculate_bounding_box` computes. -/
def boxAt (bb : AABB) : List (Fin 8) → AABB
  | [] => bb
  | i :: p => boxAt (Octree.calculate_bounding_box bb bb i) p

/-- The 8-ary tree over `sideEightCube` with `maxDepth = 2`, `minExtent = 1`. -/
def tree (T : Type) (dflt : AABB) : Octree T := Octree.mk3 dflt sideEightCube 2 1

/-- The tree after a call of `insert` (unchanged if the call does not return). -/
def treeAfter {T : Type} (dflt : AABB) (fuel : Nat) (t : Octree T) (object : T) (area : AABB) :
    Octree T :=
  match Octree.insert dflt fuel t object area with
  | some res => res.2
  | none => t

/-- The location a call of `insert` returns (`{}` if the call does not return). -/
def locationAfter {T : Type} (dflt : AABB) (fuel : Nat) (t : Octree T) (object : T)
    (area : AABB) : Location (Fin 8) :=
  match Octree.insert dflt fuel t object area with
  | some res => res.1
  | none => Octree.noLocation dflt

/-- The scenario tree after item `7` was accepted with `unitCell` and item `8`
was then offered with the same box. -/
def twoCalls : Octree Nat :=
  treeAfter originBox 10 (treeAfter originBox 10 (tree Nat originBox) 7 unitCell) 8 unitCell

/-- The scenario tree after item `7` was offered with `centreBox`. -/
def centreCall : Octree Nat := treeAfter originBox 10 (tree Nat originBox) 7 centreBox

/-- A box of side one half, smaller than `minExtent = 1`. -/
def halfBox : AABB := ⟨⟨1, 1, 1⟩, ⟨3 / 2, 3 / 2, 3 / 2⟩⟩

/-- The tree over `halfBox` with `maxDepth = 2`, `minExtent = 1`: its root never
subdivides. -/
def tinyTree : Octree Nat := Octree.mk3 originBox halfBox 2 1

/-- The scenario tree after item `7` was offered with the box `originBox`. -/
def originCall : Octree Nat := treeAfter originBox 10 (tree Nat originBox) 7 originBox

/-- The scenario tree after item `7` was offered with `unitCell`. -/
def cellCall : Octree Nat := treeAfter originBox 10 (tree Nat originBox) 7 unitCell

end Scenario

end DataStructures

namespace Coordinates

/-- Modelled from the spec: the enum `Coordinates::Directions` (its header is not
among the sources), with the four cardinal directions that the `switch` of
`shift` handles. -/
inductive Directions where
  | North : Directions
  | South : Directions
  | East : Directions
  | West : Directions
deriving DecidableEq

end Coordinates

namespace DataStructures

open Collisions Trees Coordinates

namespace Octree

variable {T : Type}

/-- `Octree::leaf_node_side_length`. -/
def leaf_node_side_length : Octree T → Nat
  | null => 0
  | node d _ => d.m_LeafNodeSide

/-- `Octree::collect_items`: the pairs the call pushes to the back of `items`,
in the order it pushes them. -/
def collect_items : Octree T → List (T × AABB)
  | null => []
  | node d m_Octants =>
    (if !d.m_Item.isEmpty then d.m_Item.map (fun it => (it, d.m_Position)) else [])
    ++ ((List.finRange 8).map (fun i =>
          if (m_Octants i).isSome then collect_items (m_Octants i) else [])).flatten

/-- The occupants of the tree: the items `collect_items` finds, in its order. -/
def occupants (t : Octree T) : List T := (collect_items t).map Prod.fst

/-- `Octree::recursive_resize`. -/
def recursive_resize : Octree T → AABB → Octree T
  | null, _ => null
  | node d m_Octants, area =>
    let bounds := area.bounding_region
    let position := d.m_Position.update_position bounds.1 bounds.2
    let octantsBounds : Fin 8 → AABB :=
      fun i => calculate_bounding_box position (d.m_OctantsBounds i) i
    node { d with m_Position := position, m_Item := [], m_OctantsBounds := octantsBounds }
      (fun i => if (m_Octants i).isSome then recursive_resize (m_Octants i) (octantsBounds i)
        else m_Octants i)

/-- `Octree::resize`. -/
def resize (t : Octree T) (area : AABB) : Octree T := recursive_resize t area

/-- `Octree::clear`. -/
def clear : Octree T → Octree T
  | null => null
  | node d m_Octants =>
    node { d with m_Item := [] }
      (fun i => if (m_Octants i).isSome then clear (m_Octants i) else m_Octants i)

/-- The test of `Octree::erase_area` on the node itself: the item list is not
empty and `area.contains(m_Position)`, or else the node is a leaf and
`m_Position.intersects2(area)`. -/
def erase_selects (d : OctreeNode T) (area : AABB) : Bool :=
  !d.m_Item.isEmpty &&
    (area.contains d.m_Position || (d.m_IsLeaf && d.m_Position.intersects2 area))

/-- `Octree::erase_area`: the items the call pushes to the back of `items`, in
the order it pushes them, and the tree after the call. -/
def erase_area : Octree T → AABB → List T × Octree T
  | null, _ => ([], null)
  | node d m_Octants, area =>
    ((if erase_selects d area then d.m_Item else [])
      ++ ((List.finRange 8).map (fun i =>
            if (m_Octants i).isSome then
              (if (d.m_OctantsBounds i).intersects2 area then (erase_area (m_Octants i) area).1
               else [])
            else [])).flatten,
     node (if erase_selects d area then { d with m_Item := [] } else d)
      (fun i =>
        if (m_Octants i).isSome then
          (if (d.m_OctantsBounds i).intersects2 area then (erase_area (m_Octants i) area).2
           else m_Octants i)
        else m_Octants i))

/-- The displacement of `shift` as the `float` the compound assignments use:
the product `leaf_nodes * m_LeafNodeSide` of two `size_t`, taken modulo
`2 ^ 64`, converted to `float`. -/
def shift_displacement (leaf_nodes m_LeafNodeSide : Nat) : ℚ :=
  Ieee754.toFloat (((leaf_nodes * m_LeafNodeSide) % 2 ^ 64 : Nat) : ℚ)

/-- The `switch` of `shift`: both corners of `bounding_box` are moved along one
axis by `leaf_nodes * m_LeafNodeSide`; each `+=` or `-=` is a `float`
operation on a `float` coordinate and the converted product. -/
def shift_bounding_box (bounding_box : glm.vec3 × glm.vec3) (leaf_nodes m_LeafNodeSide : Nat)
    (direction : Directions) : glm.vec3 × glm.vec3 :=
  match direction with
  | Directions.North =>
    ({ bounding_box.1 with
        z := Ieee754.toFloat (bounding_box.1.z - shift_displacement leaf_nodes m_LeafNodeSide) },
     { bounding_box.2 with
        z := Ieee754.toFloat (bounding_box.2.z - shift_displacement leaf_nodes m_LeafNodeSide) })
  | Directions.South =>
    ({ bounding_box.1 with
        z := Ieee754.toFloat (bounding_box.1.z + shift_displacement leaf_nodes m_LeafNodeSide) },
     { bounding_box.2 with
        z := Ieee754.toFloat (bounding_box.2.z + shift_displacement leaf_nodes m_LeafNodeSide) })
  | Directions.East =>
    ({ bounding_box.1 with
        x := Ieee754.toFloat (bounding_box.1.x + shift_displacement leaf_nodes m_LeafNodeSide) },
     { bounding_box.2 with
        x := Ieee754.toFloat (bounding_box.2.x + shift_displacement leaf_nodes m_LeafNodeSide) })
  | Directions.West =>
    ({ bounding_box.1 with
        x := Ieee754.toFloat (bounding_box.1.x - shift_displacement leaf_nodes m_LeafNodeSide) },
     { bounding_box.2 with
        x := Ieee754.toFloat (bounding_box.2.x - shift_displacement leaf_nodes m_LeafNodeSide) })

/-- The loop of `Octree::shift` that inserts the collected pairs again: a pair
whose `insert` returns a null container is pushed to `returned_data`. The result
is the tree and `returned_data` after the loop (`none` when a call of `insert`
exceeds `fuel`). -/
def shift_reinsert (dflt : AABB) (fuel : Nat) :
    Octree T → List (T × AABB) → List (T × AABB) → Option (Octree T × List (T × AABB))
  | t, [], returned_data => some (t, returned_data)
  | t, it :: rest, returned_data =>
    match insert dflt fuel t it.1 it.2 with
    | none => none
    | some (loc, t1) =>
      if loc.items_container.isSome then shift_reinsert dflt fuel t1 rest returned_data
      else shift_reinsert dflt fuel t1 rest (returned_data ++ [it])

/-- `Octree::shift`: the tree and `returned_data` after the call. -/
def shift (dflt : AABB) (fuel : Nat) :
    Octree T → Nat → Directions → List (T × AABB) → Option (Octree T × List (T × AABB))
  | null, _, _, _ => none
  | node d m_Octants, leaf_nodes, direction, returned_data =>
    let bounding_box :=
      shift_bounding_box d.m_Position.bounding_region leaf_nodes d.m_LeafNodeSide direction
    let items := collect_items (node d m_Octants)
    let resized := resize (node d m_Octants) ⟨bounding_box.1, bounding_box.2⟩
    shift_reinsert dflt fuel resized items returned_data

/-- `items_container->erase(items_iterator)` for the list named by the path `p`:
the entry at position `items_iterator` of the item list of the node at `p` is
erased. -/
def eraseAt : Octree T → List (Fin 8) → Nat → Octree T
  | null, _, _ => null
  | node d m_Octants, [], items_iterator =>
    node { d with m_Item := d.m_Item.eraseIdx items_iterator } m_Octants
  | node d m_Octants, i :: p, items_iterator =>
    node d (Function.update m_Octants i (eraseAt (m_Octants i) p items_iterator))

/-- The walk of `recursive_insert` for `area`, started at this node, ends at the
node at `p`: every node on the way selects the next slot of `p`, the child there
exists, and the last node selects no slot and contains `area`. -/
def Hosts (area : AABB) : Octree T → List (Fin 8) → Prop
  | null, _ => False
  | node d _, [] => insert_scan d area = none ∧ d.m_Position.contains area = true
  | node d m_Octants, i :: p =>
    insert_scan d area = some i ∧ (m_Octants i).isSome = true ∧ Hosts area (m_Octants i) p

end Octree

namespace ContainedOctree

variable {T : Type}

/-- `ContainedOctree::remove`: the returned flag and the container after the
call. The record is found through its iterator `item`; `none` stands for a call
the source cannot survive (no such record, or a null `items_container`). The
stored location is followed as a path from the current root. Where the list it
names is still the list that holds the item, this is what the source does; a
location that went stale (the tree was shifted or resized since, so the node
was cleared or rebuilt) makes the source erase through a dangling iterator,
which is undefined behaviour, while the model still returns a value: results
for stale locations say nothing about the source. -/
def remove (c : ContainedOctree T) (item : Nat) : Option (Bool × ContainedOctree T) :=
  match c.m_Items.find? (fun r => r.1 == item) with
  | none => none
  | some r =>
    match r.2.item_position.items_container with
    | none => none
    | some p =>
      some (false,
        ⟨Octree.eraseAt c.m_Root p r.2.item_position.items_iterator,
          c.m_Items.eraseP (fun r => r.1 == item), c.m_Fresh⟩)

/-- `ContainedOctree::clear`. -/
def clear (c : ContainedOctree T) : ContainedOctree T :=
  ⟨Octree.clear c.m_Root, [], c.m_Fresh⟩

/-- `ContainedOctree::resize`. -/
def resize (c : ContainedOctree T) (area : AABB) : ContainedOctree T :=
  ⟨Octree.resize c.m_Root area, [], c.m_Fresh⟩

/-- The `while` loop of `ContainedOctree::shift` over the records from `it` on:
a record whose iterator the tree rejects is reported in `returned_data` and
erased from `m_Items`. The result is the tree, the records that stay, and
`returned_data` (`none` when a call of `insert` exceeds `fuel`). -/
def shift_reinsert (dflt : AABB) (fuel : Nat) :
    Octree Nat → List (Nat × OctreeItem T) → List (T × AABB) →
      Option (Octree Nat × List (Nat × OctreeItem T) × List (T × AABB))
  | root, [], returned_data => some (root, [], returned_data)
  | root, it :: rest, returned_data =>
    match Octree.insert dflt fuel root it.1 it.2.item_position.aabb with
    | none => none
    | some (loc, root1) =>
      if loc.items_container.isSome then
        match shift_reinsert dflt fuel root1 rest returned_data with
        | none => none
        | some r => some (r.1, it :: r.2.1, r.2.2)
      else
        shift_reinsert dflt fuel root1 rest
          (returned_data ++ [(it.2.item, it.2.item_position.aabb)])

/-- `ContainedOctree::shift`: the container and `returned_data` after the call. -/
def shift (dflt : AABB) (fuel : Nat) (c : ContainedOctree T) (leaf_nodes : Nat)
    (direction : Directions) (returned_data : List (T × AABB)) :
    Option (ContainedOctree T × List (T × AABB)) :=
  let bounding_box := Octree.shift_bounding_box (Octree.aabb dflt c.m_Root).bounding_region
    leaf_nodes (Octree.leaf_node_side_length c.m_Root) direction
  let resized := Octree.resize c.m_Root ⟨bounding_box.1, bounding_box.2⟩
  match shift_reinsert dflt fuel resized c.m_Items returned_data with
  | none => none
  | some r => some (⟨r.1, r.2.1, c.m_Fresh⟩, r.2.2)

/-- The container `c'` is what `c` becomes after some sequence of `insert`
calls, accepted or rejected, and `remove` calls. -/
inductive Evolves (dflt : AABB) : ContainedOctree T → ContainedOctree T → Prop
  | refl (c : ContainedOctree T) : Evolves dflt c c
  | byInsert {c c1 c2 : ContainedOctree T} {fuel : Nat} {object : T} {area : AABB}
      {flag : Bool} :
      Evolves dflt c c1 → insert dflt fuel c1 object area = some (flag, c2) →
      Evolves dflt c c2
  | byRemove {c c1 c2 : ContainedOctree T} {item : Nat} {flag : Bool} :
      Evolves dflt c c1 → remove c1 item = some (flag, c2) → Evolves dflt c c2

/-- What the constructor, `insert` and `remove` keep true of the container: the
identities of the records are distinct and below `m_Fresh`, and a record whose
location has a container names, with iterator 0, an item list that holds exactly
the iterator of the record, in the node the walk of `recursive_insert` for the
recorded box ends at. -/
def Consistent (c : ContainedOctree T) : Prop :=
  (∀ r ∈ c.m_Items, r.1 < c.m_Fresh) ∧ (c.m_Items.map Prod.fst).Nodup ∧
  ∀ r ∈ c.m_Items, ∀ p, r.2.item_position.items_container = some p →
    Octree.itemsAt c.m_Root p = [r.1] ∧ r.2.item_position.items_iterator = 0 ∧
      Octree.Hosts r.2.item_position.aabb c.m_Root p

end ContainedOctree

end DataStructures

namespace DataStructures

open Collisions Trees Coordinates

namespace Octree

variable {T : Type}

/-- The call `recursive_dfs(area)` made on this node reaches the node at `p`:
every child on the way exists and its slot of `m_OctantsBounds` intersects
`area`. -/
def Visits (area : AABB) : Octree T → List (Fin 8) → Prop
  | null, _ => False
  | node _ _, [] => True
  | node d m_Octants, i :: p =>
    (m_Octants i).isSome = true ∧ (d.m_OctantsBounds i).intersects2 area = true ∧
      Visits area (m_Octants i) p

end Octree

end DataStructures

namespace DataStructures

open Collisions Trees Coordinates

/-- The data members of one `QuadTree<T>` object, its child pointers apart.
(`m_ActiveChildren` is never read or written by the source and is left out.) -/
structure QuadTreeNode (T : Type) where
  m_Position : AABB
  m_LeafNodeSide : Nat
  m_MinimumDimensions : Nat
  m_MaxDepth : Nat
  m_Depth : Nat
  m_ChildrenBounds : Fin 4 → AABB
  m_IsLeaf : Bool
  m_NodeReady : Bool
  m_Item : List T

/-- A `std::shared_ptr<QuadTree<T>>`: empty, or an object with its array
`m_Children` of four such pointers. -/
inductive QuadTree (T : Type) where
  | null : QuadTree T
  | node (d : QuadTreeNode T) (m_Children : Fin 4 → QuadTree T) : QuadTree T

namespace QuadTree

variable {T : Type}

/-- The test `if (m_Children[i])` on a pointer. -/
def isSome : QuadTree T → Bool
  | null => false
  | node _ _ => true

/-- `QuadTree::size`. -/
def size : QuadTree T → Nat
  | null => 0
  | node d m_Children =>
    (if !d.m_Item.isEmpty then d.m_Item.length else 0)
      + ((List.finRange 4).map (fun i => (m_Children i).size)).sum

/-- The object found by following the child slots of `p` from `t`. -/
def nodeAt : QuadTree T → List (Fin 4) → Option (QuadTreeNode T)
  | null, _ => none
  | node d _, [] => some d
  | node _ m_Children, i :: p => nodeAt (m_Children i) p

/-- The content of the `m_Item` list of the node at `p` (nothing where there is
no node). -/
def itemsAt (t : QuadTree T) (p : List (Fin 4)) : List T :=
  match nodeAt t p with
  | some d => d.m_Item
  | none => []

/-- `QuadTree::collect_items`: the pairs the call pushes to the back of `items`,
in the order it pushes them. -/
def collect_items : QuadTree T → List (T × AABB)
  | null => []
  | node d m_Children =>
    (if !d.m_Item.isEmpty then d.m_Item.map (fun it => (it, d.m_Position)) else [])
    ++ ((List.finRange 4).map (fun i =>
          if (m_Children i).isSome then collect_items (m_Children i) else [])).flatten

/-- The occupants of the tree: the items `collect_items` finds, in its order. -/
def occupants (t : QuadTree T) : List T := (collect_items t).map Prod.fst

/-- The test of `QuadTree::erase_area` on the node itself: the item list is not
empty and `area.contains(m_Position)`, or else the node is a leaf and
`m_Position.intersects2(area)`. -/
def erase_selects (d : QuadTreeNode T) (area : AABB) : Bool :=
  !d.m_Item.isEmpty &&
    (area.contains d.m_Position || (d.m_IsLeaf && d.m_Position.intersects2 area))

/-- `QuadTree::erase_area`: the items the call pushes to the back of `items`, in
the order it pushes them, and the tree after the call. -/
def erase_area : QuadTree T → AABB → List T × QuadTree T
  | null, _ => ([], null)
  | node d m_Children, area =>
    ((if erase_selects d area then d.m_Item else [])
      ++ ((List.finRange 4).map (fun i =>
            if (m_Children i).isSome then
              (if (d.m_ChildrenBounds i).intersects2 area then
                (erase_area (m_Children i) area).1
               else [])
            else [])).flatten,
     node (if erase_selects d area then { d with m_Item := [] } else d)
      (fun i =>
        if (m_Children i).isSome then
          (if (d.m_ChildrenBounds i).intersects2 area then (erase_area (m_Children i) area).2
           else m_Children i)
        else m_Children i))

end QuadTree

namespace Scenario

/-- A leaf `QuadTree` object over `bb` that holds `items`. -/
def quadLeaf (bb : AABB) (depth : Nat) (items : List Nat) : QuadTree Nat :=
  QuadTree.node ⟨bb, 2, 1, 2, depth, fun _ => originBox, true, true, items⟩
    (fun _ => QuadTree.null)

/-- The four quarters of `sideEightCube` in the x-z plane, over its full
height. -/
def quarter (i : Fin 4) : AABB :=
  ⟨⟨if i.val % 2 = 0 then -4 else 0, -4, if i.val < 2 then -4 else 0⟩,
    ⟨if i.val % 2 = 0 then 0 else 4, 4, if i.val < 2 then 0 else 4⟩⟩

/-- A `QuadTree` over `sideEightCube` with item 5 at the root and the items 10,
11, 12, 13 in its four leaf children. -/
def quadTree : QuadTree Nat :=
  QuadTree.node ⟨sideEightCube, 2, 1, 2, 0, quarter, false, true, [5]⟩
    (fun i => quadLeaf (quarter i) 1 [10 + i.val])

end Scenario

end DataStructures

namespace DataStructures

open Collisions Trees Coordinates

namespace Scenario

/-- The cube of side 20 centred at the origin, which contains `sideEightCube`. -/
def hugeBox : AABB := ⟨⟨-10, -10, -10⟩, ⟨10, 10, 10⟩⟩

/-- The box from `(1,1,1)` to `(3,3,3)`, which straddles the centre of the
octant `(0,0,0)..(4,4,4)`. -/
def straddleBox : AABB := ⟨⟨1, 1, 1⟩, ⟨3, 3, 3⟩⟩

/-- The box from `(-1,-1,-1)` to `(3/2,3/2,3/2)`: it overlaps `straddleBox` and
lies inside `sideEightCube`. -/
def queryBox : AABB := ⟨⟨-1, -1, -1⟩, ⟨3 / 2, 3 / 2, 3 / 2⟩⟩

/-- The scenario tree after item `7` was offered with `straddleBox`. -/
def straddleCall : Octree Nat := treeAfter originBox 10 (tree Nat originBox) 7 straddleBox

/-- The empty container over `sideEightCube` with `maxDepth = 2`,
`minExtent = 1`. -/
def emptyContainer : ContainedOctree Nat := ContainedOctree.mk3 originBox sideEightCube 2 1

/-- The container after `insert(70, unitCell)`. -/
def cellContainer : ContainedOctree Nat :=
  ((ContainedOctree.insert originBox 10 emptyContainer 70 unitCell).getD
    (false, emptyContainer)).2

/-- The container after `insert(70, unitCell)` and `shift(1, East)`. -/
def shiftedContainer : ContainedOctree Nat :=
  ((ContainedOctree.shift originBox 10 cellContainer 1 Directions.East []).getD
    (cellContainer, [])).1

/-- The container after `insert(70, unitCell)` and `shift(1, West)`. -/
def westContainer : ContainedOctree Nat :=
  ((ContainedOctree.shift originBox 10 cellContainer 1 Directions.West []).getD
    (cellContainer, [])).1

/-- The tree `centreCall` after `shift(1, East)`. -/
def shiftedCentre : Octree Nat :=
  ((Octree.shift originBox 10 centreCall 1 Directions.East []).getD (centreCall, [])).1

/-- The tree `cellCall` after `shift(1, East)`. -/
def shiftedCell : Octree Nat :=
  ((Octree.shift originBox 10 cellCall 1 Directions.East []).getD (cellCall, [])).1

end Scenario

end DataStructures

namespace Collisions.AABB

end Collisions.AABB

namespace DataStructures

open Collisions Trees Coordinates

/-- Conversion of a `double` to `size_t` where the value may lie outside the
range of `size_t`: the fraction is dropped, and the source has no defined
result (`none`) for a value the type cannot hold. -/
def toSizeTChecked (q : ℚ) : Option Nat :=
  if -1 < q ∧ q < 2 ^ 64 then some (toSizeT q) else none

namespace Octree

variable {T : Type}

/-- `Octree::max_size`: `std::pow(NUMBER_OF_OCTANTS, m_MaxDepth)`, the power
of 8 as a `double` (a power of two, which the type holds exactly), converted to
`size_t`. -/
def max_size : Octree T → Option Nat
  | null => none
  | node d _ => toSizeTChecked ((8 : ℚ) ^ d.m_MaxDepth)

/-- `Octree::empty`: `true` is returned when slot 0 holds no child; otherwise
the function ends without a `return` statement and the call has no defined
result (`none`). -/
def empty : Octree T → Option Bool
  | null => none
  | node _ m_Octants => if !(m_Octants 0).isSome then some true else none

end Octree

namespace QuadTree

variable {T : Type}

/-- The macro `MINIMUM_DIMENSION` that `QuadTree::recursive_subdivide` compares
with; `QuadTree.h` does not define it, `Octree.h` defines it as `1.0f`. -/
def MINIMUM_DIMENSION : ℚ := 1

/-- `QuadTree::calculate_bounding_box`: re-bounds `BoundingBox` to the child
`1 << Octant` of the box `m_Position`. -/
def calculate_bounding_box (m_Position : AABB) (BoundingBox : AABB) (Octant : Fin 4) : AABB :=
  let center := m_Position.center
  let dimensions := m_Position.dimensions
  match Octant.val with
  | 0 => BoundingBox.update_position
      ⟨center.x - (1/2) * dimensions.x, center.y, center.z⟩
      ⟨center.x, center.y + (1/2) * dimensions.y, center.z - (1/2) * dimensions.z⟩
  | 1 => BoundingBox.update_position
      center
      ⟨center.x + (1/2) * dimensions.x, center.y + (1/2) * dimensions.y,
        center.z - (1/2) * dimensions.z⟩
  | 2 => BoundingBox.update_position
      ⟨center.x - (1/2) * dimensions.x, center.y, center.z + (1/2) * dimensions.z⟩
      ⟨center.x, center.y + (1/2) * dimensions.y, center.z⟩
  | 3 => BoundingBox.update_position
      ⟨center.x, center.y, center.z + (1/2) * dimensions.z⟩
      ⟨center.x + (1/2) * dimensions.x, center.y + (1/2) * dimensions.y, center.z⟩
  | _ => BoundingBox

/-- The members as the four-argument constructor
`QuadTree(BoundingBox, MaxDepth, MinimumDimensions, Depth)` leaves them right
before it calls `recursive_subdivide`. `dflt` is the value of a
default-constructed `AABB`, which the entries of `m_ChildrenBounds` start
with. -/
def init4 (dflt : AABB) (BoundingBox : AABB) (MaxDepth MinimumDimensions Depth : Nat) :
    QuadTreeNode T :=
  { m_Position := BoundingBox
    m_LeafNodeSide := toSizeT (BoundingBox.dimensions.x / 2 ^ MaxDepth)
    m_MinimumDimensions := MinimumDimensions
    m_MaxDepth := MaxDepth
    m_Depth := Depth
    m_ChildrenBounds := fun _ => dflt
    m_IsLeaf := true
    m_NodeReady := true
    m_Item := [] }

/-- The members as the three-argument constructor
`QuadTree(BoundingBox, MaxDepth, MinimumDimensions)` leaves them right before it
calls `recursive_subdivide`. -/
def init3 (dflt : AABB) (BoundingBox : AABB) (MaxDepth MinimumDimensions : Nat) :
    QuadTreeNode T :=
  { m_Position := BoundingBox
    m_LeafNodeSide := toSizeT (BoundingBox.dimensions.x / 2 ^ MaxDepth)
    m_MinimumDimensions := MinimumDimensions
    m_MaxDepth := MaxDepth
    m_Depth := 0
    m_ChildrenBounds := fun _ => dflt
    m_IsLeaf := true
    m_NodeReady := true
    m_Item := [] }

/-- `QuadTree::recursive_subdivide`, run on a freshly initialised object `d` (no
children yet). Every child is built by the four-argument constructor, which
calls `recursive_subdivide` again; `fuel` bounds that nesting, and
`m_MaxDepth + 1 - m_Depth` levels are all the source can descend. -/
def recursive_subdivide (dflt : AABB) : Nat → QuadTreeNode T → QuadTree T
  | 0, d => node d (fun _ => null)
  | fuel + 1, d =>
    if !d.m_IsLeaf then node d (fun _ => null)
    else if !(decide (d.m_Depth ≤ d.m_MaxDepth)) then node d (fun _ => null)
    else
      let dimensions := d.m_Position.dimensions
      if dimensions.x < MINIMUM_DIMENSION ∨ dimensions.y < MINIMUM_DIMENSION
          ∨ dimensions.z < MINIMUM_DIMENSION then node d (fun _ => null)
      else
        let bounds : Fin 4 → AABB :=
          fun i => calculate_bounding_box d.m_Position (d.m_ChildrenBounds i) i
        node { d with m_ChildrenBounds := bounds, m_IsLeaf := false }
          (fun i => recursive_subdivide dflt fuel
            (init4 dflt (bounds i) d.m_MaxDepth d.m_MinimumDimensions (d.m_Depth + 1)))

/-- The constructor `QuadTree(BoundingBox, MaxDepth, MinimumDimensions, Depth)`. -/
def mk4 (dflt : AABB) (BoundingBox : AABB) (MaxDepth MinimumDimensions Depth : Nat) :
    QuadTree T :=
  recursive_subdivide dflt (MaxDepth + 1 - Depth)
    (init4 dflt BoundingBox MaxDepth MinimumDimensions Depth)

/-- The constructor `QuadTree(BoundingBox, MaxDepth, MinimumDimensions)`. -/
def mk3 (dflt : AABB) (BoundingBox : AABB) (MaxDepth MinimumDimensions : Nat) : QuadTree T :=
  recursive_subdivide dflt (MaxDepth + 1)
    (init3 dflt BoundingBox MaxDepth MinimumDimensions)

/-- `QuadTree::is_leaf_node`. -/
def is_leaf_node : QuadTree T → Bool
  | null => false
  | node d _ => d.m_IsLeaf

/-- `QuadTree::max_size`: `std::pow(NUMBER_OF_CHILDREN, m_MaxDepth)`, the power
of 4 as a `double` (a power of two, which the type holds exactly), converted to
`size_t`. -/
def max_size : QuadTree T → Option Nat
  | null => none
  | node d _ => toSizeTChecked ((4 : ℚ) ^ d.m_MaxDepth)

/-- `QuadTree::empty`: `true` is returned when slot 0 holds no child; otherwise
the function ends without a `return` statement and the call has no defined
result (`none`). -/
def empty : QuadTree T → Option Bool
  | null => none
  | node _ m_Children => if !(m_Children 0).isSome then some true else none

end QuadTree

namespace Scenario

/-- The tree over `sideEightCube` with `maxDepth = 0`, `minExtent = 1`. -/
def flatTree : Octree Nat := Octree.mk3 originBox sideEightCube 0 1

/-- The box from `(-4,-4,-4)` to `(-3,-3,-3)`, in the corner of `sideEightCube`
opposite to `unitCell`. -/
def lowCell : AABB := ⟨⟨-4, -4, -4⟩, ⟨-3, -3, -3⟩⟩

/-- The tree `flatTree` after item 1 was offered with `unitCell` and item 2
with `lowCell`. -/
def twoItems : Octree Nat :=
  treeAfter originBox 10 (treeAfter originBox 10 flatTree 1 unitCell) 2 lowCell

/-- The tree over `sideEightCube` with `maxDepth = 1`, `minExtent = 1`. -/
def midTree : Octree Nat := Octree.mk3 originBox sideEightCube 1 1

/-- The cube of side 2 centred at `(2a, 2b, 2c)`; for `a`, `b`, `c` among 1 and
-1 it straddles the centre of an octant of `sideEightCube`. -/
def boxAround (a b c : ℚ) : AABB :=
  ⟨⟨2 * a - 1, 2 * b - 1, 2 * c - 1⟩, ⟨2 * a + 1, 2 * b + 1, 2 * c + 1⟩⟩

/-- Nine offers: item 0 with the box around the centre of `sideEightCube`, and
the items 1 to 8 with the boxes around the centres of its eight octants. -/
def nineOffers : List (Nat × AABB) :=
  [(0, centreBox), (1, boxAround 1 1 1), (2, boxAround 1 1 (-1)), (3, boxAround 1 (-1) 1),
    (4, boxAround 1 (-1) (-1)), (5, boxAround (-1) 1 1), (6, boxAround (-1) 1 (-1)),
    (7, boxAround (-1) (-1) 1), (8, boxAround (-1) (-1) (-1))]

/-- The tree `midTree` after the nine offers, in their order. -/
def nineItems : Octree Nat :=
  nineOffers.foldl (fun t o => treeAfter originBox 10 t o.1 o.2) midTree

/-- The tree `tinyTree`, a single leaf, after `resize` to `sideEightCube` and an
offer of item 7 with `unitCell`. -/
def grownLeaf : Octree Nat :=
  treeAfter originBox 10 (Octree.resize tinyTree sideEightCube) 7 unitCell

/-- The `QuadTree` over `sideEightCube` with `maxDepth = 2`, `minExtent = 100`. -/
def wideQuad : QuadTree Nat := QuadTree.mk3 originBox sideEightCube 2 100

/-- The `Octree` over `sideEightCube` with `maxDepth = 2`, `minExtent = 100`. -/
def wideOct : Octree Nat := Octree.mk3 originBox sideEightCube 2 100

/-- The `QuadTree` over `sideEightCube` with `maxDepth = 2`, `minExtent = 1`. -/
def builtQuad : QuadTree Nat := QuadTree.mk3 originBox sideEightCube 2 1

/-- The tree `cellCall` after `resize` to `hugeBox`. -/
def resizedCell : Octree Nat := Octree.resize cellCall hugeBox

end Scenario

end DataStructures

namespace DataStructures

open Collisions Trees Coordinates

namespace Octree

variable {T : Type}

/-- The items the inner loop of `Octree::bfs` pushes to `items` for one object
`d` of the queue; `rootIsLeaf` is `is_leaf_node()` of the object `bfs` was
called on. -/
def bfs_visit (rootIsLeaf : Bool) (area : AABB) (d : OctreeNode T) : List T :=
  if d.m_Position.intersects2 area then
    (if area.contains d.m_Position then d.m_Item
     else if rootIsLeaf && d.m_Position.intersects2 area then d.m_Item
     else [])
  else []

/-- The queue `octants` as `Octree::bfs` fills it before its `while` loop: the
children that exist, in the order of their slots. -/
def bfs_queue (m_Octants : Fin 8 → Octree T) : List (Octree T) :=
  (List.finRange 8).filterMap (fun i => if (m_Octants i).isSome then some (m_Octants i) else none)

end Octree

namespace Scenario

/-- The cube of side 3 from `(0,0,0)` to `(3,3,3)`. -/
def sideThreeCube : AABB := ⟨⟨0, 0, 0⟩, ⟨3, 3, 3⟩⟩

/-- The tree over `sideThreeCube` with `maxDepth = 1`, `minExtent = 1`. -/
def oddTree : Octree Nat := Octree.mk3 originBox sideThreeCube 1 1

/-- The tree over `sideEightCube` with `maxDepth = 2`, `minExtent = 5`: the root
subdivides, its children (extent 4) do not. -/
def coarseTree : Octree Nat := Octree.mk3 originBox sideEightCube 2 5

/-- The box from `(-4,2,-4)` to `(-2,4,-2)`: slot 0 of slot 0 of
`sideEightCube`. -/
def cornerBox : AABB := ⟨⟨-4, 2, -4⟩, ⟨-2, 4, -2⟩⟩

/-- The tree `coarseTree` after `resize` to `sideEightCube` and an offer of item
7 with `cornerBox`. -/
def lazyTree : Octree Nat :=
  treeAfter originBox 10 (Octree.resize coarseTree sideEightCube) 7 cornerBox

/-- The box from `(-5,0,0)` to `(-3.9f,1,1)`, where `-3.9f = -16357786/4194304`
is the `float` nearest to `-3.9`. -/
def sliverBox : AABB := ⟨⟨-5, 0, 0⟩, ⟨-16357786 / 4194304, 1, 1⟩⟩

/-- The tree over `sliverBox` with `maxDepth = 0`, `minExtent = 1`. -/
def sliverTree : Octree Nat := Octree.mk3 originBox sliverBox 0 1

/-- The box from `(-63/16, 5/8, 1/8)` to `(-16357785/4194304, 7/8, 3/8)`: its
largest `x` is the `float` next above `-3.9f`. -/
def sliverRegion : AABB := ⟨⟨-63 / 16, 5 / 8, 1 / 8⟩, ⟨-16357785 / 4194304, 7 / 8, 3 / 8⟩⟩

/-- The tree `sliverTree` after item 7 was offered with `sliverRegion`. -/
def sliverCall : Octree Nat := treeAfter originBox 10 sliverTree 7 sliverRegion

/-- The flat box at `x = -16357785/4194304` with `y` from `5/8` to `7/8` and `z`
from `1/8` to `3/8`. -/
def sliverQuery : AABB :=
  ⟨⟨-16357785 / 4194304, 5 / 8, 1 / 8⟩, ⟨-16357785 / 4194304, 7 / 8, 3 / 8⟩⟩

/-- The box from `(0.1f,0,0)` to `(1.1f,1,1)`, where `0.1f = 13421773/134217728`
and `1.1f = 9227469/8388608` are the `float` values nearest to `0.1` and `1.1`. -/
def tenthBox : AABB := ⟨⟨13421773 / 134217728, 0, 0⟩, ⟨9227469 / 8388608, 1, 1⟩⟩

/-- The tree over `tenthBox` with `maxDepth = 0`, `minExtent = 1`. -/
def tenthTree : Octree Nat := Octree.mk3 originBox tenthBox 0 1

/-- The tree `tenthTree` after `shift(1, East)`. -/
def tenthEast : Octree Nat :=
  ((Octree.shift originBox 10 tenthTree 1 Directions.East []).getD (tenthTree, [])).1

/-- The tree `midTree` after item 7 was offered with `unitCell`; the item sits
in the node at slots 3, 3. -/
def midCall : Octree Nat := treeAfter originBox 10 midTree 7 unitCell

/-- The tree `midCall` after `shift(1, East)`. -/
def midEast : Octree Nat :=
  ((Octree.shift originBox 10 midCall 1 Directions.East []).getD (midCall, [])).1

/-- The scenario tree after `shift(16777217, East)`. -/
def farEast : Octree Nat :=
  ((Octree.shift originBox 10 (tree Nat originBox) 16777217 Directions.East []).getD
    (tree Nat originBox, [])).1

end Scenario

end DataStructures

namespace Ieee754

/-! ## Rounding to a floating-point format -/

theorem pow2_eq (k : Int) : pow2 k = (2 : ℚ) ^ k := by
  unfold pow2
  by_cases h : 0 ≤ k
  · rw [if_pos h]
    obtain ⟨n, rfl⟩ := Int.eq_ofNat_of_zero_le h
    simp
  · rw [if_neg h]
    have hk : k < 0 := not_le.mp h
    obtain ⟨n, hn⟩ := Int.exists_eq_neg_ofNat (le_of_lt hk)
    subst hn
    simp

theorem pow2_pos (k : Int) : 0 < pow2 k := by
  rw [pow2_eq]; positivity

theorem pow2_add (a b : Int) : pow2 (a + b) = pow2 a * pow2 b := by
  rw [pow2_eq, pow2_eq, pow2_eq, zpow_add₀ (by norm_num : (2 : ℚ) ≠ 0)]

theorem pow2_le_pow2 {a b : Int} (h : a ≤ b) : pow2 a ≤ pow2 b := by
  rw [pow2_eq, pow2_eq]
  exact zpow_le_zpow_right₀ (by norm_num) h

theorem pow2_lt_pow2 {a b : Int} (h : a < b) : pow2 a < pow2 b := by
  rw [pow2_eq, pow2_eq]
  exact zpow_lt_zpow_right₀ (by norm_num) h

theorem pow2_natCast (n : Nat) : pow2 (n : Int) = ((2 ^ n : Nat) : ℚ) := by
  rw [pow2_eq]; simp

theorem log2From_spec : ∀ (fuel n : Nat), n ≤ fuel → n ≠ 0 →
    2 ^ log2From fuel n ≤ n ∧ n < 2 ^ (log2From fuel n + 1) := by
  intro fuel
  induction fuel with
  | zero => intro n h hn; omega
  | succ f ih =>
    intro n h hn
    unfold log2From
    by_cases h2 : n < 2
    · rw [if_pos h2]
      have : n = 1 := by omega
      subst this
      simp
    · rw [if_neg h2]
      have hle : n / 2 ≤ f := by omega
      have hne : n / 2 ≠ 0 := by omega
      obtain ⟨k1, k2⟩ := ih (n / 2) hle hne
      constructor
      · rw [pow_succ]
        have := Nat.div_mul_le_self n 2
        calc 2 ^ log2From f (n / 2) * 2 ≤ n / 2 * 2 := Nat.mul_le_mul_right 2 k1
          _ ≤ n := this
      · rw [pow_succ]
        have : n < (n / 2 + 1) * 2 := by omega
        calc n < (n / 2 + 1) * 2 := this
          _ ≤ 2 ^ (log2From f (n / 2) + 1) * 2 := Nat.mul_le_mul_right 2 k2

theorem natLog2_spec (n : Nat) (hn : n ≠ 0) :
    2 ^ natLog2 n ≤ n ∧ n < 2 ^ (natLog2 n + 1) :=
  log2From_spec n n (le_refl n) hn

theorem abs_eq_natAbs_div_den (x : ℚ) : |x| = (x.num.natAbs : ℚ) / (x.den : ℚ) := by
  have h : |x| = (|x.num| : ℚ) / (x.den : ℚ) := by
    conv_lhs => rw [← Rat.num_div_den x]
    rw [abs_div, Nat.abs_cast]
  rw [h]
  congr 1
  rw [Nat.cast_natAbs, Int.cast_abs]

/-- The exponent `ilog2 x` names the binade of `x`. -/
theorem ilog2_spec (x : ℚ) (hx : x ≠ 0) :
    pow2 (ilog2 x) ≤ |x| ∧ |x| < pow2 (ilog2 x + 1) := by
  have hn : x.num.natAbs ≠ 0 := by
    intro h
    exact hx (Rat.zero_of_num_zero (Int.natAbs_eq_zero.mp h))
  have hd : x.den ≠ 0 := x.den_nz
  obtain ⟨a1, a2⟩ := natLog2_spec _ hn
  obtain ⟨b1, b2⟩ := natLog2_spec _ hd
  have habs := abs_eq_natAbs_div_den x
  have hdpos : (0 : ℚ) < (x.den : ℚ) := by exact_mod_cast Nat.pos_of_ne_zero hd
  have a1q : pow2 (natLog2 x.num.natAbs : Int) ≤ (x.num.natAbs : ℚ) := by
    rw [pow2_natCast]; exact_mod_cast a1
  have a2q : (x.num.natAbs : ℚ) < pow2 ((natLog2 x.num.natAbs : Int) + 1) := by
    have : ((natLog2 x.num.natAbs : Int) + 1) = ((natLog2 x.num.natAbs + 1 : Nat) : Int) := by
      push_cast; rfl
    rw [this, pow2_natCast]; exact_mod_cast a2
  have b1q : pow2 (natLog2 x.den : Int) ≤ (x.den : ℚ) := by
    rw [pow2_natCast]; exact_mod_cast b1
  have b2q : (x.den : ℚ) < pow2 ((natLog2 x.den : Int) + 1) := by
    have : ((natLog2 x.den : Int) + 1) = ((natLog2 x.den + 1 : Nat) : Int) := by
      push_cast; rfl
    rw [this, pow2_natCast]; exact_mod_cast b2
  -- |x| lies strictly between 2^(k-1) and 2^(k+1)
  have hupper : |x| < pow2 ((natLog2 x.num.natAbs : Int) - (natLog2 x.den : Int) + 1) := by
    rw [habs, div_lt_iff₀ hdpos]
    have e : pow2 ((natLog2 x.num.natAbs : Int) - (natLog2 x.den : Int) + 1)
        * pow2 (natLog2 x.den : Int) = pow2 ((natLog2 x.num.natAbs : Int) + 1) := by
      rw [← pow2_add]; congr 1; ring
    calc (x.num.natAbs : ℚ) < pow2 ((natLog2 x.num.natAbs : Int) + 1) := a2q
      _ = pow2 ((natLog2 x.num.natAbs : Int) - (natLog2 x.den : Int) + 1)
            * pow2 (natLog2 x.den : Int) := e.symm
      _ ≤ pow2 ((natLog2 x.num.natAbs : Int) - (natLog2 x.den : Int) + 1) * (x.den : ℚ) :=
          mul_le_mul_of_nonneg_left b1q (le_of_lt (pow2_pos _))
  have hlower : pow2 ((natLog2 x.num.natAbs : Int) - (natLog2 x.den : Int) - 1) ≤ |x| := by
    rw [habs, le_div_iff₀ hdpos]
    have e : pow2 ((natLog2 x.num.natAbs : Int) - (natLog2 x.den : Int) - 1)
        * pow2 ((natLog2 x.den : Int) + 1) = pow2 (natLog2 x.num.natAbs : Int) := by
      rw [← pow2_add]; congr 1; ring
    calc pow2 ((natLog2 x.num.natAbs : Int) - (natLog2 x.den : Int) - 1) * (x.den : ℚ)
        ≤ pow2 ((natLog2 x.num.natAbs : Int) - (natLog2 x.den : Int) - 1)
            * pow2 ((natLog2 x.den : Int) + 1) :=
          mul_le_mul_of_nonneg_left (le_of_lt b2q) (le_of_lt (pow2_pos _))
      _ = pow2 (natLog2 x.num.natAbs : Int) := e
      _ ≤ (x.num.natAbs : ℚ) := a1q
  unfold ilog2
  simp only
  by_cases hk : pow2 ((natLog2 x.num.natAbs : Int) - (natLog2 x.den : Int)) ≤ |x|
  · rw [if_pos hk]
    exact ⟨hk, hupper⟩
  · rw [if_neg hk]
    refine ⟨hlower, ?_⟩
    have : (natLog2 x.num.natAbs : Int) - (natLog2 x.den : Int) - 1 + 1
        = (natLog2 x.num.natAbs : Int) - (natLog2 x.den : Int) := by ring
    rw [this]
    exact not_le.mp hk

/-- The binade of a number determines its exponent. -/
theorem ilog2_eq {x : ℚ} {e : Int} (h1 : pow2 e ≤ |x|) (h2 : |x| < pow2 (e + 1)) :
    ilog2 x = e := by
  have hx : x ≠ 0 := by
    intro h
    rw [h, abs_zero] at h1
    exact absurd h1 (not_le.mpr (pow2_pos e))
  obtain ⟨k1, k2⟩ := ilog2_spec x hx
  by_contra hne
  rcases lt_or_gt_of_ne hne with hlt | hgt
  · have : pow2 (ilog2 x + 1) ≤ pow2 e := pow2_le_pow2 (by omega)
    linarith
  · have : pow2 (e + 1) ≤ pow2 (ilog2 x) := pow2_le_pow2 (by omega)
    linarith

theorem ilog2_neg (x : ℚ) : ilog2 (-x) = ilog2 x := by
  unfold ilog2
  simp only [Rat.neg_num, Int.natAbs_neg, Rat.neg_den, abs_neg]

theorem ilog2_mono {x y : ℚ} (hx : 0 < x) (hxy : x ≤ y) : ilog2 x ≤ ilog2 y := by
  have hy : 0 < y := lt_of_lt_of_le hx hxy
  obtain ⟨k1, k2⟩ := ilog2_spec x (ne_of_gt hx)
  obtain ⟨l1, l2⟩ := ilog2_spec y (ne_of_gt hy)
  rw [abs_of_pos hx] at k1 k2
  rw [abs_of_pos hy] at l1 l2
  by_contra h
  have : pow2 (ilog2 y + 1) ≤ pow2 (ilog2 x) := pow2_le_pow2 (by omega)
  linarith

theorem floor_eq (q : ℚ) : Rat.floor q = ⌊q⌋ := rfl

theorem roundHalfEven_cases (q : ℚ) :
    (q - (⌊q⌋ : ℚ) < 1 / 2 ∧ roundHalfEven q = ⌊q⌋) ∨
    (1 / 2 < q - (⌊q⌋ : ℚ) ∧ roundHalfEven q = ⌊q⌋ + 1) ∨
    (q - (⌊q⌋ : ℚ) = 1 / 2 ∧ ⌊q⌋ % 2 = 0 ∧ roundHalfEven q = ⌊q⌋) ∨
    (q - (⌊q⌋ : ℚ) = 1 / 2 ∧ ⌊q⌋ % 2 ≠ 0 ∧ roundHalfEven q = ⌊q⌋ + 1) := by
  unfold roundHalfEven
  simp only [floor_eq]
  by_cases h1 : q - (⌊q⌋ : ℚ) < 1 / 2
  · left; exact ⟨h1, by rw [if_pos h1]⟩
  · by_cases h2 : 1 / 2 < q - (⌊q⌋ : ℚ)
    · right; left; exact ⟨h2, by rw [if_neg h1, if_pos h2]⟩
    · have h3 : q - (⌊q⌋ : ℚ) = 1 / 2 := le_antisymm (not_lt.mp h2) (not_lt.mp h1)
      by_cases h4 : ⌊q⌋ % 2 = 0
      · right; right; left; exact ⟨h3, h4, by rw [if_neg h1, if_neg h2, if_pos h4]⟩
      · right; right; right; exact ⟨h3, h4, by rw [if_neg h1, if_neg h2, if_neg h4]⟩

theorem roundHalfEven_intCast (n : Int) : roundHalfEven (n : ℚ) = n := by
  rcases roundHalfEven_cases (n : ℚ) with ⟨_, h⟩ | ⟨h, _⟩ | ⟨h, _⟩ | ⟨h, _⟩
  · rw [h, Int.floor_intCast]
  · rw [Int.floor_intCast, sub_self] at h; norm_num at h
  · rw [Int.floor_intCast, sub_self] at h; norm_num at h
  · rw [Int.floor_intCast, sub_self] at h; norm_num at h

theorem roundHalfEven_mono {q q' : ℚ} (h : q ≤ q') : roundHalfEven q ≤ roundHalfEven q' := by
  have hf : ⌊q⌋ ≤ ⌊q'⌋ := Int.floor_le_floor h
  have hlo : ∀ y : ℚ, ⌊y⌋ ≤ roundHalfEven y := by
    intro y
    rcases roundHalfEven_cases y with ⟨_, e⟩ | ⟨_, e⟩ | ⟨_, _, e⟩ | ⟨_, _, e⟩ <;> rw [e] <;> omega
  have hhi : ∀ y : ℚ, roundHalfEven y ≤ ⌊y⌋ + 1 := by
    intro y
    rcases roundHalfEven_cases y with ⟨_, e⟩ | ⟨_, e⟩ | ⟨_, _, e⟩ | ⟨_, _, e⟩ <;> rw [e] <;> omega
  rcases lt_or_eq_of_le hf with hlt | heq
  · calc roundHalfEven q ≤ ⌊q⌋ + 1 := hhi q
      _ ≤ ⌊q'⌋ := by omega
      _ ≤ roundHalfEven q' := hlo q'
  · have hr : q - (⌊q⌋ : ℚ) ≤ q' - (⌊q'⌋ : ℚ) := by rw [heq]; linarith
    rcases roundHalfEven_cases q with ⟨a, e⟩ | ⟨a, e⟩ | ⟨a, b, e⟩ | ⟨a, b, e⟩ <;>
      rcases roundHalfEven_cases q' with ⟨a', e'⟩ | ⟨a', e'⟩ | ⟨a', b', e'⟩ | ⟨a', b', e'⟩ <;>
      rw [e, e'] <;> first
        | omega
        | (exfalso; linarith)

theorem roundHalfEven_neg (q : ℚ) : roundHalfEven (-q) = -roundHalfEven q := by
  by_cases hint : (⌊q⌋ : ℚ) = q
  · rw [← hint, ← Int.cast_neg, roundHalfEven_intCast, roundHalfEven_intCast]
  · have hlt : (⌊q⌋ : ℚ) < q := lt_of_le_of_ne (Int.floor_le q) hint
    have hfl : ⌊-q⌋ = -⌊q⌋ - 1 := by
      rw [Int.floor_eq_iff]
      push_cast
      constructor
      · have := Int.lt_floor_add_one q
        linarith
      · linarith
    have hr : -q - (⌊-q⌋ : ℚ) = 1 - (q - (⌊q⌋ : ℚ)) := by
      rw [hfl]; push_cast; ring
    rcases roundHalfEven_cases q with ⟨a, e⟩ | ⟨a, e⟩ | ⟨a, b, e⟩ | ⟨a, b, e⟩ <;>
      rcases roundHalfEven_cases (-q) with ⟨a', e'⟩ | ⟨a', e'⟩ | ⟨a', b', e'⟩ | ⟨a', b', e'⟩ <;>
      rw [e, e', hfl] <;> rw [hr] at a' <;> first
        | omega
        | (exfalso; linarith)

theorem roundHalfEven_nonneg {q : ℚ} (h : 0 ≤ q) : 0 ≤ roundHalfEven q := by
  have := roundHalfEven_mono h
  rw [show (0 : ℚ) = ((0 : Int) : ℚ) by simp, roundHalfEven_intCast] at this
  exact this

theorem pow2_natCast_int (n : Nat) : pow2 (n : Int) = (((2 : Int) ^ n : Int) : ℚ) := by
  rw [pow2_eq]; simp

/-! ### The rounded value of a positive number -/

theorem roundTo_of_ne (p : Nat) (emin : Int) {x : ℚ} (hx : x ≠ 0) :
    roundTo p emin x =
      (roundHalfEven (x / pow2 (max (ilog2 x) emin - ((p : Int) - 1))) : ℚ)
        * pow2 (max (ilog2 x) emin - ((p : Int) - 1)) := by
  unfold roundTo
  rw [if_neg hx]

theorem roundTo_zero (p : Nat) (emin : Int) : roundTo p emin 0 = 0 := by
  unfold roundTo
  rw [if_pos rfl]

theorem roundTo_neg (p : Nat) (emin : Int) (x : ℚ) : roundTo p emin (-x) = -roundTo p emin x := by
  by_cases hx : x = 0
  · rw [hx, neg_zero, roundTo_zero, neg_zero]
  · have hnx : -x ≠ 0 := neg_ne_zero.mpr hx
    rw [roundTo_of_ne p emin hx, roundTo_of_ne p emin hnx, ilog2_neg, neg_div,
      roundHalfEven_neg]
    push_cast
    ring

theorem roundTo_nonneg_of_pos (p : Nat) (emin : Int) {x : ℚ} (hx : 0 < x) :
    0 ≤ roundTo p emin x := by
  rw [roundTo_of_ne p emin (ne_of_gt hx)]
  refine mul_nonneg ?_ (le_of_lt (pow2_pos _))
  have : 0 ≤ roundHalfEven (x / pow2 (max (ilog2 x) emin - ((p : Int) - 1))) :=
    roundHalfEven_nonneg (div_nonneg (le_of_lt hx) (le_of_lt (pow2_pos _)))
  exact_mod_cast this

theorem roundTo_le_pow2 (p : Nat) (emin : Int) {x : ℚ} (hx : 0 < x) :
    roundTo p emin x ≤ pow2 (max (ilog2 x) emin + 1) := by
  rw [roundTo_of_ne p emin (ne_of_gt hx)]
  obtain ⟨_, k2⟩ := ilog2_spec x (ne_of_gt hx)
  rw [abs_of_pos hx] at k2
  have hx2 : x ≤ pow2 (max (ilog2 x) emin + 1) :=
    le_trans (le_of_lt k2) (pow2_le_pow2 (by omega))
  have hsplit : pow2 (max (ilog2 x) emin + 1)
      = pow2 (p : Int) * pow2 (max (ilog2 x) emin - ((p : Int) - 1)) := by
    rw [← pow2_add]; congr 1; ring
  have hq : x / pow2 (max (ilog2 x) emin - ((p : Int) - 1)) ≤ pow2 (p : Int) := by
    rw [div_le_iff₀ (pow2_pos _), ← hsplit]
    exact hx2
  have hr := roundHalfEven_mono hq
  rw [pow2_natCast_int, roundHalfEven_intCast] at hr
  rw [hsplit, pow2_natCast_int]
  refine mul_le_mul_of_nonneg_right ?_ (le_of_lt (pow2_pos _))
  exact_mod_cast hr

theorem pow2_le_roundTo (p : Nat) (hp : 1 ≤ p) (emin : Int) {x : ℚ} (hx : 0 < x)
    (he : emin ≤ ilog2 x) : pow2 (ilog2 x) ≤ roundTo p emin x := by
  rw [roundTo_of_ne p emin (ne_of_gt hx)]
  obtain ⟨k1, _⟩ := ilog2_spec x (ne_of_gt hx)
  rw [abs_of_pos hx] at k1
  have hmax : max (ilog2 x) emin = ilog2 x := max_eq_left he
  rw [hmax]
  have hpn : ((p : Int) - 1) = ((p - 1 : Nat) : Int) := by omega
  have hsplit : pow2 (ilog2 x)
      = pow2 ((p - 1 : Nat) : Int) * pow2 (ilog2 x - ((p : Int) - 1)) := by
    rw [← pow2_add]; congr 1; omega
  have hq : pow2 ((p - 1 : Nat) : Int) ≤ x / pow2 (ilog2 x - ((p : Int) - 1)) := by
    rw [le_div_iff₀ (pow2_pos _), ← hsplit]
    exact k1
  have hr := roundHalfEven_mono hq
  rw [pow2_natCast_int, roundHalfEven_intCast] at hr
  conv_lhs => rw [hsplit, pow2_natCast_int]
  refine mul_le_mul_of_nonneg_right ?_ (le_of_lt (pow2_pos _))
  exact_mod_cast hr

theorem roundTo_mono_pos (p : Nat) (hp : 1 ≤ p) (emin : Int) {x y : ℚ} (hx : 0 < x)
    (hxy : x ≤ y) : roundTo p emin x ≤ roundTo p emin y := by
  have hy : 0 < y := lt_of_lt_of_le hx hxy
  have hlog := ilog2_mono hx hxy
  by_cases heq : max (ilog2 x) emin = max (ilog2 y) emin
  · rw [roundTo_of_ne p emin (ne_of_gt hx), roundTo_of_ne p emin (ne_of_gt hy), heq]
    refine mul_le_mul_of_nonneg_right ?_ (le_of_lt (pow2_pos _))
    have := roundHalfEven_mono
      (div_le_div_of_nonneg_right hxy (le_of_lt (pow2_pos (max (ilog2 y) emin - ((p : Int) - 1)))))
    exact_mod_cast this
  · have hlt : max (ilog2 x) emin < max (ilog2 y) emin := by
      rcases lt_or_gt_of_ne heq with h | h
      · exact h
      · exfalso
        have : max (ilog2 x) emin ≤ max (ilog2 y) emin := max_le_max hlog (le_refl _)
        omega
    have hey : emin ≤ ilog2 y := by
      by_contra hc
      have h1 : max (ilog2 y) emin = emin := max_eq_right (by omega)
      have h2 : emin ≤ max (ilog2 x) emin := le_max_right _ _
      omega
    have hmy : max (ilog2 y) emin = ilog2 y := max_eq_left hey
    calc roundTo p emin x ≤ pow2 (max (ilog2 x) emin + 1) := roundTo_le_pow2 p emin hx
      _ ≤ pow2 (ilog2 y) := pow2_le_pow2 (by omega)
      _ ≤ roundTo p emin y := pow2_le_roundTo p hp emin hy hey

/-- Rounding is monotone. -/
theorem roundTo_mono (p : Nat) (hp : 1 ≤ p) (emin : Int) {x y : ℚ} (hxy : x ≤ y) :
    roundTo p emin x ≤ roundTo p emin y := by
  rcases lt_trichotomy x 0 with hx | hx | hx
  · rcases lt_trichotomy y 0 with hy | hy | hy
    · have h := roundTo_mono_pos p hp emin (neg_pos.mpr hy) (neg_le_neg hxy)
      rw [roundTo_neg, roundTo_neg] at h
      linarith
    · rw [hy, roundTo_zero]
      have h := roundTo_nonneg_of_pos p emin (neg_pos.mpr hx)
      rw [roundTo_neg] at h
      linarith
    · have h := roundTo_nonneg_of_pos p emin (neg_pos.mpr hx)
      rw [roundTo_neg] at h
      have h2 := roundTo_nonneg_of_pos p emin hy
      linarith
  · rw [hx, roundTo_zero]
    rcases lt_or_eq_of_le (hx ▸ hxy) with hy | hy
    · exact roundTo_nonneg_of_pos p emin hy
    · rw [← hy, roundTo_zero]
  · exact roundTo_mono_pos p hp emin hx hxy

theorem roundTo_nonneg (p : Nat) (hp : 1 ≤ p) (emin : Int) {x : ℚ} (hx : 0 ≤ x) :
    0 ≤ roundTo p emin x := by
  have := roundTo_mono p hp emin hx
  rw [roundTo_zero] at this
  exact this

/-! ### Representable numbers -/

theorem pow2_lt_iff {a b : Int} : pow2 a < pow2 b ↔ a < b := by
  constructor
  · intro h
    by_contra hc
    have := pow2_le_pow2 (not_lt.mp hc)
    linarith
  · exact pow2_lt_pow2

theorem pow2_of_nonneg {k : Int} (hk : 0 ≤ k) : pow2 k = (((2 : Int) ^ k.toNat : Int) : ℚ) := by
  obtain ⟨n, rfl⟩ := Int.eq_ofNat_of_zero_le hk
  rw [Int.toNat_ofNat, pow2_natCast_int]

/-- A number `m * 2 ^ k` with `|m| < 2 ^ p` and `k` not below the least
exponent of the format is a value of the format: rounding leaves it as it
is. -/
theorem roundTo_of_rep (p : Nat) (emin : Int) (m : Int) (k : Int)
    (hm : |m| < 2 ^ p) (hk : emin - ((p : Int) - 1) ≤ k) :
    roundTo p emin ((m : ℚ) * pow2 k) = (m : ℚ) * pow2 k := by
  by_cases hm0 : m = 0
  · rw [hm0, Int.cast_zero, zero_mul, roundTo_zero]
  · have hy : (m : ℚ) * pow2 k ≠ 0 :=
      mul_ne_zero (by exact_mod_cast hm0) (ne_of_gt (pow2_pos k))
    rw [roundTo_of_ne p emin hy]
    obtain ⟨k1, _⟩ := ilog2_spec _ hy
    have habs : |(m : ℚ) * pow2 k| < pow2 ((p : Int) + k) := by
      rw [abs_mul, abs_of_pos (pow2_pos k), pow2_add, pow2_natCast_int]
      refine mul_lt_mul_of_pos_right ?_ (pow2_pos k)
      have : ((|m| : Int) : ℚ) < (((2 : Int) ^ p : Int) : ℚ) := by exact_mod_cast hm
      rw [Int.cast_abs] at this
      exact this
    have he : ilog2 ((m : ℚ) * pow2 k) < (p : Int) + k :=
      pow2_lt_iff.mp (lt_of_le_of_lt k1 habs)
    have hU : max (ilog2 ((m : ℚ) * pow2 k)) emin - ((p : Int) - 1) ≤ k := by
      have : max (ilog2 ((m : ℚ) * pow2 k)) emin ≤ k + ((p : Int) - 1) :=
        max_le (by omega) (by omega)
      omega
    have hsplit : pow2 k = pow2 (k - (max (ilog2 ((m : ℚ) * pow2 k)) emin - ((p : Int) - 1)))
        * pow2 (max (ilog2 ((m : ℚ) * pow2 k)) emin - ((p : Int) - 1)) := by
      rw [← pow2_add]; congr 1; ring
    have hq : (m : ℚ) * pow2 k / pow2 (max (ilog2 ((m : ℚ) * pow2 k)) emin - ((p : Int) - 1))
        = ((m * (2 : Int) ^ (k - (max (ilog2 ((m : ℚ) * pow2 k)) emin
            - ((p : Int) - 1))).toNat : Int) : ℚ) := by
      rw [div_eq_iff (ne_of_gt (pow2_pos _))]
      conv_lhs => rw [hsplit]
      rw [pow2_of_nonneg (by omega : 0 ≤ k - (max (ilog2 ((m : ℚ) * pow2 k)) emin
        - ((p : Int) - 1)))]
      push_cast
      ring
    rw [hq, roundHalfEven_intCast]
    conv_rhs => rw [hsplit]
    rw [pow2_of_nonneg (by omega : 0 ≤ k - (max (ilog2 ((m : ℚ) * pow2 k)) emin
        - ((p : Int) - 1)))]
    push_cast
    ring

theorem roundHalfEven_le_pow (p : Nat) (emin : Int) {x : ℚ} (hx : 0 < x) :
    roundHalfEven (x / pow2 (max (ilog2 x) emin - ((p : Int) - 1))) ≤ 2 ^ p := by
  obtain ⟨_, k2⟩ := ilog2_spec x (ne_of_gt hx)
  rw [abs_of_pos hx] at k2
  have hx2 : x ≤ pow2 (max (ilog2 x) emin + 1) :=
    le_trans (le_of_lt k2) (pow2_le_pow2 (by omega))
  have hsplit : pow2 (max (ilog2 x) emin + 1)
      = pow2 (p : Int) * pow2 (max (ilog2 x) emin - ((p : Int) - 1)) := by
    rw [← pow2_add]; congr 1; ring
  have hq : x / pow2 (max (ilog2 x) emin - ((p : Int) - 1)) ≤ pow2 (p : Int) := by
    rw [div_le_iff₀ (pow2_pos _), ← hsplit]
    exact hx2
  have hr := roundHalfEven_mono hq
  rw [pow2_natCast_int, roundHalfEven_intCast] at hr
  exact hr

/-- Every rounded value is a value of the format. -/
theorem roundTo_rep (p : Nat) (hp : 1 ≤ p) (emin : Int) (x : ℚ) :
    ∃ (m k : Int), roundTo p emin x = (m : ℚ) * pow2 k ∧ |m| < 2 ^ p ∧
      emin - ((p : Int) - 1) ≤ k := by
  have hpos : ∀ y : ℚ, 0 < y → ∃ (m k : Int), roundTo p emin y = (m : ℚ) * pow2 k ∧
      |m| < 2 ^ p ∧ emin - ((p : Int) - 1) ≤ k := by
    intro y hy
    have hM := roundHalfEven_le_pow p emin hy
    have hM0 : 0 ≤ roundHalfEven (y / pow2 (max (ilog2 y) emin - ((p : Int) - 1))) :=
      roundHalfEven_nonneg (div_nonneg (le_of_lt hy) (le_of_lt (pow2_pos _)))
    have hUk : emin - ((p : Int) - 1) ≤ max (ilog2 y) emin - ((p : Int) - 1) := by
      have := le_max_right (ilog2 y) emin
      omega
    rcases lt_or_eq_of_le hM with hlt | heq
    · refine ⟨_, _, roundTo_of_ne p emin (ne_of_gt hy), ?_, hUk⟩
      rw [abs_of_nonneg hM0]
      exact hlt
    · refine ⟨2 ^ (p - 1), max (ilog2 y) emin - ((p : Int) - 1) + 1, ?_, ?_, by omega⟩
      · rw [roundTo_of_ne p emin (ne_of_gt hy), heq, pow2_add]
        have h2 : pow2 1 = 2 := by rw [pow2_eq]; norm_num
        rw [h2]
        have hpp : (2 : Int) ^ p = 2 ^ (p - 1) * 2 := by
          rw [← pow_succ]; congr 1; omega
        rw [hpp]
        push_cast
        ring
      · rw [abs_of_nonneg (by positivity)]
        exact pow_lt_pow_right₀ (by norm_num) (by omega)
  rcases lt_trichotomy x 0 with hx | hx | hx
  · obtain ⟨m, k, h1, h2, h3⟩ := hpos (-x) (neg_pos.mpr hx)
    refine ⟨-m, k, ?_, by rw [abs_neg]; exact h2, h3⟩
    rw [roundTo_neg] at h1
    push_cast
    linarith
  · refine ⟨0, emin - ((p : Int) - 1), ?_, by simp, le_refl _⟩
    rw [hx, roundTo_zero]; simp
  · exact hpos x hx

/-- A value of a format is a value of every format with at least as many
significant bits and at least as low a least exponent. -/
theorem roundTo_roundTo (p p' : Nat) (hp : 1 ≤ p) (hpp : p ≤ p') (emin emin' : Int)
    (he : emin' - ((p' : Int) - 1) ≤ emin - ((p : Int) - 1)) (x : ℚ) :
    roundTo p' emin' (roundTo p emin x) = roundTo p emin x := by
  obtain ⟨m, k, h1, h2, h3⟩ := roundTo_rep p hp emin x
  rw [h1]
  refine roundTo_of_rep p' emin' m k ?_ (by omega)
  calc |m| < 2 ^ p := h2
    _ ≤ 2 ^ p' := pow_le_pow_right₀ (by norm_num) hpp

/-! ### `float` and `double` -/

/-- A rational whose numerator is below `2 ^ p` in absolute value and whose
denominator is a power of two up to `2 ^ kmax` is a value of the format. -/
theorem roundTo_of_representable (p kmax : Nat) (emin : Int)
    (hk : emin - ((p : Int) - 1) ≤ -(kmax : Int)) {x : ℚ}
    (h : representable p kmax x = true) : roundTo p emin x = x := by
  unfold representable at h
  simp only [Bool.and_eq_true, decide_eq_true_eq] at h
  obtain ⟨hm, hd, hj⟩ := h
  have hx : x = (x.num : ℚ) * pow2 (-(natLog2 x.den : Int)) := by
    rw [pow2_eq, zpow_neg, zpow_natCast]
    have h2 : ((2 : ℚ) ^ natLog2 x.den) = (x.den : ℚ) := by
      conv_rhs => rw [hd]
      push_cast
      rfl
    rw [h2, ← div_eq_mul_inv, Rat.num_div_den]
  have hrep := roundTo_of_rep p emin x.num (-(natLog2 x.den : Int))
    (by
      rw [Int.abs_eq_natAbs]
      exact_mod_cast hm)
    (by
      have : -(kmax : Int) ≤ -(natLog2 x.den : Int) := by
        have : (natLog2 x.den : Int) ≤ (kmax : Int) := by exact_mod_cast hj
        linarith
      linarith)
  rw [← hx] at hrep
  exact hrep

/-- The shortcut in `toFloat` does not change the value: `toFloat x` is `x`
rounded to binary32. -/
theorem toFloat_eq_roundTo (x : ℚ) : toFloat x = roundTo 24 (-126) x := by
  unfold toFloat
  by_cases h : representable 24 149 x = true
  · rw [if_pos h, roundTo_of_representable 24 149 (-126) (by norm_num) h]
  · rw [if_neg h]

/-- The shortcut in `toDouble` does not change the value: `toDouble x` is `x`
rounded to binary64. -/
theorem toDouble_eq_roundTo (x : ℚ) : toDouble x = roundTo 53 (-1022) x := by
  unfold toDouble
  by_cases h : representable 53 1074 x = true
  · rw [if_pos h, roundTo_of_representable 53 1074 (-1022) (by norm_num) h]
  · rw [if_neg h]

theorem toFloat_zero : toFloat 0 = 0 := by
  rw [toFloat_eq_roundTo]
  exact roundTo_zero _ _

theorem toFloat_mono {x y : ℚ} (h : x ≤ y) : toFloat x ≤ toFloat y := by
  rw [toFloat_eq_roundTo, toFloat_eq_roundTo]
  exact roundTo_mono 24 (by norm_num) _ h

theorem toDouble_mono {x y : ℚ} (h : x ≤ y) : toDouble x ≤ toDouble y := by
  rw [toDouble_eq_roundTo, toDouble_eq_roundTo]
  exact roundTo_mono 53 (by norm_num) _ h

theorem toFloat_nonneg {x : ℚ} (h : 0 ≤ x) : 0 ≤ toFloat x := by
  rw [toFloat_eq_roundTo]
  exact roundTo_nonneg 24 (by norm_num) _ h

theorem toFloat_toFloat (x : ℚ) : toFloat (toFloat x) = toFloat x := by
  rw [toFloat_eq_roundTo (toFloat x), toFloat_eq_roundTo x]
  exact roundTo_roundTo 24 24 (by norm_num) (le_refl _) _ _ (le_refl _) x

theorem toDouble_toFloat (x : ℚ) : toDouble (toFloat x) = toFloat x := by
  rw [toDouble_eq_roundTo, toFloat_eq_roundTo]
  exact roundTo_roundTo 24 53 (by norm_num) (by norm_num) _ _ (by norm_num) x

/-- The corner below a `float` centre does not exceed the centre, and the
corner above is not below it, however the sums round. -/
theorem corner_le_center (c0 h : ℚ) (hh : 0 ≤ h) :
    toFloat (toDouble (toFloat c0 - h)) ≤ toFloat c0 ∧
    toFloat c0 ≤ toFloat (toDouble (toFloat c0 + h)) := by
  constructor
  · have h1 : toDouble (toFloat c0 - h) ≤ toDouble (toFloat c0) :=
      toDouble_mono (by linarith)
    rw [toDouble_toFloat] at h1
    have h2 := toFloat_mono h1
    rw [toFloat_toFloat] at h2
    exact h2
  · have h1 : toDouble (toFloat c0) ≤ toDouble (toFloat c0 + h) :=
      toDouble_mono (by linarith)
    rw [toDouble_toFloat] at h1
    have h2 := toFloat_mono h1
    rw [toFloat_toFloat] at h2
    exact h2

end Ieee754

/-! ## Facts about the box primitive -/

namespace Collisions.AABB

theorem contains_iff (b o : AABB) : b.contains o = true ↔
    (b.minCorner.x ≤ o.minCorner.x ∧ o.maxCorner.x ≤ b.maxCorner.x ∧
    b.minCorner.y ≤ o.minCorner.y ∧ o.maxCorner.y ≤ b.maxCorner.y ∧
    b.minCorner.z ≤ o.minCorner.z ∧ o.maxCorner.z ≤ b.maxCorner.z) := by
  simp [contains]

theorem intersects2_iff (b o : AABB) : b.intersects2 o = true ↔
    (b.minCorner.x ≤ o.maxCorner.x ∧ o.minCorner.x ≤ b.maxCorner.x ∧
    b.minCorner.y ≤ o.maxCorner.y ∧ o.minCorner.y ≤ b.maxCorner.y ∧
    b.minCorner.z ≤ o.maxCorner.z ∧ o.minCorner.z ≤ b.maxCorner.z) := by
  simp [intersects2]

theorem minCorner_le_maxCorner (b : AABB) :
    b.minCorner.x ≤ b.maxCorner.x ∧ b.minCorner.y ≤ b.maxCorner.y ∧
      b.minCorner.z ≤ b.maxCorner.z := by
  simp only [minCorner, maxCorner]
  exact ⟨min_le_max, min_le_max, min_le_max⟩

theorem contains_trans {a b c : AABB} (hab : a.contains b = true) (hbc : b.contains c = true) :
    a.contains c = true := by
  rw [contains_iff] at *
  obtain ⟨h1, h2, h3, h4, h5, h6⟩ := hab
  obtain ⟨k1, k2, k3, k4, k5, k6⟩ := hbc
  exact ⟨h1.trans k1, k2.trans h2, h3.trans k3, k4.trans h4, h5.trans k5, k6.trans h6⟩

theorem intersects2_of_contains {b o : AABB} (h : b.contains o = true) :
    b.intersects2 o = true := by
  rw [contains_iff] at h
  rw [intersects2_iff]
  obtain ⟨h1, h2, h3, h4, h5, h6⟩ := h
  obtain ⟨m1, m2, m3⟩ := minCorner_le_maxCorner o
  exact ⟨h1.trans m1, m1.trans h2, h3.trans m2, m2.trans h4, h5.trans m3, m3.trans h6⟩

end Collisions.AABB

namespace DataStructures

open Collisions Trees

namespace Octree

variable {T : Type}

/-! ## Geometry of the octants -/

/-! ## The scan of `recursive_insert` -/

theorem insert_scan_some {d : OctreeNode T} {area : AABB} {i : Fin 8}
    (h : insert_scan d area = some i) :
    (d.m_OctantsBounds i).contains area = true ∧ d.m_Depth ≤ d.m_MaxDepth := by
  have := List.find?_some h
  simpa using this

theorem insert_scan_none {d : OctreeNode T} {area : AABB}
    (h : insert_scan d area = none) (i : Fin 8) :
    (d.m_OctantsBounds i).contains area = true → ¬ d.m_Depth ≤ d.m_MaxDepth := by
  have := List.find?_eq_none.mp h i (List.mem_finRange i)
  simpa using this

theorem insert_scan_congr {d e : OctreeNode T} (area : AABB)
    (hb : d.m_OctantsBounds = e.m_OctantsBounds) (hd : d.m_Depth = e.m_Depth)
    (hm : d.m_MaxDepth = e.m_MaxDepth) : insert_scan d area = insert_scan e area := by
  simp only [insert_scan, hb, hd, hm]

theorem insert_scan_eq_depth_first (d : OctreeNode T) (area : AABB) :
    insert_scan d area = insert_scan_depth_first d area := by
  unfold insert_scan insert_scan_depth_first
  by_cases h : d.m_Depth ≤ d.m_MaxDepth
  · simp [h]
  · simp [h]

theorem recursive_insert_succ_node (dflt : AABB) (fuel : Nat) (d : OctreeNode T)
    (cs : Fin 8 → Octree T) (object : T) (area : AABB) :
    recursive_insert dflt (fuel + 1) (node d cs) object area =
      match insert_scan d area with
      | some i =>
        match recursive_insert dflt fuel
          (if (cs i).isSome then cs i
            else mk3 dflt (d.m_OctantsBounds i) (d.m_Depth + 1) d.m_MinimumDimensions)
          object area with
        | none => none
        | some (loc, child1) => some (underSlot i loc, node d (Function.update cs i child1))
      | none =>
        if d.m_Item.isEmpty then
          if d.m_Position.contains area then
            some (⟨some [], d.m_Item.length, area⟩, node { d with m_Item := d.m_Item ++ [object] } cs)
          else some (noLocation dflt, node d cs)
        else some (noLocation dflt, node d cs) := rfl

theorem recursive_insert_depth_first_succ_node (dflt : AABB) (fuel : Nat) (d : OctreeNode T)
    (cs : Fin 8 → Octree T) (object : T) (area : AABB) :
    recursive_insert_depth_first dflt (fuel + 1) (node d cs) object area =
      match insert_scan_depth_first d area with
      | some i =>
        match recursive_insert_depth_first dflt fuel
          (if (cs i).isSome then cs i
            else mk3 dflt (d.m_OctantsBounds i) (d.m_Depth + 1) d.m_MinimumDimensions)
          object area with
        | none => none
        | some (loc, child1) => some (underSlot i loc, node d (Function.update cs i child1))
      | none =>
        if d.m_Item.isEmpty then
          if d.m_Position.contains area then
            some (⟨some [], d.m_Item.length, area⟩, node { d with m_Item := d.m_Item ++ [object] } cs)
          else some (noLocation dflt, node d cs)
        else some (noLocation dflt, node d cs) := rfl

theorem recursive_insert_eq_depth_first (dflt : AABB) (fuel : Nat) (t : Octree T) (object : T)
    (area : AABB) :
    recursive_insert dflt fuel t object area
      = recursive_insert_depth_first dflt fuel t object area := by
  induction fuel generalizing t with
  | zero => rfl
  | succ fuel ih =>
    cases t with
    | null => rfl
    | node d cs =>
      rw [recursive_insert_succ_node, recursive_insert_depth_first_succ_node,
        insert_scan_eq_depth_first]
      cases insert_scan_depth_first d area with
      | none => rfl
      | some i => simp only [ih]

/-! ## Case analysis of `recursive_insert` -/

theorem isSome_node (d : OctreeNode T) (cs : Fin 8 → Octree T) : (node d cs).isSome = true := rfl

/-- The three ways a call of `recursive_insert` ends, as an induction principle:
the object is stored at the node, the node rejects it, or the call returns what
the chosen child returns. -/
theorem recursive_insert_cases (dflt : AABB) (object : T) (area : AABB)
    (motive : Nat → Octree T → Location (Fin 8) × Octree T → Prop)
    (store : ∀ fuel d cs, insert_scan d area = none → d.m_Item = [] →
      d.m_Position.contains area = true →
      motive (fuel + 1) (node d cs) (⟨some [], 0, area⟩, node { d with m_Item := [object] } cs))
    (reject : ∀ fuel d cs, insert_scan d area = none →
      ¬ (d.m_Item = [] ∧ d.m_Position.contains area = true) →
      motive (fuel + 1) (node d cs) (noLocation dflt, node d cs))
    (descend : ∀ fuel d cs i child loc child1, insert_scan d area = some i →
      child = (if (cs i).isSome then cs i
        else mk3 dflt (d.m_OctantsBounds i) (d.m_Depth + 1) d.m_MinimumDimensions) →
      recursive_insert dflt fuel child object area = some (loc, child1) →
      motive fuel child (loc, child1) →
      motive (fuel + 1) (node d cs) (underSlot i loc, node d (Function.update cs i child1)))
    (fuel : Nat) (t : Octree T) (res : Location (Fin 8) × Octree T)
    (h : recursive_insert dflt fuel t object area = some res) : motive fuel t res := by
  induction fuel generalizing t res with
  | zero => exact absurd h (by intro h; cases h)
  | succ fuel ih =>
    cases t with
    | null => exact absurd h (by intro h; cases h)
    | node d cs =>
      rw [recursive_insert_succ_node] at h
      cases hs : insert_scan d area with
      | none =>
        rw [hs] at h
        simp only at h
        by_cases he : d.m_Item = []
        · by_cases hc : d.m_Position.contains area = true
          · simp only [he, hc, List.isEmpty_nil, if_true, List.length_nil, List.nil_append,
              Option.some.injEq] at h
            subst h
            exact store fuel d cs hs he hc
          · simp only [he, hc, List.isEmpty_nil, if_true, Bool.false_eq_true, if_false,
              Option.some.injEq] at h
            subst h
            exact reject fuel d cs hs (fun hh => hc hh.2)
        · have hne : d.m_Item.isEmpty = false := by
            cases hd : d.m_Item with
            | nil => exact absurd hd he
            | cons a l => rfl
          simp only [hne, Bool.false_eq_true, if_false, Option.some.injEq] at h
          subst h
          exact reject fuel d cs hs (fun hh => he hh.1)
      | some i =>
        rw [hs] at h
        simp only at h
        cases hr : recursive_insert dflt fuel
            (if (cs i).isSome then cs i
              else mk3 dflt (d.m_OctantsBounds i) (d.m_Depth + 1) d.m_MinimumDimensions)
            object area with
        | none => rw [hr] at h; simp at h
        | some r =>
          obtain ⟨loc, child1⟩ := r
          rw [hr] at h
          simp only [Option.some.injEq] at h
          subst h
          exact descend fuel d cs i _ loc child1 hs rfl hr (ih _ _ hr)

end Octree

end DataStructures

namespace DataStructures

open Collisions Trees

namespace Octree

variable {T : Type}

/-! ## Predicates over all objects of a tree -/

theorem all_node {P : OctreeNode T → Prop} {d : OctreeNode T} {cs : Fin 8 → Octree T} :
    All P (node d cs) ↔ P d ∧ ∀ i, All P (cs i) := Iff.rfl

theorem all_nodeAt {P : OctreeNode T → Prop} {t : Octree T} (h : All P t) :
    ∀ {p : List (Fin 8)} {d : OctreeNode T}, nodeAt t p = some d → P d := by
  induction t with
  | null => intro p d hp; cases hp
  | node e cs ih =>
    intro p d hp
    cases p with
    | nil =>
      simp only [nodeAt, Option.some.injEq] at hp
      subst hp
      exact h.1
    | cons i p => exact ih i (h.2 i) hp

theorem all_imp {P Q : OctreeNode T → Prop} (hPQ : ∀ d, P d → Q d) {t : Octree T}
    (h : All P t) : All Q t := by
  induction t with
  | null => trivial
  | node e cs ih => exact ⟨hPQ _ h.1, fun i => ih i (h.2 i)⟩

theorem itemsAt_null (p : List (Fin 8)) : itemsAt (null : Octree T) p = [] := rfl

theorem itemsAt_nil (d : OctreeNode T) (cs : Fin 8 → Octree T) :
    itemsAt (node d cs) [] = d.m_Item := rfl

theorem itemsAt_cons (d : OctreeNode T) (cs : Fin 8 → Octree T) (i : Fin 8) (p : List (Fin 8)) :
    itemsAt (node d cs) (i :: p) = itemsAt (cs i) p := rfl

theorem itemsAt_of_all_empty {t : Octree T} (h : All (fun d => d.m_Item = []) t)
    (p : List (Fin 8)) : itemsAt t p = [] := by
  unfold itemsAt
  cases hn : nodeAt t p with
  | none => rfl
  | some d => exact all_nodeAt h hn

theorem size_node (d : OctreeNode T) (cs : Fin 8 → Octree T) :
    (node d cs).size = (if !d.m_Item.isEmpty then d.m_Item.length else 0)
      + ((List.finRange 8).map (fun i => (cs i).size)).sum := rfl

theorem size_node_eq (d : OctreeNode T) (cs : Fin 8 → Octree T) :
    (node d cs).size = d.m_Item.length + ∑ i : Fin 8, (cs i).size := by
  rw [size_node, Fin.sum_univ_def]
  cases d.m_Item <;> rfl

theorem size_of_all_empty {t : Octree T} (h : All (fun d => d.m_Item = []) t) : t.size = 0 := by
  induction t with
  | null => rfl
  | node e cs ih =>
    rw [size_node_eq]
    have h1 : e.m_Item = [] := h.1
    have h2 : ∀ i, (cs i).size = 0 := fun i => ih i (h.2 i)
    simp [h1, h2]

/-! ## Freshly constructed trees -/

/-- The members right after a constructor initialised them. -/
theorem all_recursive_subdivide (dflt : AABB) (P : OctreeNode T → Prop)
    (hleaf : ∀ d : OctreeNode T, d.m_Item = [] → d.m_IsLeaf = true →
      (∀ i, d.m_OctantsBounds i = dflt) → P d)
    (hsub : ∀ d : OctreeNode T, d.m_Item = [] → d.m_IsLeaf = true →
      (∀ i, d.m_OctantsBounds i = dflt) → d.m_Depth ≤ d.m_MaxDepth →
      P { d with
          m_OctantsBounds := fun i => calculate_bounding_box d.m_Position (d.m_OctantsBounds i) i
          m_IsLeaf := false }) :
    ∀ (fuel : Nat) (d : OctreeNode T), d.m_Item = [] → d.m_IsLeaf = true →
      (∀ i, d.m_OctantsBounds i = dflt) → All P (recursive_subdivide dflt fuel d) := by
  intro fuel
  induction fuel with
  | zero =>
    intro d h1 h2 h3
    exact ⟨hleaf d h1 h2 h3, fun _ => trivial⟩
  | succ fuel ih =>
    intro d h1 h2 h3
    unfold recursive_subdivide
    split
    · exact ⟨hleaf d h1 h2 h3, fun _ => trivial⟩
    · split
      · exact ⟨hleaf d h1 h2 h3, fun _ => trivial⟩
      · rename_i hdepth
        simp only
        split
        · exact ⟨hleaf d h1 h2 h3, fun _ => trivial⟩
        · refine ⟨hsub d h1 h2 h3 (by simpa using hdepth), fun i => ?_⟩
          exact ih _ rfl rfl (fun _ => rfl)

theorem recursive_subdivide_isSome (dflt : AABB) (fuel : Nat) (d : OctreeNode T) :
    (recursive_subdivide dflt fuel d).isSome = true := by
  cases fuel with
  | zero => rfl
  | succ fuel =>
    unfold recursive_subdivide
    split
    · rfl
    · split
      · rfl
      · simp only
        split <;> rfl

theorem all_mk3 (dflt : AABB) (P : OctreeNode T → Prop)
    (hleaf : ∀ d : OctreeNode T, d.m_Item = [] → d.m_IsLeaf = true →
      (∀ i, d.m_OctantsBounds i = dflt) → P d)
    (hsub : ∀ d : OctreeNode T, d.m_Item = [] → d.m_IsLeaf = true →
      (∀ i, d.m_OctantsBounds i = dflt) → d.m_Depth ≤ d.m_MaxDepth →
      P { d with
          m_OctantsBounds := fun i => calculate_bounding_box d.m_Position (d.m_OctantsBounds i) i
          m_IsLeaf := false })
    (bb : AABB) (maxDepth minDim : Nat) : All P (mk3 dflt bb maxDepth minDim : Octree T) :=
  all_recursive_subdivide dflt P hleaf hsub _ _ rfl rfl (fun _ => rfl)

theorem all_empty_mk3 (dflt bb : AABB) (maxDepth minDim : Nat) :
    All (fun d => d.m_Item = []) (mk3 dflt bb maxDepth minDim : Octree T) :=
  all_mk3 dflt _ (fun _ h _ _ => h) (fun _ h _ _ _ => h) bb maxDepth minDim

theorem all_kept_mk3 (dflt bb : AABB) (maxDepth minDim : Nat) :
    All (Kept dflt) (mk3 dflt bb maxDepth minDim : Octree T) := by
  refine all_mk3 dflt _ ?_ ?_ bb maxDepth minDim
  · intro d h1 h2 h3
    refine ⟨by simp [h1], fun _ => h3, fun hf => ?_⟩
    rw [h2] at hf
    cases hf
  · intro d h1 h2 h3 h4
    refine ⟨by simp [h1], ?_, ?_⟩
    · intro hf
      cases hf
    · intro _
      refine ⟨h4, fun i => ?_⟩
      simp only [h3]

theorem mk3_isSome (dflt bb : AABB) (maxDepth minDim : Nat) :
    (mk3 dflt bb maxDepth minDim : Octree T).isSome = true :=
  recursive_subdivide_isSome dflt _ _

end Octree

end DataStructures

namespace DataStructures

open Collisions Trees

namespace Octree

variable {T : Type}

/-! ## What one call of `recursive_insert` does to the tree -/

theorem isSome_eq_false {t : Octree T} (h : ¬ t.isSome = true) : t = null := by
  cases t with
  | null => rfl
  | node d cs => exact absurd rfl h

theorem itemsAt_child (dflt : AABB) (c : Octree T) (bb : AABB) (maxDepth minDim : Nat)
    (q : List (Fin 8)) :
    itemsAt (if c.isSome then c else mk3 dflt bb maxDepth minDim) q = itemsAt c q := by
  by_cases h : c.isSome = true
  · rw [if_pos h]
  · rw [if_neg h, isSome_eq_false h, itemsAt_null]
    exact itemsAt_of_all_empty (all_empty_mk3 dflt bb maxDepth minDim) q

theorem size_child (dflt : AABB) (c : Octree T) (bb : AABB) (maxDepth minDim : Nat) :
    (if c.isSome then c else mk3 dflt bb maxDepth minDim).size = c.size := by
  by_cases h : c.isSome = true
  · rw [if_pos h]
  · rw [if_neg h, isSome_eq_false h]
    exact size_of_all_empty (all_empty_mk3 dflt bb maxDepth minDim)

theorem all_child (dflt : AABB) {P : OctreeNode T → Prop} {c : Octree T} (hc : All P c)
    (bb : AABB) (maxDepth minDim : Nat) (hm : All P (mk3 dflt bb maxDepth minDim : Octree T)) :
    All P (if c.isSome then c else mk3 dflt bb maxDepth minDim) := by
  by_cases h : c.isSome = true
  · rw [if_pos h]; exact hc
  · rw [if_neg h]; exact hm

theorem all_update {P : OctreeNode T → Prop} {d : OctreeNode T} {cs : Fin 8 → Octree T}
    (hd : P d) (hcs : ∀ j, All P (cs j)) (i : Fin 8) {c : Octree T} (hc : All P c) :
    All P (node d (Function.update cs i c)) := by
  refine ⟨hd, fun j => ?_⟩
  by_cases hj : j = i
  · subst hj; rw [Function.update_same]; exact hc
  · rw [Function.update_noteq hj]; exact hcs j

theorem sum_size_update (cs : Fin 8 → Octree T) (i : Fin 8) (c : Octree T) :
    (∑ j : Fin 8, (Function.update cs i c j).size) + (cs i).size
      = (∑ j : Fin 8, (cs j).size) + c.size := by
  have h1 : (fun j => (Function.update cs i c j).size)
      = Function.update (fun j => (cs j).size) i c.size := by
    funext j
    exact Function.apply_update (fun _ t => Octree.size t) cs i c j
  rw [h1, Finset.sum_update_of_mem (Finset.mem_univ i)]
  have h2 := Finset.add_sum_erase Finset.univ (fun j => (cs j).size) (Finset.mem_univ i)
  have h3 : Finset.univ \ {i} = Finset.univ.erase i := by
    ext j; simp
  rw [h3]
  simp only at h2
  omega

theorem underSlot_container_isSome (i : Fin 8) (loc : Location (Fin 8)) :
    (underSlot i loc).items_container.isSome = loc.items_container.isSome := by
  cases h : loc.items_container <;> simp [underSlot, h]

theorem underSlot_container_eq_some {i : Fin 8} {loc : Location (Fin 8)} {p : List (Fin 8)}
    (h : (underSlot i loc).items_container = some p) :
    ∃ q, loc.items_container = some q ∧ p = i :: q := by
  cases hl : loc.items_container with
  | none => simp [underSlot, hl] at h
  | some q =>
    refine ⟨q, rfl, ?_⟩
    simp [underSlot, hl] at h
    exact h.symm

theorem underSlot_noLocation (dflt : AABB) (i : Fin 8) :
    underSlot i (noLocation dflt) = noLocation dflt := rfl

/-- A call that returns leaves a node behind, with the members of the node it
was made on unchanged except for the item list. -/
theorem recursive_insert_root (dflt : AABB) (object : T) (area : AABB) (fuel : Nat)
    (t : Octree T) (res : Location (Fin 8) × Octree T)
    (h : recursive_insert dflt fuel t object area = some res) :
    ∃ d cs e cs', t = node d cs ∧ res.2 = node e cs' ∧ e = { d with m_Item := e.m_Item } := by
  refine recursive_insert_cases dflt object area
    (fun _ t res => ∃ d cs e cs', t = node d cs ∧ res.2 = node e cs' ∧
      e = { d with m_Item := e.m_Item }) ?_ ?_ ?_ fuel t res h
  · intro _ d cs _ _ _
    exact ⟨d, cs, _, cs, rfl, rfl, rfl⟩
  · intro _ d cs _ _
    exact ⟨d, cs, d, cs, rfl, rfl, rfl⟩
  · intro _ d cs i child loc child1 _ _ _ _
    exact ⟨d, cs, d, _, rfl, rfl, rfl⟩

theorem recursive_insert_isSome (dflt : AABB) (object : T) (area : AABB) (fuel : Nat)
    (t : Octree T) (res : Location (Fin 8) × Octree T)
    (h : recursive_insert dflt fuel t object area = some res) : res.2.isSome = true := by
  obtain ⟨_, _, _, _, _, h2, _⟩ := recursive_insert_root dflt object area fuel t res h
  rw [h2]; rfl

/-- The invariant `Kept` survives a call of `recursive_insert`. -/
theorem recursive_insert_all_kept (dflt : AABB) (object : T) (area : AABB) (fuel : Nat)
    (t : Octree T) (res : Location (Fin 8) × Octree T)
    (h : recursive_insert dflt fuel t object area = some res) :
    All (Kept dflt) t → All (Kept dflt) res.2 := by
  refine recursive_insert_cases dflt object area
    (fun _ t res => All (Kept dflt) t → All (Kept dflt) res.2) ?_ ?_ ?_ fuel t res h
  · intro _ d cs _ he _ hall
    refine ⟨?_, hall.2⟩
    obtain ⟨_, k2, k3⟩ := hall.1
    exact ⟨by simp, k2, k3⟩
  · intro _ d cs _ _ hall
    exact hall
  · intro _ d cs i child loc child1 _ hchild _ ih hall
    refine all_update hall.1 hall.2 i (ih ?_)
    rw [hchild]
    exact all_child dflt (hall.2 i) _ _ _ (all_kept_mk3 dflt _ _ _)

/-- The effect of an accepted `recursive_insert`: where the object went, and
that nothing else moved. -/
theorem recursive_insert_effect (dflt : AABB) (object : T) (area : AABB) (fuel : Nat)
    (t : Octree T) (res : Location (Fin 8) × Octree T)
    (h : recursive_insert dflt fuel t object area = some res) :
    ∀ p, res.1.items_container = some p →
      (res.1.aabb = area ∧ res.1.items_iterator = 0) ∧ itemsAt t p = [] ∧
      itemsAt res.2 p = [object] ∧
      res.2.size = t.size + 1 ∧ ∀ q, q ≠ p → itemsAt res.2 q = itemsAt t q := by
  refine recursive_insert_cases dflt object area
    (fun _ t res => ∀ p, res.1.items_container = some p →
      (res.1.aabb = area ∧ res.1.items_iterator = 0) ∧ itemsAt t p = [] ∧
      itemsAt res.2 p = [object] ∧
      res.2.size = t.size + 1 ∧ ∀ q, q ≠ p → itemsAt res.2 q = itemsAt t q) ?_ ?_ ?_ fuel t res h
  · intro _ d cs _ he _ p hp
    simp only [Option.some.injEq] at hp
    subst hp
    refine ⟨⟨rfl, rfl⟩, he, rfl, ?_, ?_⟩
    · rw [size_node_eq, size_node_eq, he]
      simp only [List.length_singleton, List.length_nil]
      omega
    · intro q hq
      cases q with
      | nil => exact absurd rfl hq
      | cons j q => rfl
  · intro _ d cs _ _ p hp
    cases hp
  · intro _ d cs i child loc child1 _ hchild _ ih p hp
    obtain ⟨q, hq, rfl⟩ := underSlot_container_eq_some hp
    obtain ⟨k1, k2, k3, k4, k5⟩ := ih q hq
    have hitems : ∀ q', itemsAt child q' = itemsAt (cs i) q' := by
      intro q'; rw [hchild]; exact itemsAt_child dflt _ _ _ _ q'
    have hsize : child.size = (cs i).size := by
      rw [hchild]; exact size_child dflt _ _ _ _
    refine ⟨k1, ?_, ?_, ?_, ?_⟩
    · rw [itemsAt_cons, ← hitems]; exact k2
    · rw [itemsAt_cons, Function.update_same]; exact k3
    · have := sum_size_update cs i child1
      rw [size_node_eq, size_node_eq]
      simp only at k4
      omega
    · intro q' hq'
      cases q' with
      | nil => rfl
      | cons j q' =>
        rw [itemsAt_cons, itemsAt_cons]
        by_cases hj : j = i
        · subst hj
          rw [Function.update_same, ← hitems]
          exact k5 q' (fun hh => hq' (by rw [hh]))
        · rw [Function.update_noteq hj]

/-- A rejected `recursive_insert` leaves every item list as it was. -/
theorem recursive_insert_rejected (dflt : AABB) (object : T) (area : AABB) (fuel : Nat)
    (t : Octree T) (res : Location (Fin 8) × Octree T)
    (h : recursive_insert dflt fuel t object area = some res) :
    res.1.items_container = none →
      res.2.size = t.size ∧ ∀ q, itemsAt res.2 q = itemsAt t q := by
  refine recursive_insert_cases dflt object area
    (fun _ t res => res.1.items_container = none →
      res.2.size = t.size ∧ ∀ q, itemsAt res.2 q = itemsAt t q) ?_ ?_ ?_ fuel t res h
  · intro _ d cs _ _ _ hp
    cases hp
  · intro _ d cs _ _ _
    exact ⟨rfl, fun _ => rfl⟩
  · intro _ d cs i child loc child1 _ hchild _ ih hp
    have hloc : loc.items_container = none := by
      cases hl : loc.items_container with
      | none => rfl
      | some q => simp [underSlot, hl] at hp
    obtain ⟨k1, k2⟩ := ih hloc
    have hitems : ∀ q', itemsAt child q' = itemsAt (cs i) q' := by
      intro q'; rw [hchild]; exact itemsAt_child dflt _ _ _ _ q'
    have hsize : child.size = (cs i).size := by
      rw [hchild]; exact size_child dflt _ _ _ _
    refine ⟨?_, ?_⟩
    · have := sum_size_update cs i child1
      rw [size_node_eq, size_node_eq]
      simp only at k1
      omega
    · intro q'
      cases q' with
      | nil => rfl
      | cons j q' =>
        rw [itemsAt_cons, itemsAt_cons]
        by_cases hj : j = i
        · subst hj
          rw [Function.update_same, ← hitems]
          exact k2 q'
        · rw [Function.update_noteq hj]

end Octree

end DataStructures

namespace DataStructures

open Collisions Trees

namespace Octree

variable {T : Type}

/-! ## The public `insert` and sequences of calls -/

theorem insert_cases {dflt : AABB} {fuel : Nat} {t : Octree T} {object : T} {area : AABB}
    {res : Location (Fin 8) × Octree T} (h : insert dflt fuel t object area = some res) :
    (∃ d cs, t = node d cs ∧ d.m_NodeReady = false ∧ res = (noLocation dflt, t)) ∨
    (∃ d cs, t = node d cs ∧ d.m_NodeReady = true ∧
      recursive_insert dflt fuel t object area = some res) := by
  cases t with
  | null => cases h
  | node d cs =>
    unfold insert at h
    cases hr : d.m_NodeReady with
    | false =>
      left
      simp only [hr, Bool.not_false, if_true, Option.some.injEq] at h
      exact ⟨d, cs, rfl, hr, h.symm⟩
    | true =>
      right
      simp only [hr, Bool.not_true, Bool.false_eq_true, if_false] at h
      exact ⟨d, cs, rfl, hr, h⟩

theorem insert_all_kept {dflt : AABB} {fuel : Nat} {t : Octree T} {object : T} {area : AABB}
    {res : Location (Fin 8) × Octree T} (h : insert dflt fuel t object area = some res)
    (hall : All (Kept dflt) t) : All (Kept dflt) res.2 := by
  rcases insert_cases h with ⟨d, cs, _, _, rfl⟩ | ⟨d, cs, _, _, hr⟩
  · exact hall
  · exact recursive_insert_all_kept dflt object area fuel t res hr hall

theorem insert_isSome {dflt : AABB} {fuel : Nat} {t : Octree T} {object : T} {area : AABB}
    {res : Location (Fin 8) × Octree T} (h : insert dflt fuel t object area = some res) :
    res.2.isSome = true := by
  rcases insert_cases h with ⟨d, cs, rfl, _, rfl⟩ | ⟨d, cs, _, _, hr⟩
  · rfl
  · exact recursive_insert_isSome dflt object area fuel t res hr

theorem inserts_all_kept {dflt : AABB} {t t' : Octree T} (h : Inserts dflt t t')
    (hall : All (Kept dflt) t) : All (Kept dflt) t' := by
  induction h with
  | refl => exact hall
  | step _ hins ih => exact insert_all_kept hins ih

theorem inserts_isSome {dflt : AABB} {t t' : Octree T} (h : Inserts dflt t t')
    (hs : t.isSome = true) : t'.isSome = true := by
  induction h with
  | refl => exact hs
  | step _ hins _ => exact insert_isSome hins

theorem reachable_all_kept {dflt : AABB} {t : Octree T} (h : Reachable dflt t) :
    All (Kept dflt) t := by
  obtain ⟨bb, maxDepth, minDim, hi⟩ := h
  exact inserts_all_kept hi (all_kept_mk3 dflt bb maxDepth minDim)

theorem reachable_node {dflt : AABB} {t : Octree T} (h : Reachable dflt t) :
    ∃ d cs, t = node d cs := by
  obtain ⟨bb, maxDepth, minDim, hi⟩ := h
  have := inserts_isSome hi (mk3_isSome dflt bb maxDepth minDim)
  cases t with
  | null => cases this
  | node d cs => exact ⟨d, cs, rfl⟩

/-- The scan selects no slot for an area that none of the stored child boxes of
the node contains. -/
theorem insert_scan_outside {d : OctreeNode T} {area : AABB}
    (hboxes : ∀ i, (d.m_OctantsBounds i).contains area = false) :
    insert_scan d area = none := by
  unfold insert_scan
  rw [List.find?_eq_none]
  intro i _
  simp [hboxes i]

/-- A second accepted-looking call with the same area ends at the node the
first call filled and is rejected there. -/
theorem recursive_insert_again (dflt : AABB) (object other : T) (area : AABB) (fuel : Nat)
    (t : Octree T) (res : Location (Fin 8) × Octree T)
    (h : recursive_insert dflt fuel t object area = some res) :
    res.1.items_container.isSome = true →
      recursive_insert dflt fuel res.2 other area = some (noLocation dflt, res.2) := by
  refine recursive_insert_cases dflt object area
    (fun fuel _ res => res.1.items_container.isSome = true →
      recursive_insert dflt fuel res.2 other area = some (noLocation dflt, res.2))
    ?_ ?_ ?_ fuel t res h
  · intro fuel d cs hs _ _ _
    rw [recursive_insert_succ_node]
    have hs' : insert_scan { d with m_Item := [object] } area = none := by
      rw [← hs]; exact insert_scan_congr area rfl rfl rfl
    rw [hs']
    rfl
  · intro _ d cs _ _ hp
    cases hp
  · intro fuel d cs i child loc child1 hs _ hr ih hp
    rw [underSlot_container_isSome] at hp
    have h1 := recursive_insert_isSome dflt object area fuel child (loc, child1) hr
    have h2 := ih hp
    simp only at h1 h2
    rw [recursive_insert_succ_node, hs]
    simp only [Function.update_same, h1, if_true, h2, underSlot_noLocation,
      Function.update_idem]

end Octree

end DataStructures

namespace DataStructures

open Collisions Trees

namespace Octree

variable {T : Type}

/-! ## Depth-first search -/

theorem mem_recursive_dfs_node {z : T} {d : OctreeNode T} {cs : Fin 8 → Octree T} {area : AABB} :
    z ∈ recursive_dfs (node d cs) area ↔
      z ∈ (if !d.m_Item.isEmpty then
            (if d.m_Position.contains area then d.m_Item
             else if d.m_IsLeaf && d.m_Position.intersects2 area then d.m_Item
             else [])
          else []) ∨
      ∃ i, (cs i).isSome = true ∧ (d.m_OctantsBounds i).intersects2 area = true ∧
        z ∈ recursive_dfs (cs i) area := by
  rw [recursive_dfs, List.mem_append, List.mem_flatten]
  constructor
  · rintro (h | ⟨l, hl, hz⟩)
    · exact Or.inl h
    · right
      rw [List.mem_map] at hl
      obtain ⟨i, _, rfl⟩ := hl
      by_cases h1 : (cs i).isSome = true
      · by_cases h2 : (d.m_OctantsBounds i).intersects2 area = true
        · rw [if_pos h1, if_pos h2] at hz
          exact ⟨i, h1, h2, hz⟩
        · rw [if_pos h1, if_neg h2] at hz
          cases hz
      · rw [if_neg h1] at hz
        cases hz
  · rintro (h | ⟨i, h1, h2, hz⟩)
    · exact Or.inl h
    · right
      refine ⟨_, List.mem_map.mpr ⟨i, List.mem_finRange i, rfl⟩, ?_⟩
      rw [if_pos h1, if_pos h2]
      exact hz

/-- An accepted call leaves the object where a depth-first search for the same
area finds it. -/
theorem recursive_insert_mem_dfs (dflt : AABB) (object : T) (area : AABB) (fuel : Nat)
    (t : Octree T) (res : Location (Fin 8) × Octree T)
    (h : recursive_insert dflt fuel t object area = some res) :
    res.1.items_container.isSome = true → object ∈ recursive_dfs res.2 area := by
  refine recursive_insert_cases dflt object area
    (fun _ _ res => res.1.items_container.isSome = true → object ∈ recursive_dfs res.2 area)
    ?_ ?_ ?_ fuel t res h
  · intro _ d cs _ _ hc _
    rw [mem_recursive_dfs_node]
    left
    simp [hc]
  · intro _ d cs _ _ hp
    cases hp
  · intro fuel d cs i child loc child1 hs _ hr ih hp
    rw [underSlot_container_isSome] at hp
    rw [mem_recursive_dfs_node]
    right
    refine ⟨i, ?_, AABB.intersects2_of_contains (insert_scan_some hs).1, ?_⟩
    · rw [Function.update_same]
      exact recursive_insert_isSome dflt object area fuel child (loc, child1) hr
    · rw [Function.update_same]
      exact ih hp

/-- A call of `recursive_insert` removes nothing from the result of any
depth-first search. -/
theorem recursive_insert_dfs_mono (dflt : AABB) (object : T) (area : AABB) (fuel : Nat)
    (t : Octree T) (res : Location (Fin 8) × Octree T)
    (h : recursive_insert dflt fuel t object area = some res) :
    ∀ (z : T) (query : AABB), z ∈ recursive_dfs t query → z ∈ recursive_dfs res.2 query := by
  refine recursive_insert_cases dflt object area
    (fun _ t res => ∀ (z : T) (query : AABB),
      z ∈ recursive_dfs t query → z ∈ recursive_dfs res.2 query)
    ?_ ?_ ?_ fuel t res h
  · intro _ d cs _ he _ z query hz
    rw [mem_recursive_dfs_node] at hz ⊢
    rcases hz with hz | hz
    · simp [he] at hz
    · exact Or.inr hz
  · intro _ d cs _ _ z query hz
    exact hz
  · intro fuel d cs i child loc child1 _ hchild _ ih z query hz
    rw [mem_recursive_dfs_node] at hz ⊢
    rcases hz with hz | ⟨j, h1, h2, h3⟩
    · exact Or.inl hz
    · right
      by_cases hj : j = i
      · subst hj
        refine ⟨j, ?_, h2, ?_⟩
        · rw [Function.update_same]
          exact recursive_insert_isSome dflt object area fuel child (loc, child1) (by assumption)
        · rw [Function.update_same]
          apply ih
          rw [hchild, if_pos h1]
          exact h3
      · exact ⟨j, by rw [Function.update_noteq hj]; exact h1, h2,
          by rw [Function.update_noteq hj]; exact h3⟩

theorem insert_dfs_mono {dflt : AABB} {fuel : Nat} {t : Octree T} {object : T} {area : AABB}
    {res : Location (Fin 8) × Octree T} (h : insert dflt fuel t object area = some res)
    (z : T) (query : AABB) (hz : z ∈ recursive_dfs t query) : z ∈ recursive_dfs res.2 query := by
  rcases insert_cases h with ⟨d, cs, _, _, rfl⟩ | ⟨d, cs, _, _, hr⟩
  · exact hz
  · exact recursive_insert_dfs_mono dflt object area fuel t res hr z query hz

theorem inserts_dfs_mono {dflt : AABB} {t t' : Octree T} (h : Inserts dflt t t')
    (z : T) (query : AABB) (hz : z ∈ recursive_dfs t query) : z ∈ recursive_dfs t' query := by
  induction h with
  | refl => exact hz
  | step _ hins ih => exact insert_dfs_mono hins z query ih

theorem recursive_dfs_node (d : OctreeNode T) (cs : Fin 8 → Octree T) (area : AABB) :
    recursive_dfs (node d cs) area =
      (if !d.m_Item.isEmpty then
          (if d.m_Position.contains area then d.m_Item
           else if d.m_IsLeaf && d.m_Position.intersects2 area then d.m_Item
           else [])
        else [])
      ++ ((List.finRange 8).map (fun i =>
            if (cs i).isSome then
              (if (d.m_OctantsBounds i).intersects2 area then recursive_dfs (cs i) area
               else [])
            else [])).flatten := rfl

/-- A depth-first search finds nothing in a tree without items. -/
theorem recursive_dfs_of_all_empty (area : AABB) :
    ∀ (t : Octree T), All (fun d => d.m_Item = []) t → recursive_dfs t area = [] := by
  intro t
  induction t with
  | null => intro _; rfl
  | node d cs ih =>
    intro hall
    rw [List.eq_nil_iff_forall_not_mem]
    intro z hz
    rw [mem_recursive_dfs_node] at hz
    rcases hz with h | ⟨i, _, _, h⟩
    · simp [hall.1] at h
    · rw [ih i (hall.2 i)] at h
      cases h

/-- In a tree whose items are all at the root, a depth-first search appends what
the test at the root selects. -/
theorem recursive_dfs_root_only (d : OctreeNode T) (cs : Fin 8 → Octree T) (area : AABB)
    (hcs : ∀ i, All (fun e => e.m_Item = []) (cs i)) :
    recursive_dfs (node d cs) area =
      (if !d.m_Item.isEmpty then
          (if d.m_Position.contains area then d.m_Item
           else if d.m_IsLeaf && d.m_Position.intersects2 area then d.m_Item
           else [])
        else []) := by
  rw [recursive_dfs_node]
  have h : ((List.finRange 8).map (fun i =>
      if (cs i).isSome then
        (if (d.m_OctantsBounds i).intersects2 area then recursive_dfs (cs i) area
         else [])
      else [])).flatten = [] := by
    rw [List.flatten_eq_nil_iff]
    intro l hl
    rw [List.mem_map] at hl
    obtain ⟨i, _, rfl⟩ := hl
    simp only [recursive_dfs_of_all_empty area (cs i) (hcs i), ite_self]
  rw [h, List.append_nil]

theorem erase_area_node (d : OctreeNode T) (cs : Fin 8 → Octree T) (area : AABB) :
    erase_area (node d cs) area =
      ((if erase_selects d area then d.m_Item else [])
        ++ ((List.finRange 8).map (fun i =>
              if (cs i).isSome then
                (if (d.m_OctantsBounds i).intersects2 area then (erase_area (cs i) area).1
                 else [])
              else [])).flatten,
       node (if erase_selects d area then { d with m_Item := [] } else d)
        (fun i =>
          if (cs i).isSome then
            (if (d.m_OctantsBounds i).intersects2 area then (erase_area (cs i) area).2
             else cs i)
          else cs i)) := rfl

/-- `erase_area` returns nothing from a tree without items. -/
theorem erase_area_of_all_empty (area : AABB) :
    ∀ (t : Octree T), All (fun d => d.m_Item = []) t → (erase_area t area).1 = [] := by
  intro t
  induction t with
  | null => intro _; rfl
  | node d cs ih =>
    intro hall
    rw [erase_area_node]
    simp only
    have h : ((List.finRange 8).map (fun i =>
        if (cs i).isSome then
          (if (d.m_OctantsBounds i).intersects2 area then (erase_area (cs i) area).1
           else [])
        else [])).flatten = [] := by
      rw [List.flatten_eq_nil_iff]
      intro l hl
      rw [List.mem_map] at hl
      obtain ⟨i, _, rfl⟩ := hl
      simp only [ih i (hall.2 i), ite_self]
    rw [h, List.append_nil, hall.1, ite_self]

/-- In a tree whose items are all at the root, `erase_area` returns what the
test at the root selects. -/
theorem erase_area_root_only (d : OctreeNode T) (cs : Fin 8 → Octree T) (area : AABB)
    (hcs : ∀ i, All (fun e => e.m_Item = []) (cs i)) :
    (erase_area (node d cs) area).1 = if erase_selects d area then d.m_Item else [] := by
  rw [erase_area_node]
  simp only
  have h : ((List.finRange 8).map (fun i =>
      if (cs i).isSome then
        (if (d.m_OctantsBounds i).intersects2 area then (erase_area (cs i) area).1
         else [])
      else [])).flatten = [] := by
    rw [List.flatten_eq_nil_iff]
    intro l hl
    rw [List.mem_map] at hl
    obtain ⟨i, _, rfl⟩ := hl
    simp only [erase_area_of_all_empty area (cs i) (hcs i), ite_self]
  rw [h, List.append_nil]

/-! ## Where an accepted object is stored -/

/-- The node an accepted call names contains the area, and a stored child box
of that node can contain the area only if the node is beyond the depth limit. -/
theorem recursive_insert_placement (dflt : AABB) (object : T) (area : AABB) (fuel : Nat)
    (t : Octree T) (res : Location (Fin 8) × Octree T)
    (h : recursive_insert dflt fuel t object area = some res) :
    ∀ p, res.1.items_container = some p →
      ∃ e, nodeAt res.2 p = some e ∧ e.m_Position.contains area = true ∧
        ∀ i, (e.m_OctantsBounds i).contains area = true → e.m_MaxDepth < e.m_Depth := by
  refine recursive_insert_cases dflt object area
    (fun _ _ res => ∀ p, res.1.items_container = some p →
        ∃ e, nodeAt res.2 p = some e ∧ e.m_Position.contains area = true ∧
          ∀ i, (e.m_OctantsBounds i).contains area = true → e.m_MaxDepth < e.m_Depth)
    ?_ ?_ ?_ fuel t res h
  · intro _ d cs hs _ hc p hp
    simp only [Option.some.injEq] at hp
    subst hp
    refine ⟨_, rfl, hc, fun i hb => ?_⟩
    exact Nat.lt_of_not_le (insert_scan_none hs i hb)
  · intro _ d cs _ _ p hp
    cases hp
  · intro fuel d cs i child loc child1 _ _ _ ih p hp
    obtain ⟨q, hq, rfl⟩ := underSlot_container_eq_some hp
    obtain ⟨e, he1, he2, he3⟩ := ih q hq
    refine ⟨e, ?_, he2, he3⟩
    show nodeAt (Function.update cs i child1 i) q = some e
    rw [Function.update_same]
    exact he1

end Octree

end DataStructures

namespace DataStructures

open Collisions Trees

namespace Octree

variable {T : Type}

/-! ## Inserting into a freshly constructed tree -/

theorem calculate_bounding_box_irrel (pos b b' : AABB) (i : Fin 8) :
    calculate_bounding_box pos b i = calculate_bounding_box pos b' i := by
  fin_cases i <;> rfl

/-- The extents test of `recursive_subdivide`: some extent of the box, as the
`float` that `dimensions()` returns, is below `m_MinimumDimensions` converted
to `float`. -/
theorem below_minimum_of_stored {d : OctreeNode T}
    (h : d.m_Position.dimensions.stored.x < Ieee754.toFloat (d.m_MinimumDimensions : ℚ) ∨
      d.m_Position.dimensions.stored.y < Ieee754.toFloat (d.m_MinimumDimensions : ℚ) ∨
      d.m_Position.dimensions.stored.z < Ieee754.toFloat (d.m_MinimumDimensions : ℚ)) :
    d.m_Position.dimensions.x < (d.m_MinimumDimensions : ℚ) ∨
      d.m_Position.dimensions.y < (d.m_MinimumDimensions : ℚ) ∨
      d.m_Position.dimensions.z < (d.m_MinimumDimensions : ℚ) := by
  rcases h with h | h | h
  · left
    by_contra hc
    exact absurd (Ieee754.toFloat_mono (not_lt.mp hc)) (not_le.mpr h)
  · right; left
    by_contra hc
    exact absurd (Ieee754.toFloat_mono (not_lt.mp hc)) (not_le.mpr h)
  · right; right
    by_contra hc
    exact absurd (Ieee754.toFloat_mono (not_lt.mp hc)) (not_le.mpr h)

theorem recursive_subdivide_split_stored (dflt : AABB) (fuel : Nat) (d : OctreeNode T)
    (hleaf : d.m_IsLeaf = true) (hdepth : d.m_Depth ≤ d.m_MaxDepth)
    (hdims : ¬ (d.m_Position.dimensions.stored.x < Ieee754.toFloat (d.m_MinimumDimensions : ℚ) ∨
      d.m_Position.dimensions.stored.y < Ieee754.toFloat (d.m_MinimumDimensions : ℚ) ∨
      d.m_Position.dimensions.stored.z < Ieee754.toFloat (d.m_MinimumDimensions : ℚ))) :
    recursive_subdivide dflt (fuel + 1) d =
      node { d with
          m_OctantsBounds := fun i => calculate_bounding_box d.m_Position d.m_Position i
          m_IsLeaf := false }
        (fun i => recursive_subdivide dflt fuel
          (init4 dflt (calculate_bounding_box d.m_Position d.m_Position i)
            d.m_MaxDepth d.m_MinimumDimensions (d.m_Depth + 1))) := by
  rw [recursive_subdivide]
  simp only [hleaf, hdepth, hdims, Bool.not_true, Bool.false_eq_true, if_false, decide_True]
  have hb : ∀ i, calculate_bounding_box d.m_Position (d.m_OctantsBounds i) i
      = calculate_bounding_box d.m_Position d.m_Position i :=
    fun i => calculate_bounding_box_irrel _ _ _ i
  simp only [hb]

theorem recursive_subdivide_split (dflt : AABB) (fuel : Nat) (d : OctreeNode T)
    (hleaf : d.m_IsLeaf = true) (hdepth : d.m_Depth ≤ d.m_MaxDepth)
    (hdims : ¬ (d.m_Position.dimensions.x < (d.m_MinimumDimensions : ℚ) ∨
      d.m_Position.dimensions.y < (d.m_MinimumDimensions : ℚ) ∨
      d.m_Position.dimensions.z < (d.m_MinimumDimensions : ℚ))) :
    recursive_subdivide dflt (fuel + 1) d =
      node { d with
          m_OctantsBounds := fun i => calculate_bounding_box d.m_Position d.m_Position i
          m_IsLeaf := false }
        (fun i => recursive_subdivide dflt fuel
          (init4 dflt (calculate_bounding_box d.m_Position d.m_Position i)
            d.m_MaxDepth d.m_MinimumDimensions (d.m_Depth + 1))) :=
  recursive_subdivide_split_stored dflt fuel d hleaf hdepth
    (fun h => hdims (below_minimum_of_stored h))

theorem recursive_subdivide_beyond (dflt : AABB) (fuel : Nat) (d : OctreeNode T)
    (hdepth : ¬ d.m_Depth ≤ d.m_MaxDepth) :
    recursive_subdivide dflt fuel d = node d (fun _ => null) := by
  cases fuel with
  | zero => rfl
  | succ fuel =>
    rw [recursive_subdivide]
    by_cases hleaf : d.m_IsLeaf = true
    · simp [hleaf, hdepth]
    · simp [hleaf]

theorem recursive_subdivide_small (dflt : AABB) (fuel : Nat) (d : OctreeNode T)
    (hdims : d.m_Position.dimensions.stored.x < Ieee754.toFloat (d.m_MinimumDimensions : ℚ) ∨
      d.m_Position.dimensions.stored.y < Ieee754.toFloat (d.m_MinimumDimensions : ℚ) ∨
      d.m_Position.dimensions.stored.z < Ieee754.toFloat (d.m_MinimumDimensions : ℚ)) :
    recursive_subdivide dflt fuel d = node d (fun _ => null) := by
  cases fuel with
  | zero => rfl
  | succ fuel =>
    rw [recursive_subdivide]
    by_cases hleaf : d.m_IsLeaf = true
    · by_cases hdepth : d.m_Depth ≤ d.m_MaxDepth
      · simp [hleaf, hdepth, hdims]
      · simp [hleaf, hdepth]
    · simp [hleaf]

/-- Inserting into a node that just subdivided, when the scan selects slot `i`:
the call returns what the call on the child in slot `i` returns. -/
theorem fresh_insert_descend (dflt : AABB) (fuel gas : Nat) (d : OctreeNode T) (object : T)
    (area : AABB) (i : Fin 8)
    (hleaf : d.m_IsLeaf = true) (hdepth : d.m_Depth ≤ d.m_MaxDepth)
    (hdims : ¬ (d.m_Position.dimensions.x < (d.m_MinimumDimensions : ℚ) ∨
      d.m_Position.dimensions.y < (d.m_MinimumDimensions : ℚ) ∨
      d.m_Position.dimensions.z < (d.m_MinimumDimensions : ℚ)))
    (hscan : (List.finRange 8).find?
      (fun j => (calculate_bounding_box d.m_Position d.m_Position j).contains area) = some i)
    {loc : Location (Fin 8)} {child1 : Octree T}
    (hrec : recursive_insert dflt gas
      (recursive_subdivide dflt fuel
        (init4 dflt (calculate_bounding_box d.m_Position d.m_Position i)
          d.m_MaxDepth d.m_MinimumDimensions (d.m_Depth + 1))) object area = some (loc, child1)) :
    ∃ t1, recursive_insert dflt (gas + 1) (recursive_subdivide dflt (fuel + 1) d) object area
        = some (underSlot i loc, t1) ∧
      (∀ p, nodeAt t1 (i :: p) = nodeAt child1 p) ∧
      (∃ e, nodeAt t1 [] = some e ∧ e.m_Item = d.m_Item) := by
  rw [recursive_subdivide_split dflt fuel d hleaf hdepth hdims, recursive_insert_succ_node,
    insert_scan_eq_depth_first]
  simp only [insert_scan_depth_first, hdepth, if_true, hscan, recursive_subdivide_isSome, hrec]
  refine ⟨_, rfl, fun p => ?_, _, rfl, rfl⟩
  rw [nodeAt, Function.update_same]

/-- Inserting into a node that just subdivided, when the scan selects no slot
and the node contains the area: the object is stored at the node. -/
theorem fresh_insert_store (dflt : AABB) (fuel gas : Nat) (d : OctreeNode T) (object : T)
    (area : AABB)
    (hleaf : d.m_IsLeaf = true) (hitem : d.m_Item = []) (hdepth : d.m_Depth ≤ d.m_MaxDepth)
    (hdims : ¬ (d.m_Position.dimensions.x < (d.m_MinimumDimensions : ℚ) ∨
      d.m_Position.dimensions.y < (d.m_MinimumDimensions : ℚ) ∨
      d.m_Position.dimensions.z < (d.m_MinimumDimensions : ℚ)))
    (hscan : (List.finRange 8).find?
      (fun j => (calculate_bounding_box d.m_Position d.m_Position j).contains area) = none)
    (hc : d.m_Position.contains area = true) :
    recursive_insert dflt (gas + 1) (recursive_subdivide dflt (fuel + 1) d) object area
      = some (⟨some [], 0, area⟩,
          node { d with
              m_OctantsBounds := fun i => calculate_bounding_box d.m_Position d.m_Position i
              m_IsLeaf := false
              m_Item := [object] }
            (fun i => recursive_subdivide dflt fuel
              (init4 dflt (calculate_bounding_box d.m_Position d.m_Position i)
                d.m_MaxDepth d.m_MinimumDimensions (d.m_Depth + 1)))) := by
  rw [recursive_subdivide_split dflt fuel d hleaf hdepth hdims, recursive_insert_succ_node,
    insert_scan_eq_depth_first]
  simp only [insert_scan_depth_first, hdepth, if_true, hscan, hitem, hc, List.isEmpty_nil,
    List.length_nil, List.nil_append]

/-- Inserting into a node that is beyond the depth limit: no slot is tried, the
object is stored at the node if the node is free and contains the area. -/
theorem fresh_insert_bottom (dflt : AABB) (fuel gas : Nat) (d : OctreeNode T) (object : T)
    (area : AABB) (hitem : d.m_Item = []) (hdepth : ¬ d.m_Depth ≤ d.m_MaxDepth)
    (hc : d.m_Position.contains area = true) :
    recursive_insert dflt (gas + 1) (recursive_subdivide dflt fuel d) object area
      = some (⟨some [], 0, area⟩, node { d with m_Item := [object] } (fun _ => null)) := by
  rw [recursive_subdivide_beyond dflt fuel d hdepth, recursive_insert_succ_node,
    insert_scan_eq_depth_first]
  simp only [insert_scan_depth_first, hdepth, if_false, hitem, hc, List.isEmpty_nil, if_true,
    List.length_nil, List.nil_append]

/-- Inserting into a node that just subdivided, an area that neither the node
nor any of its computed child boxes contains: the call is rejected and the tree
stays as it is. -/
theorem fresh_insert_outside (dflt : AABB) (fuel gas : Nat) (d : OctreeNode T) (object : T)
    (area : AABB)
    (hleaf : d.m_IsLeaf = true) (hdepth : d.m_Depth ≤ d.m_MaxDepth)
    (hdims : ¬ (d.m_Position.dimensions.x < (d.m_MinimumDimensions : ℚ) ∨
      d.m_Position.dimensions.y < (d.m_MinimumDimensions : ℚ) ∨
      d.m_Position.dimensions.z < (d.m_MinimumDimensions : ℚ)))
    (hout : d.m_Position.contains area = false)
    (hboxes : ∀ i, (calculate_bounding_box d.m_Position d.m_Position i).contains area = false) :
    recursive_insert dflt (gas + 1) (recursive_subdivide dflt (fuel + 1) d) object area
      = some (noLocation dflt, recursive_subdivide dflt (fuel + 1) d) := by
  rw [recursive_subdivide_split dflt fuel d hleaf hdepth hdims, recursive_insert_succ_node]
  have hs : insert_scan ({ d with
      m_OctantsBounds := fun i => calculate_bounding_box d.m_Position d.m_Position i
      m_IsLeaf := false } : OctreeNode T) area = none :=
    insert_scan_outside hboxes
  rw [hs]
  simp only [hout, Bool.false_eq_true, if_false, ite_self]

end Octree

end DataStructures

namespace DataStructures

open Collisions Trees

namespace Octree

variable {T : Type}

/-! ## Breadth-first search over nodes without items -/

theorem asign_children_from_all_empty (temp : Fin 8 → Octree T)
    (htemp : ∀ j, All (fun d => d.m_Item = []) (temp j)) :
    ∀ (js : List (Fin 8)) (queue : List (Octree T)),
      (∀ o ∈ queue, All (fun d => d.m_Item = []) o) →
      ∀ o ∈ (asign_children_from temp js queue).2, All (fun d => d.m_Item = []) o := by
  intro js
  induction js with
  | nil => intro queue hq; exact hq
  | cons j js ih =>
    intro queue hq
    unfold asign_children_from
    by_cases hj : (temp j).isSome = true
    · rw [if_pos hj]
      apply ih
      intro o ho
      rw [List.mem_append, List.mem_singleton] at ho
      rcases ho with ho | rfl
      · exact hq o ho
      · exact htemp j
    · rw [if_neg hj]
      exact hq

theorem bfs_level_all_empty (rootIsLeaf : Bool) (area : AABB) :
    ∀ (octants : List (Octree T)) (items : List T) (lower : List (Octree T)),
      (∀ o ∈ octants, All (fun d => d.m_Item = []) o) →
      (∀ o ∈ lower, All (fun d => d.m_Item = []) o) →
      (bfs_level rootIsLeaf area octants items lower).1 = items ∧
      ∀ o ∈ (bfs_level rootIsLeaf area octants items lower).2, All (fun d => d.m_Item = []) o := by
  intro octants
  induction octants with
  | nil => intro items lower _ hl; exact ⟨rfl, hl⟩
  | cons o rest ih =>
    intro items lower ho hl
    have hrest : ∀ o' ∈ rest, All (fun d => d.m_Item = []) o' :=
      fun o' h' => ho o' (List.mem_cons_of_mem _ h')
    cases o with
    | null =>
      rw [bfs_level]
      exact ih items lower hrest hl
    | node d cs =>
      have hd : All (fun d => d.m_Item = []) (node d cs) := ho _ (List.mem_cons_self _ _)
      have hitem : d.m_Item = [] := hd.1
      have hlow := asign_children_from_all_empty cs hd.2 (List.finRange 8) lower hl
      rw [bfs_level]
      simp only [hitem, List.append_nil, ite_self]
      cases hac : asign_children lower cs with
      | mk flag lower1 =>
        have hlow1 : ∀ o ∈ lower1, All (fun d => d.m_Item = []) o := by
          have : (asign_children_from cs (List.finRange 8) lower).2 = lower1 := by
            show (asign_children lower cs).2 = lower1
            rw [hac]
          rw [← this]
          exact hlow
        cases flag with
        | false => exact ⟨rfl, hlow1⟩
        | true => exact ih items lower1 hrest hlow1

theorem bfs_loop_all_empty (rootIsLeaf : Bool) (area : AABB) :
    ∀ (rounds : Nat) (octants : List (Octree T)) (items : List T),
      (∀ o ∈ octants, All (fun d => d.m_Item = []) o) →
      bfs_loop rootIsLeaf area rounds octants items = items := by
  intro rounds
  induction rounds with
  | zero => intro _ _ _; rfl
  | succ rounds ih =>
    intro octants items ho
    obtain ⟨h1, h2⟩ := bfs_level_all_empty rootIsLeaf area octants items [] ho
      (fun _ h => by cases h)
    show bfs_loop rootIsLeaf area rounds (bfs_level rootIsLeaf area octants items []).2
      (bfs_level rootIsLeaf area octants items []).1 = items
    rw [h1]
    exact ih _ _ h2

/-- A breadth-first search reports nothing when the area does not contain the
box of the root and no other node holds an item. -/
theorem bfs_of_children_empty (d : OctreeNode T) (cs : Fin 8 → Octree T) (area : AABB)
    (items : List T) (hroot : area.contains d.m_Position = false)
    (hcs : ∀ i, All (fun d => d.m_Item = []) (cs i)) :
    bfs (node d cs) area items = items := by
  rw [bfs]
  simp only [hroot, Bool.false_eq_true, if_false, ite_self]
  apply bfs_loop_all_empty
  intro o ho
  rw [List.mem_filterMap] at ho
  obtain ⟨i, _, hi⟩ := ho
  by_cases h : (cs i).isSome = true
  · rw [if_pos h, Option.some.injEq] at hi
    rw [← hi]
    exact hcs i
  · rw [if_neg h] at hi
    cases hi

end Octree

end DataStructures

namespace DataStructures

open Collisions Trees

namespace Scenario

open Octree

variable {T : Type}

theorem insert_eq_after (dflt : AABB) (fuel : Nat) (t : Octree T) (object : T) (area : AABB)
    (h : (Octree.insert dflt fuel t object area).isSome = true) :
    Octree.insert dflt fuel t object area
      = some (locationAfter dflt fuel t object area, treeAfter dflt fuel t object area) := by
  unfold locationAfter treeAfter
  cases hi : Octree.insert dflt fuel t object area with
  | none => rw [hi] at h; cases h
  | some res => rfl

theorem insert_tree_eq (dflt : AABB) (gas : Nat) (object : T) (area : AABB) :
    Octree.insert dflt gas (tree T dflt) object area
      = recursive_insert dflt gas
          (recursive_subdivide dflt 3 (init3 dflt sideEightCube 2 1)) object area := by
  have hn : ∃ d cs, (recursive_subdivide dflt 3 (init3 dflt sideEightCube 2 1) : Octree T)
      = node d cs ∧ d.m_NodeReady = true := by
    refine ⟨_, _, recursive_subdivide_split dflt 2 (init3 dflt sideEightCube 2 1) rfl
      (Nat.zero_le _) ?_, rfl⟩
    show ¬ (sideEightCube.dimensions.x < ((1 : ℕ) : ℚ) ∨
      sideEightCube.dimensions.y < ((1 : ℕ) : ℚ) ∨ sideEightCube.dimensions.z < ((1 : ℕ) : ℚ))
    decide!
  obtain ⟨d, cs, hd, hr⟩ := hn
  show Octree.insert dflt gas (recursive_subdivide dflt 3 (init3 dflt sideEightCube 2 1)) _ _ = _
  rw [hd]
  show (if (!d.m_NodeReady) = true then _ else _) = _
  rw [hr]
  rfl

theorem unit_cell_walk (dflt : AABB) (object : T) (gas : Nat) :
    ∃ t1 e, Octree.insert dflt (gas + 4) (tree T dflt) object unitCell
        = some (⟨some [3, 3, 3], 0, unitCell⟩, t1) ∧
      nodeAt t1 [3, 3, 3] = some e ∧ e.m_Item = [object] ∧ e.m_Depth = 3 ∧ e.m_MaxDepth = 2 := by
  have h3 := fresh_insert_bottom dflt 0 gas
    (init4 dflt (boxAt sideEightCube [3, 3, 3]) 2 1 3) object unitCell rfl
    (by show ¬ 3 ≤ 2; decide)
    (by show (boxAt sideEightCube [3, 3, 3]).contains unitCell = true; decide!)
  obtain ⟨t2, h2, hn2, -⟩ := fresh_insert_descend dflt 0 (gas + 1)
    (init4 dflt (boxAt sideEightCube [3, 3]) 2 1 2) object unitCell 3 rfl
    (by show 2 ≤ 2; decide)
    (by show ¬ ((boxAt sideEightCube [3, 3]).dimensions.x < ((1 : ℕ) : ℚ) ∨
          (boxAt sideEightCube [3, 3]).dimensions.y < ((1 : ℕ) : ℚ) ∨
          (boxAt sideEightCube [3, 3]).dimensions.z < ((1 : ℕ) : ℚ)); decide!)
    (by show (List.finRange 8).find? (fun j => (calculate_bounding_box
          (boxAt sideEightCube [3, 3]) (boxAt sideEightCube [3, 3]) j).contains unitCell)
          = some 3; decide!)
    h3
  obtain ⟨t3, h3', hn3, -⟩ := fresh_insert_descend dflt 1 (gas + 2)
    (init4 dflt (boxAt sideEightCube [3]) 2 1 1) object unitCell 3 rfl
    (by show 1 ≤ 2; decide)
    (by show ¬ ((boxAt sideEightCube [3]).dimensions.x < ((1 : ℕ) : ℚ) ∨
          (boxAt sideEightCube [3]).dimensions.y < ((1 : ℕ) : ℚ) ∨
          (boxAt sideEightCube [3]).dimensions.z < ((1 : ℕ) : ℚ)); decide!)
    (by show (List.finRange 8).find? (fun j => (calculate_bounding_box
          (boxAt sideEightCube [3]) (boxAt sideEightCube [3]) j).contains unitCell)
          = some 3; decide!)
    h2
  obtain ⟨t4, h4, hn4, -⟩ := fresh_insert_descend dflt 2 (gas + 3)
    (init3 dflt sideEightCube 2 1) object unitCell 3 rfl
    (by show 0 ≤ 2; decide)
    (by show ¬ (sideEightCube.dimensions.x < ((1 : ℕ) : ℚ) ∨
          sideEightCube.dimensions.y < ((1 : ℕ) : ℚ) ∨
          sideEightCube.dimensions.z < ((1 : ℕ) : ℚ)); decide!)
    (by show (List.finRange 8).find? (fun j => (calculate_bounding_box
          sideEightCube sideEightCube j).contains unitCell) = some 3; decide!)
    h3'
  have hins : Octree.insert dflt (gas + 4) (tree T dflt) object unitCell
      = some (⟨some [3, 3, 3], 0, unitCell⟩, t4) := by
    rw [insert_tree_eq]
    exact h4
  have hnode := ((hn4 [3, 3]).trans (hn3 [3])).trans (hn2 [])
  exact ⟨t4, _, hins, hnode, rfl, rfl, rfl⟩

end Scenario

end DataStructures

namespace DataStructures

open Collisions Trees

namespace Octree

variable {T : Type}

/-! ## The public `insert`: effect of a call -/

theorem insert_effect {dflt : AABB} {fuel : Nat} {t : Octree T} {object : T} {area : AABB}
    {loc : Location (Fin 8)} {t1 : Octree T}
    (h : insert dflt fuel t object area = some (loc, t1)) {p : List (Fin 8)}
    (hp : loc.items_container = some p) :
    (loc.aabb = area ∧ loc.items_iterator = 0) ∧ itemsAt t p = [] ∧ itemsAt t1 p = [object] ∧
      t1.size = t.size + 1 ∧ ∀ q, q ≠ p → itemsAt t1 q = itemsAt t q := by
  rcases insert_cases h with ⟨d, cs, _, _, hres⟩ | ⟨d, cs, _, _, hr⟩
  · have : loc = noLocation dflt := congrArg Prod.fst hres
    rw [this] at hp
    cases hp
  · exact recursive_insert_effect dflt object area fuel t (loc, t1) hr p hp

theorem insert_accepted_recursive {dflt : AABB} {fuel : Nat} {t : Octree T} {object : T}
    {area : AABB} {loc : Location (Fin 8)} {t1 : Octree T}
    (h : insert dflt fuel t object area = some (loc, t1)) (hacc : loc.items_container ≠ none) :
    ∃ d cs, t = node d cs ∧ d.m_NodeReady = true ∧
      recursive_insert dflt fuel t object area = some (loc, t1) := by
  rcases insert_cases h with ⟨d, cs, _, _, hres⟩ | hr
  · have : loc = noLocation dflt := congrArg Prod.fst hres
    rw [this] at hacc
    exact absurd rfl hacc
  · exact hr

theorem isSome_of_ne_none {α : Type} {o : Option α} (h : o ≠ none) : o.isSome = true := by
  cases o with
  | none => exact absurd rfl h
  | some a => rfl

end Octree

end DataStructures

/-! ## The claims -/

namespace DataStructures

open Collisions Trees Octree Scenario

variable {T : Type}

/-- C1. Occupancy bound: in every tree reachable from the constructor by a
sequence of `insert` calls, accepted or rejected, the item list `m_Item` of
every node holds at most one entry. -/
theorem occupancy_bound (dflt : AABB) (t : Octree T) (hreach : Reachable dflt t) :
    ∀ (p : List (Fin 8)) (d : OctreeNode T), nodeAt t p = some d → d.m_Item.length ≤ 1 :=
  fun _ _ hp => (all_nodeAt (reachable_all_kept hreach) hp).1

theorem twoCalls_reachable : Reachable originBox twoCalls :=
  ⟨sideEightCube, 2, 1,
    Inserts.step (Inserts.step (Inserts.refl _)
      (insert_eq_after originBox 10 (tree Nat originBox) 7 unitCell (by decide!)))
      (insert_eq_after originBox 10 cellCall 8 unitCell
        (by decide!))⟩

theorem twoCalls_root_boxes :
    ∀ d, nodeAt twoCalls [] = some d →
      ∀ i, (d.m_OctantsBounds i).contains farBox = false := by
  intro d hd
  have h : (nodeAt twoCalls []).map (fun e =>
      decide (∀ i, (e.m_OctantsBounds i).contains farBox = false)) = some true := by decide!
  rw [hd] at h
  simpa using h

/-- Witness of C1 on the scenario tree after an accepted and a rejected call. -/
theorem occupancy_bound_witness :
    Reachable originBox twoCalls ∧ itemsAt twoCalls [3, 3, 3] = [7] ∧
      ∀ (p : List (Fin 8)) (d : OctreeNode Nat), nodeAt twoCalls p = some d →
        d.m_Item.length ≤ 1 :=
  ⟨twoCalls_reachable, by decide!, occupancy_bound originBox twoCalls twoCalls_reachable⟩

/-- C2. Insertion placement: when `insert(object, area)` on a tree built by the
constructor and `insert` calls is accepted, the object becomes the entry of
exactly one item list, the one the returned location names (every other list is
as before, so an object that was not stored yet is stored in that node only);
the bounds of that node contain `area`, and none of the child boxes of that
node contains `area`. The child boxes of a node are the eight boxes
`m_OctantsBounds` that `recursive_subdivide` computed when the node subdivided;
a node that never subdivided has computed none, its eight entries are still
default-constructed. -/
theorem insertion_placement (dflt : AABB) (t t1 : Octree T) (hreach : Reachable dflt t)
    (object : T) (area : AABB) (fuel : Nat) (loc : Location (Fin 8))
    (hins : insert dflt fuel t object area = some (loc, t1))
    (p : List (Fin 8)) (hp : loc.items_container = some p) :
    itemsAt t1 p = [object] ∧ (∀ q, q ≠ p → itemsAt t1 q = itemsAt t q) ∧
    ((∀ q, object ∉ itemsAt t q) → ∀ q, (object ∈ itemsAt t1 q ↔ q = p)) ∧
    ∃ e, nodeAt t1 p = some e ∧ e.m_Position.contains area = true ∧
      (e.m_IsLeaf = false →
        (∀ i, e.m_OctantsBounds i = calculate_bounding_box e.m_Position e.m_Position i) ∧
        ∀ i, (e.m_OctantsBounds i).contains area = false) ∧
      (e.m_IsLeaf = true → ∀ i, e.m_OctantsBounds i = dflt) := by
  obtain ⟨_, _, h3, _, h5⟩ := insert_effect hins hp
  have hacc : loc.items_container ≠ none := by rw [hp]; exact Option.some_ne_none p
  obtain ⟨d, cs, _, _, hr⟩ := insert_accepted_recursive hins hacc
  refine ⟨h3, h5, ?_, ?_⟩
  · intro hnew q
    constructor
    · intro hq
      by_contra hne
      rw [h5 q hne] at hq
      exact hnew q hq
    · rintro rfl
      rw [h3]
      exact List.mem_singleton_self object
  · obtain ⟨e, he, hc, hb⟩ :=
      recursive_insert_placement dflt object area fuel t (loc, t1) hr p hp
    have hk : Kept dflt e :=
      all_nodeAt (insert_all_kept hins (reachable_all_kept hreach)) he
    refine ⟨e, he, hc, fun hl => ⟨fun i => ?_, fun i => ?_⟩, hk.2.1⟩
    · rw [(hk.2.2 hl).2 i]
      exact calculate_bounding_box_irrel _ _ _ i
    · cases hbi : (e.m_OctantsBounds i).contains area with
      | false => rfl
      | true => exact absurd (hk.2.2 hl).1 (Nat.not_le.mpr (hb i hbi))

/-- Witness of C2: the box `(-1,-1,-1)..(1,1,1)` offered to the tree over the
cube of side 8 centred at the origin is stored at the root, depth 0, and no
child box of the root contains it. -/
theorem insertion_placement_witness :
    (locationAfter originBox 10 (tree Nat originBox) 7 centreBox).items_container = some [] ∧
    centreCall.depth = 0 ∧ centreCall.is_leaf_node = false ∧
    (itemsAt centreCall [] = [7] ∧
      (∀ q, q ≠ [] → itemsAt centreCall q = itemsAt (tree Nat originBox) q) ∧
      ((∀ q, 7 ∉ itemsAt (tree Nat originBox) q) → ∀ q, (7 ∈ itemsAt centreCall q ↔ q = [])) ∧
      ∃ e, nodeAt centreCall [] = some e ∧ e.m_Position.contains centreBox = true ∧
        (e.m_IsLeaf = false →
          (∀ i, e.m_OctantsBounds i = calculate_bounding_box e.m_Position e.m_Position i) ∧
          ∀ i, (e.m_OctantsBounds i).contains centreBox = false) ∧
        (e.m_IsLeaf = true → ∀ i, e.m_OctantsBounds i = originBox)) :=
  ⟨by decide!, by decide!, by decide!,
    insertion_placement originBox (tree Nat originBox) centreCall
      ⟨sideEightCube, 2, 1, Inserts.refl _⟩ 7 centreBox 10 _
      (insert_eq_after originBox 10 (tree Nat originBox) 7 centreBox (by decide!))
      [] (by decide!)⟩

/-- C3 on the code. In the tree over the cube of side 8 centred at the origin
with `maxDepth = 2` and `minExtent = 1`, `insert` of an object with the box
`(3,3,3)..(4,4,4)` is accepted and stores the object in the node reached through
the child slots 3, 3, 3, whose `depth()` is 3 while `max_depth()` is 2. -/
theorem unit_cell_stored_at_depth_three (dflt : AABB) (object : T) (gas : Nat) :
    ∃ t1 e, Octree.insert dflt (gas + 4) (tree T dflt) object unitCell
        = some (⟨some [3, 3, 3], 0, unitCell⟩, t1) ∧
      nodeAt t1 [3, 3, 3] = some e ∧ e.m_Item = [object] ∧ e.m_Depth = 3 ∧ e.m_MaxDepth = 2 :=
  unit_cell_walk dflt object gas

/-- C4. Round trip through `dfs`: once `insert(object, area)` was accepted,
`dfs(area)` run after any number of further `insert` calls returns a list that
contains `object`. -/
theorem dfs_round_trip (dflt : AABB) (t t1 t2 : Octree T) (object : T) (area : AABB)
    (fuel : Nat) (loc : Location (Fin 8))
    (hins : insert dflt fuel t object area = some (loc, t1))
    (hacc : loc.items_container ≠ none) (hlater : Inserts dflt t1 t2) (items : List T) :
    object ∈ dfs t2 area items := by
  obtain ⟨d, cs, _, _, hr⟩ := insert_accepted_recursive hins hacc
  have h1 : object ∈ recursive_dfs t1 area :=
    recursive_insert_mem_dfs dflt object area fuel t (loc, t1) hr (isSome_of_ne_none hacc)
  exact List.mem_append_right items (inserts_dfs_mono hlater object area h1)

/-- Witness of C4 on the scenario tree: item 7, accepted with the unit cell, is
found by `dfs` after a further call. -/
theorem dfs_round_trip_witness :
    (locationAfter originBox 10 (tree Nat originBox) 7 unitCell).items_container ≠ none ∧
      7 ∈ dfs twoCalls unitCell [] :=
  ⟨by decide!,
    dfs_round_trip originBox (tree Nat originBox) cellCall twoCalls 7 unitCell 10 _
      (insert_eq_after originBox 10 (tree Nat originBox) 7 unitCell (by decide!))
      (by decide!)
      (Inserts.step (Inserts.refl _)
        (insert_eq_after originBox 10 cellCall 8 unitCell
          (by decide!)))
      []⟩

end DataStructures

namespace DataStructures

open Collisions Trees Octree Scenario

variable {T : Type}

theorem centre_box_walk (dflt : AABB) (object : T) (gas : Nat) :
    ∃ (d : OctreeNode T) (cs : Fin 8 → Octree T),
      Octree.insert dflt (gas + 1) (tree T dflt) object centreBox
        = some (⟨some [], 0, centreBox⟩, node d cs) ∧
      d.m_Item = [object] ∧ d.m_Position = sideEightCube ∧ d.m_Depth = 0 ∧
      ∀ i, All (fun e => e.m_Item = []) (cs i) := by
  have h := fresh_insert_store dflt 2 gas (init3 dflt sideEightCube 2 1) object centreBox
    rfl rfl (Nat.zero_le _)
    (by show ¬ (sideEightCube.dimensions.x < ((1 : ℕ) : ℚ) ∨
          sideEightCube.dimensions.y < ((1 : ℕ) : ℚ) ∨
          sideEightCube.dimensions.z < ((1 : ℕ) : ℚ)); decide!)
    (by show (List.finRange 8).find? (fun j => (calculate_bounding_box
          sideEightCube sideEightCube j).contains centreBox) = none; decide!)
    (by show sideEightCube.contains centreBox = true; decide!)
  rw [← insert_tree_eq] at h
  exact ⟨_, _, h, rfl, rfl, rfl, fun i =>
    all_recursive_subdivide dflt _ (fun _ h _ _ => h) (fun _ h _ _ _ => h) _ _ rfl rfl
      (fun _ => rfl)⟩

/-- The scenario tree with item 7 at the root: the root holds the item, over the
cube of side 8, and no other node holds one. -/
theorem centreCall_shape :
    ∃ (d : OctreeNode Nat) (cs : Fin 8 → Octree Nat), centreCall = node d cs ∧
      d.m_Item = [7] ∧ d.m_Position = sideEightCube ∧ d.m_IsLeaf = false ∧
      ∀ i, All (fun e => e.m_Item = []) (cs i) := by
  obtain ⟨d, cs, hins, hitem, hpos, _, hcs⟩ := centre_box_walk originBox (7 : Nat) 9
  have hins' : Octree.insert originBox 10 (tree Nat originBox) 7 centreBox
      = some (⟨some [], 0, centreBox⟩, node d cs) := hins
  have hc : centreCall = node d cs := by
    unfold centreCall treeAfter
    rw [hins']
  have hleaf : centreCall.is_leaf_node = false := by decide!
  rw [hc] at hleaf
  exact ⟨d, cs, hc, hitem, hpos, hleaf, hcs⟩

/-- C5 on the code. In the eagerly built tree over the cube of side 8 centred at
the origin (`maxDepth = 2`, `minExtent = 1`), `insert` of an object with the box
`(-1,-1,-1)..(1,1,1)` is accepted and stores it at the root; `bfs` over the same
box then appends nothing to `items`, while `dfs` does return the object. The
same happens to item 7 accepted with the box `(3,3,3)..(4,4,4)`, which sits in a
node of depth 3 that the loop of `bfs` never reaches. -/
theorem bfs_misses_root_item (dflt : AABB) (object : T) (gas : Nat) (items : List T) :
    (∃ t1, Octree.insert dflt (gas + 1) (tree T dflt) object centreBox
        = some (⟨some [], 0, centreBox⟩, t1) ∧
      itemsAt t1 [] = [object] ∧ bfs t1 centreBox items = items ∧
      object ∈ dfs t1 centreBox items) ∧
    (itemsAt cellCall [3, 3, 3] = [7] ∧ bfs cellCall unitCell [] = [] ∧
      dfs cellCall unitCell [] = [7]) := by
  refine ⟨?_, by decide!, by decide!, by decide!⟩
  obtain ⟨d, cs, hins, hitem, hpos, _, hcs⟩ := centre_box_walk dflt object gas
  refine ⟨node d cs, hins, hitem, ?_, ?_⟩
  · apply bfs_of_children_empty d cs centreBox items _ hcs
    rw [hpos]
    decide!
  · obtain ⟨d0, cs0, _, _, hr⟩ := insert_accepted_recursive hins (by simp)
    exact List.mem_append_right items
      (recursive_insert_mem_dfs dflt object centreBox _ _ _ hr rfl)

/-- C6 as stated fails on the code. On the tree over the box from `(-5,0,0)` to
`(-3.9f,1,1)` (`maxDepth = 0`, `minExtent = 1`) the child box of slot 1, whose
corners `calculate_bounding_box` computes in `float`, reaches
`x = -16357785/4194304`, one `float` beyond the largest `x` of the root,
`-16357786/4194304`. `insert` of item 7 with the box from `(-63/16, 5/8, 1/8)`
to `(-16357785/4194304, 7/8, 3/8)`, which the bounds of the root do not contain,
is accepted: the item is stored in the child of slot 1. -/
theorem insert_rejects_outside_counterexample :
    (aabb originBox sliverTree).contains sliverRegion = false ∧
    Octree.insert originBox 10 sliverTree 7 sliverRegion
      = some (locationAfter originBox 10 sliverTree 7 sliverRegion, sliverCall) ∧
    (locationAfter originBox 10 sliverTree 7 sliverRegion).items_container = some [1] ∧
    itemsAt sliverTree [1] = [] ∧ itemsAt sliverCall [1] = [7] :=
  ⟨by decide!, insert_eq_after originBox 10 sliverTree 7 sliverRegion (by decide!),
    by decide!, by decide!, by decide!⟩

/-- C6, amended. Rejection outside the bounds: `recursive_insert` tries the
child boxes stored at the root before the bounds of the root, so on every tree
reachable from the constructor, `insert` with an area that neither the bounds of
the root nor any of the eight boxes `m_OctantsBounds` stored at the root
contains returns the value `{}` (container pointer null) and leaves the whole
tree, so every item list, as it was. -/
theorem insert_rejects_outside (dflt : AABB) (t : Octree T) (hreach : Reachable dflt t)
    (object : T) (area : AABB) (hout : (aabb dflt t).contains area = false)
    (hboxes : ∀ d, nodeAt t [] = some d → ∀ i, (d.m_OctantsBounds i).contains area = false)
    (fuel : Nat) :
    insert dflt (fuel + 1) t object area = some (noLocation dflt, t) ∧
      (noLocation dflt).items_container = none := by
  refine ⟨?_, rfl⟩
  obtain ⟨d, cs, rfl⟩ := reachable_node hreach
  have hs : insert_scan d area = none := insert_scan_outside (hboxes d rfl)
  have hout' : d.m_Position.contains area = false := hout
  unfold Octree.insert
  by_cases hr : d.m_NodeReady = true
  · simp only [hr, Bool.not_true, Bool.false_eq_true, if_false]
    rw [recursive_insert_succ_node, hs]
    simp only [hout', Bool.false_eq_true, if_false, ite_self]
  · have hf : d.m_NodeReady = false := by
      cases hb : d.m_NodeReady with
      | false => rfl
      | true => exact absurd hb hr
    simp only [hf, Bool.not_false, if_true]

/-- Witness of C6, amended: a box outside the bounds and outside the child boxes
of the root offered to the scenario tree after two calls. -/
theorem insert_rejects_outside_witness :
    (aabb originBox twoCalls).contains farBox = false ∧
    (∀ d, nodeAt twoCalls [] = some d → ∀ i, (d.m_OctantsBounds i).contains farBox = false) ∧
    (insert originBox 1 twoCalls 9 farBox = some (noLocation originBox, twoCalls) ∧
      (noLocation originBox).items_container = none) :=
  ⟨by decide!, twoCalls_root_boxes,
    insert_rejects_outside originBox twoCalls twoCalls_reachable 9 farBox (by decide!)
      twoCalls_root_boxes 0⟩

/-- C7. Rejection when occupied: if `insert(object, area)` is accepted, an
immediately following `insert(other, area)` with the same area returns the
value `{}` (container pointer null) and leaves the tree exactly as it was, so
`size()` and every item list are unchanged. -/
theorem second_insert_rejected (dflt : AABB) (t t1 : Octree T) (object other : T)
    (area : AABB) (fuel : Nat) (loc : Location (Fin 8))
    (hins : insert dflt fuel t object area = some (loc, t1))
    (hacc : loc.items_container ≠ none) :
    insert dflt fuel t1 other area = some (noLocation dflt, t1) ∧
      (noLocation dflt).items_container = none := by
  refine ⟨?_, rfl⟩
  obtain ⟨d, cs, rfl, hready, hr⟩ := insert_accepted_recursive hins hacc
  have hagain := recursive_insert_again dflt object other area fuel _ _ hr
    (isSome_of_ne_none hacc)
  obtain ⟨d0, cs0, e, cs1, h0, h1, he⟩ := recursive_insert_root dflt object area fuel _ _ hr
  simp only at h1 hagain
  subst h1
  cases h0
  have hready1 : e.m_NodeReady = true := by rw [he]; exact hready
  show (if (!e.m_NodeReady) = true then _ else _) = _
  rw [hready1]
  exact hagain

/-- Witness of C7 on the scenario tree: item 8 offered with the unit cell right
after item 7 was accepted with it. -/
theorem second_insert_rejected_witness :
    (locationAfter originBox 10 (tree Nat originBox) 7 unitCell).items_container ≠ none ∧
      (insert originBox 10 cellCall 8 unitCell = some (noLocation originBox, cellCall) ∧
        (noLocation originBox).items_container = none) :=
  ⟨by decide!,
    second_insert_rejected originBox (tree Nat originBox) cellCall 7 8 unitCell 10 _
      (insert_eq_after originBox 10 (tree Nat originBox) 7 unitCell (by decide!))
      (by decide!)⟩

/-- C8. Effect of an accepted `insert`: the returned location names the item
list that now holds exactly the object (at the position the iterator gives),
its box `aabb` is the area supplied, `size()` grew by one, the list was empty
before, and every other item list is as it was. -/
theorem successful_insert_effect (dflt : AABB) (t t1 : Octree T) (object : T) (area : AABB)
    (fuel : Nat) (loc : Location (Fin 8))
    (hins : insert dflt fuel t object area = some (loc, t1))
    (p : List (Fin 8)) (hp : loc.items_container = some p) :
    itemsAt t1 p = [object] ∧ (itemsAt t1 p).get? loc.items_iterator = some object ∧
      loc.aabb = area ∧ t1.size = t.size + 1 ∧ itemsAt t p = [] ∧
      ∀ q, q ≠ p → itemsAt t1 q = itemsAt t q := by
  obtain ⟨⟨h1, h1'⟩, h2, h3, h4, h5⟩ := insert_effect hins hp
  refine ⟨h3, ?_, h1, h4, h2, h5⟩
  rw [h3, h1']
  rfl

/-- Witness of C8 on the scenario tree: item 7 accepted with the unit cell. -/
theorem successful_insert_effect_witness :
    (locationAfter originBox 10 (tree Nat originBox) 7 unitCell).items_container
        = some [3, 3, 3] ∧
      (itemsAt cellCall [3, 3, 3] = [7] ∧
        (itemsAt cellCall [3, 3, 3]).get?
          (locationAfter originBox 10 (tree Nat originBox) 7 unitCell).items_iterator = some 7 ∧
        (locationAfter originBox 10 (tree Nat originBox) 7 unitCell).aabb = unitCell ∧
        cellCall.size = (tree Nat originBox).size + 1 ∧
        itemsAt (tree Nat originBox) [3, 3, 3] = [] ∧
        ∀ q, q ≠ [3, 3, 3] → itemsAt cellCall q = itemsAt (tree Nat originBox) q) :=
  ⟨by decide!,
    successful_insert_effect originBox (tree Nat originBox) cellCall 7 unitCell 10 _
      (insert_eq_after originBox 10 (tree Nat originBox) 7 unitCell (by decide!))
      [3, 3, 3] (by decide!)⟩

theorem far_box_rejected (dflt : AABB) (object : T) (gas : Nat) :
    Octree.insert dflt (gas + 1) (tree T dflt) object farBox
      = some (noLocation dflt, tree T dflt) := by
  rw [insert_tree_eq]
  exact fresh_insert_outside dflt 2 gas (init3 dflt sideEightCube 2 1) object farBox
    rfl (Nat.zero_le _)
    (by show ¬ (sideEightCube.dimensions.x < ((1 : ℕ) : ℚ) ∨
          sideEightCube.dimensions.y < ((1 : ℕ) : ℚ) ∨
          sideEightCube.dimensions.z < ((1 : ℕ) : ℚ)); decide!)
    (by show sideEightCube.contains farBox = false; decide!)
    (by
      intro i
      show (calculate_bounding_box sideEightCube sideEightCube i).contains farBox = false
      fin_cases i <;> decide!)

theorem contained_insert_of_insert (dflt : AABB) (fuel : Nat) (c : ContainedOctree T)
    (object : T) (area : AABB) (loc : Location (Fin 8)) (root1 : Octree Nat)
    (h : Octree.insert dflt fuel c.m_Root c.m_Fresh area = some (loc, root1)) :
    ContainedOctree.insert dflt fuel c object area
      = some (loc.items_container.isSome,
          ⟨root1, ContainedOctree.setBackPosition loc
            (c.m_Items ++ [(c.m_Fresh, ⟨object, noLocation dflt⟩)]), c.m_Fresh + 1⟩) := by
  unfold ContainedOctree.insert
  simp only [h]

/-- C9 on the code. `ContainedOctree::insert` of an object whose box lies
outside the bounds of the tree returns `false`, and the record it pushed to
`m_Items` is still there afterwards, with a location whose container pointer is
null. -/
theorem contained_insert_keeps_rejected_record (dflt : AABB) (object : T) (gas : Nat) :
    ContainedOctree.insert dflt (gas + 1)
        (ContainedOctree.mk3 dflt sideEightCube 2 1 : ContainedOctree T) object farBox
      = some (false, ⟨tree Nat dflt, [(0, ⟨object, noLocation dflt⟩)], 1⟩) ∧
    (ContainedOctree.mk3 dflt sideEightCube 2 1 : ContainedOctree T).m_Items = [] ∧
    (noLocation dflt).items_container = none := by
  refine ⟨?_, rfl, rfl⟩
  exact contained_insert_of_insert dflt (gas + 1) (ContainedOctree.mk3 dflt sideEightCube 2 1)
    object farBox (noLocation dflt) (tree Nat dflt) (far_box_rejected dflt (0 : Nat) gas)

/-- C10 on the code. After `ContainedOctree::insert` of an object whose box lies
outside the bounds of the tree, `size()` of the container is 1 while `size()`
of its tree is 0: the record in `m_Items` is referenced by no item list of the
tree. -/
theorem contained_size_differs_after_rejection (dflt : AABB) (object : T) (gas : Nat) :
    ∃ c : ContainedOctree T,
      ContainedOctree.insert dflt (gas + 1)
        (ContainedOctree.mk3 dflt sideEightCube 2 1 : ContainedOctree T) object farBox
        = some (false, c) ∧
      c.size = 1 ∧ c.m_Root.size = 0 ∧ ∀ p, itemsAt c.m_Root p = [] := by
  refine ⟨⟨tree Nat dflt, [(0, ⟨object, noLocation dflt⟩)], 1⟩, ?_, rfl, ?_, ?_⟩
  · exact contained_insert_of_insert dflt (gas + 1)
      (ContainedOctree.mk3 dflt sideEightCube 2 1) object farBox (noLocation dflt)
      (tree Nat dflt) (far_box_rejected dflt (0 : Nat) gas)
  · exact size_of_all_empty (all_empty_mk3 dflt sideEightCube 2 1)
  · exact itemsAt_of_all_empty (all_empty_mk3 dflt sideEightCube 2 1)

end DataStructures

namespace DataStructures

open Collisions Trees Coordinates Octree Scenario

variable {T : Type}

theorem eq_some_getD {α : Type} (o : Option α) (a : α) (h : o.isSome = true) :
    o = some (o.getD a) := by
  cases o with
  | none => cases h
  | some b => rfl

/-- C12 on the code. Item 70 is accepted with the box `(3,3,3)..(4,4,4)`, its
record gets the location of the node at slots 3, 3, 3. After `shift(1, East)`
the record is still in `m_Items` (nothing is displaced) and its location still
names that node, whose item list is now empty, while the reference to the record
is held by the node at slots 3, 2, 3; `remove` on the record then erases the
record and leaves that reference in the tree. -/
theorem shift_keeps_old_location :
    ContainedOctree.insert originBox 10 emptyContainer 70 unitCell = some (true, cellContainer) ∧
    cellContainer.m_Items.map (fun r => (r.1, r.2.item, r.2.item_position.items_container))
      = [(0, 70, some [3, 3, 3])] ∧
    itemsAt cellContainer.m_Root [3, 3, 3] = [0] ∧
    ContainedOctree.shift originBox 10 cellContainer 1 Directions.East []
      = some (shiftedContainer, []) ∧
    shiftedContainer.m_Items.map (fun r => (r.1, r.2.item, r.2.item_position.items_container))
      = [(0, 70, some [3, 3, 3])] ∧
    itemsAt shiftedContainer.m_Root [3, 3, 3] = [] ∧
    itemsAt shiftedContainer.m_Root [3, 2, 3] = [0] ∧
    (ContainedOctree.remove shiftedContainer 0).map
        (fun r => (r.2.m_Items.length, itemsAt r.2.m_Root [3, 2, 3])) = some (0, [0]) := by
  refine ⟨?_, by decide!, by decide!, ?_, by decide!, by decide!, by decide!, by decide!⟩
  · have h := eq_some_getD (ContainedOctree.insert originBox 10 emptyContainer 70 unitCell)
      (false, emptyContainer) (by decide!)
    have h1 : ((ContainedOctree.insert originBox 10 emptyContainer 70 unitCell).getD
      (false, emptyContainer)).1 = true := by decide!
    rw [h]
    exact congrArg some (Prod.ext h1 rfl)
  · have h := eq_some_getD
      (ContainedOctree.shift originBox 10 cellContainer 1 Directions.East [])
      (cellContainer, []) (by decide!)
    have h1 : ((ContainedOctree.shift originBox 10 cellContainer 1 Directions.East []).getD
      (cellContainer, [])).2 = [] := by decide!
    rw [h]
    exact congrArg some (Prod.ext rfl h1)

/-- Counterexample to C15 as stated. Item 7 was inserted with the box
`(-1,-1,-1)..(1,1,1)` and sits at the root of the tree over the cube of side 8.
`collect_items` pairs it with the bounds of the root, `(-4,-4,-4)..(4,4,4)`, and
`shift(1, East)` appends that pair to the displaced list. -/
theorem shift_pair_counterexample :
    itemsAt centreCall [] = [7] ∧ collect_items centreCall = [(7, sideEightCube)] ∧
    (shift originBox 10 centreCall 1 Directions.East []).map (fun r => r.2)
      = some [(7, sideEightCube)] ∧
    sideEightCube ≠ centreBox := by
  refine ⟨by decide!, by decide!, by decide!, by decide!⟩

/-- Counterexample to C17 as stated. Item 7 sits at the root of the tree over the
cube of side 8, and the root is not a leaf. With the region
`(-1,-1,-1)..(1,1,1)` the bounds of the root do not lie inside the region, yet
`dfs` appends the item; with the region `(-10,-10,-10)..(10,10,10)` the bounds of
the root lie inside the region, yet `dfs` appends nothing. -/
theorem dfs_emission_counterexample :
    itemsAt centreCall [] = [7] ∧ centreCall.is_leaf_node = false ∧
    (centreBox.contains (aabb originBox centreCall) = false ∧
      dfs centreCall centreBox [] = [7]) ∧
    (hugeBox.contains (aabb originBox centreCall) = true ∧
      dfs centreCall hugeBox [] = []) := by
  obtain ⟨d, cs, hc, hitem, hpos, hleaf, hcs⟩ := centreCall_shape
  have hdfs : ∀ area : AABB, dfs centreCall area [] =
      (if sideEightCube.contains area then [7] else []) := by
    intro area
    unfold dfs
    rw [hc, recursive_dfs_root_only d cs area hcs, hitem, hpos, hleaf]
    rfl
  refine ⟨by decide!, by decide!, ⟨by decide!, ?_⟩, ⟨by decide!, ?_⟩⟩
  · rw [hdfs]
    decide!
  · rw [hdfs]
    decide!

/-- C18 on the code. Item 7 is accepted with the box `(1,1,1)..(3,3,3)` and sits
in the node of the octant `(0,0,0)..(4,4,4)`, which is not a leaf. The query
`(-1,-1,-1)..(3/2,3/2,3/2)` overlaps that box, yet `dfs` returns nothing. -/
theorem dfs_misses_overlapping_item :
    (locationAfter originBox 10 (tree Nat originBox) 7 straddleBox).items_container
      = some [3] ∧
    itemsAt straddleCall [3] = [7] ∧
    straddleBox.intersects2 queryBox = true ∧ queryBox.intersects2 straddleBox = true ∧
    dfs straddleCall queryBox [] = [] := by
  refine ⟨by decide!, by decide!, by decide!, by decide!, by decide!⟩

/-- C19 on the code. With item 7 at the root of the tree over the cube of side 8
and the region `(-1,-1,-1)..(1,1,1)`, `dfs` returns the item while `erase_area`
removes and returns nothing. -/
theorem erase_area_differs_from_dfs :
    itemsAt centreCall [] = [7] ∧ dfs centreCall centreBox [] = [7] ∧
    (erase_area centreCall centreBox).1 = [] ∧
    itemsAt (erase_area centreCall centreBox).2 [] = [7] := by
  obtain ⟨d, cs, hc, hitem, hpos, hleaf, hcs⟩ := centreCall_shape
  refine ⟨by decide!, ?_, ?_, by decide!⟩
  · unfold dfs
    rw [hc, recursive_dfs_root_only d cs centreBox hcs, hitem, hpos, hleaf]
    decide!
  · rw [hc, erase_area_root_only d cs centreBox hcs]
    unfold erase_selects
    rw [hitem, hpos, hleaf]
    decide!

end DataStructures

namespace DataStructures

open Collisions Trees Coordinates

namespace Octree

variable {T : Type}

/-! ## The occupants of a tree, counted with multiplicity -/

theorem coe_flatten_map {ι α : Type} (l : List ι) (g : ι → List α) :
    (((l.map g).flatten : List α) : Multiset α) = (l.map (fun i => (g i : Multiset α))).sum := by
  induction l with
  | nil => rfl
  | cons a l ih =>
    rw [List.map_cons, List.flatten_cons, ← Multiset.coe_add, ih, List.map_cons, List.sum_cons]

theorem collect_items_null : collect_items (null : Octree T) = [] := rfl

theorem occupants_null : occupants (null : Octree T) = [] := rfl

theorem collect_items_node (d : OctreeNode T) (cs : Fin 8 → Octree T) :
    collect_items (node d cs) =
      (if !d.m_Item.isEmpty then d.m_Item.map (fun it => (it, d.m_Position)) else [])
      ++ ((List.finRange 8).map (fun i =>
            if (cs i).isSome then collect_items (cs i) else [])).flatten := rfl

theorem collect_items_guard (c : Octree T) :
    (if c.isSome then collect_items c else []) = collect_items c := by
  cases c with
  | null => rfl
  | node d cs => rfl

theorem collect_items_node_eq (d : OctreeNode T) (cs : Fin 8 → Octree T) :
    collect_items (node d cs) =
      d.m_Item.map (fun it => (it, d.m_Position))
      ++ ((List.finRange 8).map (fun i => collect_items (cs i))).flatten := by
  rw [collect_items_node]
  simp only [collect_items_guard]
  cases d.m_Item <;> rfl

theorem occupants_node (d : OctreeNode T) (cs : Fin 8 → Octree T) :
    occupants (node d cs) =
      d.m_Item ++ ((List.finRange 8).map (fun i => occupants (cs i))).flatten := by
  unfold occupants
  rw [collect_items_node_eq, List.map_append, List.map_map, List.map_flatten, List.map_map]
  congr 1
  induction d.m_Item with
  | nil => rfl
  | cons a l ih => simpa using ih

theorem coe_occupants_node (d : OctreeNode T) (cs : Fin 8 → Octree T) :
    ((occupants (node d cs) : List T) : Multiset T)
      = (d.m_Item : Multiset T) + ∑ i : Fin 8, ((occupants (cs i) : List T) : Multiset T) := by
  rw [occupants_node, ← Multiset.coe_add, coe_flatten_map, Fin.sum_univ_def]

theorem sum_update_add {M : Type} [AddCommMonoid M] (g : Octree T → M) (cs : Fin 8 → Octree T)
    (i : Fin 8) (c : Octree T) :
    (∑ j : Fin 8, g (Function.update cs i c j)) + g (cs i) = (∑ j : Fin 8, g (cs j)) + g c := by
  have h1 : (fun j => g (Function.update cs i c j))
      = Function.update (fun j => g (cs j)) i (g c) := by
    funext j
    exact Function.apply_update (fun _ t => g t) cs i c j
  rw [h1, Finset.sum_update_of_mem (Finset.mem_univ i)]
  have h2 := Finset.add_sum_erase Finset.univ (fun j => g (cs j)) (Finset.mem_univ i)
  have h3 : Finset.univ \ {i} = Finset.univ.erase i := by
    ext j; simp
  rw [h3, ← h2]
  simp only
  abel

theorem length_collect_items (t : Octree T) : (collect_items t).length = t.size := by
  induction t with
  | null => rfl
  | node d cs ih =>
    rw [collect_items_node_eq, size_node_eq, List.length_append, List.length_map,
      List.length_flatten, List.map_map, Fin.sum_univ_def]
    congr 2
    exact List.map_congr_left (fun i _ => ih i)

theorem length_occupants (t : Octree T) : (occupants t).length = t.size := by
  unfold occupants
  rw [List.length_map, length_collect_items]

theorem collect_items_of_all_empty {t : Octree T} (h : All (fun d => d.m_Item = []) t) :
    collect_items t = [] := by
  apply List.eq_nil_of_length_eq_zero
  rw [length_collect_items]
  exact size_of_all_empty h

theorem occupants_child (dflt : AABB) (c : Octree T) (bb : AABB) (maxDepth minDim : Nat) :
    occupants (if c.isSome then c else mk3 dflt bb maxDepth minDim) = occupants c := by
  by_cases h : c.isSome = true
  · rw [if_pos h]
  · rw [if_neg h, isSome_eq_false h]
    unfold occupants
    rw [collect_items_of_all_empty (all_empty_mk3 dflt bb maxDepth minDim)]
    rfl

/-- What a call of `recursive_insert` does to the occupants: an accepted call
adds the object, a rejected call changes nothing. -/
theorem recursive_insert_occupants (dflt : AABB) (object : T) (area : AABB) (fuel : Nat)
    (t : Octree T) (res : Location (Fin 8) × Octree T)
    (h : recursive_insert dflt fuel t object area = some res) :
    (res.1.items_container.isSome = true →
      ((occupants res.2 : List T) : Multiset T) = object ::ₘ ((occupants t : List T) : Multiset T)) ∧
    (res.1.items_container.isSome = false →
      ((occupants res.2 : List T) : Multiset T) = ((occupants t : List T) : Multiset T)) := by
  refine recursive_insert_cases dflt object area
    (fun _ t res =>
      (res.1.items_container.isSome = true →
        ((occupants res.2 : List T) : Multiset T)
          = object ::ₘ ((occupants t : List T) : Multiset T)) ∧
      (res.1.items_container.isSome = false →
        ((occupants res.2 : List T) : Multiset T) = ((occupants t : List T) : Multiset T)))
    ?_ ?_ ?_ fuel t res h
  · intro _ d cs _ he _
    refine ⟨fun _ => ?_, fun hf => (by cases hf)⟩
    rw [coe_occupants_node, coe_occupants_node, he]
    simp
  · intro _ d cs _ _
    exact ⟨fun hf => (by cases hf), fun _ => rfl⟩
  · intro fuel d cs i child loc child1 _ hchild _ ih
    have hocc : occupants child = occupants (cs i) := by
      rw [hchild]; exact occupants_child dflt _ _ _ _
    have hsum := sum_update_add (fun c => ((occupants c : List T) : Multiset T)) cs i child1
    simp only at hsum
    rw [underSlot_container_isSome]
    constructor
    · intro hacc
      have h1 := ih.1 hacc
      simp only at h1
      rw [coe_occupants_node, coe_occupants_node]
      rw [h1, hocc] at hsum
      have : (∑ j : Fin 8, ((occupants (Function.update cs i child1 j) : List T) : Multiset T))
          = object ::ₘ ∑ j : Fin 8, ((occupants (cs j) : List T) : Multiset T) := by
        apply add_right_cancel (b := ((occupants (cs i) : List T) : Multiset T))
        rw [hsum, Multiset.cons_add, Multiset.add_cons]
      rw [this, Multiset.add_cons]
    · intro hrej
      have h1 := ih.2 hrej
      simp only at h1
      rw [coe_occupants_node, coe_occupants_node]
      rw [h1, hocc] at hsum
      rw [add_right_cancel hsum]

theorem insert_occupants {dflt : AABB} {fuel : Nat} {t : Octree T} {object : T} {area : AABB}
    {loc : Location (Fin 8)} {t1 : Octree T}
    (h : insert dflt fuel t object area = some (loc, t1)) :
    (loc.items_container.isSome = true →
      ((occupants t1 : List T) : Multiset T) = object ::ₘ ((occupants t : List T) : Multiset T)) ∧
    (loc.items_container.isSome = false →
      ((occupants t1 : List T) : Multiset T) = ((occupants t : List T) : Multiset T)) := by
  rcases insert_cases h with ⟨d, cs, _, _, hres⟩ | ⟨d, cs, _, _, hr⟩
  · have h1 : loc = noLocation dflt := congrArg Prod.fst hres
    have h2 : t1 = t := congrArg Prod.snd hres
    rw [h1, h2]
    exact ⟨fun hf => (by cases hf), fun _ => rfl⟩
  · exact recursive_insert_occupants dflt object area fuel t (loc, t1) hr

end Octree

end DataStructures

namespace DataStructures

open Collisions Trees Coordinates

namespace Octree

variable {T : Type}

/-! ## `resize` -/

theorem recursive_resize_node (d : OctreeNode T) (cs : Fin 8 → Octree T) (area : AABB) :
    recursive_resize (node d cs) area =
      node { d with
          m_Position := d.m_Position.update_position area.bounding_region.1 area.bounding_region.2
          m_Item := []
          m_OctantsBounds := fun i => calculate_bounding_box
            (d.m_Position.update_position area.bounding_region.1 area.bounding_region.2)
            (d.m_OctantsBounds i) i }
        (fun i => if (cs i).isSome then
            recursive_resize (cs i) (calculate_bounding_box
              (d.m_Position.update_position area.bounding_region.1 area.bounding_region.2)
              (d.m_OctantsBounds i) i)
          else cs i) := rfl

theorem all_empty_recursive_resize (t : Octree T) :
    ∀ area : AABB, All (fun d => d.m_Item = []) (recursive_resize t area) := by
  induction t with
  | null => intro _; trivial
  | node d cs ih =>
    intro area
    rw [recursive_resize_node]
    refine ⟨rfl, fun i => ?_⟩
    by_cases h : (cs i).isSome = true
    · simp only [h, if_true]
      exact ih i _
    · simp only [h, if_false]
      rw [isSome_eq_false h]
      trivial

theorem occupants_resize (t : Octree T) (area : AABB) : occupants (resize t area) = [] := by
  unfold occupants resize
  rw [collect_items_of_all_empty (all_empty_recursive_resize t area)]
  rfl

/-! ## The loop of `shift` -/

theorem insert_root {dflt : AABB} {fuel : Nat} {t : Octree T} {object : T} {area : AABB}
    {loc : Location (Fin 8)} {t1 : Octree T}
    (h : insert dflt fuel t object area = some (loc, t1)) :
    ∃ d cs e cs', t = node d cs ∧ t1 = node e cs' ∧ e = { d with m_Item := e.m_Item } := by
  rcases insert_cases h with ⟨d, cs, ht, _, hres⟩ | ⟨d, cs, _, _, hr⟩
  · have h2 : t1 = t := congrArg Prod.snd hres
    exact ⟨d, cs, d, cs, ht, by rw [h2, ht], rfl⟩
  · exact recursive_insert_root dflt object area fuel t (loc, t1) hr

theorem shift_reinsert_nil (dflt : AABB) (fuel : Nat) (t : Octree T) (out : List (T × AABB)) :
    shift_reinsert dflt fuel t [] out = some (t, out) := rfl

theorem shift_reinsert_cons (dflt : AABB) (fuel : Nat) (t : Octree T) (it : T × AABB)
    (rest out : List (T × AABB)) :
    shift_reinsert dflt fuel t (it :: rest) out =
      match insert dflt fuel t it.1 it.2 with
      | none => none
      | some (loc, t1) =>
        if loc.items_container.isSome then shift_reinsert dflt fuel t1 rest out
        else shift_reinsert dflt fuel t1 rest (out ++ [it]) := rfl

/-- What the loop of `shift` does: the pairs it appends are taken from the
collected pairs in their order, every collected item ends either in the tree or
among the appended pairs, and the members of the root other than its item list
stay as they are. -/
theorem shift_reinsert_spec (dflt : AABB) (fuel : Nat) :
    ∀ (items : List (T × AABB)) (t : Octree T) (out : List (T × AABB))
      (t' : Octree T) (out' : List (T × AABB)),
      shift_reinsert dflt fuel t items out = some (t', out') →
      ∃ appended, out' = out ++ appended ∧ appended.Sublist items ∧
        ((occupants t' : List T) : Multiset T) + ((appended.map Prod.fst : List T) : Multiset T)
          = ((occupants t : List T) : Multiset T) + ((items.map Prod.fst : List T) : Multiset T) ∧
        ∀ d cs, t = node d cs → ∃ e cs', t' = node e cs' ∧ e = { d with m_Item := e.m_Item } := by
  intro items
  induction items with
  | nil =>
    intro t out t' out' h
    rw [shift_reinsert_nil, Option.some.injEq, Prod.mk.injEq] at h
    obtain ⟨rfl, rfl⟩ := h
    exact ⟨[], (List.append_nil _).symm, List.Sublist.refl _, rfl,
      fun d cs hd => ⟨d, cs, hd, rfl⟩⟩
  | cons it rest ih =>
    intro t out t' out' h
    rw [shift_reinsert_cons] at h
    cases hins : insert dflt fuel t it.1 it.2 with
    | none => rw [hins] at h; cases h
    | some r =>
      obtain ⟨loc, t1⟩ := r
      rw [hins] at h
      simp only at h
      obtain ⟨d0, cs0, e0, cs0', ht, ht1, he0⟩ := insert_root hins
      have hocc := insert_occupants hins
      cases hacc : loc.items_container.isSome with
      | true =>
        rw [hacc] at h
        simp only [if_true] at h
        obtain ⟨appended, h1, h2, h3, h4⟩ := ih t1 out t' out' h
        refine ⟨appended, h1, List.Sublist.cons _ h2, ?_, ?_⟩
        · rw [h3, hocc.1 hacc, List.map_cons, ← Multiset.cons_coe, Multiset.cons_add,
            Multiset.add_cons]
        · intro d cs hd
          obtain ⟨e, cs', he1, he2⟩ := h4 e0 cs0' ht1
          refine ⟨e, cs', he1, ?_⟩
          rw [ht] at hd
          cases hd
          rw [he2, he0]
      | false =>
        rw [hacc] at h
        simp only [Bool.false_eq_true, if_false] at h
        obtain ⟨appended, h1, h2, h3, h4⟩ := ih t1 (out ++ [it]) t' out' h
        refine ⟨it :: appended, ?_, List.Sublist.cons₂ _ h2, ?_, ?_⟩
        · rw [h1, List.append_assoc, List.singleton_append]
        · rw [List.map_cons, ← Multiset.cons_coe, Multiset.add_cons, h3, hocc.2 hacc,
            List.map_cons, ← Multiset.cons_coe, Multiset.add_cons]
        · intro d cs hd
          obtain ⟨e, cs', he1, he2⟩ := h4 e0 cs0' ht1
          refine ⟨e, cs', he1, ?_⟩
          rw [ht] at hd
          cases hd
          rw [he2, he0]

theorem shift_node (dflt : AABB) (fuel : Nat) (d : OctreeNode T) (cs : Fin 8 → Octree T)
    (leaf_nodes : Nat) (direction : Directions) (out : List (T × AABB)) :
    shift dflt fuel (node d cs) leaf_nodes direction out =
      shift_reinsert dflt fuel
        (resize (node d cs)
          ⟨(shift_bounding_box d.m_Position.bounding_region leaf_nodes d.m_LeafNodeSide
              direction).1,
            (shift_bounding_box d.m_Position.bounding_region leaf_nodes d.m_LeafNodeSide
              direction).2⟩)
        (collect_items (node d cs)) out := rfl

/-- What `shift` does, in one statement: see `shift_reinsert_spec`; the bounds
of the root become the box `resize` was given. -/
theorem shift_spec {dflt : AABB} {fuel : Nat} {t : Octree T} {leaf_nodes : Nat}
    {direction : Directions} {out : List (T × AABB)} {t' : Octree T} {out' : List (T × AABB)}
    (h : shift dflt fuel t leaf_nodes direction out = some (t', out')) :
    ∃ appended, out' = out ++ appended ∧ appended.Sublist (collect_items t) ∧
      (occupants t).Perm (occupants t' ++ appended.map Prod.fst) ∧
      ∃ d cs e cs', t = node d cs ∧ t' = node e cs' ∧
        e.m_LeafNodeSide = d.m_LeafNodeSide ∧
        e.m_Position = ⟨AABB.minCorner
            ⟨(shift_bounding_box d.m_Position.bounding_region leaf_nodes d.m_LeafNodeSide
                direction).1,
              (shift_bounding_box d.m_Position.bounding_region leaf_nodes d.m_LeafNodeSide
                direction).2⟩,
          AABB.maxCorner
            ⟨(shift_bounding_box d.m_Position.bounding_region leaf_nodes d.m_LeafNodeSide
                direction).1,
              (shift_bounding_box d.m_Position.bounding_region leaf_nodes d.m_LeafNodeSide
                direction).2⟩⟩ := by
  cases t with
  | null => cases h
  | node d cs =>
    rw [shift_node] at h
    obtain ⟨appended, h1, h2, h3, h4⟩ := shift_reinsert_spec dflt fuel _ _ _ _ _ h
    refine ⟨appended, h1, h2, ?_, ?_⟩
    · rw [occupants_resize, Multiset.coe_nil, zero_add] at h3
      rw [← Multiset.coe_eq_coe, ← Multiset.coe_add, h3]
      rfl
    · obtain ⟨e, cs', he1, he2⟩ := h4 _ _ (recursive_resize_node d cs _)
      refine ⟨d, cs, e, cs', rfl, he1, ?_, ?_⟩
      · rw [he2]
      · rw [he2]
        rfl

end Octree

end DataStructures

namespace DataStructures

open Collisions Trees Coordinates

namespace Octree

variable {T : Type}

/-! ## Fuel: more is never different, and some amount is enough -/

theorem recursive_insert_fuel_succ (dflt : AABB) (object : T) (area : AABB) :
    ∀ (fuel : Nat) (t : Octree T) (res : Location (Fin 8) × Octree T),
      recursive_insert dflt fuel t object area = some res →
      recursive_insert dflt (fuel + 1) t object area = some res := by
  intro fuel
  induction fuel with
  | zero => intro t res h; cases h
  | succ fuel ih =>
    intro t res h
    cases t with
    | null => cases h
    | node d cs =>
      rw [recursive_insert_succ_node] at h ⊢
      cases hs : insert_scan d area with
      | none =>
        rw [hs] at h
        exact h
      | some i =>
        rw [hs] at h
        simp only at h ⊢
        cases hr : recursive_insert dflt fuel
            (if (cs i).isSome then cs i
              else mk3 dflt (d.m_OctantsBounds i) (d.m_Depth + 1) d.m_MinimumDimensions)
            object area with
        | none => rw [hr] at h; cases h
        | some r =>
          rw [hr] at h
          rw [ih _ _ hr]
          exact h

theorem recursive_insert_fuel_mono (dflt : AABB) (object : T) (area : AABB) {fuel fuel' : Nat}
    (hle : fuel ≤ fuel') {t : Octree T} {res : Location (Fin 8) × Octree T}
    (h : recursive_insert dflt fuel t object area = some res) :
    recursive_insert dflt fuel' t object area = some res := by
  induction hle with
  | refl => exact h
  | step _ ih => exact recursive_insert_fuel_succ dflt object area _ _ _ ih

theorem insert_node (dflt : AABB) (fuel : Nat) (d : OctreeNode T) (cs : Fin 8 → Octree T)
    (object : T) (area : AABB) :
    insert dflt fuel (node d cs) object area =
      if (!d.m_NodeReady) = true then some (noLocation dflt, node d cs)
      else recursive_insert dflt fuel (node d cs) object area := rfl

theorem insert_fuel_mono (dflt : AABB) (object : T) (area : AABB) {fuel fuel' : Nat}
    (hle : fuel ≤ fuel') {t : Octree T} {res : Location (Fin 8) × Octree T}
    (h : insert dflt fuel t object area = some res) :
    insert dflt fuel' t object area = some res := by
  cases t with
  | null => cases h
  | node d cs =>
    rw [insert_node] at h ⊢
    by_cases hr : (!d.m_NodeReady) = true
    · rw [if_pos hr] at h ⊢
      exact h
    · rw [if_neg hr] at h ⊢
      exact recursive_insert_fuel_mono dflt object area hle h

theorem recursive_insert_returns_of_scan_none (dflt : AABB) (object : T) (area : AABB)
    (fuel : Nat) (d : OctreeNode T) (cs : Fin 8 → Octree T) (hs : insert_scan d area = none) :
    (recursive_insert dflt (fuel + 1) (node d cs) object area).isSome = true := by
  rw [recursive_insert_succ_node, hs]
  simp only
  split
  · split <;> rfl
  · rfl

theorem recursive_insert_returns_of_child (dflt : AABB) (object : T) (area : AABB)
    (fuel : Nat) (d : OctreeNode T) (cs : Fin 8 → Octree T) (i : Fin 8)
    (hs : insert_scan d area = some i)
    (hc : (recursive_insert dflt fuel
      (if (cs i).isSome then cs i
        else mk3 dflt (d.m_OctantsBounds i) (d.m_Depth + 1) d.m_MinimumDimensions)
      object area).isSome = true) :
    (recursive_insert dflt (fuel + 1) (node d cs) object area).isSome = true := by
  rw [recursive_insert_succ_node, hs]
  simp only
  cases hr : recursive_insert dflt fuel
      (if (cs i).isSome then cs i
        else mk3 dflt (d.m_OctantsBounds i) (d.m_Depth + 1) d.m_MinimumDimensions)
      object area with
  | none => rw [hr] at hc; cases hc
  | some r => rfl

/-- A call of `recursive_insert` on a freshly built subtree returns when the
default-constructed box does not contain the area. -/
theorem recursive_insert_fresh_returns (dflt : AABB) (object : T) (area : AABB)
    (hd : dflt.contains area = false) :
    ∀ (n : Nat) (d : OctreeNode T), (∀ i, d.m_OctantsBounds i = dflt) → d.m_IsLeaf = true →
      ∃ fuel, (recursive_insert dflt fuel (recursive_subdivide dflt n d) object area).isSome
        = true := by
  intro n
  induction n with
  | zero =>
    intro d hb _
    refine ⟨1, ?_⟩
    exact recursive_insert_returns_of_scan_none dflt object area 0 d _
      (insert_scan_outside (fun i => by rw [hb i]; exact hd))
  | succ n ih =>
    intro d hb hleaf
    by_cases hdepth : d.m_Depth ≤ d.m_MaxDepth
    · by_cases hdims :
          (d.m_Position.dimensions.stored.x < Ieee754.toFloat (d.m_MinimumDimensions : ℚ) ∨
          d.m_Position.dimensions.stored.y < Ieee754.toFloat (d.m_MinimumDimensions : ℚ) ∨
          d.m_Position.dimensions.stored.z < Ieee754.toFloat (d.m_MinimumDimensions : ℚ))
      · rw [recursive_subdivide_small dflt _ d hdims]
        exact ⟨1, recursive_insert_returns_of_scan_none dflt object area 0 d _
          (insert_scan_outside (fun i => by rw [hb i]; exact hd))⟩
      · rw [recursive_subdivide_split_stored dflt n d hleaf hdepth hdims]
        cases hs : insert_scan ({ d with
            m_OctantsBounds := fun i => calculate_bounding_box d.m_Position d.m_Position i
            m_IsLeaf := false } : OctreeNode T) area with
        | none => exact ⟨1, recursive_insert_returns_of_scan_none dflt object area 0 _ _ hs⟩
        | some i =>
          obtain ⟨fuel, hf⟩ := ih (init4 dflt (calculate_bounding_box d.m_Position d.m_Position i)
            d.m_MaxDepth d.m_MinimumDimensions (d.m_Depth + 1)) (fun _ => rfl) rfl
          refine ⟨fuel + 1, recursive_insert_returns_of_child dflt object area fuel _ _ i hs ?_⟩
          simp only [recursive_subdivide_isSome, if_true]
          exact hf
    · rw [recursive_subdivide_beyond dflt _ d hdepth]
      exact ⟨1, recursive_insert_returns_of_scan_none dflt object area 0 d _
        (insert_scan_outside (fun i => by rw [hb i]; exact hd))⟩

/-- A call of `recursive_insert` on any node returns when the
default-constructed box does not contain the area. -/
theorem recursive_insert_returns (dflt : AABB) (object : T) (area : AABB)
    (hd : dflt.contains area = false) :
    ∀ t : Octree T, t.isSome = true →
      ∃ fuel, (recursive_insert dflt fuel t object area).isSome = true := by
  intro t
  induction t with
  | null => intro h; cases h
  | node d cs ih =>
    intro _
    cases hs : insert_scan d area with
    | none => exact ⟨1, recursive_insert_returns_of_scan_none dflt object area 0 d cs hs⟩
    | some i =>
      by_cases hc : (cs i).isSome = true
      · obtain ⟨fuel, hf⟩ := ih i hc
        refine ⟨fuel + 1, recursive_insert_returns_of_child dflt object area fuel d cs i hs ?_⟩
        rw [if_pos hc]
        exact hf
      · obtain ⟨fuel, hf⟩ := recursive_insert_fresh_returns dflt object area hd (d.m_Depth + 1 + 1)
          (init3 dflt (d.m_OctantsBounds i) (d.m_Depth + 1) d.m_MinimumDimensions)
          (fun _ => rfl) rfl
        refine ⟨fuel + 1, recursive_insert_returns_of_child dflt object area fuel d cs i hs ?_⟩
        rw [if_neg hc]
        exact hf

/-- The public `insert` returns, with one and the same result, for every amount
of fuel from some amount on. -/
theorem insert_returns (dflt : AABB) (object : T) (area : AABB)
    (hd : dflt.contains area = false) (t : Octree T) (ht : t.isSome = true) :
    ∃ fuel0 res, ∀ fuel, fuel0 ≤ fuel → insert dflt fuel t object area = some res := by
  obtain ⟨fuel0, hf⟩ := recursive_insert_returns dflt object area hd t ht
  cases t with
  | null => cases ht
  | node d cs =>
    by_cases hr : (!d.m_NodeReady) = true
    · refine ⟨0, (noLocation dflt, node d cs), fun fuel _ => ?_⟩
      rw [insert_node, if_pos hr]
    · cases hres : recursive_insert dflt fuel0 (node d cs) object area with
      | none => rw [hres] at hf; cases hf
      | some res =>
        refine ⟨fuel0, res, fun fuel hle => ?_⟩
        rw [insert_node, if_neg hr]
        exact recursive_insert_fuel_mono dflt object area hle hres

/-- The loop of `shift` returns, with one and the same result, for every amount
of fuel from some amount on, when the default-constructed box contains none of
the areas offered. -/
theorem shift_reinsert_returns (dflt : AABB) :
    ∀ (items : List (T × AABB)) (t : Octree T) (out : List (T × AABB)), t.isSome = true →
      (∀ pr ∈ items, dflt.contains pr.2 = false) →
      ∃ fuel0 res, ∀ fuel, fuel0 ≤ fuel → shift_reinsert dflt fuel t items out = some res := by
  intro items
  induction items with
  | nil => intro t out _ _; exact ⟨0, (t, out), fun _ _ => rfl⟩
  | cons it rest ih =>
    intro t out ht hd
    obtain ⟨f1, r1, h1⟩ := insert_returns dflt it.1 it.2 (hd it (List.mem_cons_self _ _)) t ht
    obtain ⟨loc, t1⟩ := r1
    have ht1 : t1.isSome = true := insert_isSome (h1 f1 (le_refl _))
    have hrest : ∀ pr ∈ rest, dflt.contains pr.2 = false :=
      fun pr hpr => hd pr (List.mem_cons_of_mem _ hpr)
    cases hacc : loc.items_container.isSome with
    | true =>
      obtain ⟨f2, r2, h2⟩ := ih t1 out ht1 hrest
      refine ⟨max f1 f2, r2, fun fuel hle => ?_⟩
      rw [shift_reinsert_cons, h1 fuel (le_trans (le_max_left _ _) hle)]
      simp only [hacc, if_true]
      exact h2 fuel (le_trans (le_max_right _ _) hle)
    | false =>
      obtain ⟨f2, r2, h2⟩ := ih t1 (out ++ [it]) ht1 hrest
      refine ⟨max f1 f2, r2, fun fuel hle => ?_⟩
      rw [shift_reinsert_cons, h1 fuel (le_trans (le_max_left _ _) hle)]
      simp only [hacc, Bool.false_eq_true, if_false]
      exact h2 fuel (le_trans (le_max_right _ _) hle)

/-- `shift` returns, with one and the same result, for every amount of fuel from
some amount on, when the default-constructed box contains none of the collected
boxes. -/
theorem shift_returns (dflt : AABB) (t : Octree T) (ht : t.isSome = true) (leaf_nodes : Nat)
    (direction : Directions) (out : List (T × AABB))
    (hd : ∀ pr ∈ collect_items t, dflt.contains pr.2 = false) :
    ∃ fuel0 res, ∀ fuel, fuel0 ≤ fuel →
      shift dflt fuel t leaf_nodes direction out = some res := by
  cases t with
  | null => cases ht
  | node d cs =>
    obtain ⟨f, r, h⟩ := shift_reinsert_returns dflt (collect_items (node d cs))
      (resize (node d cs)
        ⟨(shift_bounding_box d.m_Position.bounding_region leaf_nodes d.m_LeafNodeSide
            direction).1,
          (shift_bounding_box d.m_Position.bounding_region leaf_nodes d.m_LeafNodeSide
            direction).2⟩) out rfl hd
    exact ⟨f, r, fun fuel hle => by rw [shift_node]; exact h fuel hle⟩

end Octree

end DataStructures

namespace DataStructures

open Collisions Trees Coordinates

namespace Octree

variable {T : Type}

/-! ## The pairs `collect_items` makes, and the corners after a translation -/

theorem mem_collect_items {t : Octree T} :
    ∀ {pr : T × AABB}, pr ∈ collect_items t →
      ∃ p d, nodeAt t p = some d ∧ pr.1 ∈ d.m_Item ∧ pr.2 = d.m_Position := by
  induction t with
  | null => intro pr h; cases h
  | node d cs ih =>
    intro pr h
    rw [collect_items_node_eq, List.mem_append] at h
    rcases h with h | h
    · rw [List.mem_map] at h
      obtain ⟨it, hit, rfl⟩ := h
      exact ⟨[], d, rfl, hit, rfl⟩
    · rw [List.mem_flatten] at h
      obtain ⟨l, hl, hpr⟩ := h
      rw [List.mem_map] at hl
      obtain ⟨i, _, rfl⟩ := hl
      obtain ⟨p, e, h1, h2, h3⟩ := ih i hpr
      exact ⟨i :: p, e, h1, h2, h3⟩

theorem corners_of_ordered (p q : glm.vec3) (hx : p.x ≤ q.x) (hy : p.y ≤ q.y)
    (hz : p.z ≤ q.z) :
    (⟨AABB.minCorner ⟨p, q⟩, AABB.maxCorner ⟨p, q⟩⟩ : AABB).minCorner = p ∧
    (⟨AABB.minCorner ⟨p, q⟩, AABB.maxCorner ⟨p, q⟩⟩ : AABB).maxCorner = q := by
  constructor
  · simp only [AABB.minCorner, AABB.maxCorner, min_eq_left hx, min_eq_left hy, min_eq_left hz,
      max_eq_right hx, max_eq_right hy, max_eq_right hz]
  · simp only [AABB.minCorner, AABB.maxCorner, min_eq_left hx, min_eq_left hy, min_eq_left hz,
      max_eq_right hx, max_eq_right hy, max_eq_right hz]

theorem dimensions_eq (b : AABB) :
    b.dimensions = ⟨b.maxCorner.x - b.minCorner.x, b.maxCorner.y - b.minCorner.y,
      b.maxCorner.z - b.minCorner.z⟩ := rfl

/-- The corners of the box `shift` hands to `resize`, by direction: the
displacement is added to or subtracted from one coordinate of both corners, in
`float`. -/
theorem shift_bounding_box_corners (b : AABB) (leaf_nodes side : Nat) (direction : Directions) :
    (direction = Directions.East →
      (⟨AABB.minCorner ⟨(shift_bounding_box b.bounding_region leaf_nodes side direction).1,
          (shift_bounding_box b.bounding_region leaf_nodes side direction).2⟩,
        AABB.maxCorner ⟨(shift_bounding_box b.bounding_region leaf_nodes side direction).1,
          (shift_bounding_box b.bounding_region leaf_nodes side direction).2⟩⟩ : AABB).minCorner
        = ⟨Ieee754.toFloat (b.minCorner.x + shift_displacement leaf_nodes side), b.minCorner.y, b.minCorner.z⟩ ∧
      (⟨AABB.minCorner ⟨(shift_bounding_box b.bounding_region leaf_nodes side direction).1,
          (shift_bounding_box b.bounding_region leaf_nodes side direction).2⟩,
        AABB.maxCorner ⟨(shift_bounding_box b.bounding_region leaf_nodes side direction).1,
          (shift_bounding_box b.bounding_region leaf_nodes side direction).2⟩⟩ : AABB).maxCorner
        = ⟨Ieee754.toFloat (b.maxCorner.x + shift_displacement leaf_nodes side), b.maxCorner.y, b.maxCorner.z⟩) ∧
    (direction = Directions.West →
      (⟨AABB.minCorner ⟨(shift_bounding_box b.bounding_region leaf_nodes side direction).1,
          (shift_bounding_box b.bounding_region leaf_nodes side direction).2⟩,
        AABB.maxCorner ⟨(shift_bounding_box b.bounding_region leaf_nodes side direction).1,
          (shift_bounding_box b.bounding_region leaf_nodes side direction).2⟩⟩ : AABB).minCorner
        = ⟨Ieee754.toFloat (b.minCorner.x - shift_displacement leaf_nodes side), b.minCorner.y, b.minCorner.z⟩ ∧
      (⟨AABB.minCorner ⟨(shift_bounding_box b.bounding_region leaf_nodes side direction).1,
          (shift_bounding_box b.bounding_region leaf_nodes side direction).2⟩,
        AABB.maxCorner ⟨(shift_bounding_box b.bounding_region leaf_nodes side direction).1,
          (shift_bounding_box b.bounding_region leaf_nodes side direction).2⟩⟩ : AABB).maxCorner
        = ⟨Ieee754.toFloat (b.maxCorner.x - shift_displacement leaf_nodes side), b.maxCorner.y, b.maxCorner.z⟩) ∧
    (direction = Directions.South →
      (⟨AABB.minCorner ⟨(shift_bounding_box b.bounding_region leaf_nodes side direction).1,
          (shift_bounding_box b.bounding_region leaf_nodes side direction).2⟩,
        AABB.maxCorner ⟨(shift_bounding_box b.bounding_region leaf_nodes side direction).1,
          (shift_bounding_box b.bounding_region leaf_nodes side direction).2⟩⟩ : AABB).minCorner
        = ⟨b.minCorner.x, b.minCorner.y, Ieee754.toFloat (b.minCorner.z + shift_displacement leaf_nodes side)⟩ ∧
      (⟨AABB.minCorner ⟨(shift_bounding_box b.bounding_region leaf_nodes side direction).1,
          (shift_bounding_box b.bounding_region leaf_nodes side direction).2⟩,
        AABB.maxCorner ⟨(shift_bounding_box b.bounding_region leaf_nodes side direction).1,
          (shift_bounding_box b.bounding_region leaf_nodes side direction).2⟩⟩ : AABB).maxCorner
        = ⟨b.maxCorner.x, b.maxCorner.y, Ieee754.toFloat (b.maxCorner.z + shift_displacement leaf_nodes side)⟩) ∧
    (direction = Directions.North →
      (⟨AABB.minCorner ⟨(shift_bounding_box b.bounding_region leaf_nodes side direction).1,
          (shift_bounding_box b.bounding_region leaf_nodes side direction).2⟩,
        AABB.maxCorner ⟨(shift_bounding_box b.bounding_region leaf_nodes side direction).1,
          (shift_bounding_box b.bounding_region leaf_nodes side direction).2⟩⟩ : AABB).minCorner
        = ⟨b.minCorner.x, b.minCorner.y, Ieee754.toFloat (b.minCorner.z - shift_displacement leaf_nodes side)⟩ ∧
      (⟨AABB.minCorner ⟨(shift_bounding_box b.bounding_region leaf_nodes side direction).1,
          (shift_bounding_box b.bounding_region leaf_nodes side direction).2⟩,
        AABB.maxCorner ⟨(shift_bounding_box b.bounding_region leaf_nodes side direction).1,
          (shift_bounding_box b.bounding_region leaf_nodes side direction).2⟩⟩ : AABB).maxCorner
        = ⟨b.maxCorner.x, b.maxCorner.y, Ieee754.toFloat (b.maxCorner.z - shift_displacement leaf_nodes side)⟩) := by
  obtain ⟨m1, m2, m3⟩ := AABB.minCorner_le_maxCorner b
  refine ⟨?_, ?_, ?_, ?_⟩
  · rintro rfl
    exact corners_of_ordered _ _ (Ieee754.toFloat_mono (add_le_add_right m1 _)) m2 m3
  · rintro rfl
    exact corners_of_ordered _ _ (Ieee754.toFloat_mono (sub_le_sub_right m1 _)) m2 m3
  · rintro rfl
    exact corners_of_ordered _ _ m1 m2 (Ieee754.toFloat_mono (add_le_add_right m3 _))
  · rintro rfl
    exact corners_of_ordered _ _ m1 m2 (Ieee754.toFloat_mono (sub_le_sub_right m3 _))

end Octree

end DataStructures

namespace DataStructures

open Collisions Trees Coordinates

namespace Octree

variable {T : Type}

/-! ## The nodes `recursive_dfs` reaches -/

/-- The own part of `recursive_dfs` as one test. -/
theorem recursive_dfs_own (d : OctreeNode T) (area : AABB) :
    (if !d.m_Item.isEmpty then
        (if d.m_Position.contains area then d.m_Item
         else if d.m_IsLeaf && d.m_Position.intersects2 area then d.m_Item
         else [])
      else [])
    = if d.m_Item.isEmpty = false ∧ (d.m_Position.contains area = true ∨
          (d.m_IsLeaf = true ∧ d.m_Position.intersects2 area = true))
      then d.m_Item else [] := by
  cases d.m_Item with
  | nil => simp
  | cons a l =>
    cases d.m_Position.contains area <;> cases d.m_IsLeaf <;>
      cases d.m_Position.intersects2 area <;> simp

theorem mem_recursive_dfs_iff {x : T} {area : AABB} :
    ∀ {t : Octree T}, x ∈ recursive_dfs t area ↔
      ∃ p d, Visits area t p ∧ nodeAt t p = some d ∧ x ∈ d.m_Item ∧
        (d.m_Position.contains area = true ∨
          (d.m_IsLeaf = true ∧ d.m_Position.intersects2 area = true)) := by
  intro t
  induction t with
  | null =>
    constructor
    · intro h; cases h
    · rintro ⟨p, d, hv, _⟩; exact hv.elim
  | node d cs ih =>
    rw [recursive_dfs_node, recursive_dfs_own, List.mem_append]
    constructor
    · rintro (h | h)
      · by_cases hc : d.m_Item.isEmpty = false ∧ (d.m_Position.contains area = true ∨
            (d.m_IsLeaf = true ∧ d.m_Position.intersects2 area = true))
        · rw [if_pos hc] at h
          exact ⟨[], d, trivial, rfl, h, hc.2⟩
        · rw [if_neg hc] at h
          cases h
      · rw [List.mem_flatten] at h
        obtain ⟨l, hl, hx⟩ := h
        rw [List.mem_map] at hl
        obtain ⟨i, _, rfl⟩ := hl
        by_cases hs : (cs i).isSome = true
        · rw [if_pos hs] at hx
          by_cases hb : (d.m_OctantsBounds i).intersects2 area = true
          · rw [if_pos hb] at hx
            obtain ⟨p, e, hv, hn, hm, hc⟩ := (ih i).mp hx
            exact ⟨i :: p, e, ⟨hs, hb, hv⟩, hn, hm, hc⟩
          · rw [if_neg hb] at hx
            cases hx
        · rw [if_neg hs] at hx
          cases hx
    · rintro ⟨p, e, hv, hn, hm, hc⟩
      cases p with
      | nil =>
        left
        have he : e = d := (Option.some.inj hn).symm
        subst he
        have hne : e.m_Item.isEmpty = false := by
          cases hi : e.m_Item with
          | nil => rw [hi] at hm; cases hm
          | cons a l => rfl
        rw [if_pos ⟨hne, hc⟩]
        exact hm
      | cons i p =>
        right
        obtain ⟨hs, hb, hv'⟩ := hv
        rw [List.mem_flatten]
        refine ⟨_, List.mem_map.mpr ⟨i, List.mem_finRange i, rfl⟩, ?_⟩
        rw [if_pos hs, if_pos hb]
        exact (ih i).mpr ⟨p, e, hv', hn, hm, hc⟩

end Octree

end DataStructures

namespace DataStructures

open Collisions Trees Coordinates Octree Scenario

variable {T : Type}

/-- C13. Conservation in `Octree::shift`: when the call returns the tree `t'`
and the list `out'`, then `out'` is the list given followed by the appended
pairs, the occupants held before are exactly the occupants of `t'` together with
the items of the appended pairs (each once), and `size()` after the call plus
the number of appended pairs is `size()` before. The call returns for every
amount of fuel from some amount on, on a tree whose collected boxes the
default-constructed box does not contain. -/
theorem shift_conservation (dflt : AABB) (t : Octree T) (leaf_nodes : Nat)
    (direction : Directions) (out : List (T × AABB)) :
    (∀ fuel t' out', shift dflt fuel t leaf_nodes direction out = some (t', out') →
      ∃ appended, out' = out ++ appended ∧
        (occupants t).Perm (occupants t' ++ appended.map Prod.fst) ∧
        t'.size + appended.length = t.size) ∧
    (t.isSome = true → (∀ pr ∈ collect_items t, dflt.contains pr.2 = false) →
      ∃ fuel0 res, ∀ fuel, fuel0 ≤ fuel →
        shift dflt fuel t leaf_nodes direction out = some res) := by
  refine ⟨fun fuel t' out' h => ?_, fun ht hd => shift_returns dflt t ht leaf_nodes direction out hd⟩
  obtain ⟨appended, h1, _, h3, _⟩ := shift_spec h
  refine ⟨appended, h1, h3, ?_⟩
  have hl := h3.length_eq
  rw [List.length_append, List.length_map, length_occupants, length_occupants] at hl
  exact hl.symm

/-- C13 at the tree with item 7 at the root: the shift by one leaf to the east
displaces the item. -/
theorem shift_conservation_witness :
    (∃ appended, [(7, sideEightCube)] = ([] : List (Nat × AABB)) ++ appended ∧
      (occupants centreCall).Perm (occupants shiftedCentre ++ appended.map Prod.fst) ∧
      shiftedCentre.size + appended.length = centreCall.size) ∧
    (∃ fuel0 res, ∀ fuel, fuel0 ≤ fuel →
      shift originBox fuel centreCall 1 Directions.East [] = some res) := by
  have hs : shift originBox 10 centreCall 1 Directions.East []
      = some (shiftedCentre, [(7, sideEightCube)]) := by
    have h := eq_some_getD (shift originBox 10 centreCall 1 Directions.East [])
      (centreCall, []) (by decide!)
    have h1 : ((shift originBox 10 centreCall 1 Directions.East []).getD
      (centreCall, [])).2 = [(7, sideEightCube)] := by decide!
    rw [h]
    exact congrArg some (Prod.ext rfl h1)
  exact ⟨(shift_conservation originBox centreCall 1 Directions.East []).1 10 _ _ hs,
    (shift_conservation originBox centreCall 1 Directions.East []).2 (by decide!) (by decide!)⟩

/-- C15, amended. Every pair `collect_items` makes for `shift` carries an item
of some node together with the bounds `m_Position` that node has before the
shift, and the pairs `shift` appends to the displaced list are taken from these
pairs, in their order. -/
theorem shift_pairs_carry_node_bounds (dflt : AABB) (t : Octree T) (leaf_nodes : Nat)
    (direction : Directions) (out : List (T × AABB)) :
    (∀ pr ∈ collect_items t,
      ∃ p d, nodeAt t p = some d ∧ pr.1 ∈ d.m_Item ∧ pr.2 = d.m_Position) ∧
    (∀ fuel t' out', shift dflt fuel t leaf_nodes direction out = some (t', out') →
      ∃ appended, out' = out ++ appended ∧ appended.Sublist (collect_items t)) ∧
    (t.isSome = true → (∀ pr ∈ collect_items t, dflt.contains pr.2 = false) →
      ∃ fuel0 res, ∀ fuel, fuel0 ≤ fuel →
        shift dflt fuel t leaf_nodes direction out = some res) := by
  refine ⟨fun pr hpr => mem_collect_items hpr, fun fuel t' out' h => ?_,
    fun ht hd => shift_returns dflt t ht leaf_nodes direction out hd⟩
  obtain ⟨appended, h1, h2, _⟩ := shift_spec h
  exact ⟨appended, h1, h2⟩

/-- C15, amended, at the tree with item 7 in the node at slots 3, 3, 3. -/
theorem shift_pairs_carry_node_bounds_witness :
    (∀ pr ∈ collect_items cellCall,
      ∃ p d, nodeAt cellCall p = some d ∧ pr.1 ∈ d.m_Item ∧ pr.2 = d.m_Position) ∧
    (∃ appended, ([] : List (Nat × AABB)) = [] ++ appended ∧
      appended.Sublist (collect_items cellCall)) ∧
    (∃ fuel0 res, ∀ fuel, fuel0 ≤ fuel →
      shift originBox fuel cellCall 1 Directions.East [] = some res) := by
  have hs : shift originBox 10 cellCall 1 Directions.East [] = some (shiftedCell, []) := by
    have h := eq_some_getD (shift originBox 10 cellCall 1 Directions.East [])
      (cellCall, []) (by decide!)
    have h1 : ((shift originBox 10 cellCall 1 Directions.East []).getD
      (cellCall, [])).2 = [] := by decide!
    rw [h]
    exact congrArg some (Prod.ext rfl h1)
  exact ⟨(shift_pairs_carry_node_bounds originBox cellCall 1 Directions.East []).1,
    (shift_pairs_carry_node_bounds originBox cellCall 1 Directions.East []).2.1 10 _ _ hs,
    (shift_pairs_carry_node_bounds originBox cellCall 1 Directions.East []).2.2
      (by decide!) (by decide!)⟩

/-- C16 as stated fails on the code. The displacement
`leaf_nodes * m_LeafNodeSide` is converted to `float` and added in `float`. On
the tree over the cube of side 8 centred at the origin (`maxDepth = 2`,
`minExtent = 1`, leaf side 2), `shift(16777217, East)` moves the bounds from
`x = -4 .. 4` to `x = 33554428 .. 33554436`, that is by `33554432` and not by
`16777217 * 2 = 33554434`. On the tree over the box from `(0.1f,0,0)` to
`(1.1f,1,1)` (`maxDepth = 0`, `minExtent = 1`, leaf side 1), `shift(1, East)`
changes the extent of the bounds along x from `134217731/134217728` to
`8388607/8388608`. -/
theorem shift_translation_counterexample :
    (leaf_node_side_length (tree Nat originBox) = 2 ∧
      (shift originBox 10 (tree Nat originBox) 16777217 Directions.East []).isSome = true ∧
      (aabb originBox (tree Nat originBox)).bounding_region = (⟨-4, -4, -4⟩, ⟨4, 4, 4⟩) ∧
      (aabb originBox farEast).bounding_region = (⟨33554428, -4, -4⟩, ⟨33554436, 4, 4⟩) ∧
      (-4 : ℚ) + ((16777217 * 2 : Nat) : ℚ) = 33554430) ∧
    (leaf_node_side_length tenthTree = 1 ∧
      (shift originBox 10 tenthTree 1 Directions.East []).isSome = true ∧
      (aabb originBox tenthTree).dimensions.x = 134217731 / 134217728 ∧
      (aabb originBox tenthEast).dimensions.x = 8388607 / 8388608) := by
  decide!

/-- C16, amended. Translation in `Octree::shift`: when the call returns the tree
`t'`, the corners of the bounds of `t'` are those of the bounds before with one
coordinate changed, x for East (plus) and West (minus), z for South (plus) and
North (minus): the displacement, which is the `float` nearest to `leaf_nodes *
leaf_node_side_length()` taken modulo `2^64`, is added or subtracted and the
result is rounded to the nearest `float`. The other coordinates, so the y
coordinates, and `leaf_node_side_length()` are unchanged. When the product is
below `2^64` and the product and the two new coordinates are values of `float`,
both corners move by exactly `leaf_nodes * leaf_node_side_length()` and the
per-axis dimensions are unchanged. The call returns for every amount of fuel
from some amount on, on a tree whose collected boxes the default-constructed box
does not contain. -/
theorem shift_translation (dflt : AABB) (t : Octree T) (leaf_nodes : Nat)
    (direction : Directions) (out : List (T × AABB)) :
    (∀ fuel t' out', shift dflt fuel t leaf_nodes direction out = some (t', out') →
      (direction = Directions.East →
        (aabb dflt t').minCorner = ⟨Ieee754.toFloat ((aabb dflt t).minCorner.x + shift_displacement leaf_nodes (leaf_node_side_length t)),
            (aabb dflt t).minCorner.y,
            (aabb dflt t).minCorner.z⟩ ∧
        (aabb dflt t').maxCorner = ⟨Ieee754.toFloat ((aabb dflt t).maxCorner.x + shift_displacement leaf_nodes (leaf_node_side_length t)),
            (aabb dflt t).maxCorner.y,
            (aabb dflt t).maxCorner.z⟩) ∧
      (direction = Directions.West →
        (aabb dflt t').minCorner = ⟨Ieee754.toFloat ((aabb dflt t).minCorner.x - shift_displacement leaf_nodes (leaf_node_side_length t)),
            (aabb dflt t).minCorner.y,
            (aabb dflt t).minCorner.z⟩ ∧
        (aabb dflt t').maxCorner = ⟨Ieee754.toFloat ((aabb dflt t).maxCorner.x - shift_displacement leaf_nodes (leaf_node_side_length t)),
            (aabb dflt t).maxCorner.y,
            (aabb dflt t).maxCorner.z⟩) ∧
      (direction = Directions.South →
        (aabb dflt t').minCorner = ⟨(aabb dflt t).minCorner.x,
            (aabb dflt t).minCorner.y,
            Ieee754.toFloat ((aabb dflt t).minCorner.z + shift_displacement leaf_nodes (leaf_node_side_length t))⟩ ∧
        (aabb dflt t').maxCorner = ⟨(aabb dflt t).maxCorner.x,
            (aabb dflt t).maxCorner.y,
            Ieee754.toFloat ((aabb dflt t).maxCorner.z + shift_displacement leaf_nodes (leaf_node_side_length t))⟩) ∧
      (direction = Directions.North →
        (aabb dflt t').minCorner = ⟨(aabb dflt t).minCorner.x,
            (aabb dflt t).minCorner.y,
            Ieee754.toFloat ((aabb dflt t).minCorner.z - shift_displacement leaf_nodes (leaf_node_side_length t))⟩ ∧
        (aabb dflt t').maxCorner = ⟨(aabb dflt t).maxCorner.x,
            (aabb dflt t).maxCorner.y,
            Ieee754.toFloat ((aabb dflt t).maxCorner.z - shift_displacement leaf_nodes (leaf_node_side_length t))⟩) ∧
      (aabb dflt t').minCorner.y = (aabb dflt t).minCorner.y ∧
      (aabb dflt t').maxCorner.y = (aabb dflt t).maxCorner.y ∧
      leaf_node_side_length t' = leaf_node_side_length t) ∧
    (∀ fuel t' out', shift dflt fuel t leaf_nodes direction out = some (t', out') →
      leaf_nodes * leaf_node_side_length t < 2 ^ 64 →
      Ieee754.toFloat ((leaf_nodes * leaf_node_side_length t : Nat) : ℚ) = ((leaf_nodes * leaf_node_side_length t : Nat) : ℚ) →
      (direction = Directions.East →
        Ieee754.toFloat ((aabb dflt t).minCorner.x + ((leaf_nodes * leaf_node_side_length t : Nat) : ℚ))
          = (aabb dflt t).minCorner.x + ((leaf_nodes * leaf_node_side_length t : Nat) : ℚ) →
        Ieee754.toFloat ((aabb dflt t).maxCorner.x + ((leaf_nodes * leaf_node_side_length t : Nat) : ℚ))
          = (aabb dflt t).maxCorner.x + ((leaf_nodes * leaf_node_side_length t : Nat) : ℚ) →
        (aabb dflt t').minCorner = ⟨(aabb dflt t).minCorner.x + ((leaf_nodes * leaf_node_side_length t : Nat) : ℚ),
            (aabb dflt t).minCorner.y,
            (aabb dflt t).minCorner.z⟩ ∧
        (aabb dflt t').maxCorner = ⟨(aabb dflt t).maxCorner.x + ((leaf_nodes * leaf_node_side_length t : Nat) : ℚ),
            (aabb dflt t).maxCorner.y,
            (aabb dflt t).maxCorner.z⟩ ∧
        (aabb dflt t').dimensions = (aabb dflt t).dimensions) ∧
      (direction = Directions.West →
        Ieee754.toFloat ((aabb dflt t).minCorner.x - ((leaf_nodes * leaf_node_side_length t : Nat) : ℚ))
          = (aabb dflt t).minCorner.x - ((leaf_nodes * leaf_node_side_length t : Nat) : ℚ) →
        Ieee754.toFloat ((aabb dflt t).maxCorner.x - ((leaf_nodes * leaf_node_side_length t : Nat) : ℚ))
          = (aabb dflt t).maxCorner.x - ((leaf_nodes * leaf_node_side_length t : Nat) : ℚ) →
        (aabb dflt t').minCorner = ⟨(aabb dflt t).minCorner.x - ((leaf_nodes * leaf_node_side_length t : Nat) : ℚ),
            (aabb dflt t).minCorner.y,
            (aabb dflt t).minCorner.z⟩ ∧
        (aabb dflt t').maxCorner = ⟨(aabb dflt t).maxCorner.x - ((leaf_nodes * leaf_node_side_length t : Nat) : ℚ),
            (aabb dflt t).maxCorner.y,
            (aabb dflt t).maxCorner.z⟩ ∧
        (aabb dflt t').dimensions = (aabb dflt t).dimensions) ∧
      (direction = Directions.South →
        Ieee754.toFloat ((aabb dflt t).minCorner.z + ((leaf_nodes * leaf_node_side_length t : Nat) : ℚ))
          = (aabb dflt t).minCorner.z + ((leaf_nodes * leaf_node_side_length t : Nat) : ℚ) →
        Ieee754.toFloat ((aabb dflt t).maxCorner.z + ((leaf_nodes * leaf_node_side_length t : Nat) : ℚ))
          = (aabb dflt t).maxCorner.z + ((leaf_nodes * leaf_node_side_length t : Nat) : ℚ) →
        (aabb dflt t').minCorner = ⟨(aabb dflt t).minCorner.x,
            (aabb dflt t).minCorner.y,
            (aabb dflt t).minCorner.z + ((leaf_nodes * leaf_node_side_length t : Nat) : ℚ)⟩ ∧
        (aabb dflt t').maxCorner = ⟨(aabb dflt t).maxCorner.x,
            (aabb dflt t).maxCorner.y,
            (aabb dflt t).maxCorner.z + ((leaf_nodes * leaf_node_side_length t : Nat) : ℚ)⟩ ∧
        (aabb dflt t').dimensions = (aabb dflt t).dimensions) ∧
      (direction = Directions.North →
        Ieee754.toFloat ((aabb dflt t).minCorner.z - ((leaf_nodes * leaf_node_side_length t : Nat) : ℚ))
          = (aabb dflt t).minCorner.z - ((leaf_nodes * leaf_node_side_length t : Nat) : ℚ) →
        Ieee754.toFloat ((aabb dflt t).maxCorner.z - ((leaf_nodes * leaf_node_side_length t : Nat) : ℚ))
          = (aabb dflt t).maxCorner.z - ((leaf_nodes * leaf_node_side_length t : Nat) : ℚ) →
        (aabb dflt t').minCorner = ⟨(aabb dflt t).minCorner.x,
            (aabb dflt t).minCorner.y,
            (aabb dflt t).minCorner.z - ((leaf_nodes * leaf_node_side_length t : Nat) : ℚ)⟩ ∧
        (aabb dflt t').maxCorner = ⟨(aabb dflt t).maxCorner.x,
            (aabb dflt t).maxCorner.y,
            (aabb dflt t).maxCorner.z - ((leaf_nodes * leaf_node_side_length t : Nat) : ℚ)⟩ ∧
        (aabb dflt t').dimensions = (aabb dflt t).dimensions)) ∧
    (t.isSome = true → (∀ pr ∈ collect_items t, dflt.contains pr.2 = false) →
      ∃ fuel0 res, ∀ fuel, fuel0 ≤ fuel →
        shift dflt fuel t leaf_nodes direction out = some res) := by
  have hA : ∀ fuel t' out', shift dflt fuel t leaf_nodes direction out = some (t', out') →
      (direction = Directions.East →
        (aabb dflt t').minCorner = ⟨Ieee754.toFloat ((aabb dflt t).minCorner.x + shift_displacement leaf_nodes (leaf_node_side_length t)),
            (aabb dflt t).minCorner.y,
            (aabb dflt t).minCorner.z⟩ ∧
        (aabb dflt t').maxCorner = ⟨Ieee754.toFloat ((aabb dflt t).maxCorner.x + shift_displacement leaf_nodes (leaf_node_side_length t)),
            (aabb dflt t).maxCorner.y,
            (aabb dflt t).maxCorner.z⟩) ∧
      (direction = Directions.West →
        (aabb dflt t').minCorner = ⟨Ieee754.toFloat ((aabb dflt t).minCorner.x - shift_displacement leaf_nodes (leaf_node_side_length t)),
            (aabb dflt t).minCorner.y,
            (aabb dflt t).minCorner.z⟩ ∧
        (aabb dflt t').maxCorner = ⟨Ieee754.toFloat ((aabb dflt t).maxCorner.x - shift_displacement leaf_nodes (leaf_node_side_length t)),
            (aabb dflt t).maxCorner.y,
            (aabb dflt t).maxCorner.z⟩) ∧
      (direction = Directions.South →
        (aabb dflt t').minCorner = ⟨(aabb dflt t).minCorner.x,
            (aabb dflt t).minCorner.y,
            Ieee754.toFloat ((aabb dflt t).minCorner.z + shift_displacement leaf_nodes (leaf_node_side_length t))⟩ ∧
        (aabb dflt t').maxCorner = ⟨(aabb dflt t).maxCorner.x,
            (aabb dflt t).maxCorner.y,
            Ieee754.toFloat ((aabb dflt t).maxCorner.z + shift_displacement leaf_nodes (leaf_node_side_length t))⟩) ∧
      (direction = Directions.North →
        (aabb dflt t').minCorner = ⟨(aabb dflt t).minCorner.x,
            (aabb dflt t).minCorner.y,
            Ieee754.toFloat ((aabb dflt t).minCorner.z - shift_displacement leaf_nodes (leaf_node_side_length t))⟩ ∧
        (aabb dflt t').maxCorner = ⟨(aabb dflt t).maxCorner.x,
            (aabb dflt t).maxCorner.y,
            Ieee754.toFloat ((aabb dflt t).maxCorner.z - shift_displacement leaf_nodes (leaf_node_side_length t))⟩) ∧
      (aabb dflt t').minCorner.y = (aabb dflt t).minCorner.y ∧
      (aabb dflt t').maxCorner.y = (aabb dflt t).maxCorner.y ∧
      leaf_node_side_length t' = leaf_node_side_length t := by
    intro fuel t' out' h
    obtain ⟨_, _, _, _, d, cs, e, cs', rfl, rfl, hside, hpos⟩ := shift_spec h
    obtain ⟨hE, hW, hS, hN⟩ :=
      shift_bounding_box_corners d.m_Position leaf_nodes d.m_LeafNodeSide direction
    have hpos' : aabb dflt (node e cs') = e.m_Position := rfl
    have hold : aabb dflt (node d cs) = d.m_Position := rfl
    have hlen : leaf_node_side_length (node d cs) = d.m_LeafNodeSide := rfl
    rw [hpos', hpos, hold, hlen]
    refine ⟨hE, hW, hS, hN, ?_⟩
    cases direction with
    | East =>
      obtain ⟨h1, h2⟩ := hE rfl
      exact ⟨by rw [h1], by rw [h2], hside⟩
    | West =>
      obtain ⟨h1, h2⟩ := hW rfl
      exact ⟨by rw [h1], by rw [h2], hside⟩
    | South =>
      obtain ⟨h1, h2⟩ := hS rfl
      exact ⟨by rw [h1], by rw [h2], hside⟩
    | North =>
      obtain ⟨h1, h2⟩ := hN rfl
      exact ⟨by rw [h1], by rw [h2], hside⟩
  refine ⟨hA, fun fuel t' out' h hfit hk => ?_,
    fun ht hd => shift_returns dflt t ht leaf_nodes direction out hd⟩
  obtain ⟨hE, hW, hS, hN, _, _, _⟩ := hA fuel t' out' h
  have hdisp : shift_displacement leaf_nodes (leaf_node_side_length t) = ((leaf_nodes * leaf_node_side_length t : Nat) : ℚ) := by
    unfold shift_displacement
    rw [Nat.mod_eq_of_lt hfit]
    exact hk
  rw [hdisp] at hE hW hS hN
  refine ⟨fun hd h1 h2 => ?_, fun hd h1 h2 => ?_, fun hd h1 h2 => ?_, fun hd h1 h2 => ?_⟩
  · obtain ⟨k1, k2⟩ := hE hd
    rw [h1] at k1
    rw [h2] at k2
    refine ⟨k1, k2, ?_⟩
    rw [dimensions_eq, dimensions_eq, k1, k2]
    simp
  · obtain ⟨k1, k2⟩ := hW hd
    rw [h1] at k1
    rw [h2] at k2
    refine ⟨k1, k2, ?_⟩
    rw [dimensions_eq, dimensions_eq, k1, k2]
    simp
  · obtain ⟨k1, k2⟩ := hS hd
    rw [h1] at k1
    rw [h2] at k2
    refine ⟨k1, k2, ?_⟩
    rw [dimensions_eq, dimensions_eq, k1, k2]
    simp
  · obtain ⟨k1, k2⟩ := hN hd
    rw [h1] at k1
    rw [h2] at k2
    refine ⟨k1, k2, ?_⟩
    rw [dimensions_eq, dimensions_eq, k1, k2]
    simp

end DataStructures

namespace DataStructures

open Collisions Trees Coordinates

namespace Octree

variable {T : Type}

/-! ## What `erase_area` removes -/

theorem mem_occupants_of_itemsAt {x : T} :
    ∀ {t : Octree T} {p : List (Fin 8)}, x ∈ itemsAt t p → x ∈ occupants t := by
  intro t
  induction t with
  | null => intro p h; rw [itemsAt_null] at h; cases h
  | node d cs ih =>
    intro p h
    rw [occupants_node, List.mem_append]
    cases p with
    | nil => left; exact h
    | cons i q =>
      right
      rw [itemsAt_cons] at h
      rw [List.mem_flatten]
      exact ⟨_, List.mem_map.mpr ⟨i, List.mem_finRange i, rfl⟩, ih i h⟩

/-- The items `erase_area` returns and the occupants it leaves are together the
occupants held before. -/
theorem erase_area_occupants (area : AABB) :
    ∀ t : Octree T,
      (((erase_area t area).1 : List T) : Multiset T)
        + ((occupants (erase_area t area).2 : List T) : Multiset T)
      = ((occupants t : List T) : Multiset T) := by
  intro t
  induction t with
  | null => rfl
  | node d cs ih =>
    rw [erase_area_node, coe_occupants_node, coe_occupants_node]
    simp only
    rw [← Multiset.coe_add, coe_flatten_map, Fin.sum_univ_def]
    have hown : (((if erase_selects d area then d.m_Item else [] : List T)) : Multiset T)
        + (((if erase_selects d area then { d with m_Item := [] } else d).m_Item : List T)
            : Multiset T) = (d.m_Item : Multiset T) := by
      cases erase_selects d area
      · exact zero_add _
      · exact add_zero _
    have hch : ∀ i : Fin 8,
        (((if (cs i).isSome then
            (if (d.m_OctantsBounds i).intersects2 area then (erase_area (cs i) area).1 else [])
          else [] : List T)) : Multiset T)
        + ((occupants (if (cs i).isSome then
            (if (d.m_OctantsBounds i).intersects2 area then (erase_area (cs i) area).2
              else cs i)
          else cs i) : List T) : Multiset T)
        = ((occupants (cs i) : List T) : Multiset T) := by
      intro i
      cases (cs i).isSome
      · exact zero_add _
      · cases (d.m_OctantsBounds i).intersects2 area
        · exact zero_add _
        · exact ih i
    rw [← Fin.sum_univ_def, ← hown, ← Finset.sum_congr rfl (fun i _ => hch i),
      Finset.sum_add_distrib]
    abel

/-- Every node is either left as it is by `erase_area` or emptied, with all its
items among the returned ones. -/
theorem erase_area_itemsAt (area : AABB) :
    ∀ (t : Octree T) (p : List (Fin 8)),
      itemsAt (erase_area t area).2 p = itemsAt t p ∨
      (itemsAt (erase_area t area).2 p = [] ∧ ∀ x ∈ itemsAt t p, x ∈ (erase_area t area).1) := by
  intro t
  induction t with
  | null => intro p; left; rfl
  | node d cs ih =>
    intro p
    rw [erase_area_node]
    cases p with
    | nil =>
      rw [itemsAt_nil, itemsAt_nil]
      cases erase_selects d area
      · left; rfl
      · right
        exact ⟨rfl, fun x hx => List.mem_append_left _ hx⟩
    | cons i q =>
      rw [itemsAt_cons, itemsAt_cons]
      simp only
      cases hs : (cs i).isSome
      · left; rfl
      · cases hb : (d.m_OctantsBounds i).intersects2 area
        · left; rfl
        · rcases ih i q with h | ⟨h1, h2⟩
          · left; exact h
          · right
            refine ⟨h1, fun x hx => List.mem_append_right _ ?_⟩
            rw [List.mem_flatten]
            refine ⟨_, List.mem_map.mpr ⟨i, List.mem_finRange i, rfl⟩, ?_⟩
            rw [hs, hb]
            exact h2 x hx

end Octree

end DataStructures

namespace DataStructures

open Collisions Trees Coordinates Octree Scenario

variable {T : Type}

end DataStructures

namespace DataStructures

open Collisions Trees Coordinates

namespace QuadTree

variable {T : Type}

/-! ## The same for `QuadTree::erase_area` -/

theorem quad_itemsAt_null (p : List (Fin 4)) : itemsAt (null : QuadTree T) p = [] := rfl

theorem quad_itemsAt_nil (d : QuadTreeNode T) (cs : Fin 4 → QuadTree T) :
    itemsAt (node d cs) [] = d.m_Item := rfl

theorem quad_itemsAt_cons (d : QuadTreeNode T) (cs : Fin 4 → QuadTree T) (i : Fin 4)
    (p : List (Fin 4)) : itemsAt (node d cs) (i :: p) = itemsAt (cs i) p := rfl

theorem quad_size_node_eq (d : QuadTreeNode T) (cs : Fin 4 → QuadTree T) :
    (node d cs).size = d.m_Item.length + ∑ i : Fin 4, (cs i).size := by
  have h : (node d cs).size = (if !d.m_Item.isEmpty then d.m_Item.length else 0)
      + ((List.finRange 4).map (fun i => (cs i).size)).sum := rfl
  rw [h, Fin.sum_univ_def]
  cases d.m_Item <;> rfl

theorem quad_collect_items_guard (c : QuadTree T) :
    (if c.isSome then collect_items c else []) = collect_items c := by
  cases c with
  | null => rfl
  | node d cs => rfl

theorem quad_collect_items_node_eq (d : QuadTreeNode T) (cs : Fin 4 → QuadTree T) :
    collect_items (node d cs) =
      d.m_Item.map (fun it => (it, d.m_Position))
      ++ ((List.finRange 4).map (fun i => collect_items (cs i))).flatten := by
  have h : collect_items (node d cs) =
      (if !d.m_Item.isEmpty then d.m_Item.map (fun it => (it, d.m_Position)) else [])
      ++ ((List.finRange 4).map (fun i =>
            if (cs i).isSome then collect_items (cs i) else [])).flatten := rfl
  rw [h]
  simp only [quad_collect_items_guard]
  cases d.m_Item <;> rfl

theorem quad_occupants_node (d : QuadTreeNode T) (cs : Fin 4 → QuadTree T) :
    occupants (node d cs) =
      d.m_Item ++ ((List.finRange 4).map (fun i => occupants (cs i))).flatten := by
  unfold occupants
  rw [quad_collect_items_node_eq, List.map_append, List.map_map, List.map_flatten, List.map_map]
  congr 1
  induction d.m_Item with
  | nil => rfl
  | cons a l ih => simpa using ih

theorem quad_coe_occupants_node (d : QuadTreeNode T) (cs : Fin 4 → QuadTree T) :
    ((occupants (node d cs) : List T) : Multiset T)
      = (d.m_Item : Multiset T) + ∑ i : Fin 4, ((occupants (cs i) : List T) : Multiset T) := by
  rw [quad_occupants_node, ← Multiset.coe_add, Octree.coe_flatten_map, Fin.sum_univ_def]

theorem quad_length_occupants (t : QuadTree T) : (occupants t).length = t.size := by
  unfold occupants
  rw [List.length_map]
  induction t with
  | null => rfl
  | node d cs ih =>
    rw [quad_collect_items_node_eq, quad_size_node_eq, List.length_append, List.length_map,
      List.length_flatten, List.map_map, Fin.sum_univ_def]
    congr 2
    exact List.map_congr_left (fun i _ => ih i)

theorem quad_mem_occupants_of_itemsAt {x : T} :
    ∀ {t : QuadTree T} {p : List (Fin 4)}, x ∈ itemsAt t p → x ∈ occupants t := by
  intro t
  induction t with
  | null => intro p h; rw [quad_itemsAt_null] at h; cases h
  | node d cs ih =>
    intro p h
    rw [quad_occupants_node, List.mem_append]
    cases p with
    | nil => left; exact h
    | cons i q =>
      right
      rw [quad_itemsAt_cons] at h
      rw [List.mem_flatten]
      exact ⟨_, List.mem_map.mpr ⟨i, List.mem_finRange i, rfl⟩, ih i h⟩

theorem quad_erase_area_node (d : QuadTreeNode T) (cs : Fin 4 → QuadTree T) (area : AABB) :
    erase_area (node d cs) area =
      ((if erase_selects d area then d.m_Item else [])
        ++ ((List.finRange 4).map (fun i =>
              if (cs i).isSome then
                (if (d.m_ChildrenBounds i).intersects2 area then (erase_area (cs i) area).1
                 else [])
              else [])).flatten,
       node (if erase_selects d area then { d with m_Item := [] } else d)
        (fun i =>
          if (cs i).isSome then
            (if (d.m_ChildrenBounds i).intersects2 area then (erase_area (cs i) area).2
             else cs i)
          else cs i)) := rfl

theorem quad_erase_area_occupants (area : AABB) :
    ∀ t : QuadTree T,
      (((erase_area t area).1 : List T) : Multiset T)
        + ((occupants (erase_area t area).2 : List T) : Multiset T)
      = ((occupants t : List T) : Multiset T) := by
  intro t
  induction t with
  | null => rfl
  | node d cs ih =>
    rw [quad_erase_area_node, quad_coe_occupants_node, quad_coe_occupants_node]
    simp only
    rw [← Multiset.coe_add, Octree.coe_flatten_map, Fin.sum_univ_def]
    have hown : (((if erase_selects d area then d.m_Item else [] : List T)) : Multiset T)
        + (((if erase_selects d area then { d with m_Item := [] } else d).m_Item : List T)
            : Multiset T) = (d.m_Item : Multiset T) := by
      cases erase_selects d area
      · exact zero_add _
      · exact add_zero _
    have hch : ∀ i : Fin 4,
        (((if (cs i).isSome then
            (if (d.m_ChildrenBounds i).intersects2 area then (erase_area (cs i) area).1 else [])
          else [] : List T)) : Multiset T)
        + ((occupants (if (cs i).isSome then
            (if (d.m_ChildrenBounds i).intersects2 area then (erase_area (cs i) area).2
              else cs i)
          else cs i) : List T) : Multiset T)
        = ((occupants (cs i) : List T) : Multiset T) := by
      intro i
      cases (cs i).isSome
      · exact zero_add _
      · cases (d.m_ChildrenBounds i).intersects2 area
        · exact zero_add _
        · exact ih i
    rw [← Fin.sum_univ_def, ← hown, ← Finset.sum_congr rfl (fun i _ => hch i),
      Finset.sum_add_distrib]
    abel

theorem quad_erase_area_itemsAt (area : AABB) :
    ∀ (t : QuadTree T) (p : List (Fin 4)),
      itemsAt (erase_area t area).2 p = itemsAt t p ∨
      (itemsAt (erase_area t area).2 p = [] ∧ ∀ x ∈ itemsAt t p, x ∈ (erase_area t area).1) := by
  intro t
  induction t with
  | null => intro p; left; rfl
  | node d cs ih =>
    intro p
    rw [quad_erase_area_node]
    cases p with
    | nil =>
      rw [quad_itemsAt_nil, quad_itemsAt_nil]
      cases erase_selects d area
      · left; rfl
      · right
        exact ⟨rfl, fun x hx => List.mem_append_left _ hx⟩
    | cons i q =>
      rw [quad_itemsAt_cons, quad_itemsAt_cons]
      simp only
      cases hs : (cs i).isSome
      · left; rfl
      · cases hb : (d.m_ChildrenBounds i).intersects2 area
        · left; rfl
        · rcases ih i q with h | ⟨h1, h2⟩
          · left; exact h
          · right
            refine ⟨h1, fun x hx => List.mem_append_right _ ?_⟩
            rw [List.mem_flatten]
            refine ⟨_, List.mem_map.mpr ⟨i, List.mem_finRange i, rfl⟩, ?_⟩
            rw [hs, hb]
            exact h2 x hx

end QuadTree

/-- From the conservation of occupants and the fate of every node: the three
facts about a call that returned `appended` and left the item lists `after`. -/
theorem returns_removed_of {T ι : Type} {before after : List ι → List T}
    {occBefore occAfter appended : List T} {sizeBefore sizeAfter : Nat}
    (hperm : ((appended : List T) : Multiset T) + ((occAfter : List T) : Multiset T)
      = ((occBefore : List T) : Multiset T))
    (hnode : ∀ p, after p = before p ∨ (after p = [] ∧ ∀ x ∈ before p, x ∈ appended))
    (hmem : ∀ p x, x ∈ after p → x ∈ occAfter)
    (hb : occBefore.length = sizeBefore) (ha : occAfter.length = sizeAfter) :
    occBefore.Perm (appended ++ occAfter) ∧
    (occBefore.Nodup → ∀ x ∈ appended, ∀ p, x ∉ after p) ∧
    (∀ p x, x ∈ before p → x ∉ appended → after p = before p) ∧
    sizeAfter + appended.length = sizeBefore := by
  have hp : occBefore.Perm (appended ++ occAfter) := by
    rw [← Multiset.coe_eq_coe, ← Multiset.coe_add, hperm]
  refine ⟨hp, ?_, ?_, ?_⟩
  · intro hnd x hx p hxp
    have hnd' : (appended ++ occAfter).Nodup := hp.nodup_iff.mp hnd
    exact (List.disjoint_of_nodup_append hnd') hx (hmem p x hxp)
  · intro p x hx hna
    rcases hnode p with h | ⟨_, h⟩
    · exact h
    · exact absurd (h x hx) hna
  · have hl := hp.length_eq
    rw [List.length_append, hb, ha] at hl
    omega

end DataStructures

namespace DataStructures

open Collisions Trees Coordinates Octree Scenario

variable {T : Type}

/-- C20. What `erase_area` returns is what it removes, in the `Octree` and in
the `QuadTree`: the occupants held before the call are exactly the returned
items together with the occupants left (each once); when no occupant occurs
twice, a returned item is in no item list afterwards; the item list of a node
with an item that was not returned is as before; and `size()` after the call
plus the number of returned items is `size()` before. -/
theorem erase_area_returns_removed (area : AABB) :
    (∀ t : Octree T,
      (occupants t).Perm ((erase_area t area).1 ++ occupants (erase_area t area).2) ∧
      ((occupants t).Nodup →
        ∀ x ∈ (erase_area t area).1, ∀ p, x ∉ itemsAt (erase_area t area).2 p) ∧
      (∀ p x, x ∈ itemsAt t p → x ∉ (erase_area t area).1 →
        itemsAt (erase_area t area).2 p = itemsAt t p) ∧
      (erase_area t area).2.size + (erase_area t area).1.length = t.size) ∧
    (∀ t : QuadTree T,
      (QuadTree.occupants t).Perm
        ((QuadTree.erase_area t area).1 ++ QuadTree.occupants (QuadTree.erase_area t area).2) ∧
      ((QuadTree.occupants t).Nodup →
        ∀ x ∈ (QuadTree.erase_area t area).1, ∀ p,
          x ∉ QuadTree.itemsAt (QuadTree.erase_area t area).2 p) ∧
      (∀ p x, x ∈ QuadTree.itemsAt t p → x ∉ (QuadTree.erase_area t area).1 →
        QuadTree.itemsAt (QuadTree.erase_area t area).2 p = QuadTree.itemsAt t p) ∧
      (QuadTree.erase_area t area).2.size + (QuadTree.erase_area t area).1.length = t.size) :=
  ⟨fun t => returns_removed_of (erase_area_occupants area t) (erase_area_itemsAt area t)
      (fun _ _ h => mem_occupants_of_itemsAt h) (length_occupants t) (length_occupants _),
    fun t => returns_removed_of (QuadTree.quad_erase_area_occupants area t)
      (QuadTree.quad_erase_area_itemsAt area t)
      (fun _ _ h => QuadTree.quad_mem_occupants_of_itemsAt h) (QuadTree.quad_length_occupants t)
      (QuadTree.quad_length_occupants _)⟩

/-- C20 at the scenario trees: the region `(-10,-10,-10)..(10,10,10)` erases
item 7 from the root of the `Octree`, and the region `(-1,-1,-1)..(1,1,1)` erases
the four leaf items of the `QuadTree` and leaves item 5 at its root. -/
theorem erase_area_returns_removed_witness :
    ((erase_area centreCall hugeBox).1 = [7] ∧
      (∀ x ∈ (erase_area centreCall hugeBox).1, ∀ p,
        x ∉ itemsAt (erase_area centreCall hugeBox).2 p) ∧
      (erase_area centreCall hugeBox).2.size + (erase_area centreCall hugeBox).1.length
        = centreCall.size) ∧
    ((QuadTree.erase_area quadTree centreBox).1 = [10, 11, 12, 13] ∧
      (∀ x ∈ (QuadTree.erase_area quadTree centreBox).1, ∀ p,
        x ∉ QuadTree.itemsAt (QuadTree.erase_area quadTree centreBox).2 p) ∧
      QuadTree.itemsAt (QuadTree.erase_area quadTree centreBox).2 [] = [5] ∧
      (QuadTree.erase_area quadTree centreBox).2.size
        + (QuadTree.erase_area quadTree centreBox).1.length = quadTree.size) :=
  ⟨⟨by
      obtain ⟨d, cs, hc, hitem, hpos, hleaf, hcs⟩ := centreCall_shape
      rw [hc, erase_area_root_only d cs hugeBox hcs]
      unfold erase_selects
      rw [hitem, hpos, hleaf]
      decide!,
      ((erase_area_returns_removed hugeBox).1 centreCall).2.1 (by decide!),
      ((erase_area_returns_removed hugeBox).1 centreCall).2.2.2⟩,
    ⟨by decide!,
      ((erase_area_returns_removed centreBox).2 quadTree).2.1 (by decide!),
      ((erase_area_returns_removed centreBox).2 quadTree).2.2.1 [] 5 (by decide!) (by decide!),
      ((erase_area_returns_removed centreBox).2 quadTree).2.2.2⟩⟩

end DataStructures

namespace DataStructures

open Collisions Trees Coordinates

namespace Octree

variable {T : Type}

/-- What a call of `insert` does to `size()`: an accepted call adds one, a
rejected call changes nothing. -/
theorem insert_size {dflt : AABB} {fuel : Nat} {t : Octree T} {object : T} {area : AABB}
    {loc : Location (Fin 8)} {t1 : Octree T}
    (h : insert dflt fuel t object area = some (loc, t1)) :
    (loc.items_container.isSome = true → t1.size = t.size + 1) ∧
    (loc.items_container.isSome = false → t1.size = t.size) := by
  have hocc := insert_occupants h
  constructor
  · intro hacc
    have h1 := congrArg Multiset.card (hocc.1 hacc)
    rw [Multiset.card_cons, Multiset.coe_card, Multiset.coe_card, length_occupants,
      length_occupants] at h1
    exact h1
  · intro hrej
    have h1 := congrArg Multiset.card (hocc.2 hrej)
    rw [Multiset.coe_card, Multiset.coe_card, length_occupants, length_occupants] at h1
    exact h1

theorem size_resize (t : Octree T) (area : AABB) : (resize t area).size = 0 :=
  size_of_all_empty (all_empty_recursive_resize t area)

theorem resize_isSome {t : Octree T} (h : t.isSome = true) (area : AABB) :
    (resize t area).isSome = true := by
  cases t with
  | null => cases h
  | node d cs => rfl

end Octree

namespace ContainedOctree

variable {T : Type}

/-! ## The loop of `ContainedOctree::shift` -/

theorem contained_shift_reinsert_nil (dflt : AABB) (fuel : Nat) (root : Octree Nat)
    (out : List (T × AABB)) :
    shift_reinsert dflt fuel root ([] : List (Nat × OctreeItem T)) out = some (root, [], out) :=
  rfl

theorem contained_shift_reinsert_cons (dflt : AABB) (fuel : Nat) (root : Octree Nat)
    (it : Nat × OctreeItem T) (rest : List (Nat × OctreeItem T)) (out : List (T × AABB)) :
    shift_reinsert dflt fuel root (it :: rest) out =
      match Octree.insert dflt fuel root it.1 it.2.item_position.aabb with
      | none => none
      | some (loc, root1) =>
        if loc.items_container.isSome then
          match shift_reinsert dflt fuel root1 rest out with
          | none => none
          | some r => some (r.1, it :: r.2.1, r.2.2)
        else
          shift_reinsert dflt fuel root1 rest
            (out ++ [(it.2.item, it.2.item_position.aabb)]) := rfl

/-- What the loop of `ContainedOctree::shift` does: the records split, in their
order, into those that stay and those dropped; the dropped ones are reported
with their recorded box; the tree gains one entry per record that stays. -/
theorem contained_shift_reinsert_spec (dflt : AABB) (fuel : Nat) :
    ∀ (items : List (Nat × OctreeItem T)) (root : Octree Nat) (out : List (T × AABB))
      (root' : Octree Nat) (remaining : List (Nat × OctreeItem T)) (out' : List (T × AABB)),
      shift_reinsert dflt fuel root items out = some (root', remaining, out') →
      ∃ dropped : List (Nat × OctreeItem T),
        remaining.Sublist items ∧ dropped.Sublist items ∧
        (remaining ++ dropped).Perm items ∧
        out' = out ++ dropped.map (fun r => (r.2.item, r.2.item_position.aabb)) ∧
        root'.size = root.size + remaining.length := by
  intro items
  induction items with
  | nil =>
    intro root out root' remaining out' h
    rw [contained_shift_reinsert_nil, Option.some.injEq, Prod.mk.injEq, Prod.mk.injEq] at h
    obtain ⟨rfl, rfl, rfl⟩ := h
    exact ⟨[], List.Sublist.refl _, List.Sublist.refl _, List.Perm.refl _,
      (List.append_nil _).symm, rfl⟩
  | cons it rest ih =>
    intro root out root' remaining out' h
    rw [contained_shift_reinsert_cons] at h
    cases hins : Octree.insert dflt fuel root it.1 it.2.item_position.aabb with
    | none => rw [hins] at h; cases h
    | some r =>
      obtain ⟨loc, root1⟩ := r
      rw [hins] at h
      simp only at h
      have hsize := Octree.insert_size hins
      cases hacc : loc.items_container.isSome with
      | true =>
        rw [hacc] at h
        simp only [if_true] at h
        cases hrec : shift_reinsert dflt fuel root1 rest out with
        | none => rw [hrec] at h; cases h
        | some r =>
          obtain ⟨r1, r2, r3⟩ := r
          rw [hrec] at h
          simp only [Option.some.injEq, Prod.mk.injEq] at h
          obtain ⟨rfl, rfl, rfl⟩ := h
          obtain ⟨dropped, h1, h2, h3, h4, h5⟩ := ih root1 out _ _ _ hrec
          refine ⟨dropped, List.Sublist.cons₂ _ h1, List.Sublist.cons _ h2, ?_, h4, ?_⟩
          · rw [List.cons_append]
            exact List.Perm.cons _ h3
          · rw [h5, hsize.1 hacc, List.length_cons]
            omega
      | false =>
        rw [hacc] at h
        simp only [Bool.false_eq_true, if_false] at h
        obtain ⟨dropped, h1, h2, h3, h4, h5⟩ := ih root1 _ _ _ _ h
        refine ⟨it :: dropped, List.Sublist.cons _ h1, List.Sublist.cons₂ _ h2, ?_, ?_, ?_⟩
        · exact List.perm_middle.trans (List.Perm.cons _ h3)
        · rw [h4, List.map_cons, List.append_assoc, List.singleton_append]
        · rw [h5, hsize.2 hacc]

/-- The loop of `ContainedOctree::shift` returns, with one and the same result,
for every amount of fuel from some amount on, when the default-constructed box
contains none of the recorded boxes. -/
theorem contained_shift_reinsert_returns (dflt : AABB) :
    ∀ (items : List (Nat × OctreeItem T)) (root : Octree Nat) (out : List (T × AABB)),
      root.isSome = true →
      (∀ r ∈ items, dflt.contains r.2.item_position.aabb = false) →
      ∃ fuel0 res, ∀ fuel, fuel0 ≤ fuel → shift_reinsert dflt fuel root items out = some res := by
  intro items
  induction items with
  | nil => intro root out _ _; exact ⟨0, (root, [], out), fun _ _ => rfl⟩
  | cons it rest ih =>
    intro root out ht hd
    obtain ⟨f1, r1, h1⟩ := Octree.insert_returns dflt it.1 it.2.item_position.aabb
      (hd it (List.mem_cons_self _ _)) root ht
    obtain ⟨loc, root1⟩ := r1
    have ht1 : root1.isSome = true := Octree.insert_isSome (h1 f1 (le_refl _))
    have hrest : ∀ r ∈ rest, dflt.contains r.2.item_position.aabb = false :=
      fun r hr => hd r (List.mem_cons_of_mem _ hr)
    cases hacc : loc.items_container.isSome with
    | true =>
      obtain ⟨f2, r2, h2⟩ := ih root1 out ht1 hrest
      refine ⟨max f1 f2, (r2.1, it :: r2.2.1, r2.2.2), fun fuel hle => ?_⟩
      rw [contained_shift_reinsert_cons, h1 fuel (le_trans (le_max_left _ _) hle)]
      simp only [hacc, if_true]
      rw [h2 fuel (le_trans (le_max_right _ _) hle)]
    | false =>
      obtain ⟨f2, r2, h2⟩ := ih root1 (out ++ [(it.2.item, it.2.item_position.aabb)]) ht1 hrest
      refine ⟨max f1 f2, r2, fun fuel hle => ?_⟩
      rw [contained_shift_reinsert_cons, h1 fuel (le_trans (le_max_left _ _) hle)]
      simp only [hacc, Bool.false_eq_true, if_false]
      exact h2 fuel (le_trans (le_max_right _ _) hle)

theorem shift_eq (dflt : AABB) (fuel : Nat) (c : ContainedOctree T) (leaf_nodes : Nat)
    (direction : Directions) (out : List (T × AABB)) :
    shift dflt fuel c leaf_nodes direction out =
      match shift_reinsert dflt fuel
        (Octree.resize c.m_Root
          ⟨(Octree.shift_bounding_box (Octree.aabb dflt c.m_Root).bounding_region leaf_nodes
              (Octree.leaf_node_side_length c.m_Root) direction).1,
            (Octree.shift_bounding_box (Octree.aabb dflt c.m_Root).bounding_region leaf_nodes
              (Octree.leaf_node_side_length c.m_Root) direction).2⟩)
        c.m_Items out with
      | none => none
      | some r => some (⟨r.1, r.2.1, c.m_Fresh⟩, r.2.2) := rfl

end ContainedOctree

end DataStructures

namespace DataStructures

open Collisions Trees Coordinates Octree Scenario

variable {T : Type}

/-- C14. Reconciliation in `ContainedOctree::shift`: when the call returns, the
records of `m_Items` before the call split, in their order, into the records
that remain in `m_Items` and the dropped ones, which together are exactly the
records before; the displaced list is the list given followed by one pair per
dropped record, its item with the box stored in its location; and `size()` of
the root tree is the number of remaining records. The call returns for every
amount of fuel from some amount on, when the default-constructed box contains
none of the recorded boxes. -/
theorem contained_shift_reconciles (dflt : AABB) (c : ContainedOctree T) (leaf_nodes : Nat)
    (direction : Directions) (out : List (T × AABB)) :
    (∀ fuel c' out',
      ContainedOctree.shift dflt fuel c leaf_nodes direction out = some (c', out') →
      ∃ dropped : List (Nat × OctreeItem T),
        c'.m_Items.Sublist c.m_Items ∧ dropped.Sublist c.m_Items ∧
        (c'.m_Items ++ dropped).Perm c.m_Items ∧
        out' = out ++ dropped.map (fun r => (r.2.item, r.2.item_position.aabb)) ∧
        c'.m_Root.size = c'.m_Items.length) ∧
    (c.m_Root.isSome = true →
      (∀ r ∈ c.m_Items, dflt.contains r.2.item_position.aabb = false) →
      ∃ fuel0 res, ∀ fuel, fuel0 ≤ fuel →
        ContainedOctree.shift dflt fuel c leaf_nodes direction out = some res) := by
  constructor
  · intro fuel c' out' h
    rw [ContainedOctree.shift_eq] at h
    cases hrec : ContainedOctree.shift_reinsert dflt fuel
        (Octree.resize c.m_Root
          ⟨(Octree.shift_bounding_box (Octree.aabb dflt c.m_Root).bounding_region leaf_nodes
              (Octree.leaf_node_side_length c.m_Root) direction).1,
            (Octree.shift_bounding_box (Octree.aabb dflt c.m_Root).bounding_region leaf_nodes
              (Octree.leaf_node_side_length c.m_Root) direction).2⟩)
        c.m_Items out with
    | none => rw [hrec] at h; cases h
    | some r =>
      obtain ⟨r1, r2, r3⟩ := r
      rw [hrec] at h
      simp only [Option.some.injEq, Prod.mk.injEq] at h
      obtain ⟨rfl, rfl⟩ := h
      obtain ⟨dropped, h1, h2, h3, h4, h5⟩ :=
        ContainedOctree.contained_shift_reinsert_spec dflt fuel _ _ _ _ _ _ hrec
      refine ⟨dropped, h1, h2, h3, h4, ?_⟩
      rw [h5, size_resize, Nat.zero_add]
  · intro hroot hd
    obtain ⟨f, r, h⟩ := ContainedOctree.contained_shift_reinsert_returns dflt c.m_Items
      (Octree.resize c.m_Root
          ⟨(Octree.shift_bounding_box (Octree.aabb dflt c.m_Root).bounding_region leaf_nodes
              (Octree.leaf_node_side_length c.m_Root) direction).1,
            (Octree.shift_bounding_box (Octree.aabb dflt c.m_Root).bounding_region leaf_nodes
              (Octree.leaf_node_side_length c.m_Root) direction).2⟩)
      out (resize_isSome hroot _) hd
    refine ⟨f, (⟨r.1, r.2.1, c.m_Fresh⟩, r.2.2), fun fuel hle => ?_⟩
    rw [ContainedOctree.shift_eq, h fuel hle]

/-- C14 at the container that holds item 70 with the box `(3,3,3)..(4,4,4)`:
the shift by one leaf to the west drops its record and reports the item with
that box. -/
theorem contained_shift_reconciles_witness :
    (∃ dropped : List (Nat × OctreeItem Nat),
      westContainer.m_Items.Sublist cellContainer.m_Items ∧
      dropped.Sublist cellContainer.m_Items ∧
      (westContainer.m_Items ++ dropped).Perm cellContainer.m_Items ∧
      [(70, unitCell)] = [] ++ dropped.map (fun r => (r.2.item, r.2.item_position.aabb)) ∧
      westContainer.m_Root.size = westContainer.m_Items.length) ∧
    (∃ fuel0 res, ∀ fuel, fuel0 ≤ fuel →
      ContainedOctree.shift originBox fuel cellContainer 1 Directions.West [] = some res) := by
  have hs : ContainedOctree.shift originBox 10 cellContainer 1 Directions.West []
      = some (westContainer, [(70, unitCell)]) := by
    have h := eq_some_getD
      (ContainedOctree.shift originBox 10 cellContainer 1 Directions.West [])
      (cellContainer, []) (by decide!)
    have h1 : ((ContainedOctree.shift originBox 10 cellContainer 1 Directions.West []).getD
      (cellContainer, [])).2 = [(70, unitCell)] := by decide!
    rw [h]
    exact congrArg some (Prod.ext rfl h1)
  exact ⟨(contained_shift_reconciles originBox cellContainer 1 Directions.West []).1 10 _ _ hs,
    (contained_shift_reconciles originBox cellContainer 1 Directions.West []).2
      (by decide!) (by decide!)⟩

end DataStructures

namespace DataStructures

open Collisions Trees Coordinates

namespace Octree

variable {T : Type}

/-! ## The node an accepted `insert` ends at, and erasing from it -/

theorem hosts_nil (area : AABB) (d : OctreeNode T) (cs : Fin 8 → Octree T) :
    Hosts area (node d cs) [] ↔
      insert_scan d area = none ∧ d.m_Position.contains area = true := Iff.rfl

theorem hosts_cons (area : AABB) (d : OctreeNode T) (cs : Fin 8 → Octree T) (i : Fin 8)
    (p : List (Fin 8)) :
    Hosts area (node d cs) (i :: p) ↔
      insert_scan d area = some i ∧ (cs i).isSome = true ∧ Hosts area (cs i) p := Iff.rfl

/-- An accepted call of `recursive_insert` ends at the node its location
names. -/
theorem recursive_insert_hosts (dflt : AABB) (object : T) (area : AABB) (fuel : Nat)
    (t : Octree T) (res : Location (Fin 8) × Octree T)
    (h : recursive_insert dflt fuel t object area = some res) :
    ∀ p, res.1.items_container = some p → Hosts area res.2 p := by
  refine recursive_insert_cases dflt object area
    (fun _ _ res => ∀ p, res.1.items_container = some p → Hosts area res.2 p)
    ?_ ?_ ?_ fuel t res h
  · intro _ d cs hs _ hc p hp
    simp only [Option.some.injEq] at hp
    subst hp
    rw [hosts_nil]
    refine ⟨?_, hc⟩
    rw [← hs]
    exact insert_scan_congr area rfl rfl rfl
  · intro _ d cs _ _ p hp
    cases hp
  · intro fuel d cs i child loc child1 hs _ hrec ih p hp
    obtain ⟨q, hq, rfl⟩ := underSlot_container_eq_some hp
    rw [hosts_cons]
    refine ⟨hs, ?_, ?_⟩
    · rw [Function.update_same]
      exact recursive_insert_isSome dflt object area fuel child _ hrec
    · rw [Function.update_same]
      exact ih q hq

/-- A call of `recursive_insert`, for any object and area, keeps the node a walk
ends at. -/
theorem hosts_recursive_insert (dflt : AABB) (object : T) (area a : AABB) (fuel : Nat)
    (t : Octree T) (res : Location (Fin 8) × Octree T)
    (h : recursive_insert dflt fuel t object area = some res) :
    ∀ p, Hosts a t p → Hosts a res.2 p := by
  refine recursive_insert_cases dflt object area
    (fun _ t res => ∀ p, Hosts a t p → Hosts a res.2 p) ?_ ?_ ?_ fuel t res h
  · intro _ d cs _ _ _ p hp
    cases p with
    | nil =>
      rw [hosts_nil] at hp ⊢
      refine ⟨?_, hp.2⟩
      rw [← hp.1]
      exact insert_scan_congr a rfl rfl rfl
    | cons i q =>
      rw [hosts_cons] at hp ⊢
      refine ⟨?_, hp.2⟩
      rw [← hp.1]
      exact insert_scan_congr a rfl rfl rfl
  · intro _ d cs _ _ p hp
    exact hp
  · intro fuel d cs j child loc child1 _ hchild hrec ih p hp
    cases p with
    | nil => exact hp
    | cons i q =>
      rw [hosts_cons] at hp ⊢
      obtain ⟨h1, h2, h3⟩ := hp
      by_cases hij : i = j
      · subst hij
        rw [Function.update_same]
        refine ⟨h1, recursive_insert_isSome dflt object area fuel child _ hrec, ih q ?_⟩
        rw [hchild, if_pos h2]
        exact h3
      · rw [Function.update_noteq hij]
        exact ⟨h1, h2, h3⟩

theorem hosts_insert {dflt : AABB} {fuel : Nat} {t : Octree T} {object : T} {area : AABB}
    {loc : Location (Fin 8)} {t1 : Octree T}
    (h : insert dflt fuel t object area = some (loc, t1)) (a : AABB) (p : List (Fin 8))
    (hp : Hosts a t p) : Hosts a t1 p := by
  rcases insert_cases h with ⟨d, cs, _, _, hres⟩ | ⟨d, cs, _, _, hr⟩
  · have h2 : t1 = t := congrArg Prod.snd hres
    rw [h2]
    exact hp
  · exact hosts_recursive_insert dflt object area a fuel t (loc, t1) hr p hp

theorem insert_hosts {dflt : AABB} {fuel : Nat} {t : Octree T} {object : T} {area : AABB}
    {loc : Location (Fin 8)} {t1 : Octree T}
    (h : insert dflt fuel t object area = some (loc, t1)) {p : List (Fin 8)}
    (hp : loc.items_container = some p) : Hosts area t1 p := by
  rcases insert_cases h with ⟨d, cs, _, _, hres⟩ | ⟨d, cs, _, _, hr⟩
  · have h1 : loc = noLocation dflt := congrArg Prod.fst hres
    rw [h1] at hp
    cases hp
  · exact recursive_insert_hosts dflt object area fuel t (loc, t1) hr p hp

theorem insert_rejected_itemsAt {dflt : AABB} {fuel : Nat} {t : Octree T} {object : T}
    {area : AABB} {loc : Location (Fin 8)} {t1 : Octree T}
    (h : insert dflt fuel t object area = some (loc, t1))
    (hrej : loc.items_container = none) (q : List (Fin 8)) : itemsAt t1 q = itemsAt t q := by
  rcases insert_cases h with ⟨d, cs, _, _, hres⟩ | ⟨d, cs, _, _, hr⟩
  · have h2 : t1 = t := congrArg Prod.snd hres
    rw [h2]
  · exact (recursive_insert_rejected dflt object area fuel t (loc, t1) hr hrej).2 q

/-- The flag `m_NodeReady` of the root (`false` for an empty pointer). -/
theorem insert_ready {dflt : AABB} {fuel : Nat} {t : Octree T} {object : T} {area : AABB}
    {loc : Location (Fin 8)} {t1 : Octree T}
    (h : insert dflt fuel t object area = some (loc, t1)) :
    ∃ d cs e cs', t = node d cs ∧ t1 = node e cs' ∧ e.m_NodeReady = d.m_NodeReady := by
  obtain ⟨d, cs, e, cs', h1, h2, h3⟩ := insert_root h
  exact ⟨d, cs, e, cs', h1, h2, by rw [h3]⟩

theorem eraseAt_null (p : List (Fin 8)) (n : Nat) : eraseAt (null : Octree T) p n = null := by
  cases p <;> rfl

theorem eraseAt_nil (d : OctreeNode T) (cs : Fin 8 → Octree T) (n : Nat) :
    eraseAt (node d cs) [] n = node { d with m_Item := d.m_Item.eraseIdx n } cs := rfl

theorem eraseAt_cons (d : OctreeNode T) (cs : Fin 8 → Octree T) (i : Fin 8)
    (p : List (Fin 8)) (n : Nat) :
    eraseAt (node d cs) (i :: p) n = node d (Function.update cs i (eraseAt (cs i) p n)) := rfl

theorem eraseAt_isSome (n : Nat) (t : Octree T) (p : List (Fin 8)) :
    (eraseAt t p n).isSome = t.isSome := by
  cases t with
  | null => rw [eraseAt_null]
  | node d cs => cases p <;> rfl

theorem eraseAt_ready (n : Nat) (d : OctreeNode T) (cs : Fin 8 → Octree T) (p : List (Fin 8)) :
    ∃ e cs', eraseAt (node d cs) p n = node e cs' ∧ e.m_NodeReady = d.m_NodeReady := by
  cases p with
  | nil => exact ⟨_, _, rfl, rfl⟩
  | cons i q => exact ⟨_, _, rfl, rfl⟩

theorem itemsAt_eraseAt_same (n : Nat) :
    ∀ (p : List (Fin 8)) (t : Octree T),
      itemsAt (eraseAt t p n) p = (itemsAt t p).eraseIdx n := by
  intro p
  induction p with
  | nil =>
    intro t
    cases t with
    | null => rfl
    | node d cs => rfl
  | cons i q ih =>
    intro t
    cases t with
    | null => rfl
    | node d cs =>
      rw [eraseAt_cons, itemsAt_cons, itemsAt_cons, Function.update_same]
      exact ih (cs i)

theorem itemsAt_eraseAt_ne (n : Nat) :
    ∀ (p : List (Fin 8)) (t : Octree T) (q : List (Fin 8)), q ≠ p →
      itemsAt (eraseAt t p n) q = itemsAt t q := by
  intro p
  induction p with
  | nil =>
    intro t q hq
    cases t with
    | null => rfl
    | node d cs =>
      cases q with
      | nil => exact absurd rfl hq
      | cons j q' => rfl
  | cons i p' ih =>
    intro t q hq
    cases t with
    | null => rfl
    | node d cs =>
      rw [eraseAt_cons]
      cases q with
      | nil => rfl
      | cons j q' =>
        rw [itemsAt_cons, itemsAt_cons]
        by_cases hji : j = i
        · subst hji
          rw [Function.update_same]
          exact ih (cs j) q' (fun h => hq (by rw [h]))
        · rw [Function.update_noteq hji]

theorem hosts_eraseAt (a : AABB) (n : Nat) :
    ∀ (p : List (Fin 8)) (t : Octree T) (q : List (Fin 8)),
      Hosts a t q → Hosts a (eraseAt t p n) q := by
  intro p
  induction p with
  | nil =>
    intro t q hq
    cases t with
    | null => exact hq.elim
    | node d cs =>
      rw [eraseAt_nil]
      cases q with
      | nil =>
        rw [hosts_nil] at hq ⊢
        refine ⟨?_, hq.2⟩
        rw [← hq.1]
        exact insert_scan_congr a rfl rfl rfl
      | cons j q' =>
        rw [hosts_cons] at hq ⊢
        refine ⟨?_, hq.2⟩
        rw [← hq.1]
        exact insert_scan_congr a rfl rfl rfl
  | cons i p' ih =>
    intro t q hq
    cases t with
    | null => exact hq.elim
    | node d cs =>
      rw [eraseAt_cons]
      cases q with
      | nil => exact hq
      | cons j q' =>
        rw [hosts_cons] at hq ⊢
        obtain ⟨h1, h2, h3⟩ := hq
        by_cases hji : j = i
        · subst hji
          rw [Function.update_same]
          exact ⟨h1, by rw [eraseAt_isSome]; exact h2, ih (cs j) q' h3⟩
        · rw [Function.update_noteq hji]
          exact ⟨h1, h2, h3⟩

/-- The walk of `recursive_insert` that ends at a node with an empty item list
stores the object there. -/
theorem recursive_insert_of_hosts (dflt : AABB) (object : T) (area : AABB) :
    ∀ (p : List (Fin 8)) (t : Octree T) (fuel : Nat), Hosts area t p → itemsAt t p = [] →
      p.length + 1 ≤ fuel →
      ∃ t1, recursive_insert dflt fuel t object area = some (⟨some p, 0, area⟩, t1) := by
  intro p
  induction p with
  | nil =>
    intro t fuel hh he hf
    cases t with
    | null => exact hh.elim
    | node d cs =>
      obtain ⟨f, rfl⟩ : ∃ f, fuel = f + 1 := ⟨fuel - 1, by omega⟩
      rw [hosts_nil] at hh
      rw [itemsAt_nil] at he
      rw [recursive_insert_succ_node, hh.1]
      simp only [he, List.isEmpty_nil, if_true, hh.2, List.length_nil, List.nil_append]
      exact ⟨_, rfl⟩
  | cons i q ih =>
    intro t fuel hh he hf
    cases t with
    | null => exact hh.elim
    | node d cs =>
      obtain ⟨f, rfl⟩ : ∃ f, fuel = f + 1 := ⟨fuel - 1, by omega⟩
      rw [hosts_cons] at hh
      obtain ⟨h1, h2, h3⟩ := hh
      rw [itemsAt_cons] at he
      have hf' : q.length + 1 ≤ f := by
        rw [List.length_cons] at hf
        omega
      obtain ⟨c1, hc1⟩ := ih (cs i) f h3 he hf'
      rw [recursive_insert_succ_node, h1]
      simp only [h2, if_true, hc1]
      exact ⟨_, rfl⟩

end Octree

end DataStructures

namespace DataStructures

open Collisions Trees Coordinates

namespace ContainedOctree

variable {T : Type}

/-! ## The invariant of the container -/

theorem setBackPosition_append (loc : Location (Fin 8)) (k : Nat) (e : OctreeItem T) :
    ∀ l : List (Nat × OctreeItem T),
      setBackPosition loc (l ++ [(k, e)]) = l ++ [(k, { e with item_position := loc })] := by
  intro l
  induction l with
  | nil => rfl
  | cons a l ih =>
    cases l with
    | nil => rfl
    | cons b l' =>
      show a :: setBackPosition loc ((b :: l') ++ [(k, e)]) = _
      rw [ih]
      rfl

theorem insert_eq {dflt : AABB} {fuel : Nat} {c c2 : ContainedOctree T} {object : T}
    {area : AABB} {flag : Bool} (h : insert dflt fuel c object area = some (flag, c2)) :
    ∃ loc root1, Octree.insert dflt fuel c.m_Root c.m_Fresh area = some (loc, root1) ∧
      flag = loc.items_container.isSome ∧
      c2 = ⟨root1, c.m_Items ++ [(c.m_Fresh, ⟨object, loc⟩)], c.m_Fresh + 1⟩ := by
  unfold insert at h
  cases hins : Octree.insert dflt fuel c.m_Root c.m_Fresh area with
  | none => simp only [hins] at h; cases h
  | some r =>
    obtain ⟨loc, root1⟩ := r
    simp only [hins, Option.some.injEq, Prod.mk.injEq] at h
    obtain ⟨hf, hc⟩ := h
    refine ⟨loc, root1, rfl, hf.symm, ?_⟩
    rw [← hc, setBackPosition_append]

theorem remove_eq {c c2 : ContainedOctree T} {item : Nat} {flag : Bool}
    (h : remove c item = some (flag, c2)) :
    ∃ r p, r ∈ c.m_Items ∧ r.1 = item ∧ r.2.item_position.items_container = some p ∧
      flag = false ∧
      c2 = ⟨Octree.eraseAt c.m_Root p r.2.item_position.items_iterator,
        c.m_Items.eraseP (fun r => r.1 == item), c.m_Fresh⟩ := by
  unfold remove at h
  cases hf : c.m_Items.find? (fun r => r.1 == item) with
  | none => simp only [hf] at h; cases h
  | some r =>
    simp only [hf] at h
    cases hp : r.2.item_position.items_container with
    | none => simp only [hp] at h; cases h
    | some p =>
      simp only [hp, Option.some.injEq, Prod.mk.injEq] at h
      have hr := List.find?_some hf
      exact ⟨r, p, List.mem_of_find?_eq_some hf, by simpa using hr, hp, h.1.symm, h.2.symm⟩

theorem eraseP_eq_filter (k : Nat) :
    ∀ l : List (Nat × OctreeItem T), (l.map Prod.fst).Nodup →
      l.eraseP (fun r => r.1 == k) = l.filter (fun r => r.1 != k) := by
  intro l
  induction l with
  | nil => intro _; rfl
  | cons a l ih =>
    intro hn
    rw [List.map_cons, List.nodup_cons] at hn
    by_cases hak : a.1 = k
    · have h1 : (a.1 == k) = true := by simp [hak]
      have h2 : (a.1 != k) = false := by simp [hak]
      rw [List.eraseP_cons, List.filter_cons]
      simp only [h1, h2, cond_true, Bool.false_eq_true, if_false]
      symm
      rw [List.filter_eq_self]
      intro r hr
      have : r.1 ≠ k := by
        intro hrk
        apply hn.1
        rw [hak, ← hrk]
        exact List.mem_map_of_mem _ hr
      simp [this]
    · have h1 : (a.1 == k) = false := by simp [hak]
      have h2 : (a.1 != k) = true := by simp [hak]
      rw [List.eraseP_cons, List.filter_cons]
      simp only [h1, h2, cond_false, if_true, ih hn.2]

theorem consistent_mk3 (dflt bb : AABB) (maxDepth minDim : Nat) :
    Consistent (mk3 dflt bb maxDepth minDim : ContainedOctree T) := by
  refine ⟨?_, ?_, ?_⟩
  · intro r hr; cases hr
  · exact List.nodup_nil
  · intro r hr; cases hr

theorem consistent_insert {dflt : AABB} {fuel : Nat} {c c2 : ContainedOctree T} {object : T}
    {area : AABB} {flag : Bool} (hc : Consistent c)
    (h : insert dflt fuel c object area = some (flag, c2)) : Consistent c2 := by
  obtain ⟨loc, root1, hins, _, rfl⟩ := insert_eq h
  obtain ⟨hlt, hnd, hrec⟩ := hc
  refine ⟨?_, ?_, ?_⟩
  · intro r hr
    rw [List.mem_append, List.mem_singleton] at hr
    rcases hr with hr | rfl
    · exact Nat.lt_succ_of_lt (hlt r hr)
    · exact Nat.lt_succ_self _
  · show ((c.m_Items ++ [(c.m_Fresh, (⟨object, loc⟩ : OctreeItem T))]).map Prod.fst).Nodup
    rw [List.map_append, List.map_singleton, List.nodup_append]
    refine ⟨hnd, List.nodup_singleton _, ?_⟩
    intro k hk hk'
    rw [List.mem_singleton] at hk'
    rw [List.mem_map] at hk
    obtain ⟨r, hr, rfl⟩ := hk
    exact absurd hk' (Nat.ne_of_lt (hlt r hr))
  · intro r hr p hp
    rw [List.mem_append, List.mem_singleton] at hr
    rcases hr with hr | rfl
    · obtain ⟨h1, h2, h3⟩ := hrec r hr p hp
      refine ⟨?_, h2, Octree.hosts_insert hins _ _ h3⟩
      show Octree.itemsAt root1 p = [r.1]
      cases hq : loc.items_container with
      | none => rw [Octree.insert_rejected_itemsAt hins hq]; exact h1
      | some q =>
        obtain ⟨_, he, _, _, hother⟩ := Octree.insert_effect hins hq
        have hpq : p ≠ q := by
          intro hpq
          rw [hpq, he] at h1
          cases h1
        rw [hother p hpq]
        exact h1
    · have hp' : loc.items_container = some p := hp
      obtain ⟨⟨ha, hi⟩, _, hnew, _, _⟩ := Octree.insert_effect hins hp'
      refine ⟨hnew, hi, ?_⟩
      show Octree.Hosts loc.aabb root1 p
      rw [ha]
      exact Octree.insert_hosts hins hp'

theorem consistent_remove {c c2 : ContainedOctree T} {item : Nat} {flag : Bool}
    (hc : Consistent c) (h : remove c item = some (flag, c2)) : Consistent c2 := by
  obtain ⟨r0, p0, hr0, hk0, hp0, _, rfl⟩ := remove_eq h
  obtain ⟨hlt, hnd, hrec⟩ := hc
  have hsub : (c.m_Items.eraseP (fun r => r.1 == item)).Sublist c.m_Items :=
    List.eraseP_sublist _
  refine ⟨fun r hr => hlt r (hsub.subset hr), (hsub.map Prod.fst).nodup hnd, ?_⟩
  intro r hr p hp
  have hr' : r ∈ c.m_Items := hsub.subset hr
  obtain ⟨h1, h2, h3⟩ := hrec r hr' p hp
  have hne : r.1 ≠ item := by
    rw [eraseP_eq_filter item _ hnd, List.mem_filter] at hr
    simpa using hr.2
  have hpp : p ≠ p0 := by
    intro hpp
    have h0 := (hrec r0 hr0 p0 hp0).1
    rw [hpp, h0, hk0] at h1
    exact hne (List.cons.inj h1).1.symm
  exact ⟨by
      show Octree.itemsAt (Octree.eraseAt c.m_Root p0 _) p = [r.1]
      rw [Octree.itemsAt_eraseAt_ne _ _ _ _ hpp]
      exact h1, h2, Octree.hosts_eraseAt _ _ _ _ _ h3⟩

theorem evolves_consistent {dflt : AABB} {c c' : ContainedOctree T} (h : Evolves dflt c c')
    (hc : Consistent c) : Consistent c' := by
  induction h with
  | refl => exact hc
  | byInsert _ hins ih => exact consistent_insert ih hins
  | byRemove _ hrem ih => exact consistent_remove ih hrem

theorem evolves_fresh_le {dflt : AABB} {c c' : ContainedOctree T} (h : Evolves dflt c c') :
    c.m_Fresh ≤ c'.m_Fresh := by
  induction h with
  | refl => exact le_refl _
  | byInsert _ hins ih =>
    obtain ⟨_, _, _, _, rfl⟩ := insert_eq hins
    exact Nat.le_succ_of_le ih
  | byRemove _ hrem ih =>
    obtain ⟨_, _, _, _, _, _, rfl⟩ := remove_eq hrem
    exact ih

/-- A record whose identity was given out before the calls is a record from
before the calls, unchanged. -/
theorem evolves_old_records {dflt : AABB} {c c' : ContainedOctree T} (h : Evolves dflt c c') :
    ∀ r ∈ c'.m_Items, r.1 < c.m_Fresh → r ∈ c.m_Items := by
  induction h with
  | refl => intro r hr _; exact hr
  | byInsert hev hins ih =>
    obtain ⟨_, _, _, _, rfl⟩ := insert_eq hins
    intro r hr hlt
    rw [List.mem_append, List.mem_singleton] at hr
    rcases hr with hr | rfl
    · exact ih r hr hlt
    · exact absurd hlt (Nat.not_lt.mpr (evolves_fresh_le hev))
  | byRemove _ hrem ih =>
    obtain ⟨_, _, _, _, _, _, rfl⟩ := remove_eq hrem
    intro r hr hlt
    exact ih r ((List.eraseP_sublist _).subset hr) hlt

theorem evolves_ready {dflt : AABB} {c c' : ContainedOctree T} (h : Evolves dflt c c') :
    ∀ d cs, c.m_Root = Octree.node d cs →
      ∃ e cs', c'.m_Root = Octree.node e cs' ∧ e.m_NodeReady = d.m_NodeReady := by
  induction h with
  | refl => intro d cs hd; exact ⟨d, cs, hd, rfl⟩
  | byInsert _ hins ih =>
    obtain ⟨_, _, hi, _, rfl⟩ := insert_eq hins
    intro d cs hd
    obtain ⟨e, cs', he, hre⟩ := ih d cs hd
    obtain ⟨d1, cs1, e1, cs1', h1, h2, h3⟩ := Octree.insert_ready hi
    rw [he] at h1
    cases h1
    exact ⟨e1, cs1', h2, by rw [h3, hre]⟩
  | byRemove _ hrem ih =>
    obtain ⟨r, p, _, _, _, _, rfl⟩ := remove_eq hrem
    intro d cs hd
    obtain ⟨e, cs', he, hre⟩ := ih d cs hd
    obtain ⟨e1, cs1, h1, h2⟩ := Octree.eraseAt_ready r.2.item_position.items_iterator e cs' p
    refine ⟨e1, cs1, ?_, by rw [h2, hre]⟩
    show Octree.eraseAt _ p _ = _
    rw [he]
    exact h1

end ContainedOctree

end DataStructures

namespace DataStructures

open Collisions Trees Coordinates

namespace ContainedOctree

variable {T : Type}

theorem insert_of_tree {dflt : AABB} {fuel : Nat} (c : ContainedOctree T) {area : AABB}
    {loc : Location (Fin 8)} {root1 : Octree Nat}
    (h : Octree.insert dflt fuel c.m_Root c.m_Fresh area = some (loc, root1)) (object : T) :
    ∃ c2, insert dflt fuel c object area = some (loc.items_container.isSome, c2) := by
  unfold insert
  simp only [h]
  exact ⟨_, rfl⟩

theorem find_record {l : List (Nat × OctreeItem T)} (hnd : (l.map Prod.fst).Nodup)
    {r : Nat × OctreeItem T} (hr : r ∈ l) :
    l.find? (fun x => x.1 == r.1) = some r := by
  cases hf : l.find? (fun x => x.1 == r.1) with
  | none =>
    rw [List.find?_eq_none] at hf
    exact absurd (by simp) (hf r hr)
  | some x =>
    have h1 : x ∈ l := List.mem_of_find?_eq_some hf
    have h2 : x.1 = r.1 := by simpa using List.find?_some hf
    rw [List.inj_on_of_nodup_map hnd h1 hr h2]

theorem remove_of_record {c : ContainedOctree T} (hnd : (c.m_Items.map Prod.fst).Nodup)
    {r : Nat × OctreeItem T} (hr : r ∈ c.m_Items) {p : List (Fin 8)}
    (hp : r.2.item_position.items_container = some p) :
    remove c r.1 = some (false,
      ⟨Octree.eraseAt c.m_Root p r.2.item_position.items_iterator,
        c.m_Items.filter (fun x => x.1 != r.1), c.m_Fresh⟩) := by
  unfold remove
  rw [find_record hnd hr]
  simp only [hp]
  rw [eraseP_eq_filter r.1 _ hnd]

end ContainedOctree

namespace Scenario

theorem insert_cellContainer :
    ContainedOctree.insert originBox 10 emptyContainer 70 unitCell
      = some (true, cellContainer) := by
  have h := eq_some_getD (ContainedOctree.insert originBox 10 emptyContainer 70 unitCell)
    (false, emptyContainer) (by decide!)
  have h1 : ((ContainedOctree.insert originBox 10 emptyContainer 70 unitCell).getD
    (false, emptyContainer)).1 = true := by decide!
  rw [h]
  exact congrArg some (Prod.ext h1 rfl)

end Scenario

end DataStructures

namespace DataStructures

open Collisions Trees Coordinates Octree Scenario

variable {T : Type}

/-- C11. Removal: take a container reached from the constructor by `insert` and
`remove` calls, an accepted `insert(object, area)` on it, further `insert` and
`remove` calls, and let the record of that insert still be in `m_Items`. Then
the record holds a location with a container `p`, iterator 0 and the box `area`,
and the item list at `p` holds exactly its iterator; `remove` on it returns and
leaves `m_Items` without that record and otherwise as it was, the item list at
`p` empty, and every other item list as it was; and an `insert` with the same
`area` is then accepted, with the fuel to walk to `p`. -/
theorem remove_vacates_node (dflt bb : AABB) (maxDepth minDim : Nat)
    (c0 c1 c2 : ContainedOctree T) (fuel : Nat) (object : T) (area : AABB)
    (h0 : ContainedOctree.Evolves dflt (ContainedOctree.mk3 dflt bb maxDepth minDim) c0)
    (h1 : ContainedOctree.insert dflt fuel c0 object area = some (true, c1))
    (h2 : ContainedOctree.Evolves dflt c1 c2)
    (hk : c0.m_Fresh ∈ c2.m_Items.map Prod.fst) :
    ∃ p c3, (c0.m_Fresh, (⟨object, ⟨some p, 0, area⟩⟩ : OctreeItem T)) ∈ c2.m_Items ∧
      itemsAt c2.m_Root p = [c0.m_Fresh] ∧
      ContainedOctree.remove c2 c0.m_Fresh = some (false, c3) ∧
      c3.m_Items = c2.m_Items.filter (fun r => r.1 != c0.m_Fresh) ∧
      itemsAt c3.m_Root p = [] ∧
      (∀ q, q ≠ p → itemsAt c3.m_Root q = itemsAt c2.m_Root q) ∧
      ∀ (other : T) (fuel' : Nat), p.length + 1 ≤ fuel' →
        ∃ c4, ContainedOctree.insert dflt fuel' c3 other area = some (true, c4) := by
  have hc0 := ContainedOctree.evolves_consistent h0 (ContainedOctree.consistent_mk3 dflt bb _ _)
  have hc2 := ContainedOctree.evolves_consistent h2 (ContainedOctree.consistent_insert hc0 h1)
  have hready := ContainedOctree.evolves_ready h2
  have hold := ContainedOctree.evolves_old_records h2
  obtain ⟨loc, root1, hins, hflag, rfl⟩ := ContainedOctree.insert_eq h1
  obtain ⟨p, hp⟩ : ∃ p, loc.items_container = some p := by
    cases hl : loc.items_container with
    | none => rw [hl] at hflag; cases hflag
    | some p => exact ⟨p, rfl⟩
  obtain ⟨⟨ha, hi⟩, _, _, _, _⟩ := insert_effect hins hp
  have hloc : loc = ⟨some p, 0, area⟩ := by
    cases loc
    simp only at hp ha hi
    rw [hp, ha, hi]
  subst hloc
  -- the record is still the one the insert left
  have hrec : (c0.m_Fresh, (⟨object, ⟨some p, 0, area⟩⟩ : OctreeItem T)) ∈ c2.m_Items := by
    rw [List.mem_map] at hk
    obtain ⟨r, hr, hrk⟩ := hk
    have hr1 := hold r hr (by rw [hrk]; exact Nat.lt_succ_self _)
    have hr1' : r ∈ c0.m_Items ++ [(c0.m_Fresh, (⟨object, ⟨some p, 0, area⟩⟩ : OctreeItem T))] :=
      hr1
    rw [List.mem_append, List.mem_singleton] at hr1'
    rcases hr1' with hr0 | rfl
    · exact absurd hrk (Nat.ne_of_lt (hc0.1 r hr0))
    · exact hr
  obtain ⟨hitems, _, hhosts⟩ := hc2.2.2 _ hrec p rfl
  have hrem := ContainedOctree.remove_of_record hc2.2.1 hrec rfl
  refine ⟨p, _, hrec, hitems, hrem, rfl, ?_, ?_, ?_⟩
  · show itemsAt (eraseAt c2.m_Root p 0) p = []
    rw [itemsAt_eraseAt_same, hitems]
    rfl
  · intro q hq
    exact itemsAt_eraseAt_ne 0 p c2.m_Root q hq
  · intro other fuel' hf
    obtain ⟨d, cs, hroot0, hrd, _⟩ :=
      insert_accepted_recursive hins (by intro h; cases h)
    obtain ⟨d1, cs1, e1, cs1', hd1, he1, hr1⟩ := insert_ready hins
    rw [hroot0] at hd1
    cases hd1
    obtain ⟨e2, cs2, hroot2, hr2⟩ := hready e1 cs1' he1
    obtain ⟨e3, cs3, hroot3, hr3⟩ := eraseAt_ready 0 e2 cs2 p
    have hh3 : Hosts area (eraseAt c2.m_Root p 0) p := hosts_eraseAt area 0 p c2.m_Root p hhosts
    have he3 : itemsAt (eraseAt c2.m_Root p 0) p = [] := by
      rw [itemsAt_eraseAt_same, hitems]
      rfl
    obtain ⟨t1, ht1⟩ := recursive_insert_of_hosts dflt c2.m_Fresh area p _ fuel' hh3 he3 hf
    have hready3 : e3.m_NodeReady = true := by rw [hr3, hr2, hr1, hrd]
    have htree : Octree.insert dflt fuel' (eraseAt c2.m_Root p 0) c2.m_Fresh area
        = some (⟨some p, 0, area⟩, t1) := by
      rw [hroot2, hroot3] at ht1 ⊢
      rw [insert_node]
      simp only [hready3, Bool.not_true, Bool.false_eq_true, if_false]
      exact ht1
    exact ContainedOctree.insert_of_tree
      ⟨eraseAt c2.m_Root p 0, c2.m_Items.filter (fun r => r.1 != c0.m_Fresh), c2.m_Fresh⟩
      htree other

/-- C11 at the container that holds item 70 with the box `(3,3,3)..(4,4,4)`,
right after its insert. -/
theorem remove_vacates_node_witness :
    ∃ p c3, (emptyContainer.m_Fresh, (⟨70, ⟨some p, 0, unitCell⟩⟩ : OctreeItem Nat))
        ∈ cellContainer.m_Items ∧
      itemsAt cellContainer.m_Root p = [emptyContainer.m_Fresh] ∧
      ContainedOctree.remove cellContainer emptyContainer.m_Fresh = some (false, c3) ∧
      c3.m_Items = cellContainer.m_Items.filter (fun r => r.1 != emptyContainer.m_Fresh) ∧
      itemsAt c3.m_Root p = [] ∧
      (∀ q, q ≠ p → itemsAt c3.m_Root q = itemsAt cellContainer.m_Root q) ∧
      ∀ (other : Nat) (fuel' : Nat), p.length + 1 ≤ fuel' →
        ∃ c4, ContainedOctree.insert originBox fuel' c3 other unitCell = some (true, c4) :=
  remove_vacates_node originBox sideEightCube 2 1 emptyContainer cellContainer cellContainer 10
    70 unitCell (ContainedOctree.Evolves.refl _) insert_cellContainer
    (ContainedOctree.Evolves.refl _) (by decide!)

end DataStructures

namespace DataStructures

open Collisions Trees Coordinates Octree Scenario

variable {T : Type}

/-- C16, amended, at the tree of depth 1 over the cube of side 8 with item 7 in
the node at slots 3, 3 (leaf side 4): the product `1 * 4` and the new
coordinates `0` and `8` are values of `float`, and the shift by one leaf to the
east moves both corners of the bounds by 4 along x. -/
theorem shift_translation_witness :
    (1 * leaf_node_side_length midCall < 2 ^ 64 ∧
      Ieee754.toFloat ((1 * leaf_node_side_length midCall : Nat) : ℚ)
        = ((1 * leaf_node_side_length midCall : Nat) : ℚ) ∧
      Ieee754.toFloat ((aabb originBox midCall).minCorner.x
          + ((1 * leaf_node_side_length midCall : Nat) : ℚ))
        = (aabb originBox midCall).minCorner.x
          + ((1 * leaf_node_side_length midCall : Nat) : ℚ) ∧
      Ieee754.toFloat ((aabb originBox midCall).maxCorner.x
          + ((1 * leaf_node_side_length midCall : Nat) : ℚ))
        = (aabb originBox midCall).maxCorner.x
          + ((1 * leaf_node_side_length midCall : Nat) : ℚ)) ∧
    ((aabb originBox midEast).minCorner = ⟨(aabb originBox midCall).minCorner.x
          + ((1 * leaf_node_side_length midCall : Nat) : ℚ),
        (aabb originBox midCall).minCorner.y, (aabb originBox midCall).minCorner.z⟩ ∧
      (aabb originBox midEast).maxCorner = ⟨(aabb originBox midCall).maxCorner.x
          + ((1 * leaf_node_side_length midCall : Nat) : ℚ),
        (aabb originBox midCall).maxCorner.y, (aabb originBox midCall).maxCorner.z⟩ ∧
      (aabb originBox midEast).dimensions = (aabb originBox midCall).dimensions) ∧
    leaf_node_side_length midEast = leaf_node_side_length midCall ∧
    leaf_node_side_length midCall = 4 ∧
    (aabb originBox midEast).bounding_region = (⟨0, -4, -4⟩, ⟨8, 4, 4⟩) ∧
    (∃ fuel0 res, ∀ fuel, fuel0 ≤ fuel →
      shift originBox fuel midCall 1 Directions.East [] = some res) := by
  have hs : shift originBox 10 midCall 1 Directions.East []
      = some (midEast, ((shift originBox 10 midCall 1 Directions.East []).getD
          (midCall, [])).2) :=
    eq_some_getD (shift originBox 10 midCall 1 Directions.East []) (midCall, [])
      (by decide!)
  have hx : 1 * leaf_node_side_length midCall < 2 ^ 64 ∧
      Ieee754.toFloat ((1 * leaf_node_side_length midCall : Nat) : ℚ)
        = ((1 * leaf_node_side_length midCall : Nat) : ℚ) ∧
      Ieee754.toFloat ((aabb originBox midCall).minCorner.x
          + ((1 * leaf_node_side_length midCall : Nat) : ℚ))
        = (aabb originBox midCall).minCorner.x
          + ((1 * leaf_node_side_length midCall : Nat) : ℚ) ∧
      Ieee754.toFloat ((aabb originBox midCall).maxCorner.x
          + ((1 * leaf_node_side_length midCall : Nat) : ℚ))
        = (aabb originBox midCall).maxCorner.x
          + ((1 * leaf_node_side_length midCall : Nat) : ℚ) := by decide!
  exact ⟨hx,
    ((shift_translation originBox midCall 1 Directions.East []).2.1
      10 _ _ hs hx.1 hx.2.1).1 rfl hx.2.2.1 hx.2.2.2,
    ((shift_translation originBox midCall 1 Directions.East []).1
      10 _ _ hs).2.2.2.2.2.2,
    by decide!, by decide!,
    (shift_translation originBox midCall 1 Directions.East []).2.2
      (by decide!) (by decide!)⟩

/-- C17, amended. What `dfs(area)` appends at a node: the items of the node, if
the item list is not empty and the bounds of the node contain `area`, or the
node is a leaf and its bounds intersect `area`; then what the calls on the
existing children whose box intersects `area` append. So an item is appended
exactly when it is in the list of a node the walk visits for which that test
holds. -/
theorem dfs_emission (d : OctreeNode T) (cs : Fin 8 → Octree T) (area : AABB)
    (items : List T) :
    dfs (node d cs) area items =
      items ++ ((if d.m_Item.isEmpty = false ∧ (d.m_Position.contains area = true ∨
            (d.m_IsLeaf = true ∧ d.m_Position.intersects2 area = true))
          then d.m_Item else [])
        ++ ((List.finRange 8).map (fun i =>
              if (cs i).isSome then
                (if (d.m_OctantsBounds i).intersects2 area then recursive_dfs (cs i) area
                 else [])
              else [])).flatten) ∧
    ∀ x, x ∈ dfs (node d cs) area items ↔
      x ∈ items ∨ ∃ p e, Visits area (node d cs) p ∧ nodeAt (node d cs) p = some e ∧
        x ∈ e.m_Item ∧ (e.m_Position.contains area = true ∨
          (e.m_IsLeaf = true ∧ e.m_Position.intersects2 area = true)) := by
  constructor
  · unfold dfs
    rw [recursive_dfs_node, recursive_dfs_own]
  · intro x
    unfold dfs
    rw [List.mem_append, mem_recursive_dfs_iff]

end DataStructures

namespace DataStructures

open Collisions Trees Coordinates

namespace Octree

variable {T : Type}

/-! ## The eight octants -/

theorem dimensions_nonneg (pos : AABB) :
    0 ≤ pos.dimensions.x ∧ 0 ≤ pos.dimensions.y ∧ 0 ≤ pos.dimensions.z := by
  obtain ⟨m1, m2, m3⟩ := AABB.minCorner_le_maxCorner pos
  exact ⟨sub_nonneg.mpr m1, sub_nonneg.mpr m2, sub_nonneg.mpr m3⟩

/-- The computed lower and upper coordinate of an octant lie on either side of
the stored centre coordinate. -/
theorem half_corners_ordered (pos : AABB) :
    (Ieee754.toFloat (Ieee754.toDouble
        (pos.center.stored.x - 1 / 2 * pos.dimensions.stored.x)) ≤ pos.center.stored.x ∧
      pos.center.stored.x ≤ Ieee754.toFloat (Ieee754.toDouble
        (pos.center.stored.x + 1 / 2 * pos.dimensions.stored.x))) ∧
    (Ieee754.toFloat (Ieee754.toDouble
        (pos.center.stored.y - 1 / 2 * pos.dimensions.stored.y)) ≤ pos.center.stored.y ∧
      pos.center.stored.y ≤ Ieee754.toFloat (Ieee754.toDouble
        (pos.center.stored.y + 1 / 2 * pos.dimensions.stored.y))) ∧
    (Ieee754.toFloat (Ieee754.toDouble
        (pos.center.stored.z - 1 / 2 * pos.dimensions.stored.z)) ≤ pos.center.stored.z ∧
      pos.center.stored.z ≤ Ieee754.toFloat (Ieee754.toDouble
        (pos.center.stored.z + 1 / 2 * pos.dimensions.stored.z))) := by
  obtain ⟨d1, d2, d3⟩ := dimensions_nonneg pos
  have h : ∀ d : ℚ, 0 ≤ d → (0 : ℚ) ≤ 1 / 2 * Ieee754.toFloat d := fun d hd =>
    mul_nonneg (by norm_num) (Ieee754.toFloat_nonneg hd)
  exact ⟨Ieee754.corner_le_center pos.center.x _ (h _ d1),
    Ieee754.corner_le_center pos.center.y _ (h _ d2),
    Ieee754.corner_le_center pos.center.z _ (h _ d3)⟩

/-- The corners of the box spanned by octant `i`, from the stored centre of the
parent box and the computed lower and upper coordinates: slot bit 0 selects the
upper half along x, slot bit 1 the upper half along z, and the slots 0 to 3 the
upper half along y. -/
theorem calculate_bounding_box_corners (pos b : AABB) (i : Fin 8) :
    (calculate_bounding_box pos b i).minCorner =
      ⟨if i.val % 2 = 0 then Ieee754.toFloat (Ieee754.toDouble
            (pos.center.stored.x - 1 / 2 * pos.dimensions.stored.x))
        else pos.center.stored.x,
        if i.val < 4 then pos.center.stored.y
        else Ieee754.toFloat (Ieee754.toDouble
            (pos.center.stored.y - 1 / 2 * pos.dimensions.stored.y)),
        if i.val / 2 % 2 = 0 then Ieee754.toFloat (Ieee754.toDouble
            (pos.center.stored.z - 1 / 2 * pos.dimensions.stored.z))
        else pos.center.stored.z⟩ ∧
    (calculate_bounding_box pos b i).maxCorner =
      ⟨if i.val % 2 = 0 then pos.center.stored.x
        else Ieee754.toFloat (Ieee754.toDouble
            (pos.center.stored.x + 1 / 2 * pos.dimensions.stored.x)),
        if i.val < 4 then Ieee754.toFloat (Ieee754.toDouble
            (pos.center.stored.y + 1 / 2 * pos.dimensions.stored.y))
        else pos.center.stored.y,
        if i.val / 2 % 2 = 0 then pos.center.stored.z
        else Ieee754.toFloat (Ieee754.toDouble
            (pos.center.stored.z + 1 / 2 * pos.dimensions.stored.z))⟩ := by
  obtain ⟨⟨lx, ux⟩, ⟨ly, uy⟩, ⟨lz, uz⟩⟩ := half_corners_ordered pos
  have unfoldMin : ∀ c : AABB, c.minCorner =
      ⟨min c.first.x c.second.x, min c.first.y c.second.y, min c.first.z c.second.z⟩ :=
    fun _ => rfl
  have unfoldMax : ∀ c : AABB, c.maxCorner =
      ⟨max c.first.x c.second.x, max c.first.y c.second.y, max c.first.z c.second.z⟩ :=
    fun _ => rfl
  fin_cases i
  all_goals
    rw [unfoldMin (calculate_bounding_box pos b _), unfoldMax (calculate_bounding_box pos b _)]
    simp only [calculate_bounding_box, AABB.update_position]
    simp only [one_div] at lx ux ly uy lz uz
    simp [min_eq_left, min_eq_right, max_eq_left, max_eq_right, lx, ux, ly, uy, lz, uz]

end Octree

end DataStructures

namespace DataStructures

open Collisions Trees Coordinates

namespace Octree

variable {T : Type}

/-- Two distinct slots differ in the half they select along some axis. -/
theorem slots_differ : ∀ i j : Fin 8, i ≠ j →
    (i.val % 2 = 0 ∧ j.val % 2 ≠ 0) ∨ (i.val % 2 ≠ 0 ∧ j.val % 2 = 0) ∨
    (i.val < 4 ∧ ¬ j.val < 4) ∨ (¬ i.val < 4 ∧ j.val < 4) ∨
    (i.val / 2 % 2 = 0 ∧ j.val / 2 % 2 ≠ 0) ∨ (i.val / 2 % 2 ≠ 0 ∧ j.val / 2 % 2 = 0) := by
  decide

theorem nodeAt_null (p : List (Fin 8)) : nodeAt (null : Octree T) p = none := by
  cases p <;> rfl

theorem nodeAt_leaf (d : OctreeNode T) (p : List (Fin 8)) (i : Fin 8) :
    nodeAt (node d (fun _ => null)) (p ++ [i]) = none := by
  cases p with
  | nil => rfl
  | cons j q =>
    show nodeAt (null : Octree T) (q ++ [i]) = none
    exact nodeAt_null _

theorem recursive_subdivide_root (dflt : AABB) (fuel : Nat) (d : OctreeNode T) :
    ∃ e cs, recursive_subdivide dflt fuel d = node e cs ∧ e.m_Position = d.m_Position ∧
      e.m_Depth = d.m_Depth ∧ e.m_MaxDepth = d.m_MaxDepth := by
  cases fuel with
  | zero => exact ⟨d, _, rfl, rfl, rfl, rfl⟩
  | succ fuel =>
    unfold recursive_subdivide
    split
    · exact ⟨d, _, rfl, rfl, rfl, rfl⟩
    · split
      · exact ⟨d, _, rfl, rfl, rfl, rfl⟩
      · simp only
        split
        · exact ⟨d, _, rfl, rfl, rfl, rfl⟩
        · exact ⟨_, _, rfl, rfl, rfl, rfl⟩

/-- The three ways a call of `recursive_subdivide` on a fresh leaf ends: without
children, or with the eight children built over the octants. -/
theorem recursive_subdivide_cases (dflt : AABB) (fuel : Nat) (d : OctreeNode T)
    (hleaf : d.m_IsLeaf = true) :
    recursive_subdivide dflt fuel d = node d (fun _ => null) ∨
    (∃ f, fuel = f + 1 ∧ d.m_Depth ≤ d.m_MaxDepth ∧
      recursive_subdivide dflt fuel d =
        node { d with
            m_OctantsBounds := fun i => calculate_bounding_box d.m_Position d.m_Position i
            m_IsLeaf := false }
          (fun i => recursive_subdivide dflt f
            (init4 dflt (calculate_bounding_box d.m_Position d.m_Position i)
              d.m_MaxDepth d.m_MinimumDimensions (d.m_Depth + 1)))) := by
  cases fuel with
  | zero => left; rfl
  | succ f =>
    by_cases hdepth : d.m_Depth ≤ d.m_MaxDepth
    · by_cases hdims :
          d.m_Position.dimensions.stored.x < Ieee754.toFloat (d.m_MinimumDimensions : ℚ) ∨
          d.m_Position.dimensions.stored.y < Ieee754.toFloat (d.m_MinimumDimensions : ℚ) ∨
          d.m_Position.dimensions.stored.z < Ieee754.toFloat (d.m_MinimumDimensions : ℚ)
      · left; exact recursive_subdivide_small dflt _ d hdims
      · right
        exact ⟨f, rfl, hdepth, recursive_subdivide_split_stored dflt f d hleaf hdepth hdims⟩
    · left; exact recursive_subdivide_beyond dflt _ d hdepth

end Octree

end DataStructures

namespace Collisions.AABB

/-- The box kept as its own minimum and maximum corner spans the same region. -/
theorem bounding_region_span (b : AABB) :
    (⟨b.minCorner, b.maxCorner⟩ : AABB).bounding_region = b.bounding_region := by
  obtain ⟨k1, k2, k3⟩ := minCorner_le_maxCorner b
  have hmin : (⟨b.minCorner, b.maxCorner⟩ : AABB).minCorner = b.minCorner := by
    have : (⟨b.minCorner, b.maxCorner⟩ : AABB).minCorner
        = ⟨min b.minCorner.x b.maxCorner.x, min b.minCorner.y b.maxCorner.y,
          min b.minCorner.z b.maxCorner.z⟩ := rfl
    rw [this, min_eq_left k1, min_eq_left k2, min_eq_left k3]
  have hmax : (⟨b.minCorner, b.maxCorner⟩ : AABB).maxCorner = b.maxCorner := by
    have : (⟨b.minCorner, b.maxCorner⟩ : AABB).maxCorner
        = ⟨max b.minCorner.x b.maxCorner.x, max b.minCorner.y b.maxCorner.y,
          max b.minCorner.z b.maxCorner.z⟩ := rfl
    rw [this, max_eq_right k1, max_eq_right k2, max_eq_right k3]
  show ((⟨b.minCorner, b.maxCorner⟩ : AABB).minCorner,
    (⟨b.minCorner, b.maxCorner⟩ : AABB).maxCorner) = (b.minCorner, b.maxCorner)
  rw [hmin, hmax]

end Collisions.AABB

namespace DataStructures

open Collisions Trees Coordinates

namespace Octree

variable {T : Type}

/-! ## What `resize` leaves -/

theorem nodeAt_recursive_resize_isSome :
    ∀ (t : Octree T) (area : AABB) (p : List (Fin 8)),
      (nodeAt (recursive_resize t area) p).isSome = (nodeAt t p).isSome := by
  intro t
  induction t with
  | null => intro _ _; rfl
  | node d cs ih =>
    intro area p
    rw [recursive_resize_node]
    cases p with
    | nil => rfl
    | cons i q =>
      show (nodeAt (if (cs i).isSome then recursive_resize (cs i) _ else cs i) q).isSome
        = (nodeAt (cs i) q).isSome
      by_cases h : (cs i).isSome = true
      · rw [if_pos h]
        exact ih i _ q
      · rw [if_neg h]

/-- After `recursive_resize`, the child boxes of every node are the octants of
its new bounds, and the bounds of an existing child span the box its parent
computed for its slot. -/
theorem recursive_resize_children :
    ∀ (t : Octree T) (area : AABB) (p : List (Fin 8)) (e : OctreeNode T) (i : Fin 8)
      (c : OctreeNode T),
      nodeAt (recursive_resize t area) p = some e →
      nodeAt (recursive_resize t area) (p ++ [i]) = some c →
      e.m_OctantsBounds i = calculate_bounding_box e.m_Position e.m_Position i ∧
      c.m_Position = ⟨(e.m_OctantsBounds i).minCorner, (e.m_OctantsBounds i).maxCorner⟩ := by
  intro t
  induction t with
  | null =>
    intro area p e i c he _
    have : nodeAt (recursive_resize (null : Octree T) area) p = none := nodeAt_null p
    rw [this] at he
    cases he
  | node d cs ih =>
    intro area p e i c he hc
    rw [recursive_resize_node] at he hc
    cases p with
    | nil =>
      have he' := (Option.some.inj he).symm
      subst he'
      refine ⟨calculate_bounding_box_irrel _ _ _ i, ?_⟩
      have hc' : nodeAt (if (cs i).isSome then recursive_resize (cs i)
          (calculate_bounding_box
            (d.m_Position.update_position area.bounding_region.1 area.bounding_region.2)
            (d.m_OctantsBounds i) i) else cs i) [] = some c := hc
      cases hci : cs i with
      | null =>
        rw [hci] at hc'
        cases hc'
      | node di csi =>
        rw [hci] at hc'
        have hc2 := (Option.some.inj hc').symm
        rw [hc2]
        rfl
    | cons j q =>
      have he' : nodeAt (if (cs j).isSome then recursive_resize (cs j)
          (calculate_bounding_box
            (d.m_Position.update_position area.bounding_region.1 area.bounding_region.2)
            (d.m_OctantsBounds j) j) else cs j) q = some e := he
      have hc' : nodeAt (if (cs j).isSome then recursive_resize (cs j)
          (calculate_bounding_box
            (d.m_Position.update_position area.bounding_region.1 area.bounding_region.2)
            (d.m_OctantsBounds j) j) else cs j) (q ++ [i]) = some c := hc
      by_cases h : (cs j).isSome = true
      · rw [if_pos h] at he' hc'
        exact ih j _ q e i c he' hc'
      · rw [if_neg h, isSome_eq_false h, nodeAt_null] at he'
        cases he'

end Octree

end DataStructures

namespace DataStructures

open Collisions Trees Coordinates Octree Scenario

variable {T : Type}

/-- C21. After `resize(area)` on a tree: the bounds of the root span the box
`area` (they are kept as its minimum and maximum corner); `size()` is 0 and
every item list is empty; a node exists at a path exactly when one existed
there before; and for every node, the child box of each slot is the octant
`calculate_bounding_box` computes from the new bounds of the node, and the
bounds of an existing child span that box. -/
theorem resize_effect (dflt : AABB) (t : Octree T) (ht : t.isSome = true) (area : AABB) :
    aabb dflt (resize t area) = ⟨area.minCorner, area.maxCorner⟩ ∧
    (aabb dflt (resize t area)).bounding_region = area.bounding_region ∧
    (resize t area).size = 0 ∧ (∀ p, itemsAt (resize t area) p = []) ∧
    (∀ p, (nodeAt (resize t area) p).isSome = (nodeAt t p).isSome) ∧
    ∀ p e i c, nodeAt (resize t area) p = some e → nodeAt (resize t area) (p ++ [i]) = some c →
      e.m_OctantsBounds i = calculate_bounding_box e.m_Position e.m_Position i ∧
      c.m_Position = ⟨(e.m_OctantsBounds i).minCorner, (e.m_OctantsBounds i).maxCorner⟩ ∧
      c.m_Position.bounding_region = (e.m_OctantsBounds i).bounding_region := by
  have hroot : aabb dflt (resize t area) = ⟨area.minCorner, area.maxCorner⟩ := by
    cases t with
    | null => cases ht
    | node d cs => rfl
  refine ⟨hroot, ?_, size_resize t area,
    itemsAt_of_all_empty (all_empty_recursive_resize t area),
    nodeAt_recursive_resize_isSome t area, ?_⟩
  · rw [hroot]
    exact AABB.bounding_region_span area
  · intro p e i c he hc
    obtain ⟨h1, h2⟩ := recursive_resize_children t area p e i c he hc
    refine ⟨h1, h2, ?_⟩
    rw [h2]
    exact AABB.bounding_region_span _

/-- C21 at the tree with item 7 in the node at slots 3, 3, 3, resized to the
cube of side 20. -/
theorem resize_effect_witness :
    aabb originBox resizedCell = ⟨hugeBox.minCorner, hugeBox.maxCorner⟩ ∧
    (aabb originBox resizedCell).bounding_region = hugeBox.bounding_region ∧
    resizedCell.size = 0 ∧ (∀ p, itemsAt resizedCell p = []) ∧
    (∀ p, (nodeAt resizedCell p).isSome = (nodeAt cellCall p).isSome) ∧
    ∀ p e i c, nodeAt resizedCell p = some e → nodeAt resizedCell (p ++ [i]) = some c →
      e.m_OctantsBounds i = calculate_bounding_box e.m_Position e.m_Position i ∧
      c.m_Position = ⟨(e.m_OctantsBounds i).minCorner, (e.m_OctantsBounds i).maxCorner⟩ ∧
      c.m_Position.bounding_region = (e.m_OctantsBounds i).bounding_region :=
  resize_effect originBox cellCall (by decide!) hugeBox

/-- C22. After `ContainedOctree::resize(area)`: `m_Items` is empty, `size()` of
the root tree is 0 and every item list of the tree is empty, and the bounds of
the root span the box `area`. -/
theorem contained_resize_empties (dflt : AABB) (c : ContainedOctree T)
    (hroot : c.m_Root.isSome = true) (area : AABB) :
    (ContainedOctree.resize c area).m_Items = [] ∧
    (ContainedOctree.resize c area).size = 0 ∧
    (ContainedOctree.resize c area).m_Root.size = 0 ∧
    (∀ p, itemsAt (ContainedOctree.resize c area).m_Root p = []) ∧
    aabb dflt (ContainedOctree.resize c area).m_Root = ⟨area.minCorner, area.maxCorner⟩ ∧
    (aabb dflt (ContainedOctree.resize c area).m_Root).bounding_region
      = area.bounding_region := by
  have hr : (ContainedOctree.resize c area).m_Root = resize c.m_Root area := rfl
  rw [hr]
  refine ⟨rfl, rfl, size_resize _ _,
    itemsAt_of_all_empty (all_empty_recursive_resize c.m_Root area), ?_, ?_⟩
  · cases hc : c.m_Root with
    | null => rw [hc] at hroot; cases hroot
    | node d cs => rfl
  · have h1 : aabb dflt (resize c.m_Root area) = ⟨area.minCorner, area.maxCorner⟩ := by
      cases hc : c.m_Root with
      | null => rw [hc] at hroot; cases hroot
      | node d cs => rfl
    rw [h1]
    exact AABB.bounding_region_span area

/-- C22 at the container that holds item 70, resized to the cube of side 20. -/
theorem contained_resize_empties_witness :
    cellContainer.m_Items.length = 1 ∧
    (ContainedOctree.resize cellContainer hugeBox).m_Items = [] ∧
    (ContainedOctree.resize cellContainer hugeBox).size = 0 ∧
    (ContainedOctree.resize cellContainer hugeBox).m_Root.size = 0 ∧
    (∀ p, itemsAt (ContainedOctree.resize cellContainer hugeBox).m_Root p = []) ∧
    aabb originBox (ContainedOctree.resize cellContainer hugeBox).m_Root
      = ⟨hugeBox.minCorner, hugeBox.maxCorner⟩ ∧
    (aabb originBox (ContainedOctree.resize cellContainer hugeBox).m_Root).bounding_region
      = hugeBox.bounding_region :=
  ⟨by decide!, contained_resize_empties originBox cellContainer (by decide!) hugeBox⟩

end DataStructures

namespace DataStructures

open Collisions Trees Coordinates

/-! ## Conversions to `size_t` -/

theorem toSizeT_natCast (n : Nat) : toSizeT ((n : ℕ) : ℚ) = n := by
  unfold toSizeT
  have h : Rat.floor ((n : ℕ) : ℚ) = (n : ℤ) := by
    exact (Int.floor_natCast n : ⌊((n : ℕ) : ℚ)⌋ = (n : ℤ))
  rw [h]
  rfl

theorem toSizeTChecked_pow (b n : Nat) :
    toSizeTChecked ((b : ℚ) ^ n) = if b ^ n < 2 ^ 64 then some (b ^ n) else none := by
  unfold toSizeTChecked
  have hc : ((b : ℚ) ^ n) = ((b ^ n : ℕ) : ℚ) := by push_cast; rfl
  have h64 : ((2 : ℚ) ^ 64) = ((2 ^ 64 : ℕ) : ℚ) := by push_cast; rfl
  rw [hc, h64, toSizeT_natCast]
  have hneg : (-1 : ℚ) < ((b ^ n : ℕ) : ℚ) := by
    have : (0 : ℚ) ≤ ((b ^ n : ℕ) : ℚ) := Nat.cast_nonneg _
    linarith
  by_cases hlt : b ^ n < 2 ^ 64
  · have : ((b ^ n : ℕ) : ℚ) < ((2 ^ 64 : ℕ) : ℚ) := Nat.cast_lt.mpr hlt
    rw [if_pos ⟨hneg, this⟩, if_pos hlt]
  · have : ¬ ((b ^ n : ℕ) : ℚ) < ((2 ^ 64 : ℕ) : ℚ) := fun h => hlt (Nat.cast_lt.mp h)
    rw [if_neg (fun h => this h.2), if_neg hlt]

namespace Octree

variable {T : Type}

/-! ## Depth in a constructed tree -/

theorem nodeAt_recursive_subdivide_cons (dflt : AABB) (fuel : Nat) (d : OctreeNode T)
    (hleaf : d.m_IsLeaf = true) (hdepth : d.m_Depth ≤ d.m_MaxDepth)
    (hdims : ¬ (d.m_Position.dimensions.x < (d.m_MinimumDimensions : ℚ) ∨
      d.m_Position.dimensions.y < (d.m_MinimumDimensions : ℚ) ∨
      d.m_Position.dimensions.z < (d.m_MinimumDimensions : ℚ)))
    (i : Fin 8) (p : List (Fin 8)) :
    nodeAt (recursive_subdivide dflt (fuel + 1) d) (i :: p) =
      nodeAt (recursive_subdivide dflt fuel
        (init4 dflt (calculate_bounding_box d.m_Position d.m_Position i)
          d.m_MaxDepth d.m_MinimumDimensions (d.m_Depth + 1))) p := by
  rw [recursive_subdivide_split dflt fuel d hleaf hdepth hdims]
  rfl

/-- No node built by `recursive_subdivide` lies more than one level beyond
`m_MaxDepth`. -/
theorem recursive_subdivide_depth_le (dflt : AABB) :
    ∀ (fuel : Nat) (d : OctreeNode T), d.m_IsLeaf = true → d.m_Depth ≤ d.m_MaxDepth + 1 →
      All (fun e => e.m_Depth ≤ e.m_MaxDepth + 1) (recursive_subdivide dflt fuel d) := by
  intro fuel
  induction fuel with
  | zero => intro d _ hd; exact ⟨hd, fun _ => trivial⟩
  | succ f ih =>
    intro d hleaf hd
    rcases recursive_subdivide_cases dflt (f + 1) d hleaf with h | ⟨f', hf, hdepth, h⟩
    · rw [h]
      exact ⟨hd, fun _ => trivial⟩
    · have hff : f' = f := by omega
      subst hff
      rw [h]
      refine ⟨hd, fun i => ?_⟩
      exact ih (init4 dflt (calculate_bounding_box d.m_Position d.m_Position i)
        d.m_MaxDepth d.m_MinimumDimensions (d.m_Depth + 1)) rfl (Nat.succ_le_succ hdepth)

end Octree

namespace QuadTree

/-! ## The four children of a `QuadTree` node -/

theorem quad_calculate_bounding_box_y (pos b : AABB) (i : Fin 4) :
    (calculate_bounding_box pos b i).minCorner.y = pos.center.y ∧
    (calculate_bounding_box pos b i).maxCorner.y = pos.maxCorner.y := by
  obtain ⟨_, m2, _⟩ := AABB.minCorner_le_maxCorner pos
  have hy2 : pos.center.y + 1 / 2 * pos.dimensions.y = pos.maxCorner.y := by
    simp only [AABB.center, AABB.dimensions]; ring
  have cy2 : pos.center.y ≤ pos.maxCorner.y := by
    simp only [AABB.center]; linarith
  have unfoldMin : ∀ c : AABB, c.minCorner.y = min c.first.y c.second.y := fun _ => rfl
  have unfoldMax : ∀ c : AABB, c.maxCorner.y = max c.first.y c.second.y := fun _ => rfl
  fin_cases i
  all_goals
    rw [unfoldMin (calculate_bounding_box pos b _), unfoldMax (calculate_bounding_box pos b _)]
    simp only [calculate_bounding_box, AABB.update_position, hy2]
    exact ⟨min_eq_left cy2, max_eq_right cy2⟩

end QuadTree

end DataStructures

namespace DataStructures

open Collisions Trees Coordinates Octree Scenario

variable {T : Type}

/-- C23 on the code. In the tree the three-argument constructor builds over the
cube of side 8 with `maxDepth = 2` and `minExtent = 1`, the node reached through
the child slots 3, 3, 3 has `depth()` 3 while `max_depth()` is 2. One level
beyond `max_depth()` is as deep as the constructor goes, for every box and every
limit. -/
theorem constructed_node_beyond_max_depth (dflt : AABB) :
    (∃ e : OctreeNode T, nodeAt (tree T dflt) [3, 3, 3] = some e ∧
      e.m_Depth = 3 ∧ e.m_MaxDepth = 2) ∧
    ∀ (bb : AABB) (maxDepth minDim : Nat),
      All (fun e => e.m_Depth ≤ e.m_MaxDepth + 1) (mk3 dflt bb maxDepth minDim : Octree T) := by
  constructor
  · refine ⟨init4 dflt (boxAt sideEightCube [3, 3, 3]) 2 1 3, ?_, rfl, rfl⟩
    have h1 := nodeAt_recursive_subdivide_cons dflt 2
      (init3 dflt sideEightCube 2 1 : OctreeNode T) rfl (Nat.zero_le _)
      (by show ¬ (sideEightCube.dimensions.x < ((1 : ℕ) : ℚ) ∨
            sideEightCube.dimensions.y < ((1 : ℕ) : ℚ) ∨
            sideEightCube.dimensions.z < ((1 : ℕ) : ℚ)); decide!) 3 [3, 3]
    have h2 := nodeAt_recursive_subdivide_cons dflt 1
      (init4 dflt (boxAt sideEightCube [3]) 2 1 1 : OctreeNode T) rfl
      (by show 1 ≤ 2; decide)
      (by show ¬ ((boxAt sideEightCube [3]).dimensions.x < ((1 : ℕ) : ℚ) ∨
            (boxAt sideEightCube [3]).dimensions.y < ((1 : ℕ) : ℚ) ∨
            (boxAt sideEightCube [3]).dimensions.z < ((1 : ℕ) : ℚ)); decide!) 3 [3]
    have h3 := nodeAt_recursive_subdivide_cons dflt 0
      (init4 dflt (boxAt sideEightCube [3, 3]) 2 1 2 : OctreeNode T) rfl
      (by show 2 ≤ 2; decide)
      (by show ¬ ((boxAt sideEightCube [3, 3]).dimensions.x < ((1 : ℕ) : ℚ) ∨
            (boxAt sideEightCube [3, 3]).dimensions.y < ((1 : ℕ) : ℚ) ∨
            (boxAt sideEightCube [3, 3]).dimensions.z < ((1 : ℕ) : ℚ)); decide!) 3 []
    exact h1.trans (h2.trans h3)
  · intro bb maxDepth minDim
    exact recursive_subdivide_depth_le dflt _ _ rfl (Nat.zero_le _)

/-- C24 on the code. The tree over the cube of side 8 with `maxDepth = 0`
accepts item 1 with the box `(3,3,3)..(4,4,4)` and item 2 with the box
`(-4,-4,-4)..(-3,-3,-3)`: `size()` is 2 while `max_size()` is 1. The tree with
`maxDepth = 1` accepts nine items, one around the centre of the cube and one
around the centre of each octant, all in nodes of depth 0 and 1: `size()` is 9
while `max_size()` is 8. -/
theorem size_exceeds_max_size :
    (max_size flatTree = some 1 ∧
      (locationAfter originBox 10 flatTree 1 unitCell).items_container = some [3] ∧
      (locationAfter originBox 10 (treeAfter originBox 10 flatTree 1 unitCell) 2
        lowCell).items_container = some [4] ∧
      twoItems.size = 2 ∧ max_size twoItems = some 1) ∧
    (max_size midTree = some 8 ∧ nineItems.size = 9 ∧ max_size nineItems = some 8 ∧
      itemsAt nineItems [] = [0] ∧
      (List.finRange 8).map (fun i => itemsAt nineItems [i])
        = [[6], [2], [5], [1], [8], [4], [7], [3]]) := by
  refine ⟨⟨by decide!, by decide!, by decide!, by decide!, by decide!⟩,
    ⟨by decide!, by decide!, by decide!, by decide!, by decide!⟩⟩

/-- C25. The value of `max_size()`: 8 to the power `m_MaxDepth` for an `Octree`
and 4 to the power `m_MaxDepth` for a `QuadTree`, as long as the power is below
`2 ^ 64`. -/
theorem max_size_value :
    (∀ (d : OctreeNode T) (cs : Fin 8 → Octree T), 8 ^ d.m_MaxDepth < 2 ^ 64 →
      max_size (node d cs) = some (8 ^ d.m_MaxDepth)) ∧
    (∀ (d : QuadTreeNode T) (cs : Fin 4 → QuadTree T), 4 ^ d.m_MaxDepth < 2 ^ 64 →
      QuadTree.max_size (QuadTree.node d cs) = some (4 ^ d.m_MaxDepth)) := by
  constructor
  · intro d cs hfit
    show toSizeTChecked (((8 : ℕ) : ℚ) ^ d.m_MaxDepth) = _
    rw [toSizeTChecked_pow, if_pos hfit]
  · intro d cs hfit
    show toSizeTChecked (((4 : ℕ) : ℚ) ^ d.m_MaxDepth) = _
    rw [toSizeTChecked_pow, if_pos hfit]

/-- C25 at a root as the constructors initialise it with `maxDepth = 2`, and at
the scenario `QuadTree`, also with `maxDepth = 2`. -/
theorem max_size_value_witness :
    max_size (node (init3 originBox sideEightCube 2 1 : OctreeNode Nat) (fun _ => null))
      = some (8 ^ 2) ∧
    QuadTree.max_size quadTree = some (4 ^ 2) :=
  ⟨max_size_value.1 (init3 originBox sideEightCube 2 1 : OctreeNode Nat) (fun _ => null)
      (by decide),
    max_size_value.2 (⟨sideEightCube, 2, 1, 2, 0, quarter, false, true, [5]⟩ : QuadTreeNode Nat)
      (fun i => quadLeaf (quarter i) 1 [10 + i.val]) (by decide)⟩

end DataStructures

namespace DataStructures

open Collisions Trees Coordinates Octree Scenario

variable {T : Type}

/-- C26 on the code. On the constructed scenario tree, whose root holds all
eight children, `empty()` reaches the end of the function without a `return`
and has no defined result; the same on the scenario `QuadTree`. On a leaf that
was resized and then got a child in slot 3 by an accepted `insert`, `empty()`
returns `true` although that child exists: only slot 0 is looked at. -/
theorem empty_looks_at_slot_zero_only :
    ((∀ i : Fin 8, (nodeAt (tree Nat originBox) [i]).isSome = true) ∧
      Octree.empty (tree Nat originBox) = none) ∧
    ((∀ i : Fin 4, (QuadTree.nodeAt quadTree [i]).isSome = true) ∧
      QuadTree.empty quadTree = none) ∧
    ((∀ i : Fin 8, (nodeAt tinyTree [i]).isSome = false) ∧
      (locationAfter originBox 10 (resize tinyTree sideEightCube) 7
        unitCell).items_container.isSome = true ∧
      (nodeAt grownLeaf [3]).isSome = true ∧ (nodeAt grownLeaf [0]).isSome = false ∧
      Octree.empty grownLeaf = some true) := by
  refine ⟨⟨by decide!, by decide!⟩, ⟨by decide!, by decide!⟩,
    ⟨by decide!, by decide!, by decide!, by decide!, by decide!⟩⟩

/-- C28 on the code. Every child box `QuadTree::calculate_bounding_box` computes
runs along y from the centre of the parent box to its maximum, half the extent
of the parent. For the cube of side 8 the box of slot 0 has the extents 4, 4, 4,
and so have the bounds of the child in slot 0 of the constructed `QuadTree`. -/
theorem quad_child_halves_height :
    (∀ (pos b : AABB) (i : Fin 4),
      (QuadTree.calculate_bounding_box pos b i).minCorner.y = pos.center.y ∧
      (QuadTree.calculate_bounding_box pos b i).maxCorner.y = pos.maxCorner.y ∧
      (QuadTree.calculate_bounding_box pos b i).dimensions.y = pos.dimensions.y / 2) ∧
    sideEightCube.dimensions = ⟨8, 8, 8⟩ ∧
    (List.finRange 4).map
        (fun i => (QuadTree.calculate_bounding_box sideEightCube originBox i).bounding_region)
      = [(⟨-4, 0, -4⟩, ⟨0, 4, 0⟩), (⟨0, 0, -4⟩, ⟨4, 4, 0⟩), (⟨-4, 0, 0⟩, ⟨0, 4, 4⟩),
          (⟨0, 0, 0⟩, ⟨4, 4, 4⟩)] ∧
    (QuadTree.nodeAt builtQuad []).map (fun e => e.m_Position.dimensions) = some ⟨8, 8, 8⟩ ∧
    (QuadTree.nodeAt builtQuad [0]).map (fun e => e.m_Position.dimensions) = some ⟨4, 4, 4⟩ := by
  refine ⟨fun pos b i => ?_, by decide!, by decide!, by decide!, by decide!⟩
  obtain ⟨h1, h2⟩ := QuadTree.quad_calculate_bounding_box_y pos b i
  refine ⟨h1, h2, ?_⟩
  have hd : ∀ c : AABB, c.dimensions.y = c.maxCorner.y - c.minCorner.y := fun _ => rfl
  rw [hd, h1, h2, hd]
  simp only [AABB.center]
  ring

/-- C30 on the code. Over the cube of side 8 with `maxDepth = 2` and
`minExtent = 100`, the `Octree` constructor builds a single leaf without
children, while the `QuadTree` constructor builds a root that is not a leaf and
holds four children: `QuadTree::recursive_subdivide` compares the extents with
the constant `MINIMUM_DIMENSION`, not with `m_MinimumDimensions`. -/
theorem quad_subdivides_below_min_extent :
    (wideOct.is_leaf_node = true ∧ ∀ i : Fin 8, (nodeAt wideOct [i]).isSome = false) ∧
    ((QuadTree.nodeAt wideQuad []).map (fun e => e.m_MinimumDimensions) = some 100 ∧
      QuadTree.is_leaf_node wideQuad = false ∧
      ∀ i : Fin 4, (QuadTree.nodeAt wideQuad [i]).isSome = true) := by
  refine ⟨⟨by decide!, by decide!⟩, ⟨by decide!, by decide!, by decide!⟩⟩

end DataStructures

namespace Collisions.AABB

theorem intersects2_comm (a b : AABB) : a.intersects2 b = b.intersects2 a := by
  have h : a.intersects2 b = true ↔ b.intersects2 a = true := by
    rw [intersects2_iff, intersects2_iff]
    constructor
    · rintro ⟨h1, h2, h3, h4, h5, h6⟩
      exact ⟨h2, h1, h4, h3, h6, h5⟩
    · rintro ⟨h1, h2, h3, h4, h5, h6⟩
      exact ⟨h2, h1, h4, h3, h6, h5⟩
  cases ha : a.intersects2 b with
  | true => exact (h.mp ha).symm
  | false =>
    cases hb : b.intersects2 a with
    | true => rw [h.mpr hb] at ha; cases ha
    | false => rfl

theorem contains_refl (a : AABB) : a.contains a = true := by
  rw [contains_iff]
  exact ⟨le_refl _, le_refl _, le_refl _, le_refl _, le_refl _, le_refl _⟩

/-- A box inside a box that misses `area` misses `area`. -/
theorem not_intersects2_of_contains {x b area : AABB} (hx : x.contains b = true)
    (hout : x.intersects2 area = false) : b.intersects2 area = false := by
  cases hb : b.intersects2 area with
  | false => rfl
  | true =>
    have : x.intersects2 area = true := by
      rw [intersects2_iff] at hb ⊢
      rw [contains_iff] at hx
      obtain ⟨h1, h2, h3, h4, h5, h6⟩ := hx
      obtain ⟨k1, k2, k3, k4, k5, k6⟩ := hb
      exact ⟨h1.trans k1, k2.trans h2, h3.trans k3, k4.trans h4, h5.trans k5, k6.trans h6⟩
    rw [this] at hout
    cases hout

end Collisions.AABB

namespace DataStructures

open Collisions Trees Coordinates

namespace Octree

variable {T : Type}

/-! ## The rounds of `bfs` -/

theorem bfs_level_nil (r : Bool) (area : AABB) (items : List T) (lower : List (Octree T)) :
    bfs_level r area [] items lower = (items, lower) := rfl

theorem bfs_level_null (r : Bool) (area : AABB) (rest : List (Octree T)) (items : List T)
    (lower : List (Octree T)) :
    bfs_level r area (null :: rest) items lower = bfs_level r area rest items lower := rfl

theorem bfs_level_node (r : Bool) (area : AABB) (d : OctreeNode T) (cs : Fin 8 → Octree T)
    (rest : List (Octree T)) (items : List T) (lower : List (Octree T)) :
    bfs_level r area (node d cs :: rest) items lower =
      if (asign_children lower cs).1 = true then
        bfs_level r area rest (items ++ bfs_visit r area d) (asign_children lower cs).2
      else (items ++ bfs_visit r area d, (asign_children lower cs).2) := by
  have hitems : (if d.m_Position.intersects2 area then
        (if area.contains d.m_Position then items ++ d.m_Item
         else if r && d.m_Position.intersects2 area then items ++ d.m_Item
         else items)
      else items) = items ++ bfs_visit r area d := by
    unfold bfs_visit
    cases d.m_Position.intersects2 area <;> cases area.contains d.m_Position <;> cases r <;> simp
  rw [← hitems]
  cases hac : asign_children lower cs with
  | mk flag lower1 =>
    cases flag with
    | false =>
      simp only [Bool.false_eq_true, if_false]
      rw [bfs_level]
      simp only [hac]
    | true =>
      simp only [if_true]
      rw [bfs_level]
      simp only [hac]

theorem bfs_loop_zero (r : Bool) (area : AABB) (octants : List (Octree T)) (items : List T) :
    bfs_loop r area 0 octants items = items := rfl

theorem bfs_loop_succ (r : Bool) (area : AABB) (rounds : Nat) (octants : List (Octree T))
    (items : List T) :
    bfs_loop r area (rounds + 1) octants items =
      bfs_loop r area rounds (bfs_level r area octants items []).2
        (bfs_level r area octants items []).1 := rfl

theorem bfs_node (d : OctreeNode T) (cs : Fin 8 → Octree T) (area : AABB) (items : List T) :
    bfs (node d cs) area items =
      bfs_loop d.m_IsLeaf area (d.m_MaxDepth - d.m_Depth) (bfs_queue cs)
        (items ++ if d.m_Item.isEmpty = false ∧ area.contains d.m_Position = true
          then d.m_Item else []) := by
  have hitems : (if !d.m_Item.isEmpty then
        (if area.contains d.m_Position then items ++ d.m_Item else items)
      else items) = items ++ if d.m_Item.isEmpty = false ∧ area.contains d.m_Position = true
          then d.m_Item else [] := by
    cases d.m_Item.isEmpty <;> cases area.contains d.m_Position <;> simp
  rw [← hitems]
  rfl

/-- A round only appends: what it leaves in `items` is the list given followed
by what it leaves when started with no items, and the queue it builds does not
depend on the items. -/
theorem bfs_level_append (r : Bool) (area : AABB) :
    ∀ (octants : List (Octree T)) (items : List T) (lower : List (Octree T)),
      bfs_level r area octants items lower =
        (items ++ (bfs_level r area octants [] lower).1,
          (bfs_level r area octants [] lower).2) := by
  intro octants
  induction octants with
  | nil => intro items lower; rw [bfs_level_nil, bfs_level_nil, List.append_nil]
  | cons o rest ih =>
    intro items lower
    cases o with
    | null =>
      rw [bfs_level_null, bfs_level_null]
      exact ih items lower
    | node d cs =>
      rw [bfs_level_node, bfs_level_node]
      by_cases hf : (asign_children lower cs).1 = true
      · rw [if_pos hf, if_pos hf, ih (items ++ bfs_visit r area d),
          ih ([] ++ bfs_visit r area d)]
        simp only [List.nil_append, List.append_assoc]
      · rw [if_neg hf, if_neg hf]
        simp only [List.nil_append]

theorem bfs_loop_append (r : Bool) (area : AABB) :
    ∀ (rounds : Nat) (octants : List (Octree T)) (items : List T),
      bfs_loop r area rounds octants items = items ++ bfs_loop r area rounds octants [] := by
  intro rounds
  induction rounds with
  | zero => intro octants items; rw [bfs_loop_zero, bfs_loop_zero, List.append_nil]
  | succ n ih =>
    intro octants items
    rw [bfs_loop_succ, bfs_loop_succ, bfs_level_append r area octants items []]
    simp only
    rw [ih _ (items ++ _), ih _ (bfs_level r area octants [] []).1, List.append_assoc]

/-- The lambda `asign_children` fails when a slot is empty. -/
theorem asign_children_from_fails (temp : Fin 8 → Octree T) :
    ∀ (js : List (Fin 8)) (queue : List (Octree T)),
      (∃ j ∈ js, (temp j).isSome = false) → (asign_children_from temp js queue).1 = false := by
  intro js
  induction js with
  | nil => intro _ h; obtain ⟨j, hj, _⟩ := h; cases hj
  | cons k js ih =>
    intro queue h
    unfold asign_children_from
    by_cases hk : (temp k).isSome = true
    · rw [if_pos hk]
      apply ih
      obtain ⟨j, hj, hjs⟩ := h
      rw [List.mem_cons] at hj
      rcases hj with rfl | hj
      · rw [hk] at hjs; cases hjs
      · exact ⟨j, hj, hjs⟩
    · rw [if_neg hk]

theorem asign_children_fails (temp : Fin 8 → Octree T) (queue : List (Octree T))
    (h : ∃ j, (temp j).isSome = false) : (asign_children queue temp).1 = false := by
  obtain ⟨j, hj⟩ := h
  exact asign_children_from_fails temp _ queue ⟨j, List.mem_finRange j, hj⟩

/-- The round does not look at the objects queued behind one that lacks a
child. -/
theorem bfs_level_stops (r : Bool) (area : AABB) (d : OctreeNode T) (cs : Fin 8 → Octree T)
    (hmiss : ∃ j, (cs j).isSome = false) (rest : List (Octree T)) :
    ∀ (pre : List (Octree T)) (items : List T) (lower : List (Octree T)),
      bfs_level r area (pre ++ node d cs :: rest) items lower
        = bfs_level r area (pre ++ [node d cs]) items lower := by
  intro pre
  induction pre with
  | nil =>
    intro items lower
    have hf : ¬ (asign_children lower cs).1 = true := by
      rw [asign_children_fails cs lower hmiss]
      exact Bool.false_ne_true
    rw [List.nil_append, List.nil_append, bfs_level_node, bfs_level_node, if_neg hf, if_neg hf]
  | cons o pre ih =>
    intro items lower
    cases o with
    | null =>
      rw [List.cons_append, List.cons_append, bfs_level_null, bfs_level_null]
      exact ih items lower
    | node e es =>
      rw [List.cons_append, List.cons_append, bfs_level_node, bfs_level_node]
      by_cases hf : (asign_children lower es).1 = true
      · rw [if_pos hf, if_pos hf]
        exact ih _ _
      · rw [if_neg hf, if_neg hf]

/-! ## A walk that meets no box of the area -/

theorem asign_children_from_all (P : OctreeNode T → Prop) (temp : Fin 8 → Octree T)
    (htemp : ∀ j, All P (temp j)) :
    ∀ (js : List (Fin 8)) (queue : List (Octree T)),
      (∀ o ∈ queue, All P o) → ∀ o ∈ (asign_children_from temp js queue).2, All P o := by
  intro js
  induction js with
  | nil => intro queue hq; exact hq
  | cons j js ih =>
    intro queue hq
    unfold asign_children_from
    by_cases hj : (temp j).isSome = true
    · rw [if_pos hj]
      apply ih
      intro o ho
      rw [List.mem_append, List.mem_singleton] at ho
      rcases ho with ho | rfl
      · exact hq o ho
      · exact htemp j
    · rw [if_neg hj]
      exact hq

theorem bfs_level_quiet (r : Bool) (area : AABB) (P : OctreeNode T → Prop)
    (hP : ∀ d, P d → bfs_visit r area d = []) :
    ∀ (octants : List (Octree T)) (items : List T) (lower : List (Octree T)),
      (∀ o ∈ octants, All P o) → (∀ o ∈ lower, All P o) →
      (bfs_level r area octants items lower).1 = items ∧
      ∀ o ∈ (bfs_level r area octants items lower).2, All P o := by
  intro octants
  induction octants with
  | nil => intro items lower _ hl; exact ⟨rfl, hl⟩
  | cons o rest ih =>
    intro items lower ho hl
    have hrest : ∀ o' ∈ rest, All P o' := fun o' h' => ho o' (List.mem_cons_of_mem _ h')
    cases o with
    | null =>
      rw [bfs_level_null]
      exact ih items lower hrest hl
    | node d cs =>
      have hall : All P (node d cs) := ho _ (List.mem_cons_self _ _)
      have hlow : ∀ o ∈ (asign_children lower cs).2, All P o :=
        asign_children_from_all P cs hall.2 _ lower hl
      rw [bfs_level_node, hP d hall.1, List.append_nil]
      by_cases hf : (asign_children lower cs).1 = true
      · rw [if_pos hf]
        exact ih items _ hrest hlow
      · rw [if_neg hf]
        exact ⟨rfl, hlow⟩

theorem bfs_loop_quiet (r : Bool) (area : AABB) (P : OctreeNode T → Prop)
    (hP : ∀ d, P d → bfs_visit r area d = []) :
    ∀ (rounds : Nat) (octants : List (Octree T)) (items : List T),
      (∀ o ∈ octants, All P o) → bfs_loop r area rounds octants items = items := by
  intro rounds
  induction rounds with
  | zero => intro _ _ _; rfl
  | succ rounds ih =>
    intro octants items ho
    obtain ⟨h1, h2⟩ := bfs_level_quiet r area P hP octants items [] ho (fun _ h => by cases h)
    rw [bfs_loop_succ, h1]
    exact ih _ _ h2

theorem mem_bfs_queue {cs : Fin 8 → Octree T} {o : Octree T} (h : o ∈ bfs_queue cs) :
    ∃ i, o = cs i := by
  unfold bfs_queue at h
  rw [List.mem_filterMap] at h
  obtain ⟨i, _, hi⟩ := h
  by_cases hs : (cs i).isSome = true
  · rw [if_pos hs, Option.some.injEq] at hi
    exact ⟨i, hi.symm⟩
  · rw [if_neg hs] at hi
    cases hi

end Octree

end DataStructures

namespace DataStructures

open Collisions Trees Coordinates

namespace Octree

variable {T : Type}

/-! ## Queries that miss every object -/

theorem all_of_nodeAt {P : OctreeNode T → Prop} :
    ∀ {t : Octree T}, (∀ p e, nodeAt t p = some e → P e) → All P t := by
  intro t
  induction t with
  | null => intro _; trivial
  | node d cs ih =>
    intro h
    exact ⟨h [] d rfl, fun i => ih i (fun p e hp => h (i :: p) e hp)⟩

theorem all_of_every {f : OctreeNode T → Bool} :
    ∀ {t : Octree T}, every f t = true → All (fun e => f e = true) t := by
  intro t
  induction t with
  | null => intro _; trivial
  | node d cs ih =>
    intro h
    rw [every, Bool.and_eq_true, List.all_eq_true] at h
    exact ⟨h.1, fun i => ih i (h.2 i (List.mem_finRange i))⟩

/-- The calls of `insert` leave the box of the root as the constructor set it. -/
theorem inserts_aabb {dflt : AABB} {t t' : Octree T} (h : Inserts dflt t t') :
    aabb dflt t' = aabb dflt t := by
  induction h with
  | refl => rfl
  | step _ hins ih =>
    obtain ⟨d, cs, e, cs', h1, h2, h3⟩ := insert_root hins
    rw [← ih, h1, h2]
    show e.m_Position = d.m_Position
    rw [h3]

/-- A visit of `bfs` pushes nothing for an object whose box misses the area. -/
theorem bfs_visit_outside (r : Bool) (area : AABB) (d : OctreeNode T)
    (h : d.m_Position.intersects2 area = false) : bfs_visit r area d = [] := by
  unfold bfs_visit
  rw [h]
  rfl

/-- A depth-first search pushes nothing when the area misses the box of every
object of the tree. -/
theorem recursive_dfs_outside (area : AABB) :
    ∀ (t : Octree T), All (fun e => e.m_Position.intersects2 area = false) t →
      recursive_dfs t area = [] := by
  intro t
  induction t with
  | null => intro _; rfl
  | node d cs ih =>
    intro hall
    have ho : d.m_Position.intersects2 area = false := hall.1
    have hc : d.m_Position.contains area = false := by
      cases hc : d.m_Position.contains area with
      | false => rfl
      | true => rw [AABB.intersects2_of_contains hc] at ho; cases ho
    rw [recursive_dfs_node, recursive_dfs_own]
    have hown : ¬ (d.m_Item.isEmpty = false ∧ (d.m_Position.contains area = true ∨
          (d.m_IsLeaf = true ∧ d.m_Position.intersects2 area = true))) := by
      rintro ⟨_, h | ⟨_, h⟩⟩
      · rw [hc] at h; cases h
      · rw [ho] at h; cases h
    rw [if_neg hown, List.nil_append, List.flatten_eq_nil_iff]
    intro l hl
    rw [List.mem_map] at hl
    obtain ⟨i, _, rfl⟩ := hl
    simp only [ih i (hall.2 i), ite_self]

end Octree

end DataStructures

namespace DataStructures

open Collisions Trees Octree Scenario Coordinates

/-- C32 as stated fails on the code. In the tree over the box from `(-5,0,0)` to
`(-3.9f,1,1)` (`maxDepth = 0`, `minExtent = 1`) after item 7 was accepted with
the box from `(-63/16, 5/8, 1/8)` to `(-16357785/4194304, 7/8, 3/8)`, the item
sits in the child of slot 1, whose computed bounds reach
`x = -16357785/4194304`. The flat box at that `x` does not intersect the bounds
of the root, whose largest `x` is `-16357786/4194304`, yet `dfs` with it
appends item 7. -/
theorem query_outside_tree_counterexample :
    Octree.insert originBox 10 sliverTree 7 sliverRegion
      = some (locationAfter originBox 10 sliverTree 7 sliverRegion, sliverCall) ∧
    itemsAt sliverCall [1] = [7] ∧
    (aabb originBox sliverCall).bounding_region
      = (⟨-5, 0, 0⟩, ⟨-16357786 / 4194304, 1, 1⟩) ∧
    (aabb originBox sliverCall).intersects2 sliverQuery = false ∧
    dfs sliverCall sliverQuery [] = [7] :=
  ⟨insert_eq_after originBox 10 sliverTree 7 sliverRegion (by decide!),
    by decide!, by decide!, by decide!, by decide!⟩

/-- C32, amended: a query that misses every node yields nothing. For every tree
`t` and every `area` that intersects the bounds of no node of the tree, `dfs`
and `bfs` leave `items` as it was. -/
theorem query_outside_tree {T : Type} (t : Octree T) (area : AABB) (items : List T)
    (hout : ∀ p e, nodeAt t p = some e → e.m_Position.intersects2 area = false) :
    dfs t area items = items ∧ bfs t area items = items := by
  have hquiet : All (fun e => e.m_Position.intersects2 area = false) t := all_of_nodeAt hout
  constructor
  · unfold dfs
    rw [recursive_dfs_outside area t hquiet, List.append_nil]
  · cases t with
    | null => rfl
    | node d cs =>
      have hroot : ¬ (d.m_Item.isEmpty = false ∧ area.contains d.m_Position = true) := by
        rintro ⟨_, h⟩
        have h2 := AABB.intersects2_of_contains h
        rw [AABB.intersects2_comm, hquiet.1] at h2
        cases h2
      rw [bfs_node, if_neg hroot, List.append_nil]
      refine bfs_loop_quiet d.m_IsLeaf area (fun e => e.m_Position.intersects2 area = false)
        (fun e he => bfs_visit_outside _ area e he) _ _ items ?_
      intro o ho
      obtain ⟨i, rfl⟩ := mem_bfs_queue ho
      exact hquiet.2 i

/-- The box of every node of the tree `sliverCall` misses `farBox`. -/
theorem sliverCall_misses_farBox :
    ∀ p e, nodeAt sliverCall p = some e → e.m_Position.intersects2 farBox = false := by
  intro p e hp
  have h := all_nodeAt (all_of_every
    (show every (fun e => !e.m_Position.intersects2 farBox) sliverCall = true by decide!)) hp
  simpa using h

/-- Witness of C32, amended: the tree `sliverCall` holds item 7 in the child of
slot 1, and a query with a box that misses every node pushes nothing. -/
theorem query_outside_tree_witness :
    itemsAt sliverCall [1] = [7] ∧
    (∀ p e, nodeAt sliverCall p = some e → e.m_Position.intersects2 farBox = false) ∧
    dfs sliverCall farBox [1] = [1] ∧ bfs sliverCall farBox [1] = [1] :=
  ⟨by decide!, sliverCall_misses_farBox,
    query_outside_tree sliverCall farBox [1] sliverCall_misses_farBox⟩

/-- Counterexample to C33 as stated. The tree over the cube of side 8
(`maxDepth = 2`, `minExtent = 5`) is resized to its own box and item 7 is
inserted with the box `(-4,2,-4)..(-2,4,-2)`; the call creates the child in
slot 0 of the root's child 0 and stores the item there. The root's child 0,
the first node `bfs` visits, then has a child in slot 0 and none in slot 1,
yet `bfs` with that box pushes item 7, the occupant of a node of the next
level. -/
theorem bfs_early_termination_counterexample :
    Octree.insert originBox 10 (Octree.resize coarseTree sideEightCube) 7 cornerBox
      = some (locationAfter originBox 10 (Octree.resize coarseTree sideEightCube) 7 cornerBox,
          lazyTree) ∧
    (nodeAt lazyTree [0]).isSome = true ∧
    (nodeAt lazyTree [0, 0]).isSome = true ∧
    (nodeAt lazyTree [0, 1]).isSome = false ∧
    itemsAt lazyTree [0, 0] = [7] ∧
    itemsAt lazyTree [] = [] ∧ itemsAt lazyTree [0] = [] ∧
    bfs lazyTree cornerBox [] = [7] :=
  ⟨insert_eq_after originBox 10 _ 7 cornerBox (by decide!),
    by decide!, by decide!, by decide!, by decide!, by decide!, by decide!, by decide!⟩

/-- C33, amended. When a round of `bfs` visits an object that lacks a child,
the round ends there: the objects queued behind it are not visited (the round
over `pre ++ node d cs :: rest` is the round over `pre ++ [node d cs]`), the
visited object itself is still tested, and the walk goes on with the next
round over the children collected up to the empty slot. -/
theorem bfs_round_ends_at_missing_child {T : Type} (r : Bool) (area : AABB) (d : OctreeNode T)
    (cs : Fin 8 → Octree T) (hmiss : ∃ j, (cs j).isSome = false)
    (pre rest : List (Octree T)) (items : List T) (lower : List (Octree T)) (rounds : Nat) :
    bfs_level r area (pre ++ node d cs :: rest) items lower
      = bfs_level r area (pre ++ [node d cs]) items lower ∧
    bfs_level r area (node d cs :: rest) items lower
      = (items ++ bfs_visit r area d, (asign_children lower cs).2) ∧
    bfs_loop r area (rounds + 1) (pre ++ node d cs :: rest) items
      = bfs_loop r area rounds (bfs_level r area (pre ++ [node d cs]) items []).2
          (bfs_level r area (pre ++ [node d cs]) items []).1 := by
  refine ⟨bfs_level_stops r area d cs hmiss rest pre items lower, ?_, ?_⟩
  · have hf : ¬ (asign_children lower cs).1 = true := by
      rw [asign_children_fails cs lower hmiss]
      exact Bool.false_ne_true
    rw [bfs_level_node, if_neg hf]
  · rw [bfs_loop_succ, bfs_level_stops r area d cs hmiss rest pre items []]

/-- Witness of C33, amended: a queue of two objects, the first without
children. -/
theorem bfs_round_ends_at_missing_child_witness :
    (∃ j : Fin 8, ((fun _ => Octree.null : Fin 8 → Octree Nat) j).isSome = false) ∧
    bfs_level false cornerBox
        ([] ++ Octree.node (Octree.init3 originBox sideEightCube 2 1) (fun _ => Octree.null)
          :: [lazyTree]) ([] : List Nat) []
      = bfs_level false cornerBox
        ([] ++ [Octree.node (Octree.init3 originBox sideEightCube 2 1) (fun _ => Octree.null)])
        [] [] :=
  ⟨⟨0, rfl⟩,
    (bfs_round_ends_at_missing_child false cornerBox (Octree.init3 originBox sideEightCube 2 1)
      (fun _ => Octree.null) ⟨0, rfl⟩ [] [lazyTree] [] [] 0).1⟩

/-- C34. The root test of `bfs`: the call pushes the items of the object it is
called on exactly when that object has items and `area` contains its box,
whatever its leaf flag; everything else it pushes comes from the rounds over
its children, which do not look at its items or its box. -/
theorem bfs_root_test {T : Type} (d : OctreeNode T) (cs : Fin 8 → Octree T) (area : AABB)
    (items : List T) :
    bfs (Octree.node d cs) area items =
      items ++ (if d.m_Item.isEmpty = false ∧ area.contains d.m_Position = true
          then d.m_Item else [])
        ++ bfs_loop d.m_IsLeaf area (d.m_MaxDepth - d.m_Depth) (bfs_queue cs) [] := by
  rw [bfs_node, bfs_loop_append]

end DataStructures

namespace DataStructures

open Collisions Trees Coordinates

namespace Octree

variable {T : Type}

/-- The root `recursive_subdivide` leaves keeps the depth, the depth limit and
the root flag of the object it was run on. -/
theorem recursive_subdivide_root_flags (dflt : AABB) (fuel : Nat) (d : OctreeNode T)
    (hleaf : d.m_IsLeaf = true) :
    ∃ e cs, recursive_subdivide dflt fuel d = node e cs ∧ e.m_Depth = d.m_Depth ∧
      e.m_MaxDepth = d.m_MaxDepth ∧ e.m_IsRoot = d.m_IsRoot := by
  rcases recursive_subdivide_cases dflt fuel d hleaf with h | ⟨_, _, _, h⟩
  · exact ⟨_, _, h, rfl, rfl, rfl⟩
  · exact ⟨_, _, h, rfl, rfl, rfl⟩

theorem nodeAt_root (d : OctreeNode T) (cs : Fin 8 → Octree T) : nodeAt (node d cs) [] = some d :=
  rfl

theorem nodeAt_slot (d : OctreeNode T) (cs : Fin 8 → Octree T) (i : Fin 8) (p : List (Fin 8)) :
    nodeAt (node d cs) (i :: p) = nodeAt (cs i) p := rfl

end Octree

open Octree Scenario

/-- C31 on the code. The tree over the cube of side 8 with `maxDepth = 2`
reports the leaf side 2, which is 8 / 2^2; but the constructor subdivides down
to depth 3, and its deepest cells (the node at slots 3, 3, 3 is one: a leaf
without children) have side 1. And the tree over the cube of side 3 with
`maxDepth = 1` reports the leaf side 1, the quotient 3/2 cut to a `size_t`. -/
theorem leaf_side_is_not_deepest_cell_side :
    sideEightCube.dimensions = ⟨8, 8, 8⟩ ∧
    max_depth (tree Nat originBox) = 2 ∧
    leaf_node_side_length (tree Nat originBox) = 2 ∧
    (nodeAt (tree Nat originBox) [3, 3, 3]).map
        (fun e => (e.m_Position.dimensions, e.m_Depth, e.m_IsLeaf))
      = some (⟨1, 1, 1⟩, 3, true) ∧
    (∀ i : Fin 8, (nodeAt (tree Nat originBox) [3, 3, 3, i]).isSome = false) ∧
    sideThreeCube.dimensions = ⟨3, 3, 3⟩ ∧
    max_depth oddTree = 1 ∧
    leaf_node_side_length oddTree = 1 ∧
    ((leaf_node_side_length oddTree : Nat) : ℚ) ≠ 3 / 2 ^ 1 := by
  refine ⟨by decide!, by decide!, by decide!, by decide!, by decide!, by decide!, by decide!,
    by decide!, by decide!⟩

/-- C38 on the code. When `recursive_insert` selects a slot whose child is
absent, the child it creates comes from the three-argument constructor called
with `m_Depth + 1` as its depth limit: in the tree after the call that child
has depth 0, the depth limit `depth() + 1` of its parent, and the root flag
set. (A child created at construction has depth `depth() + 1` and the depth
limit of its parent.) -/
theorem lazy_child_restarts_depth {T : Type} (dflt : AABB) (fuel : Nat) (t : Octree T)
    (object : T) (area : AABB) (i : Fin 8) (res : Location (Fin 8) × Octree T)
    (hscan : (nodeAt t []).bind (fun d => insert_scan d area) = some i)
    (habsent : (nodeAt t [i]).isSome = false)
    (h : recursive_insert dflt fuel t object area = some res) :
    (nodeAt res.2 [i]).map (fun e => (e.m_Depth, e.m_MaxDepth, e.m_IsRoot))
      = some (0, depth t + 1, true) := by
  cases fuel with
  | zero => cases h
  | succ f =>
    cases t with
    | null => cases h
    | node d cs =>
      have hscan2 : insert_scan d area = some i := hscan
      have hnone : ¬ (cs i).isSome = true := by
        have h2 : (nodeAt (cs i) []).isSome = false := habsent
        intro hs
        cases hc : cs i with
        | null => rw [hc] at hs; cases hs
        | node e es => rw [hc] at h2; cases h2
      rw [recursive_insert_succ_node] at h
      simp only [hscan2, if_neg hnone] at h
      cases hr : recursive_insert dflt f
          (mk3 dflt (d.m_OctantsBounds i) (d.m_Depth + 1) d.m_MinimumDimensions) object area with
      | none => rw [hr] at h; cases h
      | some r =>
        obtain ⟨loc, child1⟩ := r
        rw [hr] at h
        simp only [Option.some.injEq] at h
        subst h
        obtain ⟨d0, cs0, e, cs', h1, h2, h3⟩ := recursive_insert_root dflt object area f _ _ hr
        obtain ⟨e0, es0, k1, k2, k3, k4⟩ := recursive_subdivide_root_flags dflt
          (d.m_Depth + 1 + 1)
          (init3 dflt (d.m_OctantsBounds i) (d.m_Depth + 1) d.m_MinimumDimensions : OctreeNode T)
          rfl
        have hmk : (mk3 dflt (d.m_OctantsBounds i) (d.m_Depth + 1) d.m_MinimumDimensions
            : Octree T) = node e0 es0 := k1
        rw [hmk] at h1
        injection h1 with hd0 _
        subst hd0
        simp only at h2
        show (nodeAt (node d (Function.update cs i child1)) [i]).map _ = _
        rw [nodeAt_slot, Function.update_same, h2, nodeAt_root, h3]
        simp only [Option.map_some', k2, k3, k4]
        rfl

/-- C38 at the single leaf over the box of side one half, resized to the cube
of side 8, with item 7 offered in the unit cell: the call creates the child in
slot 3; the root has depth 0 and depth limit 2, and the new child has depth 0
and depth limit 1. -/
theorem lazy_child_restarts_depth_witness :
    (nodeAt (Octree.resize tinyTree sideEightCube) []).bind
        (fun d => insert_scan d unitCell) = some 3 ∧
    (nodeAt (Octree.resize tinyTree sideEightCube) [3]).isSome = false ∧
    depth (Octree.resize tinyTree sideEightCube) = 0 ∧
    max_depth (Octree.resize tinyTree sideEightCube) = 2 ∧
    (nodeAt ((recursive_insert originBox 10 (Octree.resize tinyTree sideEightCube) 7
        unitCell).getD (noLocation originBox, Octree.null)).2 [3]).map
        (fun e => (e.m_Depth, e.m_MaxDepth, e.m_IsRoot))
      = some (0, depth (Octree.resize tinyTree sideEightCube) + 1, true) :=
  ⟨by decide!, by decide!, by decide!, by decide!,
    lazy_child_restarts_depth originBox 10 (Octree.resize tinyTree sideEightCube) 7 unitCell 3
      _ (by decide!) (by decide!)
      (eq_some_getD (recursive_insert originBox 10 (Octree.resize tinyTree sideEightCube) 7
        unitCell) (noLocation originBox, Octree.null) (by decide!))⟩

/-- C40. The flag of `ContainedOctree::remove`: a call that finds the record
`r` of the iterator `item`, with the node `p` as its container, erases the
occupant from the tree and the record from `m_Items` and returns `false`; and
no call of `remove` returns anything else. -/
theorem remove_returns_false {T : Type} (c : ContainedOctree T) (item : Nat)
    (r : Nat × OctreeItem T) (p : List (Fin 8))
    (hfind : c.m_Items.find? (fun x => x.1 == item) = some r)
    (hp : r.2.item_position.items_container = some p) :
    ContainedOctree.remove c item = some (false,
      ⟨Octree.eraseAt c.m_Root p r.2.item_position.items_iterator,
        c.m_Items.eraseP (fun x => x.1 == item), c.m_Fresh⟩) ∧
    ∀ (c' : ContainedOctree T) (item' : Nat) (res : Bool × ContainedOctree T),
      ContainedOctree.remove c' item' = some res → res.1 = false := by
  constructor
  · unfold ContainedOctree.remove
    rw [hfind]
    simp only [hp]
  · intro c' item' res h
    obtain ⟨flag, c2⟩ := res
    obtain ⟨_, _, _, _, _, hflag, _⟩ := ContainedOctree.remove_eq h
    exact hflag

/-- C40 at the container that holds item 70 in the node at slots 3, 3, 3: the
call erases the record and the occupant, and returns `false`. -/
theorem remove_returns_false_witness :
    cellContainer.m_Items.map (fun x => (x.1, x.2.item)) = [(0, 70)] ∧
    itemsAt cellContainer.m_Root [3, 3, 3] = [0] ∧
    (ContainedOctree.remove cellContainer 0).map
        (fun res => (res.1, res.2.m_Items.length, itemsAt res.2.m_Root [3, 3, 3]))
      = some (false, 0, []) ∧
    ContainedOctree.remove cellContainer 0 = some (false,
      ⟨Octree.eraseAt cellContainer.m_Root [3, 3, 3]
          ((cellContainer.m_Items.find? (fun x => x.1 == 0)).getD
            (0, ⟨0, Octree.noLocation originBox⟩)).2.item_position.items_iterator,
        cellContainer.m_Items.eraseP (fun x => x.1 == 0), cellContainer.m_Fresh⟩) :=
  ⟨by decide!, by decide!, by decide!,
    (remove_returns_false cellContainer 0
      ((cellContainer.m_Items.find? (fun x => x.1 == 0)).getD
        (0, ⟨0, Octree.noLocation originBox⟩)) [3, 3, 3]
      (eq_some_getD _ _ (by decide!)) (by decide!)).1⟩

end DataStructures

namespace DataStructures

open Collisions Trees Coordinates

namespace Octree

variable {T : Type}

/-! ## The shape of a constructed tree -/

theorem nodeAt_single (d : OctreeNode T) (p : List (Fin 8)) (e : OctreeNode T)
    (he : nodeAt (node d (fun _ => null)) p = some e) : e = d ∧ p = [] := by
  cases p with
  | nil => exact ⟨(Option.some.inj he).symm, rfl⟩
  | cons j q =>
    have h2 : nodeAt (null : Octree T) q = some e := he
    rw [nodeAt_null] at h2
    cases h2

/-- Every object of a tree built by `recursive_subdivide` either stayed a leaf
and has no child, or subdivided: then no extent of it, as a `float`, is below
`m_MinimumDimensions` converted to `float`, its child boxes are the octants of its box, and every
slot holds a child whose box is the child box of that slot. -/
theorem recursive_subdivide_shape (dflt : AABB) :
    ∀ (fuel : Nat) (d : OctreeNode T), d.m_IsLeaf = true →
      ∀ (p : List (Fin 8)) (e : OctreeNode T),
        nodeAt (recursive_subdivide dflt fuel d) p = some e →
        e.m_MinimumDimensions = d.m_MinimumDimensions ∧
        ((e.m_IsLeaf = true ∧
            ∀ i, nodeAt (recursive_subdivide dflt fuel d) (p ++ [i]) = none) ∨
         (e.m_IsLeaf = false ∧
          (Ieee754.toFloat (e.m_MinimumDimensions : ℚ) ≤ e.m_Position.dimensions.stored.x ∧
           Ieee754.toFloat (e.m_MinimumDimensions : ℚ) ≤ e.m_Position.dimensions.stored.y ∧
           Ieee754.toFloat (e.m_MinimumDimensions : ℚ) ≤ e.m_Position.dimensions.stored.z) ∧
          ∀ i, e.m_OctantsBounds i = calculate_bounding_box e.m_Position e.m_Position i ∧
            ∃ c, nodeAt (recursive_subdivide dflt fuel d) (p ++ [i]) = some c ∧
              c.m_Position = e.m_OctantsBounds i)) := by
  have hsingle : ∀ (d : OctreeNode T), d.m_IsLeaf = true →
      ∀ (p : List (Fin 8)) (e : OctreeNode T), nodeAt (node d (fun _ => null)) p = some e →
        e.m_MinimumDimensions = d.m_MinimumDimensions ∧
        ((e.m_IsLeaf = true ∧ ∀ i, nodeAt (node d (fun _ => null)) (p ++ [i]) = none) ∨
         (e.m_IsLeaf = false ∧
          (Ieee754.toFloat (e.m_MinimumDimensions : ℚ) ≤ e.m_Position.dimensions.stored.x ∧
           Ieee754.toFloat (e.m_MinimumDimensions : ℚ) ≤ e.m_Position.dimensions.stored.y ∧
           Ieee754.toFloat (e.m_MinimumDimensions : ℚ) ≤ e.m_Position.dimensions.stored.z) ∧
          ∀ i, e.m_OctantsBounds i = calculate_bounding_box e.m_Position e.m_Position i ∧
            ∃ c, nodeAt (node d (fun _ => null)) (p ++ [i]) = some c ∧
              c.m_Position = e.m_OctantsBounds i)) := by
    intro d hleaf p e he
    obtain ⟨h1, _⟩ := nodeAt_single d p e he
    subst h1
    exact ⟨rfl, Or.inl ⟨hleaf, fun i => nodeAt_leaf _ p i⟩⟩
  intro fuel
  induction fuel with
  | zero => intro d hleaf p e he; exact hsingle d hleaf p e he
  | succ f ih =>
    intro d hleaf p e he
    by_cases hdepth : d.m_Depth ≤ d.m_MaxDepth
    · by_cases hdims :
          d.m_Position.dimensions.stored.x < Ieee754.toFloat (d.m_MinimumDimensions : ℚ) ∨
          d.m_Position.dimensions.stored.y < Ieee754.toFloat (d.m_MinimumDimensions : ℚ) ∨
          d.m_Position.dimensions.stored.z < Ieee754.toFloat (d.m_MinimumDimensions : ℚ)
      · rw [recursive_subdivide_small dflt _ d hdims] at he ⊢
        exact hsingle d hleaf p e he
      · rw [recursive_subdivide_split_stored dflt f d hleaf hdepth hdims] at he ⊢
        cases p with
        | nil =>
          have hed := (Option.some.inj he).symm
          subst hed
          refine ⟨rfl, Or.inr ⟨rfl, ?_, fun i => ⟨rfl, ?_⟩⟩⟩
          · push_neg at hdims
            exact hdims
          · obtain ⟨e', cs', h1, h2, _⟩ := recursive_subdivide_root dflt f
              (init4 dflt (calculate_bounding_box d.m_Position d.m_Position i)
                d.m_MaxDepth d.m_MinimumDimensions (d.m_Depth + 1) : OctreeNode T)
            refine ⟨e', ?_, h2⟩
            show nodeAt (recursive_subdivide dflt f
              (init4 dflt (calculate_bounding_box d.m_Position d.m_Position i)
                d.m_MaxDepth d.m_MinimumDimensions (d.m_Depth + 1))) [] = some e'
            rw [h1]
            rfl
        | cons j q =>
          have he2 : nodeAt (recursive_subdivide dflt f
              (init4 dflt (calculate_bounding_box d.m_Position d.m_Position j)
                d.m_MaxDepth d.m_MinimumDimensions (d.m_Depth + 1))) q = some e := he
          exact ih (init4 dflt (calculate_bounding_box d.m_Position d.m_Position j)
                d.m_MaxDepth d.m_MinimumDimensions (d.m_Depth + 1)) rfl q e he2
    · rw [recursive_subdivide_beyond dflt _ d hdepth] at he ⊢
      exact hsingle d hleaf p e he

end Octree

namespace QuadTree

variable {T : Type}

theorem quad_nodeAt_null (p : List (Fin 4)) : nodeAt (null : QuadTree T) p = none := by
  cases p <;> rfl

theorem quad_nodeAt_leaf (d : QuadTreeNode T) (p : List (Fin 4)) (i : Fin 4) :
    nodeAt (node d (fun _ => null)) (p ++ [i]) = none := by
  cases p with
  | nil => rfl
  | cons j q =>
    show nodeAt (null : QuadTree T) (q ++ [i]) = none
    exact quad_nodeAt_null _

theorem quad_nodeAt_single (d : QuadTreeNode T) (p : List (Fin 4)) (e : QuadTreeNode T)
    (he : nodeAt (node d (fun _ => null)) p = some e) : e = d ∧ p = [] := by
  cases p with
  | nil => exact ⟨(Option.some.inj he).symm, rfl⟩
  | cons j q =>
    have h2 : nodeAt (null : QuadTree T) q = some e := he
    rw [quad_nodeAt_null] at h2
    cases h2

theorem quad_recursive_subdivide_cases (dflt : AABB) (fuel : Nat) (d : QuadTreeNode T) :
    recursive_subdivide dflt fuel d = node d (fun _ => null) ∨
    (∃ f, fuel = f + 1 ∧
      recursive_subdivide dflt fuel d =
        node { d with
            m_ChildrenBounds :=
              fun i => calculate_bounding_box d.m_Position (d.m_ChildrenBounds i) i
            m_IsLeaf := false }
          (fun i => recursive_subdivide dflt f
            (init4 dflt (calculate_bounding_box d.m_Position (d.m_ChildrenBounds i) i)
              d.m_MaxDepth d.m_MinimumDimensions (d.m_Depth + 1)))) := by
  cases fuel with
  | zero => left; rfl
  | succ f =>
    by_cases hleaf : d.m_IsLeaf = true
    · by_cases hdepth : d.m_Depth ≤ d.m_MaxDepth
      · by_cases hdims : d.m_Position.dimensions.x < MINIMUM_DIMENSION ∨
            d.m_Position.dimensions.y < MINIMUM_DIMENSION ∨
            d.m_Position.dimensions.z < MINIMUM_DIMENSION
        · left
          rw [recursive_subdivide]
          simp [hleaf, hdepth, hdims]
        · right
          refine ⟨f, rfl, ?_⟩
          rw [recursive_subdivide]
          simp only [hleaf, hdepth, hdims, Bool.not_true, Bool.false_eq_true, if_false,
            decide_True]
      · left
        rw [recursive_subdivide]
        simp [hleaf, hdepth]
    · left
      rw [recursive_subdivide]
      simp [hleaf]

theorem quad_recursive_subdivide_root (dflt : AABB) (fuel : Nat) (d : QuadTreeNode T) :
    ∃ e cs, recursive_subdivide dflt fuel d = node e cs ∧ e.m_Position = d.m_Position := by
  rcases quad_recursive_subdivide_cases dflt fuel d with h | ⟨_, _, h⟩
  · exact ⟨_, _, h, rfl⟩
  · exact ⟨_, _, h, rfl⟩

/-- Every object of a tree built by `QuadTree::recursive_subdivide` either
stayed a leaf and has no child, or subdivided, and then every slot holds a
child whose box is the child box of that slot. -/
theorem quad_recursive_subdivide_shape (dflt : AABB) :
    ∀ (fuel : Nat) (d : QuadTreeNode T), d.m_IsLeaf = true →
      ∀ (p : List (Fin 4)) (e : QuadTreeNode T),
        nodeAt (recursive_subdivide dflt fuel d) p = some e →
        (e.m_IsLeaf = true ∧
            ∀ i, nodeAt (recursive_subdivide dflt fuel d) (p ++ [i]) = none) ∨
        (e.m_IsLeaf = false ∧
          ∀ i, ∃ c, nodeAt (recursive_subdivide dflt fuel d) (p ++ [i]) = some c ∧
            c.m_Position = e.m_ChildrenBounds i) := by
  have hsingle : ∀ (d : QuadTreeNode T), d.m_IsLeaf = true →
      ∀ (p : List (Fin 4)) (e : QuadTreeNode T), nodeAt (node d (fun _ => null)) p = some e →
        (e.m_IsLeaf = true ∧ ∀ i, nodeAt (node d (fun _ => null)) (p ++ [i]) = none) ∨
        (e.m_IsLeaf = false ∧
          ∀ i, ∃ c, nodeAt (node d (fun _ => null)) (p ++ [i]) = some c ∧
            c.m_Position = e.m_ChildrenBounds i) := by
    intro d hleaf p e he
    obtain ⟨h1, _⟩ := quad_nodeAt_single d p e he
    subst h1
    exact Or.inl ⟨hleaf, fun i => quad_nodeAt_leaf _ p i⟩
  intro fuel
  induction fuel with
  | zero => intro d hleaf p e he; exact hsingle d hleaf p e he
  | succ f ih =>
    intro d hleaf p e he
    rcases quad_recursive_subdivide_cases dflt (f + 1) d with h | ⟨f', hf, h⟩
    · rw [h] at he ⊢
      exact hsingle d hleaf p e he
    · have hff : f' = f := by omega
      subst hff
      rw [h] at he ⊢
      cases p with
      | nil =>
        have hed := (Option.some.inj he).symm
        subst hed
        refine Or.inr ⟨rfl, fun i => ?_⟩
        obtain ⟨e', cs', h1, h2⟩ := quad_recursive_subdivide_root dflt f'
          (init4 dflt (calculate_bounding_box d.m_Position (d.m_ChildrenBounds i) i)
            d.m_MaxDepth d.m_MinimumDimensions (d.m_Depth + 1) : QuadTreeNode T)
        refine ⟨e', ?_, h2⟩
        show nodeAt (recursive_subdivide dflt f'
          (init4 dflt (calculate_bounding_box d.m_Position (d.m_ChildrenBounds i) i)
            d.m_MaxDepth d.m_MinimumDimensions (d.m_Depth + 1))) [] = some e'
        rw [h1]
        rfl
      | cons j q =>
        have he2 : nodeAt (recursive_subdivide dflt f'
            (init4 dflt (calculate_bounding_box d.m_Position (d.m_ChildrenBounds j) j)
              d.m_MaxDepth d.m_MinimumDimensions (d.m_Depth + 1))) q = some e := he
        exact ih (init4 dflt (calculate_bounding_box d.m_Position (d.m_ChildrenBounds j) j)
              d.m_MaxDepth d.m_MinimumDimensions (d.m_Depth + 1)) rfl q e he2

end QuadTree

open Octree Scenario

/-- C36. Eager, all-or-nothing subdivision. In a tree fresh from the
three-argument constructor, of the `Octree` and of the `QuadTree`, every node
has a child in every slot or in none, its leaf flag is set exactly when it has
none, and the box of each child is the child box its parent computed for the
slot. -/
theorem eager_subdivision {T : Type} (dflt bb : AABB) (maxDepth minDim : Nat) :
    (∀ (p : List (Fin 8)) (e : OctreeNode T),
      nodeAt (Octree.mk3 dflt bb maxDepth minDim : Octree T) p = some e →
      ((∀ i, (nodeAt (Octree.mk3 dflt bb maxDepth minDim : Octree T) (p ++ [i])).isSome = true) ∨
        (∀ i, (nodeAt (Octree.mk3 dflt bb maxDepth minDim : Octree T) (p ++ [i])).isSome
          = false)) ∧
      (e.m_IsLeaf = true ↔
        ∀ i, nodeAt (Octree.mk3 dflt bb maxDepth minDim : Octree T) (p ++ [i]) = none) ∧
      ∀ i c, nodeAt (Octree.mk3 dflt bb maxDepth minDim : Octree T) (p ++ [i]) = some c →
        c.m_Position = e.m_OctantsBounds i) ∧
    (∀ (p : List (Fin 4)) (e : QuadTreeNode T),
      QuadTree.nodeAt (QuadTree.mk3 dflt bb maxDepth minDim : QuadTree T) p = some e →
      ((∀ i, (QuadTree.nodeAt (QuadTree.mk3 dflt bb maxDepth minDim : QuadTree T)
          (p ++ [i])).isSome = true) ∨
        (∀ i, (QuadTree.nodeAt (QuadTree.mk3 dflt bb maxDepth minDim : QuadTree T)
          (p ++ [i])).isSome = false)) ∧
      (e.m_IsLeaf = true ↔
        ∀ i, QuadTree.nodeAt (QuadTree.mk3 dflt bb maxDepth minDim : QuadTree T) (p ++ [i])
          = none) ∧
      ∀ i c, QuadTree.nodeAt (QuadTree.mk3 dflt bb maxDepth minDim : QuadTree T) (p ++ [i])
          = some c → c.m_Position = e.m_ChildrenBounds i) := by
  constructor
  · intro p e he
    rcases (recursive_subdivide_shape dflt (maxDepth + 1)
      (init3 dflt bb maxDepth minDim : OctreeNode T) rfl p e he).2 with
      ⟨hl, hnone⟩ | ⟨hl, _, hch⟩
    · have hnone2 : ∀ i, nodeAt (Octree.mk3 dflt bb maxDepth minDim : Octree T) (p ++ [i])
          = none := hnone
      refine ⟨Or.inr fun i => by rw [hnone2 i]; rfl, ⟨fun _ => hnone2, fun _ => hl⟩, ?_⟩
      intro i c hc
      rw [hnone2 i] at hc
      cases hc
    · have hch2 : ∀ i, ∃ c, nodeAt (Octree.mk3 dflt bb maxDepth minDim : Octree T) (p ++ [i])
          = some c ∧ c.m_Position = e.m_OctantsBounds i := fun i => (hch i).2
      refine ⟨Or.inl fun i => ?_, ⟨fun h => ?_, fun h => ?_⟩, ?_⟩
      · obtain ⟨c, hc, _⟩ := hch2 i
        rw [hc]; rfl
      · rw [hl] at h; cases h
      · obtain ⟨c, hc, _⟩ := hch2 0
        rw [h 0] at hc
        cases hc
      · intro i c hc
        obtain ⟨c', hc', hp⟩ := hch2 i
        rw [hc'] at hc
        rw [← Option.some.inj hc]
        exact hp
  · intro p e he
    rcases QuadTree.quad_recursive_subdivide_shape dflt (maxDepth + 1)
      (QuadTree.init3 dflt bb maxDepth minDim : QuadTreeNode T) rfl p e he with
      ⟨hl, hnone⟩ | ⟨hl, hch⟩
    · have hnone2 : ∀ i, QuadTree.nodeAt (QuadTree.mk3 dflt bb maxDepth minDim : QuadTree T)
          (p ++ [i]) = none := hnone
      refine ⟨Or.inr fun i => by rw [hnone2 i]; rfl, ⟨fun _ => hnone2, fun _ => hl⟩, ?_⟩
      intro i c hc
      rw [hnone2 i] at hc
      cases hc
    · have hch2 : ∀ i, ∃ c, QuadTree.nodeAt (QuadTree.mk3 dflt bb maxDepth minDim : QuadTree T)
          (p ++ [i]) = some c ∧ c.m_Position = e.m_ChildrenBounds i := hch
      refine ⟨Or.inl fun i => ?_, ⟨fun h => ?_, fun h => ?_⟩, ?_⟩
      · obtain ⟨c, hc, _⟩ := hch2 i
        rw [hc]; rfl
      · rw [hl] at h; cases h
      · obtain ⟨c, hc, _⟩ := hch2 0
        rw [h 0] at hc
        cases hc
      · intro i c hc
        obtain ⟨c', hc', hp⟩ := hch2 i
        rw [hc'] at hc
        rw [← Option.some.inj hc]
        exact hp

/-- C36 at the trees over the cube of side 8 with `maxDepth = 2`,
`minExtent = 1`: the root of each has a child in every slot, and the box of
the child is the child box the root holds for the slot. -/
theorem eager_subdivision_witness :
    (∀ i : Fin 8, (nodeAt (tree Nat originBox) [i]).isSome = true) ∧
    (∀ i : Fin 4, (QuadTree.nodeAt builtQuad [i]).isSome = true) ∧
    (∀ i c, nodeAt (Octree.mk3 originBox sideEightCube 2 1 : Octree Nat) ([] ++ [i]) = some c →
      c.m_Position = ((nodeAt (tree Nat originBox) []).getD
        (Octree.init3 originBox originBox 0 0)).m_OctantsBounds i) ∧
    (∀ i c, QuadTree.nodeAt (QuadTree.mk3 originBox sideEightCube 2 1 : QuadTree Nat)
        ([] ++ [i]) = some c →
      c.m_Position = ((QuadTree.nodeAt builtQuad []).getD
        (QuadTree.init3 originBox originBox 0 0)).m_ChildrenBounds i) :=
  ⟨by decide!, by decide!,
    ((eager_subdivision originBox sideEightCube 2 1).1 [] _
      (eq_some_getD (nodeAt (tree Nat originBox) []) _ (by decide!))).2.2,
    ((eager_subdivision originBox sideEightCube 2 1).2 [] _
      (eq_some_getD (QuadTree.nodeAt builtQuad []) _ (by decide!))).2.2⟩

end DataStructures

namespace DataStructures

open Collisions Trees Coordinates

namespace Octree

variable {T : Type}

/-! ## Boxes along a path, and what `insert` and `shift` leave of them -/

end Octree

end DataStructures

namespace DataStructures

open Collisions Trees Coordinates

namespace Octree

variable {T : Type}

/-- Of the octants of a box, at most one contains a region with a positive
extent on every axis. -/
theorem octant_containing_unique (pos b b' : AABB) (area : AABB)
    (hpos : 0 < area.dimensions.x ∧ 0 < area.dimensions.y ∧ 0 < area.dimensions.z)
    (i j : Fin 8) (hi : (calculate_bounding_box pos b i).contains area = true)
    (hj : (calculate_bounding_box pos b' j).contains area = true) : i = j := by
  by_contra hij
  obtain ⟨i1, i2⟩ := calculate_bounding_box_corners pos b i
  obtain ⟨j1, j2⟩ := calculate_bounding_box_corners pos b' j
  rw [AABB.contains_iff, i1, i2] at hi
  rw [AABB.contains_iff, j1, j2] at hj
  simp only at hi hj
  obtain ⟨a1, a2, a3, a4, a5, a6⟩ := hi
  obtain ⟨c1, c2, c3, c4, c5, c6⟩ := hj
  obtain ⟨px, py, pz⟩ := hpos
  simp only [AABB.dimensions] at px py pz
  rcases slots_differ i j hij with h | h | h | h | h | h
  · rw [if_pos h.1] at a2
    rw [if_neg h.2] at c1
    linarith
  · rw [if_neg h.1] at a1
    rw [if_pos h.2] at c2
    linarith
  · rw [if_pos h.1] at a3
    rw [if_neg h.2] at c4
    linarith
  · rw [if_neg h.1] at a4
    rw [if_pos h.2] at c3
    linarith
  · rw [if_pos h.1] at a6
    rw [if_neg h.2] at c5
    linarith
  · rw [if_neg h.1] at a5
    rw [if_pos h.2] at c6
    linarith

/-- A scan that at most one slot passes selects the same slot in every
order. -/
theorem find_any_order {α : Type} (P : α → Bool) (l1 l2 : List α)
    (hall1 : ∀ a, a ∈ l1) (hall2 : ∀ a, a ∈ l2)
    (huniq : ∀ a b, P a = true → P b = true → a = b) :
    l1.find? P = l2.find? P := by
  cases h2 : l2.find? P with
  | none =>
    rw [List.find?_eq_none] at h2 ⊢
    intro a _
    exact h2 a (hall2 a)
  | some b =>
    have hb : P b = true := List.find?_some h2
    cases h1 : l1.find? P with
    | none =>
      rw [List.find?_eq_none] at h1
      exact absurd hb (h1 b (hall1 b))
    | some a =>
      have ha : P a = true := List.find?_some h1
      rw [huniq a b ha hb]

end Octree

open Octree Scenario

/-- Counterexample to C37 as stated. The root of the tree over the cube of side
8 is subdivided, and all eight of its child boxes contain the region with both
corners at the origin, the centre of the cube; the scan from slot 0 upwards
selects slot 0, the scan from slot 7 downwards selects slot 7. -/
theorem first_match_counterexample :
    (nodeAt (tree Nat originBox) []).map (fun d =>
        (d.m_IsLeaf,
          (List.finRange 8).filter (fun i => (d.m_OctantsBounds i).contains originBox),
          insert_scan d originBox,
          (List.finRange 8).reverse.find? (fun i =>
            (d.m_OctantsBounds i).contains originBox && decide (d.m_Depth ≤ d.m_MaxDepth))))
      = some (false, List.finRange 8, some 0, some 7) := by
  decide!

/-- C37, amended. For a subdivided node of a tree reachable from the
constructor by `insert` calls and a region with a positive extent on every
axis, at most one child box of the node contains the region, and the scan of
`recursive_insert` selects the same slot whatever the order in which it tries
the slots. (The child boxes are closed and share their faces, so a region
without extent on some axis can lie in several of them.) -/
theorem first_match_is_only_match {T : Type} (dflt : AABB) (t : Octree T)
    (hreach : Reachable dflt t) (p : List (Fin 8)) (d : OctreeNode T)
    (hd : nodeAt t p = some d) (hsub : d.m_IsLeaf = false) (area : AABB)
    (hpos : 0 < area.dimensions.x ∧ 0 < area.dimensions.y ∧ 0 < area.dimensions.z) :
    (∀ i j, (d.m_OctantsBounds i).contains area = true →
      (d.m_OctantsBounds j).contains area = true → i = j) ∧
    ∀ order : List (Fin 8), (∀ i, i ∈ order) →
      order.find? (fun i =>
          (d.m_OctantsBounds i).contains area && decide (d.m_Depth ≤ d.m_MaxDepth))
        = insert_scan d area := by
  have hk : Kept dflt d := all_nodeAt (reachable_all_kept hreach) hd
  have hboxes := (hk.2.2 hsub).2
  have huniq : ∀ i j, (d.m_OctantsBounds i).contains area = true →
      (d.m_OctantsBounds j).contains area = true → i = j := by
    intro i j hi hj
    rw [hboxes i] at hi
    rw [hboxes j] at hj
    exact octant_containing_unique d.m_Position dflt dflt area hpos i j hi hj
  refine ⟨huniq, fun order hall => ?_⟩
  unfold insert_scan
  refine find_any_order _ order (List.finRange 8) hall (fun i => List.mem_finRange i) ?_
  intro a b ha hb
  rw [Bool.and_eq_true] at ha hb
  exact huniq a b ha.1 hb.1

/-- C37, amended, at the root of the tree over the cube of side 8 and the unit
cell: the scan from slot 7 downwards selects the slot the scan of
`recursive_insert` selects. -/
theorem first_match_is_only_match_witness :
    (0 < unitCell.dimensions.x ∧ 0 < unitCell.dimensions.y ∧ 0 < unitCell.dimensions.z) ∧
    (List.finRange 8).reverse.find? (fun i =>
        (((nodeAt (tree Nat originBox) []).getD
            (Octree.init3 originBox originBox 0 0)).m_OctantsBounds i).contains unitCell &&
          decide (((nodeAt (tree Nat originBox) []).getD
              (Octree.init3 originBox originBox 0 0)).m_Depth
            ≤ ((nodeAt (tree Nat originBox) []).getD
              (Octree.init3 originBox originBox 0 0)).m_MaxDepth))
      = insert_scan ((nodeAt (tree Nat originBox) []).getD
          (Octree.init3 originBox originBox 0 0)) unitCell :=
  ⟨by decide!,
    (first_match_is_only_match originBox (tree Nat originBox)
      ⟨sideEightCube, 2, 1, Inserts.refl _⟩ [] _
      (eq_some_getD (nodeAt (tree Nat originBox) []) _ (by decide!)) (by decide!) unitCell
      (by decide!)).2 (List.finRange 8).reverse (by decide)⟩

end DataStructures
